import Mathlib

/-!
# Static borrow constants (`hir_expand/static_borrow_constants.cpp`)

A shallow embedding of the HIR pass that turns shared borrows of constant
values into borrows of freshly created statics, together with theorems about
the constant-ness classifier (`ExprVisitor_Mutate`), the per-module list of
new statics (`OuterVisitor::get_new_ty_cb`) and the crate walk that commits
them (`OuterVisitor::visit_crate`).

Conventions of the embedding:
* C++ member state that a method mutates is passed in and returned explicitly;
  `const` members (`m_resolve`, `m_new_static_cb`, `m_expr_ptr`) are parameters.
* `BUG`, `TODO` and `ASSERT_BUG` abort the pass; they are `Except.error`.
* `std::unique_ptr` slots are plain values; `mv$` followed by assignment to the
  same slot is replacement of that value.
-/

namespace HIR

/-! ## Data model -/

/-- Interned string. -/
abbrev RcString := String

/-- Source span. The pass only copies spans around. -/
structure Span where
  id : Nat
  deriving DecidableEq, Repr

/-- Resolved type of an expression node, declared type of a static or of a
constant. The pass never looks inside such a type: it hands it to the resolver
and copies it. The types the driver walks are `TypeData`. -/
structure TypeRef where
  id : Nat
  deriving DecidableEq, Repr

/-- Generic parameter block of an item or impl (only its identity matters). -/
structure GenericParams where
  id : Nat
  deriving DecidableEq, Repr

/-- Crate name followed by path components. -/
structure SimplePath where
  m_crate_name : RcString
  m_components : List RcString
  deriving DecidableEq, Repr

/-- Modelled from the spec: `HIR::Path` is declared outside this file; a path is
either a (possibly parameterised) simple path or a type-relative path. -/
inductive Path where
  | Generic (m_path : SimplePath) (m_params : List TypeRef)
  | Ufcs (type : TypeRef) (trait : Option SimplePath) (item : RcString) (m_params : List TypeRef)
  deriving DecidableEq, Repr

/-- Conversion `HIR::SimplePath -> HIR::Path` used when the new `PathValue`
node is built from the path returned by the callback. -/
def Path.ofSimplePath (p : SimplePath) : Path := Path.Generic p []

/-- Values of `HIR::BorrowType`. -/
inductive BorrowType where
  | Shared
  | Unique
  | Owned
  deriving DecidableEq, Repr

/-- Values of `HIR::Compare`, the three-valued answer of the resolver. -/
inductive Compare where
  | Equal
  | Fuzzy
  | Unequal
  deriving DecidableEq, Repr

/-- Tags of `StaticTraitResolve::ValuePtr`. -/
inductive ValueTag where
  | NotFound
  | NotYetKnown
  | Constant
  | Static
  | Function
  | EnumConstructor
  | EnumValue
  | StructConstructor
  | StructConstant
  deriving DecidableEq, Repr

/-- Values of `HIR::ExprNode_PathValue::Target`. -/
inductive Target where
  | UNKNOWN
  | FUNCTION
  | STRUCT_CONSTRUCTOR
  | ENUM_VAR_CONSTRUCTOR
  | STATIC
  | CONSTANT
  deriving DecidableEq, Repr

/-- Node classes whose `visit` override is
`ExprVisitorDef::visit(node); m_is_constant = m_all_constant;`
(lines 127-157; `Unsize`, lines 158-161, is a constructor of its own because
the borrow rewrite looks through it). -/
inductive CompositeKind where
  | ArraySized
  | ArrayList
  | StructLiteral
  | TupleVariant
  | Tuple
  | Field
  | Cast
  deriving DecidableEq, Repr

/-- Expression tree. Every node carries its span and `m_res_type`.

Modelled from the spec: the node classes and `ExprVisitorDef` live in
`hir/expr.hpp`, which is not part of this file. Each node owns its children;
`children` lists the child slots in the order the default visitor hands them to
`visit_node_ptr`. `Other` stands for every node class this pass does not
override (blocks, calls, variables, ...), `kind` telling them apart. -/
inductive ExprNode where
  | Literal (sp : Span) (m_res_type : TypeRef) (m_data : Nat)
  | UnitVariant (sp : Span) (m_res_type : TypeRef) (m_path : Path)
  | PathValue (sp : Span) (m_res_type : TypeRef) (m_path : Path) (m_target : Target)
  | Composite (k : CompositeKind) (sp : Span) (m_res_type : TypeRef) (children : List ExprNode)
  | Unsize (sp : Span) (m_res_type : TypeRef) (m_value : ExprNode)
  | Borrow (sp : Span) (m_res_type : TypeRef) (m_type : BorrowType) (m_value : ExprNode)
  | Other (kind : Nat) (sp : Span) (m_res_type : TypeRef) (children : List ExprNode)
  deriving Repr

namespace ExprNode

/-- Accessor `node.span()`. -/
def span : ExprNode → Span
  | Literal sp _ _ => sp
  | UnitVariant sp _ _ => sp
  | PathValue sp _ _ _ => sp
  | Composite _ sp _ _ => sp
  | Unsize sp _ _ => sp
  | Borrow sp _ _ _ => sp
  | Other _ sp _ _ => sp

/-- Accessor `node.m_res_type`. -/
def res_type : ExprNode → TypeRef
  | Literal _ ty _ => ty
  | UnitVariant _ ty _ => ty
  | PathValue _ ty _ _ => ty
  | Composite _ _ ty _ => ty
  | Unsize _ ty _ => ty
  | Borrow _ ty _ _ => ty
  | Other _ _ ty _ => ty

end ExprNode

/-- Identity of a module (`const HIR::Module*`): its position in the module
tree, as the indices of the sub-modules chosen from the root. -/
abbrev ModulePtr := List Nat

/-- Values of `HIR::ExprState::Stage`. -/
inductive Stage where
  | Created
  | ConstEvalRequest
  | ConstEval
  | TypecheckRequest
  | Typecheck
  | SbcRequest
  | Sbc
  | MirRequest
  | Mir
  deriving DecidableEq, Repr

/-- The lexical context `HIR::ExprState` of a root expression. -/
structure ExprState where
  m_module : ModulePtr
  m_mod_path : SimplePath
  m_traits : List SimplePath
  m_impl_generics : Option GenericParams
  m_item_generics : Option GenericParams
  stage : Stage
  deriving DecidableEq, Repr

/-- Constructor `ExprState(module, mod_path)`: everything else defaulted. -/
def ExprState.new (m_module : ModulePtr) (m_mod_path : SimplePath) : ExprState :=
  { m_module := m_module, m_mod_path := m_mod_path, m_traits := [],
    m_impl_generics := none, m_item_generics := none, stage := Stage.Created }

/-- A root expression `HIR::ExprPtr`: the tree and its context. -/
structure ExprPtr where
  node : ExprNode
  m_state : ExprState
  deriving Repr

/-- Modelled from the spec: `HIR::ConstGeneric` is declared outside this file. The
driver asks one thing of a const-generic value (line 307): whether it is
`Unevaluated`, an expression that has not been evaluated yet and that carries
its own context. `Other` stands for the other variants, `kind` telling them
apart. -/
inductive ConstGeneric where
  | Unevaluated (expr : ExprPtr)
  | Other (kind : Nat)

/-- Modelled from the spec: `HIR::ArraySize` is declared outside this file. The
size of an array type is either still a const-generic value (`Unevaluated`,
line 305) or a known number. -/
inductive ArraySize where
  | Unevaluated (cg : ConstGeneric)
  | Known (n : Nat)

/-- The content `ty.data_mut()` of a type the driver walks (`visit_type`, lines
299-316). Modelled from the spec: `HIR::TypeData` is declared outside this
file. `Array` is the array type (`opt_Array()`, line 301) with its element type
and its size; `Other` stands for every other kind of type, `kind` telling them
apart and `inner` listing the types directly inside it in the order the
default `HIR::Visitor::visit_type` hands them to `visit_type`.

The types the driver never walks (the resolved type of an expression node, the
type of a static or of a constant, which the overrides of lines 333-346 do not
visit) stay the opaque `TypeRef`. -/
inductive TypeData where
  | Array (inner : TypeData) (size : ArraySize)
  | Other (kind : Nat) (inner : List TypeData)

/-- Fatal outcomes: `BUG(...)`/`ASSERT_BUG(...)` and `TODO(...)`. -/
inductive Error where
  | BUG (msg : String)
  | TODO (msg : String)
  deriving DecidableEq, Repr

/-- The questions the pass asks about types and paths: the two members of
`StaticTraitResolve` it calls and the two free functions
`monomorphise_type_needed` / `monomorphise_path_needed`. They are declared
outside this file and are parameters of the embedding. -/
structure StaticTraitResolve where
  monomorphise_type_needed : TypeRef → Bool
  monomorphise_path_needed : Path → Bool
  type_is_interior_mutable : Span → TypeRef → Compare
  get_value : Span → Path → ValueTag

/-! ## `ExprVisitor_Mutate` -/

/-- Callback `t_new_static_cb`. The C++ closure captures mutable state; `σ` is
that state, threaded explicitly. -/
abbrev t_new_static_cb (σ : Type) := σ → Span → TypeRef → ExprPtr → Except Error (SimplePath × σ)

/-- Mutable members of `ExprVisitor_Mutate` plus what its callback captured.
`im_queries` is a ghost trace: the arguments of every call made to
`m_resolve.type_is_interior_mutable`, oldest first. -/
structure ExprVisitor_Mutate (σ : Type) where
  m_is_constant : Bool
  m_all_constant : Bool
  env : σ
  im_queries : List (Span × TypeRef)

/-- Constructor (lines 40-47): both flags start `false`. -/
def ExprVisitor_Mutate.new {σ : Type} (env : σ) : ExprVisitor_Mutate σ :=
  { m_is_constant := false, m_all_constant := false, env := env, im_queries := [] }

/-- The slot `*value_ptr_ptr` of lines 80-85: the borrow's `m_value`, or the
`m_value` of that node when it is an `Unsize`. -/
def value_ptr : ExprNode → ExprNode
  | ExprNode.Unsize _ _ inner => inner
  | v => v

/-- Assignment `value_ptr = new_node` (line 119) seen from the borrow's
`m_value` slot: replaces the slot located by lines 80-85. -/
def set_value_ptr : ExprNode → ExprNode → ExprNode
  | ExprNode.Unsize sp ty _, n => ExprNode.Unsize sp ty n
  | _, n => n

/-- Lines 105-110: the context given to the initializer of a new static. -/
def new_static_state (m_expr_ptr_state : ExprState) : ExprState :=
  { ExprState.new m_expr_ptr_state.m_module m_expr_ptr_state.m_mod_path with
    m_traits := m_expr_ptr_state.m_traits
    m_impl_generics := m_expr_ptr_state.m_impl_generics
    m_item_generics := m_expr_ptr_state.m_item_generics
    stage := Stage.Typecheck }

/-- Lines 77-123 of `visit(ExprNode_Borrow&)`: what happens to the borrow's
`m_value` slot (content `value` after the children were visited) and to the
visitor. -/
def visit_Borrow_inner {σ : Type} (m_resolve : StaticTraitResolve) (m_new_static_cb : t_new_static_cb σ)
    (m_expr_ptr_state : ExprState) (m_type : BorrowType) (value : ExprNode)
    (s : ExprVisitor_Mutate σ) : Except Error (ExprNode × ExprVisitor_Mutate σ) :=
  if s.m_all_constant then
    let v := value_ptr value
    if m_resolve.monomorphise_type_needed v.res_type then
      Except.ok (value, s)
    else if m_type ≠ BorrowType.Shared then
      Except.ok (value, s)
    else
      let s1 := { s with im_queries := s.im_queries ++ [(v.span, v.res_type)] }
      if m_resolve.type_is_interior_mutable v.span v.res_type ≠ Compare.Unequal then
        Except.ok (value, s1)
      else
        let val_expr : ExprPtr := { node := v, m_state := new_static_state m_expr_ptr_state }
        let sp := val_expr.node.span
        let ty := val_expr.node.res_type
        match m_new_static_cb s1.env sp ty val_expr with
        | Except.error e => Except.error e
        | Except.ok (path, env1) =>
          let new_node := ExprNode.PathValue sp ty (Path.ofSimplePath path) Target.STATIC
          Except.ok (set_value_ptr value new_node, { s1 with env := env1, m_is_constant := true })
  else
    Except.ok (value, s)

/-- Lines 59-69 of `visit_node_ptr(ExprNodeP&)` around the call
`node->visit(*this)`: the state handed to `visit`. -/
def node_ptr_enter {σ : Type} (s : ExprVisitor_Mutate σ) : ExprVisitor_Mutate σ :=
  { s with m_is_constant := false }

/-- Lines 65-69 of `visit_node_ptr(ExprNodeP&)`: what follows the call
`node->visit(*this)`. -/
def node_ptr_leave {σ : Type} (s : ExprVisitor_Mutate σ) : ExprVisitor_Mutate σ :=
  { (if !s.m_is_constant then { s with m_all_constant := false } else s) with m_is_constant := false }

/-- Result of a child visit wrapped by the tail of `visit_node_ptr`. -/
def node_ptr_result {σ : Type} (r : Except Error (ExprNode × ExprVisitor_Mutate σ)) :
    Except Error (ExprNode × ExprVisitor_Mutate σ) :=
  match r with
  | Except.error e => Except.error e
  | Except.ok (n, s) => Except.ok (n, node_ptr_leave s)

mutual
/-- The overrides `visit(ExprNode_*&)` (lines 72-190), dispatched on the node
class; returns the node as left in its slot and the visitor afterwards. -/
def visit {σ : Type} (m_resolve : StaticTraitResolve) (m_new_static_cb : t_new_static_cb σ)
    (m_expr_ptr_state : ExprState) : ExprNode → ExprVisitor_Mutate σ →
    Except Error (ExprNode × ExprVisitor_Mutate σ)
  | ExprNode.Borrow sp ty bt value, s =>
    let saved_all_constant := s.m_all_constant
    match node_ptr_result (visit m_resolve m_new_static_cb m_expr_ptr_state value
        (node_ptr_enter { s with m_all_constant := true })) with
    | Except.error e => Except.error e
    | Except.ok (value1, s1) =>
      match visit_Borrow_inner m_resolve m_new_static_cb m_expr_ptr_state bt value1 s1 with
      | Except.error e => Except.error e
      | Except.ok (value2, s2) =>
        Except.ok (ExprNode.Borrow sp ty bt value2, { s2 with m_all_constant := saved_all_constant })
  | ExprNode.Composite k sp ty children, s =>
    match visit_children m_resolve m_new_static_cb m_expr_ptr_state children s with
    | Except.error e => Except.error e
    | Except.ok (children1, s1) =>
      Except.ok (ExprNode.Composite k sp ty children1, { s1 with m_is_constant := s1.m_all_constant })
  | ExprNode.Unsize sp ty value, s =>
    match node_ptr_result (visit m_resolve m_new_static_cb m_expr_ptr_state value (node_ptr_enter s)) with
    | Except.error e => Except.error e
    | Except.ok (value1, s1) =>
      Except.ok (ExprNode.Unsize sp ty value1, { s1 with m_is_constant := s1.m_all_constant })
  | ExprNode.Literal sp ty d, s =>
    Except.ok (ExprNode.Literal sp ty d, { s with m_is_constant := true })
  | ExprNode.UnitVariant sp ty p, s =>
    Except.ok (ExprNode.UnitVariant sp ty p, { s with m_is_constant := true })
  | ExprNode.PathValue sp ty p t, s =>
    match m_resolve.get_value sp p with
    | ValueTag.Constant | ValueTag.Function =>
      if m_resolve.monomorphise_path_needed p then
        Except.ok (ExprNode.PathValue sp ty p t, s)
      else
        Except.ok (ExprNode.PathValue sp ty p t, { s with m_is_constant := true })
    | _ => Except.ok (ExprNode.PathValue sp ty p t, s)
  | ExprNode.Other kind sp ty children, s =>
    match visit_children m_resolve m_new_static_cb m_expr_ptr_state children s with
    | Except.error e => Except.error e
    | Except.ok (children1, s1) => Except.ok (ExprNode.Other kind sp ty children1, s1)
/-- The default visitor body `ExprVisitorDef::visit(node)`: every child slot
goes through `visit_node_ptr`, in order. -/
def visit_children {σ : Type} (m_resolve : StaticTraitResolve) (m_new_static_cb : t_new_static_cb σ)
    (m_expr_ptr_state : ExprState) : List ExprNode → ExprVisitor_Mutate σ →
    Except Error (List ExprNode × ExprVisitor_Mutate σ)
  | [], s => Except.ok ([], s)
  | c :: cs, s =>
    match node_ptr_result (visit m_resolve m_new_static_cb m_expr_ptr_state c (node_ptr_enter s)) with
    | Except.error e => Except.error e
    | Except.ok (c1, s1) =>
      match visit_children m_resolve m_new_static_cb m_expr_ptr_state cs s1 with
      | Except.error e => Except.error e
      | Except.ok (cs1, s2) => Except.ok (c1 :: cs1, s2)
end

/-- Method `visit_node_ptr(ExprNodeP&)` (lines 55-70). -/
def visit_node_ptr {σ : Type} (m_resolve : StaticTraitResolve) (m_new_static_cb : t_new_static_cb σ)
    (m_expr_ptr_state : ExprState) (node : ExprNode) (s : ExprVisitor_Mutate σ) :
    Except Error (ExprNode × ExprVisitor_Mutate σ) :=
  node_ptr_result (visit m_resolve m_new_static_cb m_expr_ptr_state node (node_ptr_enter s))

/-- Method `visit_node_ptr(ExprPtr&)` (lines 48-54): the root is visited
without touching the flags. -/
def visit_root {σ : Type} (m_resolve : StaticTraitResolve) (m_new_static_cb : t_new_static_cb σ)
    (root : ExprPtr) (s : ExprVisitor_Mutate σ) : Except Error (ExprPtr × ExprVisitor_Mutate σ) :=
  match visit m_resolve m_new_static_cb root.m_state root.node s with
  | Except.error e => Except.error e
  | Except.ok (n, s1) => Except.ok ({ root with node := n }, s1)

/-- Function `HIR_Expand_StaticBorrowConstants_Expr` (lines 366-375): the
per-expression entry point. Its callback is `TODO(...)`; the resolver is
freshly built from the crate. -/
def HIR_Expand_StaticBorrowConstants_Expr (resolve : StaticTraitResolve) (exp : ExprPtr) :
    Except Error ExprPtr :=
  match visit_root resolve
      (fun (_ : Unit) _ _ _ => Except.error (Error.TODO "Create new static in per-expression context"))
      exp (ExprVisitor_Mutate.new ()) with
  | Except.error e => Except.error e
  | Except.ok (exp1, _) => Except.ok exp1

/-! ## Items, modules, crate -/

/-- Linkage of a static; `HIR::Linkage()` is the default one. -/
structure Linkage where
  name : RcString
  deriving DecidableEq, Repr

/-- Default linkage `HIR::Linkage()`. -/
def Linkage.new : Linkage := { name := "" }

/-- Result of constant evaluation (`EncodedLiteral`), opaque to the pass. -/
structure EncodedLiteral where
  bytes : List Nat
  deriving DecidableEq, Repr

/-- A static item `HIR::Static`. `m_value` is absent for a static without
initializer. -/
structure Static where
  m_linkage : Linkage
  m_is_mut : Bool
  m_type : TypeRef
  m_value : Option ExprPtr
  m_value_res : EncodedLiteral
  m_value_generated : Bool
  deriving Repr

/-- Constructor `HIR::Static(linkage, is_mut, type, value)`: no evaluated
value yet, not compiler-generated. -/
def Static.new (m_linkage : Linkage) (m_is_mut : Bool) (m_type : TypeRef) (m_value : ExprPtr) : Static :=
  { m_linkage := m_linkage, m_is_mut := m_is_mut, m_type := m_type, m_value := some m_value,
    m_value_res := { bytes := [] }, m_value_generated := false }

/-- A constant item `HIR::Constant`. -/
structure Constant where
  m_params : GenericParams
  m_type : TypeRef
  m_value : Option ExprPtr
  deriving Repr

/-- A function item `HIR::Function`; `m_code` is absent for a declaration. -/
structure Function where
  m_params : GenericParams
  m_code : Option ExprPtr
  deriving Repr

/-- One variant of a value enum, with its optional discriminant expression. -/
structure EnumValueVariant where
  name : RcString
  expr : Option ExprPtr
  deriving Repr

/-- An enum item `HIR::Enum`; `m_data` is `some variants` exactly when
`m_data.opt_Value()` is non-null. -/
structure Enum where
  m_params : GenericParams
  m_data : Option (List EnumValueVariant)
  deriving Repr

/-- Variants of `HIR::ValueItem`. -/
inductive ValueItem where
  | Import
  | Constant (e : Constant)
  | Static (e : Static)
  | StructConstant
  | Function (e : Function)
  | StructConstructor
  deriving Repr

/-- Visibility marker `HIR::Publicity`. -/
inductive Publicity where
  | none
  | global
  | priv (p : SimplePath)
  deriving DecidableEq, Repr

/-- Entry `HIR::VisEnt<HIR::ValueItem>` of a module's value namespace. -/
structure VisEnt where
  publicity : Publicity
  ent : ValueItem
  deriving Repr

/-- Variants of `HIR::TraitValueItem`: a value item of a trait definition. -/
inductive TraitValueItem where
  | Constant (e : Constant)
  | Static (e : Static)
  | Function (e : Function)

/-- A trait definition `HIR::Trait`. Modelled from the spec: the declaration is
outside this file. `m_head_types` are the types the default
`HIR::Visitor::visit_trait` hands to `visit_type` before the value items (those
of the generic block, of the parent traits and of the associated types), in
that order; `m_values` are the value items, whose default bodies and
initializers the walk reaches through `visit_function`, `visit_static` and
`visit_constant`. -/
structure Trait where
  m_head_types : List TypeData
  m_values : List (RcString × TraitValueItem)

mutual
/-- Variants of `HIR::TypeItem` the walk distinguishes. Modelled from the
spec: the declaration is outside this file. The walk descends into modules,
enums and traits; `Other` stands for every kind of item the walk reaches only
through `visit_type` (struct, union, type alias, trait alias, extern type),
`kind` telling them apart and `m_types` listing the types of the item (those
of its generic block, of its fields, the aliased type) in the order the
default walk hands them to `visit_type`. -/
inductive TypeItem where
  | Import
  | Module (e : Module)
  | Enum (e : Enum)
  | Trait (e : Trait)
  | Other (kind : Nat) (m_types : List TypeData)
/-- A module `HIR::Module`: its value namespace and its type namespace
(`std::unordered_map`s, here association lists with first-match lookup). -/
inductive Module where
  | mk (m_value_items : List (RcString × VisEnt)) (m_mod_items : List (RcString × TypeItem))
end

/-- Field `m_value_items`. -/
def Module.m_value_items : Module → List (RcString × VisEnt)
  | Module.mk v _ => v

/-- Field `m_mod_items`. -/
def Module.m_mod_items : Module → List (RcString × TypeItem)
  | Module.mk _ m => m

/-- An inherent impl block `HIR::TypeImpl`. Modelled from the spec: the
declaration is outside this file. `m_head_types` are the types the default
`HIR::Visitor::visit_type_impl` hands to `visit_type` before the members (those
of the generic block `m_params`, then the implementing type `m_type`), in that
order. -/
structure TypeImpl where
  m_params : GenericParams
  m_head_types : List TypeData
  m_src_module : SimplePath
  m_methods : List (RcString × Function)
  m_constants : List (RcString × Constant)

/-- A trait impl block `HIR::TraitImpl`. Modelled from the spec: the declaration
is outside this file. `m_head_types` are the types the default
`HIR::Visitor::visit_trait_impl` hands to `visit_type` before the members (those
of the generic block, of the trait arguments, then the implementing type);
`m_types` are the associated types, visited after the members. -/
structure TraitImpl where
  m_params : GenericParams
  m_head_types : List TypeData
  m_src_module : SimplePath
  m_methods : List (RcString × Function)
  m_constants : List (RcString × Constant)
  m_statics : List (RcString × Static)
  m_types : List (RcString × TypeData)

/-- An impl block of a marker trait `HIR::MarkerImpl`. Modelled from the spec:
the declaration is outside this file. The block has no members; `m_head_types`
are the types the default `HIR::Visitor::visit_marker_impl` hands to
`visit_type` (those of the generic block, of the trait arguments, then the
implementing type). -/
structure MarkerImpl where
  m_params : GenericParams
  m_head_types : List TypeData

/-- The crate `HIR::Crate`. -/
structure Crate where
  m_crate_name : RcString
  m_root_module : Module
  m_type_impls : List TypeImpl
  m_trait_impls : List (SimplePath × TraitImpl)
  m_marker_impls : List (SimplePath × MarkerImpl)

/-- Modelled from the spec: `HIR::ItemPath` (declared in `hir/item_path.hpp`)
is a chain ending in a crate root or in a wrapped simple path. -/
inductive ItemPath where
  | crate (crate_name : RcString)
  | wrapped (p : SimplePath)
  | child (parent : ItemPath) (name : RcString)
  deriving DecidableEq, Repr

/-- Operator `ItemPath + name`. -/
def ItemPath.add (p : ItemPath) (name : RcString) : ItemPath := ItemPath.child p name

/-- Method `ItemPath::get_simple_path()`. -/
def ItemPath.get_simple_path : ItemPath → SimplePath
  | ItemPath.crate c => { m_crate_name := c, m_components := [] }
  | ItemPath.wrapped p => p
  | ItemPath.child parent name =>
    { m_crate_name := parent.get_simple_path.m_crate_name,
      m_components := parent.get_simple_path.m_components ++ [name] }

/-- The sub-module found under `name` in a type namespace, with its index. -/
def find_module (name : RcString) : List (RcString × TypeItem) → Nat → Option (Nat × Module)
  | [], _ => none
  | (n, it) :: rest, idx =>
    if n = name then
      match it with
      | TypeItem.Module e => some (idx, e)
      | _ => none
    else find_module name rest (idx + 1)

/-- Walk of `Crate::get_mod_by_path` below a module: the position reached by
following `components`. -/
def Module.get_mod_by_components : List RcString → Module → Option ModulePtr
  | [], _ => some []
  | name :: rest, m =>
    match find_module name m.m_mod_items 0 with
    | none => none
    | some (idx, sub) =>
      match Module.get_mod_by_components rest sub with
      | none => none
      | some ptr => some (idx :: ptr)

/-- Method `Crate::get_mod_by_path` for a module of this crate. Modelled from
the spec: a path that names no module of the crate is a fatal error (`none`);
external crates are not part of the model. -/
def Crate.get_mod_by_path (crate : Crate) (path : SimplePath) : Option ModulePtr :=
  if path.m_crate_name = crate.m_crate_name then
    crate.m_root_module.get_mod_by_components path.m_components
  else none

/-- Dereference of a module pointer below a module. -/
def Module.at : ModulePtr → Module → Option Module
  | [], m => some m
  | i :: rest, m =>
    match m.m_mod_items.get? i with
    | some (_, TypeItem.Module sub) => Module.at rest sub
    | _ => none

/-- Mutation through a module pointer (`const_cast<HIR::Module*>`): `f` is
applied to the module at that position, everything else is kept. -/
def Module.modify_at (f : Module → Module) : ModulePtr → Module → Module
  | [], m => f m
  | i :: rest, m =>
    Module.mk m.m_value_items
      (m.m_mod_items.modify (fun entry =>
        match entry with
        | (n, TypeItem.Module sub) => (n, TypeItem.Module (Module.modify_at f rest sub))
        | other => other) i)

/-- Call `m_value_items.insert(std::make_pair(name, ent))` on the
`std::unordered_map`: a no-op when the key is already present. -/
def insert_value_item (name : RcString) (ent : VisEnt) (items : List (RcString × VisEnt)) :
    List (RcString × VisEnt) :=
  if items.any (fun e => e.1 = name) then items else items ++ [(name, ent)]

/-- Mutable members of `OuterVisitor`. `m_resolve_impl_generics` and
`m_resolve_item_generics` are the generic blocks currently installed in
`m_resolve` by `set_impl_generics` / `set_item_generics`.
`m_current_module_path` is a pointer in the source; here it is the value it
points to (it is only read while `m_current_module` is set, lines 214-219).
`m_new_statics` is the `std::map` keyed by module, one entry per module that
has been indexed, in order of first use. -/
structure OuterVisitor where
  m_resolve_impl_generics : Option GenericParams
  m_resolve_item_generics : Option GenericParams
  m_current_module_path : ItemPath
  m_current_module : Option ModulePtr
  m_new_statics : List (ModulePtr × List (SimplePath × Static))

/-- Constructor (lines 204-209): no current module, no new statics. -/
def OuterVisitor.new : OuterVisitor :=
  { m_resolve_impl_generics := none, m_resolve_item_generics := none,
    m_current_module_path := ItemPath.crate "", m_current_module := none, m_new_statics := [] }

/-- Read of `m_new_statics[mod]`: the list of that module (empty when the
module has no entry yet). -/
def new_statics_get (m : List (ModulePtr × List (SimplePath × Static))) (mod : ModulePtr) :
    List (SimplePath × Static) :=
  match m with
  | [] => []
  | (k, l) :: rest => if k = mod then l else new_statics_get rest mod

/-- Write through the reference returned by `m_new_statics[mod]`. -/
def new_statics_set (m : List (ModulePtr × List (SimplePath × Static))) (mod : ModulePtr)
    (list : List (SimplePath × Static)) : List (ModulePtr × List (SimplePath × Static)) :=
  match m with
  | [] => [(mod, list)]
  | (k, l) :: rest => if k = mod then (k, list) :: rest else (k, l) :: new_statics_set rest mod list

/-- The name `FMT("lifted#" << idx)`. -/
def lifted_name (idx : Nat) : RcString := "lifted#" ++ toString idx

/-- Body of the closure returned by `get_new_ty_cb` (lines 213-229): the
outcome (a path, or the failed `ASSERT_BUG`) together with the visitor as the
body leaves it in either case. The assertion is the first statement, so a
failure leaves the visitor as it was. -/
def get_new_ty_cb_body (this : OuterVisitor) (_sp : Span) (ty : TypeRef) (val_expr : ExprPtr) :
    Except Error SimplePath × OuterVisitor :=
  match this.m_current_module with
  | none => (Except.error (Error.BUG ""), this)
  | some m_current_module =>
    let list := new_statics_get this.m_new_statics m_current_module
    let idx := list.length
    let name := lifted_name idx
    let path := (this.m_current_module_path.add name).get_simple_path
    let new_static := Static.new Linkage.new false ty val_expr
    (Except.ok path,
      { this with m_new_statics :=
          new_statics_set this.m_new_statics m_current_module (list ++ [(path, new_static)]) })

/-- The closure returned by `get_new_ty_cb` (lines 211-230) as the classifier
sees it: a failure aborts the pass, a success hands back the path and the
updated visitor. -/
def get_new_ty_cb : t_new_static_cb OuterVisitor := fun this sp ty val_expr =>
  match get_new_ty_cb_body this sp ty val_expr with
  | (Except.error err, _) => Except.error err
  | (Except.ok path, this1) => Except.ok (path, this1)

/-! ## `OuterVisitor`: the crate walk -/

/-- The oracle behind `m_resolve`: its answers given the generic blocks
installed by `set_impl_generics` and `set_item_generics`. -/
abbrev Resolver := Option GenericParams → Option GenericParams → StaticTraitResolve

/-- The resolver as it stands in a given visitor state. -/
def OuterVisitor.m_resolve (resolve : Resolver) (this : OuterVisitor) : StaticTraitResolve :=
  resolve this.m_resolve_impl_generics this.m_resolve_item_generics

/-- The two statements shared by lines 309-310, 325-326, 336-337, 343-344 and
357-358: build an `ExprVisitor_Mutate` on the root expression and run it. -/
def run_on_expr (resolve : Resolver) (e : ExprPtr) (this : OuterVisitor) :
    Except Error (ExprPtr × OuterVisitor) :=
  match visit_root (this.m_resolve resolve) get_new_ty_cb e (ExprVisitor_Mutate.new this) with
  | Except.error err => Except.error err
  | Except.ok (e1, s1) => Except.ok (e1, s1.env)

/-- The same on an optional root: `if( item.m_value ) { ... }`. -/
def run_on_opt_expr (resolve : Resolver) (e : Option ExprPtr) (this : OuterVisitor) :
    Except Error (Option ExprPtr × OuterVisitor) :=
  match e with
  | none => Except.ok (none, this)
  | some e0 =>
    match run_on_expr resolve e0 this with
    | Except.error err => Except.error err
    | Except.ok (e1, this1) => Except.ok (some e1, this1)

/-- Override `visit_function` (lines 320-332). -/
def visit_function (resolve : Resolver) (item : Function) (this : OuterVisitor) :
    Except Error (Function × OuterVisitor) :=
  match item.m_code with
  | some code =>
    match run_on_expr resolve code { this with m_resolve_item_generics := some item.m_params } with
    | Except.error err => Except.error err
    | Except.ok (code1, this1) =>
      Except.ok ({ item with m_code := some code1 }, { this1 with m_resolve_item_generics := none })
  | none => Except.ok (item, this)

/-- Override `visit_static` (lines 333-339). -/
def visit_static (resolve : Resolver) (item : Static) (this : OuterVisitor) :
    Except Error (Static × OuterVisitor) :=
  match run_on_opt_expr resolve item.m_value this with
  | Except.error err => Except.error err
  | Except.ok (v1, this1) => Except.ok ({ item with m_value := v1 }, this1)

/-- Override `visit_constant` (lines 340-346). -/
def visit_constant (resolve : Resolver) (item : Constant) (this : OuterVisitor) :
    Except Error (Constant × OuterVisitor) :=
  match run_on_opt_expr resolve item.m_value this with
  | Except.error err => Except.error err
  | Except.ok (v1, this1) => Except.ok ({ item with m_value := v1 }, this1)

/-- The loop of lines 351-360 over the variants of a value enum. -/
def visit_enum_variants (resolve : Resolver) : List EnumValueVariant → OuterVisitor →
    Except Error (List EnumValueVariant × OuterVisitor)
  | [], this => Except.ok ([], this)
  | var :: rest, this =>
    match run_on_opt_expr resolve var.expr this with
    | Except.error err => Except.error err
    | Except.ok (e1, this1) =>
      match visit_enum_variants resolve rest this1 with
      | Except.error err => Except.error err
      | Except.ok (rest1, this2) => Except.ok ({ var with expr := e1 } :: rest1, this2)

/-- Override `visit_enum` (lines 347-362). -/
def visit_enum (resolve : Resolver) (item : Enum) (this : OuterVisitor) :
    Except Error (Enum × OuterVisitor) :=
  match item.m_data with
  | some variants =>
    match visit_enum_variants resolve variants { this with m_resolve_impl_generics := some item.m_params } with
    | Except.error err => Except.error err
    | Except.ok (variants1, this1) =>
      Except.ok ({ item with m_data := some variants1 }, { this1 with m_resolve_impl_generics := none })
  | none => Except.ok (item, this)

/-- Override `visit_expr` (lines 295-297): reaching it is a bug. -/
def visit_expr (_exp : ExprPtr) (_this : OuterVisitor) : Except Error (ExprPtr × OuterVisitor) :=
  Except.error (Error.BUG "visit_expr hit in OuterVisitor")

/-- Modelled from the spec: the loops of the default `visit_type_impl`,
`visit_trait_impl` and `visit_trait` (in `hir/visitor.cpp`, not part of this
file) over the named members of an impl block or of a trait, each member going
to its `visit_*` method. -/
def visit_named {α : Type} (f : α → OuterVisitor → Except Error (α × OuterVisitor)) :
    List (RcString × α) → OuterVisitor → Except Error (List (RcString × α) × OuterVisitor)
  | [], this => Except.ok ([], this)
  | (name, item) :: rest, this =>
    match f item this with
    | Except.error err => Except.error err
    | Except.ok (item1, this1) =>
      match visit_named f rest this1 with
      | Except.error err => Except.error err
      | Except.ok (rest1, this2) => Except.ok ((name, item1) :: rest1, this2)

/-- Lines 305-312 of `visit_type`: the size of an array type. When it is a
const-generic value that is an unevaluated expression, a classifier is built
on that expression and run on it; any other size is left alone. -/
def visit_array_size (resolve : Resolver) : ArraySize → OuterVisitor →
    Except Error (ArraySize × OuterVisitor)
  | ArraySize.Unevaluated (ConstGeneric.Unevaluated expr), this =>
    match run_on_expr resolve expr this with
    | Except.error err => Except.error err
    | Except.ok (expr1, this1) =>
      Except.ok (ArraySize.Unevaluated (ConstGeneric.Unevaluated expr1), this1)
  | ArraySize.Unevaluated (ConstGeneric.Other kind), this =>
    Except.ok (ArraySize.Unevaluated (ConstGeneric.Other kind), this)
  | ArraySize.Known n, this => Except.ok (ArraySize.Known n, this)

mutual
/-- Override `visit_type` (lines 299-316): for an array type, the element type
is visited, then the size; any other type goes to the default walk.

Modelled from the spec: the default `HIR::Visitor::visit_type` (in
`hir/visitor.cpp`, not part of this file) hands the types directly inside the
type to `visit_type`, in order. -/
def visit_type (resolve : Resolver) : TypeData → OuterVisitor →
    Except Error (TypeData × OuterVisitor)
  | TypeData.Array inner size, this =>
    match visit_type resolve inner this with
    | Except.error err => Except.error err
    | Except.ok (inner1, this1) =>
      match visit_array_size resolve size this1 with
      | Except.error err => Except.error err
      | Except.ok (size1, this2) => Except.ok (TypeData.Array inner1 size1, this2)
  | TypeData.Other kind inner, this =>
    match visit_types resolve inner this with
    | Except.error err => Except.error err
    | Except.ok (inner1, this1) => Except.ok (TypeData.Other kind inner1, this1)
/-- Every type of a list goes to `visit_type`, in order. -/
def visit_types (resolve : Resolver) : List TypeData → OuterVisitor →
    Except Error (List TypeData × OuterVisitor)
  | [], this => Except.ok ([], this)
  | ty :: rest, this =>
    match visit_type resolve ty this with
    | Except.error err => Except.error err
    | Except.ok (ty1, this1) =>
      match visit_types resolve rest this1 with
      | Except.error err => Except.error err
      | Except.ok (rest1, this2) => Except.ok (ty1 :: rest1, this2)
end

/-- Modelled from the spec: the dispatch of the default
`HIR::Visitor::visit_trait` on a value item of the trait, each kind going to
its `visit_*` method. -/
def visit_trait_value (resolve : Resolver) : TraitValueItem → OuterVisitor →
    Except Error (TraitValueItem × OuterVisitor)
  | TraitValueItem.Constant e, this =>
    match visit_constant resolve e this with
    | Except.error err => Except.error err
    | Except.ok (e1, this1) => Except.ok (TraitValueItem.Constant e1, this1)
  | TraitValueItem.Static e, this =>
    match visit_static resolve e this with
    | Except.error err => Except.error err
    | Except.ok (e1, this1) => Except.ok (TraitValueItem.Static e1, this1)
  | TraitValueItem.Function e, this =>
    match visit_function resolve e this with
    | Except.error err => Except.error err
    | Except.ok (e1, this1) => Except.ok (TraitValueItem.Function e1, this1)

/-- Modelled from the spec: the default `HIR::Visitor::visit_trait` (in
`hir/visitor.cpp`, not part of this file; `OuterVisitor` does not override it):
the types of the trait go to `visit_type`, then its value items to their
`visit_*` method. -/
def visit_trait (resolve : Resolver) (item : Trait) (this : OuterVisitor) :
    Except Error (Trait × OuterVisitor) :=
  match visit_types resolve item.m_head_types this with
  | Except.error err => Except.error err
  | Except.ok (types1, this1) =>
    match visit_named (visit_trait_value resolve) item.m_values this1 with
    | Except.error err => Except.error err
    | Except.ok (values1, this2) =>
      Except.ok ({ m_head_types := types1, m_values := values1 }, this2)

/-- Modelled from the spec: the part of `HIR::Visitor::visit_module` (in
`hir/visitor.cpp`, not part of this file) that walks the value namespace,
dispatching constants, statics and functions to their `visit_*` method. -/
def visit_value_items (resolve : Resolver) : List (RcString × VisEnt) → OuterVisitor →
    Except Error (List (RcString × VisEnt) × OuterVisitor)
  | [], this => Except.ok ([], this)
  | (name, ent) :: rest, this =>
    let head : Except Error (ValueItem × OuterVisitor) :=
      match ent.ent with
      | ValueItem.Constant e =>
        match visit_constant resolve e this with
        | Except.error err => Except.error err
        | Except.ok (e1, this1) => Except.ok (ValueItem.Constant e1, this1)
      | ValueItem.Static e =>
        match visit_static resolve e this with
        | Except.error err => Except.error err
        | Except.ok (e1, this1) => Except.ok (ValueItem.Static e1, this1)
      | ValueItem.Function e =>
        match visit_function resolve e this with
        | Except.error err => Except.error err
        | Except.ok (e1, this1) => Except.ok (ValueItem.Function e1, this1)
      | other => Except.ok (other, this)
    match head with
    | Except.error err => Except.error err
    | Except.ok (item1, this1) =>
      match visit_value_items resolve rest this1 with
      | Except.error err => Except.error err
      | Except.ok (rest1, this2) => Except.ok ((name, { ent with ent := item1 }) :: rest1, this2)

mutual
/-- Override `visit_module` (lines 258-268) around the default walk of the
module. `ptr` is the identity `&mod` of the module being visited.

Modelled from the spec: the default `HIR::Visitor::visit_module` (not part of
this file) walks the type namespace, then the value namespace. -/
def visit_module (resolve : Resolver) (p : ItemPath) (ptr : ModulePtr) : Module → OuterVisitor →
    Except Error (Module × OuterVisitor)
  | Module.mk m_value_items m_mod_items, this =>
    let par := this.m_current_module
    let par_p := this.m_current_module_path
    match visit_mod_items resolve p ptr 0 m_mod_items
        { this with m_current_module := some ptr, m_current_module_path := p } with
    | Except.error err => Except.error err
    | Except.ok (mods1, this1) =>
      match visit_value_items resolve m_value_items this1 with
      | Except.error err => Except.error err
      | Except.ok (values1, this2) =>
        Except.ok (Module.mk values1 mods1,
          { this2 with m_current_module := par, m_current_module_path := par_p })
/-- Modelled from the spec: the part of the default `HIR::Visitor::visit_module`
that walks the type namespace: sub-modules go to `visit_module(p + name, e)`,
enums to `visit_enum(p + name, e)`, traits to `visit_trait(p + name, e)`, and
the types of every other item to `visit_type`. `idx` is the index of the head
entry. -/
def visit_mod_items (resolve : Resolver) (p : ItemPath) (ptr : ModulePtr) (idx : Nat) :
    List (RcString × TypeItem) → OuterVisitor →
    Except Error (List (RcString × TypeItem) × OuterVisitor)
  | [], this => Except.ok ([], this)
  | (name, TypeItem.Module e) :: rest, this =>
    match visit_module resolve (p.add name) (ptr ++ [idx]) e this with
    | Except.error err => Except.error err
    | Except.ok (e1, this1) =>
      match visit_mod_items resolve p ptr (idx + 1) rest this1 with
      | Except.error err => Except.error err
      | Except.ok (rest1, this2) => Except.ok ((name, TypeItem.Module e1) :: rest1, this2)
  | (name, TypeItem.Enum e) :: rest, this =>
    match visit_enum resolve e this with
    | Except.error err => Except.error err
    | Except.ok (e1, this1) =>
      match visit_mod_items resolve p ptr (idx + 1) rest this1 with
      | Except.error err => Except.error err
      | Except.ok (rest1, this2) => Except.ok ((name, TypeItem.Enum e1) :: rest1, this2)
  | (name, TypeItem.Trait e) :: rest, this =>
    match visit_trait resolve e this with
    | Except.error err => Except.error err
    | Except.ok (e1, this1) =>
      match visit_mod_items resolve p ptr (idx + 1) rest this1 with
      | Except.error err => Except.error err
      | Except.ok (rest1, this2) => Except.ok ((name, TypeItem.Trait e1) :: rest1, this2)
  | (name, TypeItem.Other kind m_types) :: rest, this =>
    match visit_types resolve m_types this with
    | Except.error err => Except.error err
    | Except.ok (types1, this1) =>
      match visit_mod_items resolve p ptr (idx + 1) rest this1 with
      | Except.error err => Except.error err
      | Except.ok (rest1, this2) => Except.ok ((name, TypeItem.Other kind types1) :: rest1, this2)
  | (name, TypeItem.Import) :: rest, this =>
    match visit_mod_items resolve p ptr (idx + 1) rest this with
    | Except.error err => Except.error err
    | Except.ok (rest1, this2) => Except.ok ((name, TypeItem.Import) :: rest1, this2)
end

/-- Override `visit_type_impl` (lines 269-280). `m_crate` is the crate the
visitor was built on.

Modelled from the spec: the default `HIR::Visitor::visit_type_impl` (not part
of this file) hands the types of the impl header to `visit_type`, then visits
the methods, then the constants. -/
def visit_type_impl (resolve : Resolver) (m_crate : Crate) (impl : TypeImpl) (this : OuterVisitor) :
    Except Error (TypeImpl × OuterVisitor) :=
  match m_crate.get_mod_by_path impl.m_src_module with
  | none => Except.error (Error.BUG "get_mod_by_path")
  | some srcmod =>
    let this0 := { this with
      m_current_module := some srcmod
      m_current_module_path := ItemPath.wrapped impl.m_src_module
      m_resolve_impl_generics := some impl.m_params }
    match visit_types resolve impl.m_head_types this0 with
    | Except.error err => Except.error err
    | Except.ok (head1, this01) =>
      match visit_named (visit_function resolve) impl.m_methods this01 with
      | Except.error err => Except.error err
      | Except.ok (methods1, this1) =>
        match visit_named (visit_constant resolve) impl.m_constants this1 with
        | Except.error err => Except.error err
        | Except.ok (constants1, this2) =>
          Except.ok
            ({ impl with m_head_types := head1, m_methods := methods1, m_constants := constants1 },
              { this2 with m_current_module := none, m_resolve_impl_generics := none })

/-- Override `visit_trait_impl` (lines 281-292).

Modelled from the spec: the default `HIR::Visitor::visit_trait_impl` (not part
of this file) hands the types of the impl header to `visit_type`, visits the
methods, the constants and the statics, then hands the associated types to
`visit_type`. -/
def visit_trait_impl (resolve : Resolver) (m_crate : Crate) (impl : TraitImpl) (this : OuterVisitor) :
    Except Error (TraitImpl × OuterVisitor) :=
  match m_crate.get_mod_by_path impl.m_src_module with
  | none => Except.error (Error.BUG "get_mod_by_path")
  | some srcmod =>
    let this0 := { this with
      m_current_module := some srcmod
      m_current_module_path := ItemPath.wrapped impl.m_src_module
      m_resolve_impl_generics := some impl.m_params }
    match visit_types resolve impl.m_head_types this0 with
    | Except.error err => Except.error err
    | Except.ok (head1, this01) =>
      match visit_named (visit_function resolve) impl.m_methods this01 with
      | Except.error err => Except.error err
      | Except.ok (methods1, this1) =>
        match visit_named (visit_constant resolve) impl.m_constants this1 with
        | Except.error err => Except.error err
        | Except.ok (constants1, this2) =>
          match visit_named (visit_static resolve) impl.m_statics this2 with
          | Except.error err => Except.error err
          | Except.ok (statics1, this3) =>
            match visit_named (visit_type resolve) impl.m_types this3 with
            | Except.error err => Except.error err
            | Except.ok (types1, this4) =>
              Except.ok
                ({ impl with
                   m_head_types := head1, m_methods := methods1, m_constants := constants1,
                   m_statics := statics1, m_types := types1 },
                  { this4 with m_current_module := none, m_resolve_impl_generics := none })

/-- Loop of the default `visit_crate` over the inherent impls. -/
def visit_type_impls (resolve : Resolver) (m_crate : Crate) : List TypeImpl → OuterVisitor →
    Except Error (List TypeImpl × OuterVisitor)
  | [], this => Except.ok ([], this)
  | impl :: rest, this =>
    match visit_type_impl resolve m_crate impl this with
    | Except.error err => Except.error err
    | Except.ok (impl1, this1) =>
      match visit_type_impls resolve m_crate rest this1 with
      | Except.error err => Except.error err
      | Except.ok (rest1, this2) => Except.ok (impl1 :: rest1, this2)

/-- Loop of the default `visit_crate` over the trait impls. -/
def visit_trait_impls (resolve : Resolver) (m_crate : Crate) : List (SimplePath × TraitImpl) →
    OuterVisitor → Except Error (List (SimplePath × TraitImpl) × OuterVisitor)
  | [], this => Except.ok ([], this)
  | (trait_path, impl) :: rest, this =>
    match visit_trait_impl resolve m_crate impl this with
    | Except.error err => Except.error err
    | Except.ok (impl1, this1) =>
      match visit_trait_impls resolve m_crate rest this1 with
      | Except.error err => Except.error err
      | Except.ok (rest1, this2) => Except.ok ((trait_path, impl1) :: rest1, this2)

/-- Modelled from the spec: the default `HIR::Visitor::visit_marker_impl` (in
`hir/visitor.cpp`, not part of this file; `OuterVisitor` does not override it,
so no current module is set for it): the types of the impl header go to
`visit_type`. -/
def visit_marker_impl (resolve : Resolver) (impl : MarkerImpl) (this : OuterVisitor) :
    Except Error (MarkerImpl × OuterVisitor) :=
  match visit_types resolve impl.m_head_types this with
  | Except.error err => Except.error err
  | Except.ok (head1, this1) => Except.ok ({ impl with m_head_types := head1 }, this1)

/-- Loop of the default `visit_crate` over the marker impls. -/
def visit_marker_impls (resolve : Resolver) : List (SimplePath × MarkerImpl) →
    OuterVisitor → Except Error (List (SimplePath × MarkerImpl) × OuterVisitor)
  | [], this => Except.ok ([], this)
  | (trait_path, impl) :: rest, this =>
    match visit_marker_impl resolve impl this with
    | Except.error err => Except.error err
    | Except.ok (impl1, this1) =>
      match visit_marker_impls resolve rest this1 with
      | Except.error err => Except.error err
      | Except.ok (rest1, this2) => Except.ok ((trait_path, impl1) :: rest1, this2)

/-- Modelled from the spec: the default `HIR::Visitor::visit_crate` (line 233;
its body is in `hir/visitor.cpp`, not part of this file): the root module under
the crate's own path, then every type impl, every trait impl and every marker
impl. -/
def walk_crate (resolve : Resolver) (crate : Crate) (this : OuterVisitor) :
    Except Error (Crate × OuterVisitor) :=
  match visit_module resolve (ItemPath.crate crate.m_crate_name) [] crate.m_root_module this with
  | Except.error err => Except.error err
  | Except.ok (root1, this1) =>
    let crate1 := { crate with m_root_module := root1 }
    match visit_type_impls resolve crate1 crate1.m_type_impls this1 with
    | Except.error err => Except.error err
    | Except.ok (type_impls1, this2) =>
      match visit_trait_impls resolve crate1 crate1.m_trait_impls this2 with
      | Except.error err => Except.error err
      | Except.ok (trait_impls1, this3) =>
        match visit_marker_impls resolve crate1.m_marker_impls this3 with
        | Except.error err => Except.error err
        | Except.ok (marker_impls1, this4) =>
          Except.ok
            ({ crate1 with
               m_type_impls := type_impls1, m_trait_impls := trait_impls1,
               m_marker_impls := marker_impls1 }, this4)

/-- The constant evaluator `HIR::Evaluator(sp, m_crate, null_nvs).evaluate_constant`
(declared outside this file, a parameter of the embedding): it reads the crate
as it stands and either returns the encoded value or aborts (for instance
through `NullNvs::new_static`, line 243). -/
abbrev Evaluator := Crate → SimplePath → Option ExprPtr → TypeRef → Except Error EncodedLiteral

/-- Last component `m_components.back()` of a path. -/
def SimplePath.back (p : SimplePath) : RcString := p.m_components.getLast?.getD ""

/-- Mutation of the module behind a pointer of the crate. -/
def Crate.modify_module (crate : Crate) (mod : ModulePtr) (f : Module → Module) : Crate :=
  { crate with m_root_module := crate.m_root_module.modify_at f mod }

/-- The module behind a pointer of the crate. -/
def Crate.module_at (crate : Crate) (mod : ModulePtr) : Option Module :=
  crate.m_root_module.at mod

/-- The static as it is stored by lines 247-248. -/
def evaluated_static (new_static : Static) (value : EncodedLiteral) : Static :=
  { new_static with m_value_res := value, m_value_generated := true }

/-- Body of the inner loop of `visit_crate` (lines 242-253) for one pending
static of module `mod`. -/
def commit_static (evaluate_constant : Evaluator) (mod : ModulePtr)
    (new_static_pair : SimplePath × Static) (crate : Crate) : Except Error Crate :=
  match evaluate_constant crate new_static_pair.1 new_static_pair.2.m_value new_static_pair.2.m_type with
  | Except.error err => Except.error err
  | Except.ok value =>
    Except.ok (crate.modify_module mod (fun m =>
      Module.mk
        (insert_value_item new_static_pair.1.back
          { publicity := Publicity.none, ent := ValueItem.Static (evaluated_static new_static_pair.2 value) }
          m.m_value_items)
        m.m_mod_items))

/-- Inner loop of `visit_crate` (lines 240-254): one module's list, front to
back. -/
def commit_list (evaluate_constant : Evaluator) (mod : ModulePtr) :
    List (SimplePath × Static) → Crate → Except Error Crate
  | [], crate => Except.ok crate
  | new_static_pair :: rest, crate =>
    match commit_static evaluate_constant mod new_static_pair crate with
    | Except.error err => Except.error err
    | Except.ok crate1 => commit_list evaluate_constant mod rest crate1

/-- Outer loop of `visit_crate` (lines 236-255) over `m_new_statics`. -/
def commit (evaluate_constant : Evaluator) :
    List (ModulePtr × List (SimplePath × Static)) → Crate → Except Error Crate
  | [], crate => Except.ok crate
  | (mod, list) :: rest, crate =>
    match commit_list evaluate_constant mod list crate with
    | Except.error err => Except.error err
    | Except.ok crate1 => commit evaluate_constant rest crate1

/-- Override `visit_crate` (lines 232-256): the walk, then the commit. -/
def visit_crate (resolve : Resolver) (evaluate_constant : Evaluator) (crate : Crate)
    (this : OuterVisitor) : Except Error (Crate × OuterVisitor) :=
  match walk_crate resolve crate this with
  | Except.error err => Except.error err
  | Except.ok (crate1, this1) =>
    match commit evaluate_constant this1.m_new_statics crate1 with
    | Except.error err => Except.error err
    | Except.ok crate2 => Except.ok (crate2, this1)

/-- Function `HIR_Expand_StaticBorrowConstants` (lines 376-380). -/
def HIR_Expand_StaticBorrowConstants (resolve : Resolver) (evaluate_constant : Evaluator)
    (crate : Crate) : Except Error Crate :=
  match visit_crate resolve evaluate_constant crate OuterVisitor.new with
  | Except.error err => Except.error err
  | Except.ok (crate1, _) => Except.ok crate1

/-! ## The classifier rules as the specification words them -/

/-- Rule for `PathValue` in the specification: the path resolves to a constant
or a function item and is not still generic. -/
def spec_path_is_constant (r : StaticTraitResolve) (sp : Span) (p : Path) : Bool :=
  (decide (r.get_value sp p = ValueTag.Constant) || decide (r.get_value sp p = ValueTag.Function))
    && !r.monomorphise_path_needed p

/-- The three gates of the specification on the borrowed value `v`: its type is
not generic, the borrow is shared, and the resolver reports the type as
definitely not interior-mutable. -/
def spec_gates_pass (r : StaticTraitResolve) (bt : BorrowType) (v : ExprNode) : Bool :=
  !r.monomorphise_type_needed v.res_type && decide (bt = BorrowType.Shared)
    && decide (r.type_is_interior_mutable v.span v.res_type = Compare.Unequal)

mutual
/-- Per-kind rules of the specification, read on the tree as it is handed to
the classifier: literals and unit variants are constant, a path value is
constant by `spec_path_is_constant`, a composite or `Unsize` is constant when
all its children are, a borrow is constant when it is promoted (its child is
constant and the gates pass on the borrowed value), anything else is not. -/
def spec_is_constant (r : StaticTraitResolve) : ExprNode → Bool
  | ExprNode.Literal _ _ _ => true
  | ExprNode.UnitVariant _ _ _ => true
  | ExprNode.PathValue sp _ p _ => spec_path_is_constant r sp p
  | ExprNode.Composite _ _ _ children => spec_all_constant r children
  | ExprNode.Unsize _ _ value => spec_is_constant r value
  | ExprNode.Borrow _ _ bt value => spec_is_constant r value && spec_gates_pass r bt (value_ptr value)
  | ExprNode.Other _ _ _ _ => false
/-- Conjunction of `spec_is_constant` over a list of children. -/
def spec_all_constant (r : StaticTraitResolve) : List ExprNode → Bool
  | [] => true
  | c :: cs => spec_is_constant r c && spec_all_constant r cs
end

/-- The borrow `Borrow(bt, value)` is promoted according to the specification. -/
def spec_promoted (r : StaticTraitResolve) (bt : BorrowType) (value : ExprNode) : Bool :=
  spec_is_constant r value && spec_gates_pass r bt (value_ptr value)

/-! ## Concrete inputs used by the closed statements -/

namespace Demo

/-- A resolver for which no type is generic or interior-mutable and every path
names a static. -/
def plain : StaticTraitResolve :=
  { monomorphise_type_needed := fun _ => false
    monomorphise_path_needed := fun _ => false
    type_is_interior_mutable := fun _ _ => Compare.Unequal
    get_value := fun _ _ => ValueTag.Static }

/-- A callback that numbers its statics with a counter. -/
def counting_cb : t_new_static_cb Nat := fun n _ _ _ =>
  Except.ok ({ m_crate_name := "demo", m_components := [lifted_name n] }, n + 1)

/-- Context of a root expression in the root module of crate `demo`. -/
def root_state : ExprState := ExprState.new [] { m_crate_name := "demo", m_components := [] }

/-- The array literal `[1, 2, 3]`. -/
def array123 : ExprNode :=
  ExprNode.Composite CompositeKind.ArrayList ⟨1⟩ ⟨10⟩
    [ExprNode.Literal ⟨2⟩ ⟨11⟩ 1, ExprNode.Literal ⟨3⟩ ⟨11⟩ 2, ExprNode.Literal ⟨4⟩ ⟨11⟩ 3]

/-- The expression `&[1, 2, 3]`. -/
def shared_borrow_array : ExprNode := ExprNode.Borrow ⟨0⟩ ⟨12⟩ BorrowType.Shared array123

/-- The expression `&mut [1, 2, 3]`. -/
def unique_borrow_array : ExprNode := ExprNode.Borrow ⟨0⟩ ⟨12⟩ BorrowType.Unique array123

end Demo

namespace Demo

/-- A resolver that cannot rule out interior mutability of any type. -/
def fuzzy : StaticTraitResolve :=
  { plain with type_is_interior_mutable := fun _ _ => Compare.Fuzzy }

/-- A resolver for which every type still depends on generic parameters and
which would rule out interior mutability if it were asked. -/
def generic : StaticTraitResolve :=
  { plain with monomorphise_type_needed := fun _ => true }

/-- The node `&[1, 2, 3]` after promotion to the static `demo::lifted#0`. -/
def promoted_borrow_array : ExprNode :=
  ExprNode.Borrow ⟨0⟩ ⟨12⟩ BorrowType.Shared
    (ExprNode.PathValue ⟨1⟩ ⟨10⟩
      (Path.Generic { m_crate_name := "demo", m_components := ["lifted#0"] } []) Target.STATIC)

end Demo

mutual
/-- Every node of a tree: the node itself followed by the nodes below it. -/
def subnodes : ExprNode → List ExprNode
  | ExprNode.Literal sp ty d => [ExprNode.Literal sp ty d]
  | ExprNode.UnitVariant sp ty p => [ExprNode.UnitVariant sp ty p]
  | ExprNode.PathValue sp ty p t => [ExprNode.PathValue sp ty p t]
  | ExprNode.Composite k sp ty children =>
    ExprNode.Composite k sp ty children :: subnodes_list children
  | ExprNode.Unsize sp ty value => ExprNode.Unsize sp ty value :: subnodes value
  | ExprNode.Borrow sp ty bt value => ExprNode.Borrow sp ty bt value :: subnodes value
  | ExprNode.Other kind sp ty children => ExprNode.Other kind sp ty children :: subnodes_list children
/-- The nodes of every tree of a list. -/
def subnodes_list : List ExprNode → List ExprNode
  | [] => []
  | c :: cs => subnodes c ++ subnodes_list cs
end

/-- A node that blocks promotion of what encloses it, in the words of the
specification: a node of a class outside the listed set, a path value that
does not resolve to a non-generic constant or function, or a borrow that is
not promoted. -/
def spec_blocks (r : StaticTraitResolve) : ExprNode → Bool
  | ExprNode.Other _ _ _ _ => true
  | ExprNode.PathValue sp _ p _ => !spec_path_is_constant r sp p
  | ExprNode.Borrow _ _ bt value => !spec_promoted r bt value
  | _ => false

namespace Demo

/-- The tuple `(x, 1)` where `x` is a local variable (a node class the pass
does not know). -/
def tuple_with_variable : ExprNode :=
  ExprNode.Composite CompositeKind.Tuple ⟨1⟩ ⟨20⟩
    [ExprNode.Other 0 ⟨2⟩ ⟨11⟩ [], ExprNode.Literal ⟨3⟩ ⟨11⟩ 1]

end Demo

/-- Value of a string of decimal digits (the inverse of `FMT(idx)`); used to
tell generated names apart. -/
def decimal_value (acc : Nat) (digits : List Char) : Nat :=
  digits.foldl (fun a c => 10 * a + (c.toNat - 48)) acc

/-- One call of the callback as the walk makes it: the module context current
at the time of the call and the arguments of the call. -/
structure Allocation where
  m_current_module : ModulePtr
  m_current_module_path : ItemPath
  sp : Span
  ty : TypeRef
  val_expr : ExprPtr

/-- A sequence of allocations of one run: between two calls of the callback
only the module context changes (`m_new_statics` is written nowhere else
before the commit). Returns the paths handed out, in order. -/
def allocate_all : List Allocation → OuterVisitor → Except Error (List SimplePath × OuterVisitor)
  | [], this => Except.ok ([], this)
  | a :: rest, this =>
    match get_new_ty_cb
        { this with m_current_module := some a.m_current_module
                    m_current_module_path := a.m_current_module_path }
        a.sp a.ty a.val_expr with
    | Except.error err => Except.error err
    | Except.ok (path, this1) =>
      match allocate_all rest this1 with
      | Except.error err => Except.error err
      | Except.ok (paths, this2) => Except.ok (path :: paths, this2)

mutual
/-- Trees "composed solely of literals, tuples, arrays (list and sized), struct
literals, field projections and casts over such values": only `Literal` nodes
and composites of those classes. -/
def spec_literal_composite : ExprNode → Bool
  | ExprNode.Literal _ _ _ => true
  | ExprNode.Composite k _ _ children =>
    (decide (k = CompositeKind.Tuple) || decide (k = CompositeKind.ArrayList) ||
      decide (k = CompositeKind.ArraySized) || decide (k = CompositeKind.StructLiteral) ||
      decide (k = CompositeKind.Field) || decide (k = CompositeKind.Cast))
    && spec_literal_composite_list children
  | _ => false
/-- The same for every tree of a list. -/
def spec_literal_composite_list : List ExprNode → Bool
  | [] => true
  | c :: cs => spec_literal_composite c && spec_literal_composite_list cs
end

namespace Demo

/-- An evaluator that returns the same three bytes for every initializer. -/
def const_evaluator : Evaluator := fun _ _ _ _ => Except.ok { bytes := [1, 2, 3] }

/-- The function `fn f() { &[1, 2, 3] }`. -/
def fn_borrow_array : Function :=
  { m_params := ⟨0⟩, m_code := some { node := shared_borrow_array, m_state := root_state } }

/-- The crate `demo` whose root module holds only the function `f`. -/
def crate_borrow_array : Crate :=
  { m_crate_name := "demo"
    m_root_module := Module.mk
      [("f", { publicity := Publicity.global, ent := ValueItem.Function fn_borrow_array })] []
    m_type_impls := []
    m_trait_impls := []
    m_marker_impls := [] }

end Demo

/-- The path the callback hands out next for module `mod`: the current module
path followed by `lifted#<length of the module's list>`. -/
def next_lifted_path (this : OuterVisitor) (mod : ModulePtr) : SimplePath :=
  (this.m_current_module_path.add
    (lifted_name (new_statics_get this.m_new_statics mod).length)).get_simple_path

/-- The visitor after a static of type `ty` and initializer `val_expr` has been
appended to the list of module `mod`. -/
def with_new_static (this : OuterVisitor) (mod : ModulePtr) (ty : TypeRef) (val_expr : ExprPtr) :
    OuterVisitor :=
  let list := new_statics_get this.m_new_statics mod
  let entry := (next_lifted_path this mod, Static.new Linkage.new false ty val_expr)
  { this with m_new_statics := new_statics_set this.m_new_statics mod (list ++ [entry]) }

namespace Demo

/-- The visitor while the root module of crate `demo` is being walked. -/
def in_root_module : OuterVisitor :=
  { OuterVisitor.new with m_current_module := some [], m_current_module_path := ItemPath.crate "demo" }

/-- The static `demo::lifted#0` holding `[1, 2, 3]`, as queued by the callback. -/
def lifted0 : Static :=
  Static.new Linkage.new false ⟨10⟩ { node := array123, m_state := new_static_state root_state }

end Demo

/-! ## Vocabulary for the crate-level statements -/

/-- The path has been handed out by the callback: it is the path of a static
in one of the pending lists of the registry. -/
def allocated (reg : List (ModulePtr × List (SimplePath × Static))) (p : SimplePath) : Prop :=
  ∃ (M : ModulePtr) (st : Static), (p, st) ∈ new_statics_get reg M

/-- The node is a reference to a generated static, `G` being the paths of the
generated statics: a `PathValue` with target `STATIC` whose path is a plain
simple path in `G`. -/
def is_lifted_static_ref (G : SimplePath → Prop) : ExprNode → Prop
  | ExprNode.PathValue _ _ (Path.Generic p []) Target.STATIC => G p
  | _ => False

mutual
/-- Every borrow of the tree is in promoted form: the slot `value_ptr` of its
child holds a reference to a generated static (a path in `G`). -/
def promoted_form (G : SimplePath → Prop) : ExprNode → Prop
  | ExprNode.Borrow _ _ _ value => is_lifted_static_ref G (value_ptr value)
  | ExprNode.Composite _ _ _ children => promoted_form_list G children
  | ExprNode.Unsize _ _ value => promoted_form G value
  | ExprNode.Other _ _ _ children => promoted_form_list G children
  | _ => True
/-- The same for every tree of a list. -/
def promoted_form_list (G : SimplePath → Prop) : List ExprNode → Prop
  | [] => True
  | c :: cs => promoted_form G c ∧ promoted_form_list G cs
end

mutual
/-- No borrow of the tree is promoted by the rules of the specification. -/
def no_promotable (r : StaticTraitResolve) : ExprNode → Bool
  | ExprNode.Borrow _ _ bt value => !spec_promoted r bt value && no_promotable r value
  | ExprNode.Composite _ _ _ children => no_promotable_list r children
  | ExprNode.Unsize _ _ value => no_promotable r value
  | ExprNode.Other _ _ _ children => no_promotable_list r children
  | _ => true
/-- The same for every tree of a list. -/
def no_promotable_list (r : StaticTraitResolve) : List ExprNode → Bool
  | [] => true
  | c :: cs => no_promotable r c && no_promotable_list r cs
end

/-- The resolver reports every generated static (every path in `G`) as a
static, so neither as a constant nor as a function. -/
def reports_lifted_as_static (G : SimplePath → Prop) (r : StaticTraitResolve) : Prop :=
  ∀ (sp : Span) (p : SimplePath), G p →
    r.get_value sp (Path.ofSimplePath p) = ValueTag.Static

mutual
/-- The module with every item emptied: what is left is the names of the value
namespace and the tree of sub-modules, which the walk never changes. -/
def Module.erase : Module → Module
  | Module.mk m_value_items m_mod_items =>
    Module.mk
      (m_value_items.map (fun e => (e.1, { publicity := Publicity.none, ent := ValueItem.Import })))
      (erase_mod_items m_mod_items)
/-- The type namespace with every sub-module erased and every other item
replaced by `Import`. -/
def erase_mod_items : List (RcString × TypeItem) → List (RcString × TypeItem)
  | [] => []
  | (name, TypeItem.Module e) :: rest => (name, TypeItem.Module e.erase) :: erase_mod_items rest
  | (name, TypeItem.Enum _) :: rest => (name, TypeItem.Import) :: erase_mod_items rest
  | (name, TypeItem.Trait _) :: rest => (name, TypeItem.Import) :: erase_mod_items rest
  | (name, TypeItem.Other _ _) :: rest => (name, TypeItem.Import) :: erase_mod_items rest
  | (name, TypeItem.Import) :: rest => (name, TypeItem.Import) :: erase_mod_items rest
end

/-- The optional root expression has no promotable borrow for the resolver in
force under the generic blocks `ig` (impl) and `itg` (item). -/
def settled_expr (resolve : Resolver) (ig itg : Option GenericParams) (e : Option ExprPtr) : Prop :=
  ∀ v, e = some v → no_promotable (resolve ig itg) v.node = true

/-- The body of the function is settled in the context `visit_function` gives
it. -/
def Function.settled (resolve : Resolver) (ig : Option GenericParams) (f : Function) : Prop :=
  settled_expr resolve ig (some f.m_params) f.m_code

/-- Every variant expression of the enum is settled in the context
`visit_enum` gives it. -/
def Enum.settled (resolve : Resolver) (e : Enum) : Prop :=
  ∀ variants, e.m_data = some variants →
    ∀ var ∈ variants, settled_expr resolve (some e.m_params) none var.expr

/-- The size of an array type is settled under the generic blocks `ig` and
`itg`: when it is an unevaluated expression, that expression has no promotable
borrow. -/
def ArraySize.settled (resolve : Resolver) (ig itg : Option GenericParams) : ArraySize → Prop
  | ArraySize.Unevaluated (ConstGeneric.Unevaluated expr) =>
    no_promotable (resolve ig itg) expr.node = true
  | _ => True

mutual
/-- Every unevaluated array size inside the type is settled under the generic
blocks `ig` and `itg`. -/
def TypeData.settled (resolve : Resolver) (ig itg : Option GenericParams) : TypeData → Prop
  | TypeData.Array inner size => inner.settled resolve ig itg ∧ size.settled resolve ig itg
  | TypeData.Other _ inner => settled_types resolve ig itg inner
/-- The same for every type of a list. -/
def settled_types (resolve : Resolver) (ig itg : Option GenericParams) : List TypeData → Prop
  | [] => True
  | ty :: rest => ty.settled resolve ig itg ∧ settled_types resolve ig itg rest
end

/-- The expression of a value item of a trait is settled in the context the
module walk gives it. -/
def TraitValueItem.settled (resolve : Resolver) : TraitValueItem → Prop
  | TraitValueItem.Constant e => settled_expr resolve none none e.m_value
  | TraitValueItem.Static e => settled_expr resolve none none e.m_value
  | TraitValueItem.Function e => e.settled resolve none

/-- Every array size in the types of the trait and every root expression of
its value items is settled. -/
def Trait.settled (resolve : Resolver) (e : Trait) : Prop :=
  settled_types resolve none none e.m_head_types ∧ ∀ v ∈ e.m_values, v.2.settled resolve

/-- The expression of a value item of a module is settled in the context the
module walk gives it. -/
def ValueItem.settled (resolve : Resolver) : ValueItem → Prop
  | ValueItem.Constant e => settled_expr resolve none none e.m_value
  | ValueItem.Static e => settled_expr resolve none none e.m_value
  | ValueItem.Function e => e.settled resolve none
  | _ => True

mutual
/-- Every root expression of the module and of its sub-modules is settled. -/
def Module.settled (resolve : Resolver) : Module → Prop
  | Module.mk m_value_items m_mod_items =>
    (∀ e ∈ m_value_items, e.2.ent.settled resolve) ∧ settled_mod_items resolve m_mod_items
/-- Every root expression below a type namespace is settled. -/
def settled_mod_items (resolve : Resolver) : List (RcString × TypeItem) → Prop
  | [] => True
  | (_, TypeItem.Module e) :: rest => e.settled resolve ∧ settled_mod_items resolve rest
  | (_, TypeItem.Enum e) :: rest => e.settled resolve ∧ settled_mod_items resolve rest
  | (_, TypeItem.Trait e) :: rest => e.settled resolve ∧ settled_mod_items resolve rest
  | (_, TypeItem.Other _ m_types) :: rest =>
    settled_types resolve none none m_types ∧ settled_mod_items resolve rest
  | (_, TypeItem.Import) :: rest => settled_mod_items resolve rest
end

/-- Every root expression of the inherent impl is settled. -/
def TypeImpl.settled (resolve : Resolver) (impl : TypeImpl) : Prop :=
  settled_types resolve (some impl.m_params) none impl.m_head_types ∧
  (∀ e ∈ impl.m_methods, e.2.settled resolve (some impl.m_params)) ∧
  (∀ e ∈ impl.m_constants, settled_expr resolve (some impl.m_params) none e.2.m_value)

/-- Every root expression of the trait impl is settled. -/
def TraitImpl.settled (resolve : Resolver) (impl : TraitImpl) : Prop :=
  settled_types resolve (some impl.m_params) none impl.m_head_types ∧
  (∀ e ∈ impl.m_methods, e.2.settled resolve (some impl.m_params)) ∧
  (∀ e ∈ impl.m_constants, settled_expr resolve (some impl.m_params) none e.2.m_value) ∧
  (∀ e ∈ impl.m_statics, settled_expr resolve (some impl.m_params) none e.2.m_value) ∧
  (∀ e ∈ impl.m_types, e.2.settled resolve (some impl.m_params) none)

/-- Every root expression of the crate is settled: a walk finds nothing to
promote. -/
def Crate.settled (resolve : Resolver) (crate : Crate) : Prop :=
  crate.m_root_module.settled resolve ∧
  (∀ impl ∈ crate.m_type_impls, impl.settled resolve) ∧
  (∀ e ∈ crate.m_trait_impls, e.2.settled resolve) ∧
  (∀ e ∈ crate.m_marker_impls, settled_types resolve none none e.2.m_head_types)

/-- The visitor `a` has the context of `b` (generic blocks, current module and
its path), and every static pending in `b` is pending in `a`. -/
def same_context (a b : OuterVisitor) : Prop :=
  a.m_resolve_impl_generics = b.m_resolve_impl_generics ∧
  a.m_resolve_item_generics = b.m_resolve_item_generics ∧
  a.m_current_module = b.m_current_module ∧
  a.m_current_module_path = b.m_current_module_path ∧
  ∀ p, allocated b.m_new_statics p → allocated a.m_new_statics p

/-- State of `m_new_statics` during a run: one entry per module, the statics
of a module named `lifted#0`, `lifted#1`, ... in list order, built by
`HIR::Static(Linkage(), false, ty, val_expr)` from an initializer in promoted
form (its borrows refer to statics of the registry), and every module with an
entry satisfying `valid`. -/
def registry_ok (valid : ModulePtr → Prop) (reg : List (ModulePtr × List (SimplePath × Static))) :
    Prop :=
  (reg.map Prod.fst).Nodup ∧
  (∀ M list, (M, list) ∈ reg → valid M) ∧
  (∀ M idx P st, (new_statics_get reg M)[idx]? = some (P, st) →
    P.back = lifted_name idx ∧
      ∃ v, st = Static.new Linkage.new false st.m_type v ∧ promoted_form (allocated reg) v.node)

/-- The invariant of the visitor during the walk: the registry is in order and
the current module, if any, satisfies `valid`. -/
def visitor_ok (valid : ModulePtr → Prop) (this : OuterVisitor) : Prop :=
  registry_ok valid this.m_new_statics ∧ ∀ M, this.m_current_module = some M → valid M

/-- The resolver, under every pair of generic blocks, reports the statics the
registry `reg` holds as statics. -/
def resolver_reports_lifted_as_static (resolve : Resolver)
    (reg : List (ModulePtr × List (SimplePath × Static))) : Prop :=
  ∀ ig itg, reports_lifted_as_static (allocated reg) (resolve ig itg)

/-- The statics the pass generates for `crate`: the registry its walk leaves
behind (empty when the walk aborts). -/
def generated_statics (resolve : Resolver) (crate : Crate) :
    List (ModulePtr × List (SimplePath × Static)) :=
  match walk_crate resolve crate OuterVisitor.new with
  | Except.ok (_, this1) => this1.m_new_statics
  | Except.error _ => []

namespace Demo

/-- The function `f` once its borrow targets `demo::lifted#0`. -/
def fn_promoted : Function :=
  { m_params := ⟨0⟩, m_code := some { node := promoted_borrow_array, m_state := root_state } }

/-- The visitor after the walk of `crate_borrow_array`: one static is pending
for the root module, under the path `demo::lifted#0`. -/
def visitor_one_pending : OuterVisitor :=
  { OuterVisitor.new with
    m_new_statics := [([], [({ m_crate_name := "demo", m_components := ["lifted#0"] }, lifted0)])] }

/-- The crate `crate_borrow_array` after the pass: `f` refers to
`demo::lifted#0`, which holds the evaluated array. -/
def crate_borrow_array_done : Crate :=
  { m_crate_name := "demo"
    m_root_module := Module.mk
      [("f", { publicity := Publicity.global, ent := ValueItem.Function fn_promoted }),
       ("lifted#0", { publicity := Publicity.none,
                      ent := ValueItem.Static
                        { lifted0 with m_value_res := { bytes := [1, 2, 3] }
                                       m_value_generated := true } })] []
    m_type_impls := []
    m_trait_impls := []
    m_marker_impls := [] }

end Demo

namespace Demo

/-- The array literal `[4, 5]`, of type `⟨30⟩`. -/
def array45 : ExprNode :=
  ExprNode.Composite CompositeKind.ArrayList ⟨6⟩ ⟨30⟩
    [ExprNode.Literal ⟨7⟩ ⟨11⟩ 4, ExprNode.Literal ⟨8⟩ ⟨11⟩ 5]

/-- The function `fn g() { &[4, 5] }`. -/
def fn_borrow_array45 : Function :=
  { m_params := ⟨0⟩
    m_code := some
      { node := ExprNode.Borrow ⟨5⟩ ⟨32⟩ BorrowType.Shared array45, m_state := root_state } }

/-- The entry a run stores under `lifted#0` for the array `[1, 2, 3]` of `f`. -/
def stored_lifted0 : VisEnt :=
  { publicity := Publicity.none
    ent := ValueItem.Static
      { m_linkage := { name := "" }, m_is_mut := false, m_type := ⟨10⟩
        m_value := some { node := array123, m_state := new_static_state root_state }
        m_value_res := { bytes := [1, 2, 3] }, m_value_generated := true } }

end Demo

namespace Demo

/-- The function `fn d() { &[4, 5] }` once its borrow targets
`demo::lifted#1`. -/
def fn_promoted45_second : Function :=
  { m_params := ⟨0⟩
    m_code := some
      { node := ExprNode.Borrow ⟨5⟩ ⟨32⟩ BorrowType.Shared
          (ExprNode.PathValue ⟨6⟩ ⟨30⟩
            (Path.Generic { m_crate_name := "demo", m_components := ["lifted#1"] } [])
            Target.STATIC)
        m_state := root_state } }

/-- The crate `demo` whose root module holds a struct `S` with a field of an
array type whose size is the unevaluated expression `&[1, 2, 3]`, and a trait
`T` with a method `d` whose default body is `&[4, 5]`. -/
def crate_with_types : Crate :=
  { m_crate_name := "demo"
    m_root_module := Module.mk []
      [("S", TypeItem.Other 0
          [TypeData.Array (TypeData.Other 1 [])
            (ArraySize.Unevaluated (ConstGeneric.Unevaluated
              { node := shared_borrow_array, m_state := root_state }))]),
       ("T", TypeItem.Trait
          { m_head_types := []
            m_values := [("d", TraitValueItem.Function fn_borrow_array45)] })]
    m_type_impls := []
    m_trait_impls := []
    m_marker_impls := [] }

/-- The crate `crate_with_types` after the walk: the size expression of the
array type borrows `demo::lifted#0` and the body of `d` borrows
`demo::lifted#1`. -/
def crate_with_types_walked : Crate :=
  { m_crate_name := "demo"
    m_root_module := Module.mk []
      [("S", TypeItem.Other 0
          [TypeData.Array (TypeData.Other 1 [])
            (ArraySize.Unevaluated (ConstGeneric.Unevaluated
              { node := promoted_borrow_array, m_state := root_state }))]),
       ("T", TypeItem.Trait
          { m_head_types := []
            m_values := [("d", TraitValueItem.Function fn_promoted45_second)] })]
    m_type_impls := []
    m_trait_impls := []
    m_marker_impls := [] }

/-- The crate `crate_with_types` after the pass with an evaluator that returns
the bytes 1, 2, 3: the root module holds the two generated statics. -/
def crate_with_types_done : Crate :=
  { m_crate_name := "demo"
    m_root_module := Module.mk
      [("lifted#0", stored_lifted0),
       ("lifted#1",
        { publicity := Publicity.none
          ent := ValueItem.Static
            { m_linkage := { name := "" }, m_is_mut := false, m_type := ⟨30⟩
              m_value := some { node := array45, m_state := new_static_state root_state }
              m_value_res := { bytes := [1, 2, 3] }, m_value_generated := true } })]
      [("S", TypeItem.Other 0
          [TypeData.Array (TypeData.Other 1 [])
            (ArraySize.Unevaluated (ConstGeneric.Unevaluated
              { node := promoted_borrow_array, m_state := root_state }))]),
       ("T", TypeItem.Trait
          { m_head_types := []
            m_values := [("d", TraitValueItem.Function fn_promoted45_second)] })]
    m_type_impls := []
    m_trait_impls := []
    m_marker_impls := [] }

/-- The visitor after the walk of `crate_with_types`: two statics are pending
for the root module. -/
def visitor_two_pending : OuterVisitor :=
  { OuterVisitor.new with
    m_new_statics :=
      [([], [({ m_crate_name := "demo", m_components := ["lifted#0"] }, lifted0),
             ({ m_crate_name := "demo", m_components := ["lifted#1"] },
               { m_linkage := { name := "" }, m_is_mut := false, m_type := ⟨30⟩,
                 m_value := some { node := array45, m_state := new_static_state root_state },
                 m_value_res := { bytes := [] }, m_value_generated := false })])] }

end Demo

/-! ## Vocabulary for the frame statements -/

/-- The root expression with its tree blanked: what is left is its context. -/
def ExprPtr.blank (e : ExprPtr) : ExprPtr := { e with node := ExprNode.Literal ⟨0⟩ ⟨0⟩ 0 }

/-- The value item with every expression tree it owns blanked. -/
def ValueItem.skeleton : ValueItem → ValueItem
  | ValueItem.Constant e => ValueItem.Constant { e with m_value := e.m_value.map ExprPtr.blank }
  | ValueItem.Static e => ValueItem.Static { e with m_value := e.m_value.map ExprPtr.blank }
  | ValueItem.Function e => ValueItem.Function { e with m_code := e.m_code.map ExprPtr.blank }
  | other => other

/-- The enum with the expression tree of every variant blanked. -/
def Enum.skeleton (e : Enum) : Enum :=
  { e with
    m_data := e.m_data.map (List.map (fun var => { var with expr := var.expr.map ExprPtr.blank })) }

/-- The size of an array type with the tree of its expression blanked. -/
def ArraySize.skeleton : ArraySize → ArraySize
  | ArraySize.Unevaluated (ConstGeneric.Unevaluated expr) =>
    ArraySize.Unevaluated (ConstGeneric.Unevaluated expr.blank)
  | other => other

mutual
/-- The type with the expression tree of every array size blanked. -/
def TypeData.skeleton : TypeData → TypeData
  | TypeData.Array inner size => TypeData.Array inner.skeleton size.skeleton
  | TypeData.Other kind inner => TypeData.Other kind (skeleton_types inner)
/-- The same for every type of a list. -/
def skeleton_types : List TypeData → List TypeData
  | [] => []
  | ty :: rest => ty.skeleton :: skeleton_types rest
end

/-- The value item of a trait with every expression tree it owns blanked. -/
def TraitValueItem.skeleton : TraitValueItem → TraitValueItem
  | TraitValueItem.Constant e =>
    TraitValueItem.Constant { e with m_value := e.m_value.map ExprPtr.blank }
  | TraitValueItem.Static e =>
    TraitValueItem.Static { e with m_value := e.m_value.map ExprPtr.blank }
  | TraitValueItem.Function e =>
    TraitValueItem.Function { e with m_code := e.m_code.map ExprPtr.blank }

/-- The trait with every expression tree it owns blanked. -/
def Trait.skeleton (e : Trait) : Trait :=
  { m_head_types := skeleton_types e.m_head_types
    m_values := e.m_values.map (fun v => (v.1, v.2.skeleton)) }

mutual
/-- The item namespaces of a module and of the modules below it, every
expression tree blanked: names, order, visibility, item kinds, types, generic
blocks, linkage, flags, evaluated values and expression contexts are kept. -/
def Module.skeleton : Module → Module
  | Module.mk m_value_items m_mod_items =>
    Module.mk (m_value_items.map (fun e => (e.1, { e.2 with ent := e.2.ent.skeleton })))
      (skeleton_mod_items m_mod_items)
/-- The same for a type namespace. -/
def skeleton_mod_items : List (RcString × TypeItem) → List (RcString × TypeItem)
  | [] => []
  | (name, TypeItem.Module e) :: rest => (name, TypeItem.Module e.skeleton) :: skeleton_mod_items rest
  | (name, TypeItem.Enum e) :: rest => (name, TypeItem.Enum e.skeleton) :: skeleton_mod_items rest
  | (name, TypeItem.Trait e) :: rest => (name, TypeItem.Trait e.skeleton) :: skeleton_mod_items rest
  | (name, TypeItem.Other kind m_types) :: rest =>
    (name, TypeItem.Other kind (skeleton_types m_types)) :: skeleton_mod_items rest
  | (name, TypeItem.Import) :: rest => (name, TypeItem.Import) :: skeleton_mod_items rest
end

/-! ## Vocabulary for the per-node reports -/

/-- The child slots of a node, in the order the default visitor hands them to
`visit_node_ptr`. -/
def ExprNode.children : ExprNode → List ExprNode
  | ExprNode.Composite _ _ _ children => children
  | ExprNode.Unsize _ _ value => [value]
  | ExprNode.Borrow _ _ _ value => [value]
  | ExprNode.Other _ _ _ children => children
  | _ => []

/-- The node is of one of the classes `ArraySized`, `ArrayList`,
`StructLiteral`, `TupleVariant`, `Tuple`, `Field`, `Cast` or `Unsize`, whose
override ends with `m_is_constant = m_all_constant` (lines 127-161). -/
def ExprNode.is_composite : ExprNode → Bool
  | ExprNode.Composite _ _ _ _ => true
  | ExprNode.Unsize _ _ _ => true
  | _ => false

/-- The is-constant results the classifier reports for the children of a node
entered in state `s`, in visiting order: the value of `m_is_constant` when
`node->visit(*this)` returns inside `visit_node_ptr` (line 64), before line 69
clears it. Nothing is reported after a child whose visit aborts. -/
def children_reports {σ : Type} (m_resolve : StaticTraitResolve)
    (m_new_static_cb : t_new_static_cb σ) (m_expr_ptr_state : ExprState) :
    List ExprNode → ExprVisitor_Mutate σ → List Bool
  | [], _ => []
  | c :: cs, s =>
    match visit m_resolve m_new_static_cb m_expr_ptr_state c (node_ptr_enter s) with
    | Except.error _ => []
    | Except.ok (_, s1) =>
      s1.m_is_constant ::
        children_reports m_resolve m_new_static_cb m_expr_ptr_state cs (node_ptr_leave s1)

namespace Demo

/-- An inherent impl block without members, written in the root module of
crate `demo`. -/
def impl_in_root : TypeImpl :=
  { m_params := ⟨0⟩, m_head_types := [TypeData.Other 40 []],
    m_src_module := { m_crate_name := "demo", m_components := [] },
    m_methods := [], m_constants := [] }

/-- An inherent impl block without members, written in the module `demo::a`. -/
def impl_in_a : TypeImpl :=
  { m_params := ⟨0⟩, m_head_types := [TypeData.Other 41 []],
    m_src_module := { m_crate_name := "demo", m_components := ["a"] },
    m_methods := [], m_constants := [] }

/-- A trait impl block without members, written in the root module of crate
`demo`. -/
def trait_impl_in_root : TraitImpl :=
  { m_params := ⟨0⟩, m_head_types := [TypeData.Other 40 []],
    m_src_module := { m_crate_name := "demo", m_components := [] },
    m_methods := [], m_constants := [], m_statics := [], m_types := [] }

/-- The crate `demo` with an empty sub-module `a` and the two inherent impl
blocks `impl_in_root` and `impl_in_a`. -/
def crate_two_impls : Crate :=
  { m_crate_name := "demo"
    m_root_module := Module.mk [] [("a", TypeItem.Module (Module.mk [] []))]
    m_type_impls := [impl_in_root, impl_in_a]
    m_trait_impls := []
    m_marker_impls := [] }

/-- The visitor after the crate walk has visited `impl_in_root`. -/
def after_impl_in_root : OuterVisitor :=
  { OuterVisitor.new with
    m_current_module_path := ItemPath.wrapped { m_crate_name := "demo", m_components := [] } }

/-- The visitor after the crate walk has visited `impl_in_a`. -/
def after_impl_in_a : OuterVisitor :=
  { OuterVisitor.new with
    m_current_module_path := ItemPath.wrapped { m_crate_name := "demo", m_components := ["a"] } }

end Demo

mutual
/-- The tree contains no `Borrow` node of kind `Shared`. -/
def no_shared_borrow : ExprNode → Bool
  | ExprNode.Borrow _ _ bt value => decide (bt ≠ BorrowType.Shared) && no_shared_borrow value
  | ExprNode.Composite _ _ _ children => no_shared_borrow_list children
  | ExprNode.Unsize _ _ value => no_shared_borrow value
  | ExprNode.Other _ _ _ children => no_shared_borrow_list children
  | _ => true
/-- The same for every tree of a list. -/
def no_shared_borrow_list : List ExprNode → Bool
  | [] => true
  | c :: cs => no_shared_borrow c && no_shared_borrow_list cs
end

namespace Demo

/-- A resolver for which only the array type `⟨10⟩` is known to be neither
generic nor interior-mutable: every other type is generic and possibly
interior-mutable. -/
def only_array_type : StaticTraitResolve :=
  { monomorphise_type_needed := fun ty => decide (ty ≠ ⟨10⟩)
    monomorphise_path_needed := fun _ => false
    type_is_interior_mutable := fun _ ty => if ty = ⟨10⟩ then Compare.Unequal else Compare.Fuzzy
    get_value := fun _ _ => ValueTag.Static }

/-- The expression `&[1, 2, 3]` coerced to a slice: the borrow's child is an
`Unsize` node (of the slice type `⟨13⟩`) around the array. -/
def borrow_unsize_array : ExprNode :=
  ExprNode.Borrow ⟨0⟩ ⟨14⟩ BorrowType.Shared (ExprNode.Unsize ⟨5⟩ ⟨13⟩ array123)

/-- The same expression after promotion: the `Unsize` node is kept around the
reference to `demo::lifted#0`. -/
def promoted_borrow_unsize_array : ExprNode :=
  ExprNode.Borrow ⟨0⟩ ⟨14⟩ BorrowType.Shared
    (ExprNode.Unsize ⟨5⟩ ⟨13⟩
      (ExprNode.PathValue ⟨1⟩ ⟨10⟩
        (Path.Generic { m_crate_name := "demo", m_components := ["lifted#0"] } []) Target.STATIC))

end Demo

/-! ## Vocabulary for the statics a run creates -/

mutual
/-- Every reference to a generated static in the tree names a path in `G`: a
reference to a generated static is a `PathValue` node whose path is a simple
path (with or without parameters) ending in a generated name `lifted#<k>`. -/
def refs_in (G : SimplePath → Prop) : ExprNode → Prop
  | ExprNode.PathValue _ _ (Path.Generic p _) _ => (∃ k : Nat, p.back = lifted_name k) → G p
  | ExprNode.Composite _ _ _ children => refs_in_list G children
  | ExprNode.Unsize _ _ value => refs_in G value
  | ExprNode.Borrow _ _ _ value => refs_in G value
  | ExprNode.Other _ _ _ children => refs_in_list G children
  | _ => True
/-- The same for every tree of a list. -/
def refs_in_list (G : SimplePath → Prop) : List ExprNode → Prop
  | [] => True
  | c :: cs => refs_in G c ∧ refs_in_list G cs
end

/-- The static `st` is one a promotion creates for a root expression whose
context is `origin`: immutable, with default linkage, and with an initializer
whose context has the module, module path, trait list, impl generics and item
generics of `origin` and the stage `Typecheck`. -/
def created_for (origin : ExprState) (st : Static) : Prop :=
  st.m_is_mut = false ∧ st.m_linkage = Linkage.new ∧
    ∃ v, st.m_value = some v ∧
      v.m_state.m_module = origin.m_module ∧
      v.m_state.m_mod_path = origin.m_mod_path ∧
      v.m_state.m_traits = origin.m_traits ∧
      v.m_state.m_impl_generics = origin.m_impl_generics ∧
      v.m_state.m_item_generics = origin.m_item_generics ∧
      v.m_state.stage = Stage.Typecheck

namespace Demo

/-- The root expression `&[1, 2, 3]` of an item of the root module of `demo`,
with a context still in stage `SbcRequest` and some traits in scope. -/
def root_borrow_array : ExprPtr :=
  { node := shared_borrow_array
    m_state :=
      { m_module := [], m_mod_path := { m_crate_name := "demo", m_components := [] },
        m_traits := [{ m_crate_name := "core", m_components := ["clone", "Clone"] }],
        m_impl_generics := none, m_item_generics := some ⟨7⟩, stage := Stage.SbcRequest } }

end Demo

/-! ## Vocabulary for the order of the pending lists -/

namespace Demo

/-- The expression `&[&1]`: a shared borrow of an array holding a shared borrow
of a literal. -/
def nested_borrow : ExprNode :=
  ExprNode.Borrow ⟨0⟩ ⟨22⟩ BorrowType.Shared
    (ExprNode.Composite CompositeKind.ArrayList ⟨1⟩ ⟨21⟩
      [ExprNode.Borrow ⟨2⟩ ⟨20⟩ BorrowType.Shared (ExprNode.Literal ⟨3⟩ ⟨11⟩ 1)])

end Demo

namespace Demo

/-- The static queued for the inner borrow of `&[&1]`: it holds the literal
`1`. -/
def nested_lifted0 : Static :=
  Static.new Linkage.new false ⟨11⟩
    { node := ExprNode.Literal ⟨3⟩ ⟨11⟩ 1, m_state := new_static_state root_state }

/-- The static queued for the outer borrow of `&[&1]`: it holds the array whose
element borrows `demo::lifted#0`. -/
def nested_lifted1 : Static :=
  Static.new Linkage.new false ⟨21⟩
    { node := ExprNode.Composite CompositeKind.ArrayList ⟨1⟩ ⟨21⟩
        [ExprNode.Borrow ⟨2⟩ ⟨20⟩ BorrowType.Shared
          (ExprNode.PathValue ⟨3⟩ ⟨11⟩
            (Path.Generic { m_crate_name := "demo", m_components := ["lifted#0"] } [])
            Target.STATIC)]
      m_state := new_static_state root_state }

/-- The pending list of the root module after the walk of `crate_nested_borrow`:
`demo::lifted#0`, then `demo::lifted#1`. -/
def nested_pending : List (SimplePath × Static) :=
  [({ m_crate_name := "demo", m_components := ["lifted#0"] }, nested_lifted0),
   ({ m_crate_name := "demo", m_components := ["lifted#1"] }, nested_lifted1)]

end Demo

/-! ## Vocabulary for the per-expression entry point -/

/-- The tree contains a borrow that meets every promotion condition of the
specification: its child is constant by the per-kind rules, the type of the
borrowed value is not generic, the borrow is shared, and the resolver reports
the type as definitely not interior-mutable. -/
def has_promotable_borrow (r : StaticTraitResolve) (n : ExprNode) : Prop :=
  ∃ sp ty bt value, ExprNode.Borrow sp ty bt value ∈ subnodes n ∧ spec_promoted r bt value = true

/-! ## Vocabulary for the typing of the rewritten tree -/

/-- The node `n1` is a replacement for the subtree `n`: a single `PathValue`
node with target `STATIC`, with the span and the resolved type of `n`, whose
path names a static that `G` reports as declared with that type. -/
def is_replacement (G : SimplePath → TypeRef → Prop) (n n1 : ExprNode) : Prop :=
  ∃ p, n1 = ExprNode.PathValue n.span n.res_type (Path.ofSimplePath p) Target.STATIC ∧
    G p n.res_type

mutual
/-- The tree `n1` is the tree `n` with some subtrees replaced by single
`PathValue` nodes: at every node, either the subtree is replaced (by a node of
its span and resolved type, naming a static of that declared type), or the
node survives with its kind, span, resolved type and other fields, its
children being related in the same way, one by one. -/
def rewritten (G : SimplePath → TypeRef → Prop) : ExprNode → ExprNode → Prop
  | ExprNode.Literal sp ty d, n1 =>
    is_replacement G (ExprNode.Literal sp ty d) n1 ∨ n1 = ExprNode.Literal sp ty d
  | ExprNode.UnitVariant sp ty p, n1 =>
    is_replacement G (ExprNode.UnitVariant sp ty p) n1 ∨ n1 = ExprNode.UnitVariant sp ty p
  | ExprNode.PathValue sp ty p t, n1 =>
    is_replacement G (ExprNode.PathValue sp ty p t) n1 ∨ n1 = ExprNode.PathValue sp ty p t
  | ExprNode.Composite k sp ty children, n1 =>
    is_replacement G (ExprNode.Composite k sp ty children) n1 ∨
      ∃ children1, n1 = ExprNode.Composite k sp ty children1 ∧ rewritten_list G children children1
  | ExprNode.Unsize sp ty value, n1 =>
    is_replacement G (ExprNode.Unsize sp ty value) n1 ∨
      ∃ value1, n1 = ExprNode.Unsize sp ty value1 ∧ rewritten G value value1
  | ExprNode.Borrow sp ty bt value, n1 =>
    is_replacement G (ExprNode.Borrow sp ty bt value) n1 ∨
      ∃ value1, n1 = ExprNode.Borrow sp ty bt value1 ∧ rewritten G value value1
  | ExprNode.Other kind sp ty children, n1 =>
    is_replacement G (ExprNode.Other kind sp ty children) n1 ∨
      ∃ children1, n1 = ExprNode.Other kind sp ty children1 ∧ rewritten_list G children children1
/-- The same for two lists of children, one by one. -/
def rewritten_list (G : SimplePath → TypeRef → Prop) : List ExprNode → List ExprNode → Prop
  | [], l => l = []
  | c :: cs, l => ∃ c1 cs1, l = c1 :: cs1 ∧ rewritten G c c1 ∧ rewritten_list G cs cs1
end

/-- The registry holds a pending static under the path `p` whose declared type
is `ty`. -/
def declared_in (reg : List (ModulePtr × List (SimplePath × Static))) (p : SimplePath)
    (ty : TypeRef) : Prop :=
  ∃ (M : ModulePtr) (st : Static), (p, st) ∈ new_statics_get reg M ∧ st.m_type = ty

/-! # Theorems -/

/-! ## Unfolding and structural lemmas of the classifier -/

section Classifier

variable {σ : Type}

theorem visit_Borrow_eq (r : StaticTraitResolve) (cb : t_new_static_cb σ) (st : ExprState)
    (sp : Span) (ty : TypeRef) (bt : BorrowType) (v : ExprNode) (s : ExprVisitor_Mutate σ) :
    visit r cb st (ExprNode.Borrow sp ty bt v) s =
      match visit_node_ptr r cb st v { s with m_all_constant := true } with
      | Except.error e => Except.error e
      | Except.ok (v1, s1) =>
        match visit_Borrow_inner r cb st bt v1 s1 with
        | Except.error e => Except.error e
        | Except.ok (v2, s2) =>
          Except.ok (ExprNode.Borrow sp ty bt v2, { s2 with m_all_constant := s.m_all_constant }) := by
  rw [visit]; rfl

theorem visit_children_cons (r : StaticTraitResolve) (cb : t_new_static_cb σ) (st : ExprState)
    (c : ExprNode) (cs : List ExprNode) (s : ExprVisitor_Mutate σ) :
    visit_children r cb st (c :: cs) s =
      match visit_node_ptr r cb st c s with
      | Except.error e => Except.error e
      | Except.ok (c1, s1) =>
        match visit_children r cb st cs s1 with
        | Except.error e => Except.error e
        | Except.ok (cs1, s2) => Except.ok (c1 :: cs1, s2) := by
  rw [visit_children]; rfl

/-- Induction on expression trees, the hypothesis for a node with a list of
children being available for every member of the list. -/
theorem ExprNode.induct {P : ExprNode → Prop}
    (lit : ∀ sp ty d, P (ExprNode.Literal sp ty d))
    (unit : ∀ sp ty p, P (ExprNode.UnitVariant sp ty p))
    (path : ∀ sp ty p t, P (ExprNode.PathValue sp ty p t))
    (comp : ∀ k sp ty cs, (∀ c ∈ cs, P c) → P (ExprNode.Composite k sp ty cs))
    (unsize : ∀ sp ty v, P v → P (ExprNode.Unsize sp ty v))
    (borrow : ∀ sp ty bt v, P v → P (ExprNode.Borrow sp ty bt v))
    (other : ∀ kind sp ty cs, (∀ c ∈ cs, P c) → P (ExprNode.Other kind sp ty cs)) :
    ∀ n, P n := by
  intro n
  refine @ExprNode.rec P (fun cs => ∀ c ∈ cs, P c) lit unit path ?_ ?_ ?_ ?_ ?_ ?_ n
  · intro k sp ty cs ih; exact comp k sp ty cs ih
  · intro sp ty v ih; exact unsize sp ty v ih
  · intro sp ty bt v ih; exact borrow sp ty bt v ih
  · intro kind sp ty cs ih; exact other kind sp ty cs ih
  · intro c hc; cases hc
  · intro head tail ih1 ih2 c hc
    rcases List.mem_cons.mp hc with h | h
    · subst h; exact ih1
    · exact ih2 c h

end Classifier

section Classifier

variable {σ : Type}

theorem node_ptr_result_ok {x : Except Error (ExprNode × ExprVisitor_Mutate σ)}
    {n : ExprNode} {s : ExprVisitor_Mutate σ} (h : node_ptr_result x = Except.ok (n, s)) :
    ∃ s0, x = Except.ok (n, s0) ∧ s = node_ptr_leave s0 := by
  cases x with
  | error e => simp [node_ptr_result] at h
  | ok v =>
    obtain ⟨n0, s0⟩ := v
    simp only [node_ptr_result, Except.ok.injEq, Prod.mk.injEq] at h
    exact ⟨s0, by rw [h.1], h.2.symm⟩

theorem visit_node_ptr_ok {r : StaticTraitResolve} {cb : t_new_static_cb σ} {st : ExprState}
    {n n1 : ExprNode} {s s1 : ExprVisitor_Mutate σ}
    (h : visit_node_ptr r cb st n s = Except.ok (n1, s1)) :
    ∃ s0, visit r cb st n (node_ptr_enter s) = Except.ok (n1, s0) ∧ s1 = node_ptr_leave s0 :=
  node_ptr_result_ok h

theorem node_ptr_leave_is_constant (s : ExprVisitor_Mutate σ) :
    (node_ptr_leave s).m_is_constant = false := by
  simp [node_ptr_leave]

theorem node_ptr_leave_all_constant (s : ExprVisitor_Mutate σ) :
    (node_ptr_leave s).m_all_constant = (s.m_all_constant && s.m_is_constant) := by
  cases h : s.m_is_constant <;> simp [node_ptr_leave, h]

theorem node_ptr_leave_env (s : ExprVisitor_Mutate σ) : (node_ptr_leave s).env = s.env := by
  cases h : s.m_is_constant <;> simp [node_ptr_leave, h]

theorem node_ptr_leave_im_queries (s : ExprVisitor_Mutate σ) :
    (node_ptr_leave s).im_queries = s.im_queries := by
  cases h : s.m_is_constant <;> simp [node_ptr_leave, h]

/-- Every outcome of `visit_children` on a non-empty list decomposes into the
outcome for the head and the outcome for the tail. -/
theorem visit_children_cons_ok {r : StaticTraitResolve} {cb : t_new_static_cb σ} {st : ExprState}
    {c : ExprNode} {cs out : List ExprNode} {s s2 : ExprVisitor_Mutate σ}
    (h : visit_children r cb st (c :: cs) s = Except.ok (out, s2)) :
    ∃ c1 cs1 s1, visit_node_ptr r cb st c s = Except.ok (c1, s1) ∧
      visit_children r cb st cs s1 = Except.ok (cs1, s2) ∧ out = c1 :: cs1 := by
  rw [visit_children_cons] at h
  cases h1 : visit_node_ptr r cb st c s with
  | error e => simp [h1] at h
  | ok v =>
    obtain ⟨c1, s1⟩ := v
    simp only [h1] at h
    cases h2 : visit_children r cb st cs s1 with
    | error e => simp [h2] at h
    | ok w =>
      obtain ⟨cs1, s3⟩ := w
      simp only [h2, Except.ok.injEq, Prod.mk.injEq] at h
      obtain ⟨rfl, rfl⟩ := h
      exact ⟨c1, cs1, s1, rfl, h2, rfl⟩

/-- What `visit_Borrow_inner` returns, by cases on the three gates. -/
theorem visit_Borrow_inner_not_all_constant (r : StaticTraitResolve) (cb : t_new_static_cb σ)
    (st : ExprState) (bt : BorrowType) (value : ExprNode) (s : ExprVisitor_Mutate σ)
    (h : s.m_all_constant = false) :
    visit_Borrow_inner r cb st bt value s = Except.ok (value, s) := by
  simp [visit_Borrow_inner, h]

theorem visit_Borrow_inner_generic (r : StaticTraitResolve) (cb : t_new_static_cb σ)
    (st : ExprState) (bt : BorrowType) (value : ExprNode) (s : ExprVisitor_Mutate σ)
    (h : r.monomorphise_type_needed (value_ptr value).res_type = true) :
    visit_Borrow_inner r cb st bt value s = Except.ok (value, s) := by
  simp [visit_Borrow_inner, h]

theorem visit_Borrow_inner_not_shared (r : StaticTraitResolve) (cb : t_new_static_cb σ)
    (st : ExprState) (bt : BorrowType) (value : ExprNode) (s : ExprVisitor_Mutate σ)
    (h : bt ≠ BorrowType.Shared) :
    visit_Borrow_inner r cb st bt value s = Except.ok (value, s) := by
  simp [visit_Borrow_inner, h]

theorem visit_Borrow_inner_interior_mutable (r : StaticTraitResolve) (cb : t_new_static_cb σ)
    (st : ExprState) (bt : BorrowType) (value : ExprNode) (s : ExprVisitor_Mutate σ)
    (hall : s.m_all_constant = true)
    (hgen : r.monomorphise_type_needed (value_ptr value).res_type = false)
    (hbt : bt = BorrowType.Shared)
    (h : r.type_is_interior_mutable (value_ptr value).span (value_ptr value).res_type ≠ Compare.Unequal) :
    visit_Borrow_inner r cb st bt value s =
      Except.ok (value, { s with im_queries :=
        s.im_queries ++ [((value_ptr value).span, (value_ptr value).res_type)] }) := by
  simp [visit_Borrow_inner, hall, hgen, hbt, h]

theorem visit_Borrow_inner_promote (r : StaticTraitResolve) (cb : t_new_static_cb σ)
    (st : ExprState) (bt : BorrowType) (value : ExprNode) (s : ExprVisitor_Mutate σ)
    (hall : s.m_all_constant = true)
    (hgen : r.monomorphise_type_needed (value_ptr value).res_type = false)
    (hbt : bt = BorrowType.Shared)
    (h : r.type_is_interior_mutable (value_ptr value).span (value_ptr value).res_type = Compare.Unequal) :
    visit_Borrow_inner r cb st bt value s =
      match cb s.env (value_ptr value).span (value_ptr value).res_type
          { node := value_ptr value, m_state := new_static_state st } with
      | Except.error e => Except.error e
      | Except.ok (path, env1) =>
        Except.ok (set_value_ptr value
            (ExprNode.PathValue (value_ptr value).span (value_ptr value).res_type
              (Path.ofSimplePath path) Target.STATIC),
          { m_is_constant := true, m_all_constant := s.m_all_constant, env := env1,
            im_queries := s.im_queries ++ [((value_ptr value).span, (value_ptr value).res_type)] }) := by
  simp only [visit_Borrow_inner, hall, hgen, hbt, h]
  simp

end Classifier

section ClassifierShape

variable {σ : Type}

theorem set_value_ptr_span_res_type (value n : ExprNode) (hs : n.span = (value_ptr value).span)
    (ht : n.res_type = (value_ptr value).res_type) :
    (set_value_ptr value n).span = value.span ∧ (set_value_ptr value n).res_type = value.res_type := by
  cases value <;> simp_all [set_value_ptr, value_ptr, ExprNode.span, ExprNode.res_type]

/-- The slot content returned by `visit_Borrow_inner` has the span and type of
the content it was given. -/
theorem visit_Borrow_inner_shape {r : StaticTraitResolve} {cb : t_new_static_cb σ}
    {st : ExprState} {bt : BorrowType} {value value2 : ExprNode} {s s2 : ExprVisitor_Mutate σ}
    (h : visit_Borrow_inner r cb st bt value s = Except.ok (value2, s2)) :
    value2.span = value.span ∧ value2.res_type = value.res_type := by
  by_cases hall : s.m_all_constant = true
  · by_cases hgen : r.monomorphise_type_needed (value_ptr value).res_type = true
    · rw [visit_Borrow_inner_generic r cb st bt value s hgen] at h
      simp only [Except.ok.injEq, Prod.mk.injEq] at h; rw [← h.1]; exact ⟨rfl, rfl⟩
    · by_cases hbt : bt = BorrowType.Shared
      · by_cases him : r.type_is_interior_mutable (value_ptr value).span (value_ptr value).res_type
            = Compare.Unequal
        · rw [visit_Borrow_inner_promote r cb st bt value s hall (by simpa using hgen) hbt him] at h
          split at h
          · simp at h
          · simp only [Except.ok.injEq, Prod.mk.injEq] at h
            rw [← h.1]
            exact set_value_ptr_span_res_type _ _ rfl rfl
        · rw [visit_Borrow_inner_interior_mutable r cb st bt value s hall (by simpa using hgen) hbt him]
            at h
          simp only [Except.ok.injEq, Prod.mk.injEq] at h; rw [← h.1]; exact ⟨rfl, rfl⟩
      · rw [visit_Borrow_inner_not_shared r cb st bt value s hbt] at h
        simp only [Except.ok.injEq, Prod.mk.injEq] at h; rw [← h.1]; exact ⟨rfl, rfl⟩
  · rw [visit_Borrow_inner_not_all_constant r cb st bt value s (by simpa using hall)] at h
    simp only [Except.ok.injEq, Prod.mk.injEq] at h; rw [← h.1]; exact ⟨rfl, rfl⟩

/-- The classifier never changes the class, span or type of the node it is
called on. -/
theorem visit_shape {r : StaticTraitResolve} {cb : t_new_static_cb σ} {st : ExprState}
    {n n1 : ExprNode} {s s1 : ExprVisitor_Mutate σ}
    (h : visit r cb st n s = Except.ok (n1, s1)) :
    n1.span = n.span ∧ n1.res_type = n.res_type := by
  cases n with
  | Literal sp ty d =>
    simp only [visit, Except.ok.injEq, Prod.mk.injEq] at h; rw [← h.1]; exact ⟨rfl, rfl⟩
  | UnitVariant sp ty p =>
    simp only [visit, Except.ok.injEq, Prod.mk.injEq] at h; rw [← h.1]; exact ⟨rfl, rfl⟩
  | PathValue sp ty p t =>
    rw [visit] at h
    split at h
    · split at h <;>
        (simp only [Except.ok.injEq, Prod.mk.injEq] at h; rw [← h.1]; exact ⟨rfl, rfl⟩)
    · split at h <;>
        (simp only [Except.ok.injEq, Prod.mk.injEq] at h; rw [← h.1]; exact ⟨rfl, rfl⟩)
    · simp only [Except.ok.injEq, Prod.mk.injEq] at h; rw [← h.1]; exact ⟨rfl, rfl⟩
  | Composite k sp ty cs =>
    rw [visit] at h
    split at h
    · simp at h
    · simp only [Except.ok.injEq, Prod.mk.injEq] at h; rw [← h.1]; exact ⟨rfl, rfl⟩
  | Unsize sp ty v =>
    rw [visit] at h
    split at h
    · simp at h
    · simp only [Except.ok.injEq, Prod.mk.injEq] at h; rw [← h.1]; exact ⟨rfl, rfl⟩
  | Borrow sp ty bt v =>
    rw [visit] at h
    split at h
    · simp at h
    · split at h
      · simp at h
      · simp only [Except.ok.injEq, Prod.mk.injEq] at h; rw [← h.1]; exact ⟨rfl, rfl⟩
  | Other kind sp ty cs =>
    rw [visit] at h
    split at h
    · simp at h
    · simp only [Except.ok.injEq, Prod.mk.injEq] at h; rw [← h.1]; exact ⟨rfl, rfl⟩

theorem visit_node_ptr_shape {r : StaticTraitResolve} {cb : t_new_static_cb σ} {st : ExprState}
    {n n1 : ExprNode} {s s1 : ExprVisitor_Mutate σ}
    (h : visit_node_ptr r cb st n s = Except.ok (n1, s1)) :
    n1.span = n.span ∧ n1.res_type = n.res_type := by
  obtain ⟨s0, h0, _⟩ := visit_node_ptr_ok h
  exact visit_shape h0

/-- The slot `value_ptr` of a visited node keeps its span and type as well:
an `Unsize` stays an `Unsize` and its operand keeps span and type. -/
theorem visit_value_ptr_shape {r : StaticTraitResolve} {cb : t_new_static_cb σ} {st : ExprState}
    {n n1 : ExprNode} {s s1 : ExprVisitor_Mutate σ}
    (h : visit r cb st n s = Except.ok (n1, s1)) :
    (value_ptr n1).span = (value_ptr n).span ∧ (value_ptr n1).res_type = (value_ptr n).res_type := by
  cases n with
  | Unsize sp ty v =>
    rw [visit] at h
    split at h
    · simp at h
    · rename_i v1 s2 hv
      simp only [Except.ok.injEq, Prod.mk.injEq] at h
      rw [← h.1]
      obtain ⟨s0, h0, _⟩ := node_ptr_result_ok hv
      exact visit_shape h0
  | Literal sp ty d =>
    simp only [visit, Except.ok.injEq, Prod.mk.injEq] at h; rw [← h.1]; exact ⟨rfl, rfl⟩
  | UnitVariant sp ty p =>
    simp only [visit, Except.ok.injEq, Prod.mk.injEq] at h; rw [← h.1]; exact ⟨rfl, rfl⟩
  | PathValue sp ty p t =>
    rw [visit] at h
    split at h
    · split at h <;>
        (simp only [Except.ok.injEq, Prod.mk.injEq] at h; rw [← h.1]; exact ⟨rfl, rfl⟩)
    · split at h <;>
        (simp only [Except.ok.injEq, Prod.mk.injEq] at h; rw [← h.1]; exact ⟨rfl, rfl⟩)
    · simp only [Except.ok.injEq, Prod.mk.injEq] at h; rw [← h.1]; exact ⟨rfl, rfl⟩
  | Composite k sp ty cs =>
    rw [visit] at h
    split at h
    · simp at h
    · simp only [Except.ok.injEq, Prod.mk.injEq] at h; rw [← h.1]; exact ⟨rfl, rfl⟩
  | Borrow sp ty bt v =>
    rw [visit] at h
    split at h
    · simp at h
    · split at h
      · simp at h
      · simp only [Except.ok.injEq, Prod.mk.injEq] at h; rw [← h.1]; exact ⟨rfl, rfl⟩
  | Other kind sp ty cs =>
    rw [visit] at h
    split at h
    · simp at h
    · simp only [Except.ok.injEq, Prod.mk.injEq] at h; rw [← h.1]; exact ⟨rfl, rfl⟩

theorem visit_node_ptr_value_ptr_shape {r : StaticTraitResolve} {cb : t_new_static_cb σ}
    {st : ExprState} {n n1 : ExprNode} {s s1 : ExprVisitor_Mutate σ}
    (h : visit_node_ptr r cb st n s = Except.ok (n1, s1)) :
    (value_ptr n1).span = (value_ptr n).span ∧ (value_ptr n1).res_type = (value_ptr n).res_type := by
  obtain ⟨s0, h0, _⟩ := visit_node_ptr_ok h
  exact visit_value_ptr_shape h0

theorem spec_gates_pass_congr (r : StaticTraitResolve) (bt : BorrowType) {a b : ExprNode}
    (hs : a.span = b.span) (ht : a.res_type = b.res_type) :
    spec_gates_pass r bt a = spec_gates_pass r bt b := by
  simp [spec_gates_pass, hs, ht]

end ClassifierShape

section ClassifierFlags

variable {σ : Type}

/-- Flags after `visit_Borrow_inner`: `m_all_constant` is untouched and the
borrow is reported constant exactly when its child was constant and the three
gates pass on the borrowed value. -/
theorem visit_Borrow_inner_flags {r : StaticTraitResolve} {cb : t_new_static_cb σ}
    {st : ExprState} {bt : BorrowType} {value value2 : ExprNode} {s s2 : ExprVisitor_Mutate σ}
    (h : visit_Borrow_inner r cb st bt value s = Except.ok (value2, s2))
    (his : s.m_is_constant = false) :
    s2.m_all_constant = s.m_all_constant ∧
      s2.m_is_constant = (s.m_all_constant && spec_gates_pass r bt (value_ptr value)) := by
  by_cases hall : s.m_all_constant = true
  · by_cases hgen : r.monomorphise_type_needed (value_ptr value).res_type = true
    · rw [visit_Borrow_inner_generic r cb st bt value s hgen] at h
      simp only [Except.ok.injEq, Prod.mk.injEq] at h
      rw [← h.2]; simp [spec_gates_pass, hgen, his]
    · by_cases hbt : bt = BorrowType.Shared
      · by_cases him : r.type_is_interior_mutable (value_ptr value).span (value_ptr value).res_type
            = Compare.Unequal
        · rw [visit_Borrow_inner_promote r cb st bt value s hall (by simpa using hgen) hbt him] at h
          split at h
          · simp at h
          · simp only [Except.ok.injEq, Prod.mk.injEq] at h
            rw [← h.2]; simp [spec_gates_pass, hgen, hbt, him, hall]
        · rw [visit_Borrow_inner_interior_mutable r cb st bt value s hall (by simpa using hgen) hbt him]
            at h
          simp only [Except.ok.injEq, Prod.mk.injEq] at h
          rw [← h.2]; simp [spec_gates_pass, hgen, hbt, him, his]
      · rw [visit_Borrow_inner_not_shared r cb st bt value s hbt] at h
        simp only [Except.ok.injEq, Prod.mk.injEq] at h
        rw [← h.2]; simp [spec_gates_pass, hbt, his]
  · rw [visit_Borrow_inner_not_all_constant r cb st bt value s (by simpa using hall)] at h
    simp only [Except.ok.injEq, Prod.mk.injEq] at h
    rw [← h.2]; simp [his, hall]

/-- The override for `PathValue` (lines 171-190) sets `m_is_constant` exactly
when the specification's rule for path values holds. -/
theorem visit_PathValue_eq (r : StaticTraitResolve) (cb : t_new_static_cb σ) (st : ExprState)
    (sp : Span) (ty : TypeRef) (p : Path) (t : Target) (s : ExprVisitor_Mutate σ) :
    visit r cb st (ExprNode.PathValue sp ty p t) s =
      Except.ok (ExprNode.PathValue sp ty p t,
        if spec_path_is_constant r sp p then { s with m_is_constant := true } else s) := by
  rw [visit]
  cases hv : r.get_value sp p <;> cases hm : r.monomorphise_path_needed p <;>
    simp [spec_path_is_constant, hv, hm]

theorem visit_children_flags {r : StaticTraitResolve} {cb : t_new_static_cb σ} {st : ExprState} :
    ∀ (cs : List ExprNode), (∀ c ∈ cs, (∀ (s : ExprVisitor_Mutate σ) (n1 : ExprNode) (s1 : ExprVisitor_Mutate σ),
      visit_node_ptr r cb st c s = Except.ok (n1, s1) →
      s1.m_all_constant = (s.m_all_constant && spec_is_constant r c))) →
    ∀ (s : ExprVisitor_Mutate σ) (cs1 : List ExprNode) (s1 : ExprVisitor_Mutate σ),
    visit_children r cb st cs s = Except.ok (cs1, s1) →
    s1.m_all_constant = (s.m_all_constant && spec_all_constant r cs) ∧
      (s.m_is_constant = false → s1.m_is_constant = false)
  | [], _, s, cs1, s1, h => by
    simp only [visit_children, Except.ok.injEq, Prod.mk.injEq] at h
    rw [← h.2]; simp [spec_all_constant]
  | c :: cs, ih, s, out, s2, h => by
    obtain ⟨c1, cs1, s1, hc, hcs, _⟩ := visit_children_cons_ok h
    have h1 := ih c (List.mem_cons_self c cs) s c1 s1 hc
    have h2 := visit_children_flags cs (fun d hd => ih d (List.mem_cons_of_mem c hd)) s1 cs1 s2 hcs
    obtain ⟨s0, _, hs0⟩ := visit_node_ptr_ok hc
    have h3 : s1.m_is_constant = false := by rw [hs0]; exact node_ptr_leave_is_constant s0
    refine ⟨?_, fun _ => h2.2 h3⟩
    rw [h2.1, h1, spec_all_constant, Bool.and_assoc]

theorem visit_node_ptr_flags (r : StaticTraitResolve) (cb : t_new_static_cb σ) (st : ExprState) :
    ∀ (n : ExprNode) (s : ExprVisitor_Mutate σ) (n1 : ExprNode) (s1 : ExprVisitor_Mutate σ),
      visit_node_ptr r cb st n s = Except.ok (n1, s1) →
      s1.m_all_constant = (s.m_all_constant && spec_is_constant r n) := by
  intro n
  induction n using ExprNode.induct with
  | lit sp ty d =>
    intro s n1 s1 h
    obtain ⟨s0, h0, hs0⟩ := visit_node_ptr_ok h
    simp only [visit, Except.ok.injEq, Prod.mk.injEq] at h0
    rw [hs0, node_ptr_leave_all_constant, ← h0.2]
    simp [node_ptr_enter, spec_is_constant]
  | unit sp ty p =>
    intro s n1 s1 h
    obtain ⟨s0, h0, hs0⟩ := visit_node_ptr_ok h
    simp only [visit, Except.ok.injEq, Prod.mk.injEq] at h0
    rw [hs0, node_ptr_leave_all_constant, ← h0.2]
    simp [node_ptr_enter, spec_is_constant]
  | path sp ty p t =>
    intro s n1 s1 h
    obtain ⟨s0, h0, hs0⟩ := visit_node_ptr_ok h
    rw [hs0, node_ptr_leave_all_constant]
    rw [visit_PathValue_eq] at h0
    simp only [Except.ok.injEq, Prod.mk.injEq] at h0
    rw [← h0.2]
    cases hp : spec_path_is_constant r sp p <;> simp [node_ptr_enter, spec_is_constant, hp]
  | comp k sp ty cs ih =>
    intro s n1 s1 h
    obtain ⟨s0, h0, hs0⟩ := visit_node_ptr_ok h
    rw [hs0, node_ptr_leave_all_constant]
    rw [visit] at h0
    cases hc : visit_children r cb st cs (node_ptr_enter s) with
    | error e => simp [hc] at h0
    | ok v =>
      obtain ⟨cs1, s2⟩ := v
      simp only [hc, Except.ok.injEq, Prod.mk.injEq] at h0
      have h2 := (visit_children_flags cs ih (node_ptr_enter s) cs1 s2 hc).1
      rw [← h0.2]
      simp [h2, node_ptr_enter, spec_is_constant]
  | unsize sp ty v ih =>
    intro s n1 s1 h
    obtain ⟨s0, h0, hs0⟩ := visit_node_ptr_ok h
    rw [hs0, node_ptr_leave_all_constant]
    rw [visit] at h0
    have hfold : node_ptr_result (visit r cb st v (node_ptr_enter (node_ptr_enter s)))
        = visit_node_ptr r cb st v (node_ptr_enter s) := rfl
    rw [hfold] at h0
    cases hc : visit_node_ptr r cb st v (node_ptr_enter s) with
    | error e => simp [hc] at h0
    | ok w =>
      obtain ⟨v1, s2⟩ := w
      simp only [hc, Except.ok.injEq, Prod.mk.injEq] at h0
      have h2 := ih (node_ptr_enter s) v1 s2 hc
      rw [← h0.2]
      simp [h2, node_ptr_enter, spec_is_constant]
  | borrow sp ty bt v ih =>
    intro s n1 s1 h
    obtain ⟨s0, h0, hs0⟩ := visit_node_ptr_ok h
    rw [hs0, node_ptr_leave_all_constant]
    rw [visit_Borrow_eq] at h0
    cases hc : visit_node_ptr r cb st v { node_ptr_enter s with m_all_constant := true } with
    | error e => simp [hc] at h0
    | ok w =>
      obtain ⟨v1, sA⟩ := w
      simp only [hc] at h0
      cases hi : visit_Borrow_inner r cb st bt v1 sA with
      | error e => simp [hi] at h0
      | ok u =>
        obtain ⟨v2, sB⟩ := u
        simp only [hi, Except.ok.injEq, Prod.mk.injEq] at h0
        have hA := ih _ v1 sA hc
        obtain ⟨sA0, _, hsA0⟩ := visit_node_ptr_ok hc
        have hAis : sA.m_is_constant = false := by rw [hsA0]; exact node_ptr_leave_is_constant sA0
        have hB := visit_Borrow_inner_flags hi hAis
        have hshape := visit_node_ptr_value_ptr_shape hc
        rw [← h0.2]
        simp only [hB.2, hA, spec_gates_pass_congr r bt hshape.1 hshape.2]
        simp [node_ptr_enter, spec_is_constant]
  | other kind sp ty cs ih =>
    intro s n1 s1 h
    obtain ⟨s0, h0, hs0⟩ := visit_node_ptr_ok h
    rw [hs0, node_ptr_leave_all_constant]
    rw [visit] at h0
    cases hc : visit_children r cb st cs (node_ptr_enter s) with
    | error e => simp [hc] at h0
    | ok v =>
      obtain ⟨cs1, s2⟩ := v
      simp only [hc, Except.ok.injEq, Prod.mk.injEq] at h0
      have h2 := (visit_children_flags cs ih (node_ptr_enter s) cs1 s2 hc).2 rfl
      rw [← h0.2]
      simp [h2, spec_is_constant]

/-- After a child slot has been visited, `m_is_constant` is clear and
`m_all_constant` has been and-ed with the specification's verdict. -/
theorem visit_node_ptr_all_constant {r : StaticTraitResolve} {cb : t_new_static_cb σ}
    {st : ExprState} {n n1 : ExprNode} {s s1 : ExprVisitor_Mutate σ}
    (h : visit_node_ptr r cb st n s = Except.ok (n1, s1)) :
    s1.m_all_constant = (s.m_all_constant && spec_is_constant r n) ∧ s1.m_is_constant = false := by
  refine ⟨visit_node_ptr_flags r cb st n s n1 s1 h, ?_⟩
  obtain ⟨s0, _, hs0⟩ := visit_node_ptr_ok h
  rw [hs0]; exact node_ptr_leave_is_constant s0

end ClassifierFlags

/-! ## The borrow rewrite (claims C1 to C4) -/

section BorrowRewrite

variable {σ : Type}

/-- C1. A borrow met anywhere in a tree (the visitor state `s` on entry is
arbitrary) whose child, once visited, is constant by the per-kind rules, whose
borrowed value `V` has a non-generic type, whose kind is `Shared` and for
which the resolver answers `Unequal` to the interior-mutability question:
the classifier calls the callback exactly once after the descendants, on the
callback state they left, with `V`'s span, `V`'s type and `V` itself in a
fresh context; `V`'s slot then holds a `PathValue` with the returned path,
`V`'s span and type and target `STATIC`, and the borrow reports
`m_is_constant = true`. -/
theorem C1_constant_shared_borrow_is_promoted (r : StaticTraitResolve) (cb : t_new_static_cb σ)
    (st : ExprState) (sp : Span) (ty : TypeRef) (bt : BorrowType) (value : ExprNode)
    (s : ExprVisitor_Mutate σ) (value1 : ExprNode) (s1 : ExprVisitor_Mutate σ)
    (hchild : visit_node_ptr r cb st value { s with m_all_constant := true } = Except.ok (value1, s1))
    (hconst : spec_is_constant r value = true)
    (hgen : r.monomorphise_type_needed (value_ptr value1).res_type = false)
    (hbt : bt = BorrowType.Shared)
    (him : r.type_is_interior_mutable (value_ptr value1).span (value_ptr value1).res_type
      = Compare.Unequal) :
    visit r cb st (ExprNode.Borrow sp ty bt value) s =
      match cb s1.env (value_ptr value1).span (value_ptr value1).res_type
          { node := value_ptr value1, m_state := new_static_state st } with
      | Except.error e => Except.error e
      | Except.ok (path, env1) =>
        Except.ok
          (ExprNode.Borrow sp ty bt
            (set_value_ptr value1
              (ExprNode.PathValue (value_ptr value1).span (value_ptr value1).res_type
                (Path.ofSimplePath path) Target.STATIC)),
           { m_is_constant := true, m_all_constant := s.m_all_constant, env := env1,
             im_queries := s1.im_queries ++
               [((value_ptr value1).span, (value_ptr value1).res_type)] }) := by
  have hall : s1.m_all_constant = true := by
    rw [(visit_node_ptr_all_constant hchild).1, hconst]; rfl
  rw [visit_Borrow_eq, hchild]
  simp only []
  rw [visit_Borrow_inner_promote r cb st bt value1 s1 hall hgen hbt him]
  cases cb s1.env (value_ptr value1).span (value_ptr value1).res_type
      { node := value_ptr value1, m_state := new_static_state st } with
  | error e => rfl
  | ok v => rfl

/-- Scenario A: `&[1, 2, 3]` is promoted to a borrow of `demo::lifted#0`, with
one callback call (the counter goes from 0 to 1). -/
theorem C1_constant_shared_borrow_is_promoted_witness :
    visit Demo.plain Demo.counting_cb Demo.root_state Demo.shared_borrow_array
        (ExprVisitor_Mutate.new 0) =
      Except.ok (Demo.promoted_borrow_array,
        { m_is_constant := true, m_all_constant := false, env := 1,
          im_queries := [(⟨1⟩, ⟨10⟩)] }) :=
  C1_constant_shared_borrow_is_promoted Demo.plain Demo.counting_cb Demo.root_state ⟨0⟩ ⟨12⟩
    BorrowType.Shared Demo.array123 (ExprVisitor_Mutate.new 0) Demo.array123
    { m_is_constant := false, m_all_constant := true, env := 0, im_queries := [] }
    rfl rfl rfl rfl rfl

/-- C2. A borrow whose kind is not `Shared` is never promoted, whatever its
target: its slot holds the child as the visit of the descendants left it, the
callback state and the resolver trace are those the descendants left (no
static allocated for it), and it reports `m_is_constant = false`. -/
theorem C2_non_shared_borrow_is_never_promoted (r : StaticTraitResolve) (cb : t_new_static_cb σ)
    (st : ExprState) (sp : Span) (ty : TypeRef) (bt : BorrowType) (value : ExprNode)
    (s : ExprVisitor_Mutate σ) (hbt : bt ≠ BorrowType.Shared) :
    visit r cb st (ExprNode.Borrow sp ty bt value) s =
      match visit_node_ptr r cb st value { s with m_all_constant := true } with
      | Except.error e => Except.error e
      | Except.ok (value1, s1) =>
        Except.ok (ExprNode.Borrow sp ty bt value1,
          { m_is_constant := false, m_all_constant := s.m_all_constant, env := s1.env,
            im_queries := s1.im_queries }) := by
  rw [visit_Borrow_eq]
  cases hc : visit_node_ptr r cb st value { s with m_all_constant := true } with
  | error e => rfl
  | ok v =>
    obtain ⟨value1, s1⟩ := v
    simp only []
    rw [visit_Borrow_inner_not_shared r cb st bt value1 s1 hbt]
    simp only [Except.ok.injEq, Prod.mk.injEq, true_and]
    rw [(visit_node_ptr_all_constant hc).2]

/-- Scenario B: `&mut [1, 2, 3]` is left as it is and the counter of the
callback stays at 0. -/
theorem C2_non_shared_borrow_is_never_promoted_witness :
    visit Demo.plain Demo.counting_cb Demo.root_state Demo.unique_borrow_array
        (ExprVisitor_Mutate.new 0) =
      Except.ok (Demo.unique_borrow_array,
        { m_is_constant := false, m_all_constant := false, env := 0, im_queries := [] }) :=
  C2_non_shared_borrow_is_never_promoted Demo.plain Demo.counting_cb Demo.root_state ⟨0⟩ ⟨12⟩
    BorrowType.Unique Demo.array123 (ExprVisitor_Mutate.new 0) (by decide)

/-- C3. When the resolver's answer for the type of the borrowed value is
anything but `Unequal` (that is `Equal` or `Fuzzy`), the borrow is not
promoted: the slot keeps the visited child, the callback state is the one the
descendants left, and `m_is_constant = false`. The only trace of the borrow is
the question itself, asked when the two earlier gates were passed. -/
theorem C3_possibly_interior_mutable_is_never_promoted (r : StaticTraitResolve)
    (cb : t_new_static_cb σ) (st : ExprState) (sp : Span) (ty : TypeRef) (bt : BorrowType)
    (value : ExprNode) (s : ExprVisitor_Mutate σ) (value1 : ExprNode) (s1 : ExprVisitor_Mutate σ)
    (hchild : visit_node_ptr r cb st value { s with m_all_constant := true } = Except.ok (value1, s1))
    (him : r.type_is_interior_mutable (value_ptr value1).span (value_ptr value1).res_type
      ≠ Compare.Unequal) :
    visit r cb st (ExprNode.Borrow sp ty bt value) s =
      Except.ok (ExprNode.Borrow sp ty bt value1,
        { m_is_constant := false, m_all_constant := s.m_all_constant, env := s1.env,
          im_queries :=
            if s1.m_all_constant = true ∧
                r.monomorphise_type_needed (value_ptr value1).res_type = false ∧
                bt = BorrowType.Shared
            then s1.im_queries ++ [((value_ptr value1).span, (value_ptr value1).res_type)]
            else s1.im_queries }) := by
  have his := (visit_node_ptr_all_constant hchild).2
  rw [visit_Borrow_eq, hchild]
  simp only []
  by_cases hall : s1.m_all_constant = true
  · by_cases hgen : r.monomorphise_type_needed (value_ptr value1).res_type = true
    · rw [visit_Borrow_inner_generic r cb st bt value1 s1 hgen]
      simp [hgen, his]
    · by_cases hbt : bt = BorrowType.Shared
      · rw [visit_Borrow_inner_interior_mutable r cb st bt value1 s1 hall (by simpa using hgen)
          hbt him]
        simp [hall, hgen, hbt, his]
      · rw [visit_Borrow_inner_not_shared r cb st bt value1 s1 hbt]
        simp [hbt, his]
  · rw [visit_Borrow_inner_not_all_constant r cb st bt value1 s1 (by simpa using hall)]
    simp [hall, his]

/-- With a resolver answering `Fuzzy`, `&[1, 2, 3]` is left as it is: the
question was asked once and no static was requested. -/
theorem C3_possibly_interior_mutable_is_never_promoted_witness :
    visit Demo.fuzzy Demo.counting_cb Demo.root_state Demo.shared_borrow_array
        (ExprVisitor_Mutate.new 0) =
      Except.ok (Demo.shared_borrow_array,
        { m_is_constant := false, m_all_constant := false, env := 0,
          im_queries := [(⟨1⟩, ⟨10⟩)] }) :=
  C3_possibly_interior_mutable_is_never_promoted Demo.fuzzy Demo.counting_cb Demo.root_state
    ⟨0⟩ ⟨12⟩ BorrowType.Shared Demo.array123 (ExprVisitor_Mutate.new 0) Demo.array123
    { m_is_constant := false, m_all_constant := true, env := 0, im_queries := [] }
    rfl (by decide)

/-- C4. When the type of the borrowed value is still generic
(`monomorphise_type_needed` holds), the borrow is not promoted whatever its
kind and whatever the resolver would say about interior mutability, and the
trace of interior-mutability questions is exactly the one the descendants
left: the question is not asked for this borrow. -/
theorem C4_generic_type_is_never_promoted (r : StaticTraitResolve)
    (cb : t_new_static_cb σ) (st : ExprState) (sp : Span) (ty : TypeRef) (bt : BorrowType)
    (value : ExprNode) (s : ExprVisitor_Mutate σ) (value1 : ExprNode) (s1 : ExprVisitor_Mutate σ)
    (hchild : visit_node_ptr r cb st value { s with m_all_constant := true } = Except.ok (value1, s1))
    (hgen : r.monomorphise_type_needed (value_ptr value1).res_type = true) :
    visit r cb st (ExprNode.Borrow sp ty bt value) s =
      Except.ok (ExprNode.Borrow sp ty bt value1,
        { m_is_constant := false, m_all_constant := s.m_all_constant, env := s1.env,
          im_queries := s1.im_queries }) := by
  have his := (visit_node_ptr_all_constant hchild).2
  rw [visit_Borrow_eq, hchild]
  simp only []
  rw [visit_Borrow_inner_generic r cb st bt value1 s1 hgen]
  simp [his]

/-- Scenario C: with every type generic, `&[1, 2, 3]` is left as it is, no
static is requested and no interior-mutability question is recorded. -/
theorem C4_generic_type_is_never_promoted_witness :
    visit Demo.generic Demo.counting_cb Demo.root_state Demo.shared_borrow_array
        (ExprVisitor_Mutate.new 0) =
      Except.ok (Demo.shared_borrow_array,
        { m_is_constant := false, m_all_constant := false, env := 0, im_queries := [] }) :=
  C4_generic_type_is_never_promoted Demo.generic Demo.counting_cb Demo.root_state
    ⟨0⟩ ⟨12⟩ BorrowType.Shared Demo.array123 (ExprVisitor_Mutate.new 0) Demo.array123
    { m_is_constant := false, m_all_constant := true, env := 0, im_queries := [] }
    rfl rfl

end BorrowRewrite

/-! ## Propagation of non-constancy (claim C5) -/

section Propagation

variable {σ : Type}

theorem subnodes_self (n : ExprNode) : n ∈ subnodes n := by
  cases n <;> simp [subnodes]

theorem spec_all_constant_false_of_mem (r : StaticTraitResolve) :
    ∀ (cs : List ExprNode) (c : ExprNode), c ∈ cs → spec_is_constant r c = false →
      spec_all_constant r cs = false
  | [], c, h, _ => by cases h
  | d :: ds, c, h, hc => by
    rcases List.mem_cons.mp h with h1 | h1
    · subst h1; simp [spec_all_constant, hc]
    · simp [spec_all_constant, spec_all_constant_false_of_mem r ds c h1 hc]

theorem mem_subnodes_list {n : ExprNode} :
    ∀ {cs : List ExprNode}, n ∈ subnodes_list cs → ∃ c ∈ cs, n ∈ subnodes c
  | [], h => by simp [subnodes_list] at h
  | c :: cs, h => by
    rw [subnodes_list, List.mem_append] at h
    rcases h with h | h
    · exact ⟨c, List.mem_cons_self c cs, h⟩
    · obtain ⟨d, hd, hn⟩ := mem_subnodes_list h
      exact ⟨d, List.mem_cons_of_mem c hd, hn⟩

/-- A blocking node anywhere in a tree (the root included) makes the tree
non-constant by the per-kind rules. -/
theorem spec_is_constant_false_of_blocker (r : StaticTraitResolve) :
    ∀ (v : ExprNode), (∃ n ∈ subnodes v, spec_blocks r n = true) → spec_is_constant r v = false := by
  intro v
  induction v using ExprNode.induct with
  | lit sp ty d =>
    rintro ⟨n, hn, hb⟩
    simp only [subnodes, List.mem_singleton] at hn
    subst hn; simp [spec_blocks] at hb
  | unit sp ty p =>
    rintro ⟨n, hn, hb⟩
    simp only [subnodes, List.mem_singleton] at hn
    subst hn; simp [spec_blocks] at hb
  | path sp ty p t =>
    rintro ⟨n, hn, hb⟩
    simp only [subnodes, List.mem_singleton] at hn
    subst hn
    simpa [spec_blocks, spec_is_constant] using hb
  | comp k sp ty cs ih =>
    rintro ⟨n, hn, hb⟩
    simp only [subnodes, List.mem_cons] at hn
    rcases hn with hn | hn
    · subst hn; simp [spec_blocks] at hb
    · obtain ⟨c, hc, hnc⟩ := mem_subnodes_list hn
      rw [spec_is_constant]
      exact spec_all_constant_false_of_mem r cs c hc (ih c hc ⟨n, hnc, hb⟩)
  | unsize sp ty v ih =>
    rintro ⟨n, hn, hb⟩
    simp only [subnodes, List.mem_cons] at hn
    rcases hn with hn | hn
    · subst hn; simp [spec_blocks] at hb
    · rw [spec_is_constant]; exact ih ⟨n, hn, hb⟩
  | borrow sp ty bt v ih =>
    rintro ⟨n, hn, hb⟩
    simp only [subnodes, List.mem_cons] at hn
    rcases hn with hn | hn
    · subst hn
      simp only [spec_blocks, spec_promoted, Bool.not_eq_true'] at hb
      rw [spec_is_constant]; exact hb
    · rw [spec_is_constant, ih ⟨n, hn, hb⟩]; rfl
  | other kind sp ty cs ih =>
    intro _
    simp [spec_is_constant]

/-- With a callback that always returns, `visit_Borrow_inner` always returns. -/
theorem visit_Borrow_inner_total (r : StaticTraitResolve) (cb : t_new_static_cb σ)
    (hcb : ∀ env sp ty e, ∃ out, cb env sp ty e = Except.ok out)
    (st : ExprState) (bt : BorrowType) (value : ExprNode) (s : ExprVisitor_Mutate σ) :
    ∃ out, visit_Borrow_inner r cb st bt value s = Except.ok out := by
  by_cases hall : s.m_all_constant = true
  · by_cases hgen : r.monomorphise_type_needed (value_ptr value).res_type = true
    · exact ⟨_, visit_Borrow_inner_generic r cb st bt value s hgen⟩
    · by_cases hbt : bt = BorrowType.Shared
      · by_cases him : r.type_is_interior_mutable (value_ptr value).span (value_ptr value).res_type
            = Compare.Unequal
        · rw [visit_Borrow_inner_promote r cb st bt value s hall (by simpa using hgen) hbt him]
          obtain ⟨⟨p, e1⟩, ho⟩ := hcb s.env (value_ptr value).span (value_ptr value).res_type
            { node := value_ptr value, m_state := new_static_state st }
          rw [ho]; exact ⟨_, rfl⟩
        · exact ⟨_, visit_Borrow_inner_interior_mutable r cb st bt value s hall
            (by simpa using hgen) hbt him⟩
      · exact ⟨_, visit_Borrow_inner_not_shared r cb st bt value s hbt⟩
  · exact ⟨_, visit_Borrow_inner_not_all_constant r cb st bt value s (by simpa using hall)⟩

theorem visit_children_total {r : StaticTraitResolve} {cb : t_new_static_cb σ} {st : ExprState} :
    ∀ (cs : List ExprNode),
      (∀ c ∈ cs, ∀ s : ExprVisitor_Mutate σ, ∃ out, visit r cb st c s = Except.ok out) →
      ∀ s : ExprVisitor_Mutate σ, ∃ out, visit_children r cb st cs s = Except.ok out
  | [], _, s => ⟨([], s), by simp [visit_children]⟩
  | c :: cs, ih, s => by
    obtain ⟨⟨c1, s0⟩, h1⟩ := ih c (List.mem_cons_self c cs) (node_ptr_enter s)
    obtain ⟨⟨cs1, s2⟩, h2⟩ :=
      visit_children_total cs (fun d hd => ih d (List.mem_cons_of_mem c hd)) (node_ptr_leave s0)
    refine ⟨(c1 :: cs1, s2), ?_⟩
    rw [visit_children_cons, visit_node_ptr, h1]
    simp only [node_ptr_result]
    rw [h2]

/-- With a callback that always returns, the classifier returns on every tree
from every state. -/
theorem visit_total (r : StaticTraitResolve) (cb : t_new_static_cb σ)
    (hcb : ∀ env sp ty e, ∃ out, cb env sp ty e = Except.ok out) (st : ExprState) :
    ∀ (n : ExprNode) (s : ExprVisitor_Mutate σ), ∃ out, visit r cb st n s = Except.ok out := by
  intro n
  induction n using ExprNode.induct with
  | lit sp ty d => intro s; exact ⟨_, by rw [visit]⟩
  | unit sp ty p => intro s; exact ⟨_, by rw [visit]⟩
  | path sp ty p t => intro s; exact ⟨_, visit_PathValue_eq r cb st sp ty p t s⟩
  | comp k sp ty cs ih =>
    intro s
    obtain ⟨⟨cs1, s1⟩, h⟩ := visit_children_total cs ih s
    exact ⟨_, by rw [visit, h]⟩
  | unsize sp ty v ih =>
    intro s
    obtain ⟨⟨v1, s1⟩, h⟩ := ih (node_ptr_enter s)
    exact ⟨_, by rw [visit, h]; rfl⟩
  | borrow sp ty bt v ih =>
    intro s
    obtain ⟨⟨v1, s1⟩, h⟩ := ih (node_ptr_enter { s with m_all_constant := true })
    obtain ⟨⟨v2, s2⟩, h2⟩ := visit_Borrow_inner_total r cb hcb st bt v1 (node_ptr_leave s1)
    refine ⟨(ExprNode.Borrow sp ty bt v2, { s2 with m_all_constant := s.m_all_constant }), ?_⟩
    rw [visit_Borrow_eq, visit_node_ptr, h]
    simp only [node_ptr_result]
    rw [h2]
  | other kind sp ty cs ih =>
    intro s
    obtain ⟨⟨cs1, s1⟩, h⟩ := visit_children_total cs ih s
    exact ⟨_, by rw [visit, h]⟩

/-- C5. If somewhere strictly below a borrow `B` (in its child's tree) there is
a node of a class outside the listed set, a path value that is not a
non-generic constant or function, or a borrow that is not promoted, then `B`
is not promoted: its slot holds the visited child, no static is requested for
it, and it reports `m_is_constant = false`; whatever composites and borrows lie
in between. No error is raised on that account: `B` fails only if the visit of
its descendants failed, and with a callback that always returns the visit of
`B` returns. -/
theorem C5_non_constancy_propagates (r : StaticTraitResolve) (cb : t_new_static_cb σ)
    (st : ExprState) (sp : Span) (ty : TypeRef) (bt : BorrowType) (value : ExprNode)
    (s : ExprVisitor_Mutate σ)
    (hblock : ∃ n ∈ subnodes value, spec_blocks r n = true) :
    visit r cb st (ExprNode.Borrow sp ty bt value) s =
      (match visit_node_ptr r cb st value { s with m_all_constant := true } with
      | Except.error e => Except.error e
      | Except.ok (value1, s1) =>
        Except.ok (ExprNode.Borrow sp ty bt value1,
          { m_is_constant := false, m_all_constant := s.m_all_constant, env := s1.env,
            im_queries := s1.im_queries })) ∧
    ((∀ env sp1 ty1 e, ∃ out, cb env sp1 ty1 e = Except.ok out) →
      ∃ value1 s1, visit r cb st (ExprNode.Borrow sp ty bt value) s =
        Except.ok (ExprNode.Borrow sp ty bt value1,
          { m_is_constant := false, m_all_constant := s.m_all_constant, env := s1.env,
            im_queries := s1.im_queries }) ∧
        visit_node_ptr r cb st value { s with m_all_constant := true } = Except.ok (value1, s1)) := by
  have hmain : visit r cb st (ExprNode.Borrow sp ty bt value) s =
      (match visit_node_ptr r cb st value { s with m_all_constant := true } with
      | Except.error e => Except.error e
      | Except.ok (value1, s1) =>
        Except.ok (ExprNode.Borrow sp ty bt value1,
          { m_is_constant := false, m_all_constant := s.m_all_constant, env := s1.env,
            im_queries := s1.im_queries })) := by
    rw [visit_Borrow_eq]
    cases hc : visit_node_ptr r cb st value { s with m_all_constant := true } with
    | error e => rfl
    | ok v =>
      obtain ⟨value1, s1⟩ := v
      have hflags := visit_node_ptr_all_constant hc
      have hall : s1.m_all_constant = false := by
        rw [hflags.1, spec_is_constant_false_of_blocker r value hblock]; rfl
      simp only []
      rw [visit_Borrow_inner_not_all_constant r cb st bt value1 s1 hall]
      simp [hflags.2]
  refine ⟨hmain, fun hcb => ?_⟩
  obtain ⟨⟨value1, s0⟩, h0⟩ := visit_total r cb hcb st value
    (node_ptr_enter { s with m_all_constant := true })
  have hc : visit_node_ptr r cb st value { s with m_all_constant := true }
      = Except.ok (value1, node_ptr_leave s0) := by
    rw [visit_node_ptr, h0]; rfl
  refine ⟨value1, node_ptr_leave s0, ?_, hc⟩
  rw [hmain, hc]

/-- The borrow `&(x, 1)` of a tuple holding a local variable is left as it is,
without any error, although its second field is a literal; the counting
callback always returns, so the second part applies as well. -/
theorem C5_non_constancy_propagates_witness :
    visit Demo.plain Demo.counting_cb Demo.root_state
        (ExprNode.Borrow ⟨0⟩ ⟨21⟩ BorrowType.Shared Demo.tuple_with_variable)
        (ExprVisitor_Mutate.new 0) =
      Except.ok (ExprNode.Borrow ⟨0⟩ ⟨21⟩ BorrowType.Shared Demo.tuple_with_variable,
        { m_is_constant := false, m_all_constant := false, env := 0, im_queries := [] }) ∧
    ∃ value1 s1, visit Demo.plain Demo.counting_cb Demo.root_state
        (ExprNode.Borrow ⟨0⟩ ⟨21⟩ BorrowType.Shared Demo.tuple_with_variable)
        (ExprVisitor_Mutate.new 0) =
      Except.ok (ExprNode.Borrow ⟨0⟩ ⟨21⟩ BorrowType.Shared value1,
        { m_is_constant := false, m_all_constant := false, env := s1.env,
          im_queries := s1.im_queries }) ∧
      visit_node_ptr Demo.plain Demo.counting_cb Demo.root_state Demo.tuple_with_variable
        { ExprVisitor_Mutate.new 0 with m_all_constant := true } = Except.ok (value1, s1) := by
  have h := C5_non_constancy_propagates Demo.plain Demo.counting_cb Demo.root_state ⟨0⟩ ⟨21⟩
    BorrowType.Shared Demo.tuple_with_variable (ExprVisitor_Mutate.new 0)
    ⟨ExprNode.Other 0 ⟨2⟩ ⟨11⟩ [], by simp [subnodes, subnodes_list, Demo.tuple_with_variable],
      rfl⟩
  exact ⟨h.1, h.2 (fun env _ _ _ => ⟨_, rfl⟩)⟩

end Propagation

/-! ## Generated names (claim C7) -/

section Names

theorem digitChar_value (k : Nat) (hk : k < 10) : (Nat.digitChar k).toNat - 48 = k := by
  interval_cases k <;> rfl

theorem decimal_value_toDigitsCore :
    ∀ (fuel n : Nat) (ds : List Char), n < fuel →
      decimal_value 0 (Nat.toDigitsCore 10 fuel n ds) = decimal_value n ds
  | 0, n, ds, h => by omega
  | fuel + 1, n, ds, h => by
    rw [Nat.toDigitsCore]
    by_cases h0 : n / 10 = 0
    · simp only [h0, if_true]
      have hn : n % 10 = n := Nat.mod_eq_of_lt (by omega)
      rw [hn]
      simp only [decimal_value, List.foldl_cons, digitChar_value n (by omega),
        Nat.mul_zero, Nat.zero_add]
    · simp only [h0, if_false]
      rw [decimal_value_toDigitsCore fuel (n / 10) _ (by omega)]
      simp only [decimal_value, List.foldl_cons,
        digitChar_value (n % 10) (Nat.mod_lt n (by omega))]
      congr 1
      omega

theorem decimal_value_repr (n : Nat) : decimal_value 0 (Nat.repr n).data = n := by
  have h := decimal_value_toDigitsCore (n + 1) n [] (by omega)
  simpa [Nat.repr, Nat.toDigits, List.asString, decimal_value] using h

/-- The decimal printing used in `lifted#<idx>` is injective. -/
theorem lifted_name_injective {a b : Nat} (h : lifted_name a = lifted_name b) : a = b := by
  have h1 : (lifted_name a).data = (lifted_name b).data := by rw [h]
  simp only [lifted_name, String.data_append, List.append_cancel_left_eq] at h1
  have h2 : decimal_value 0 (Nat.repr a).data = decimal_value 0 (Nat.repr b).data := by
    change decimal_value 0 (toString a).data = decimal_value 0 (toString b).data
    rw [h1]
  rwa [decimal_value_repr, decimal_value_repr] at h2

end Names

section Registry

theorem new_statics_get_set (m : List (ModulePtr × List (SimplePath × Static)))
    (k k1 : ModulePtr) (l : List (SimplePath × Static)) :
    new_statics_get (new_statics_set m k l) k1 = if k = k1 then l else new_statics_get m k1 := by
  induction m with
  | nil =>
    by_cases h : k = k1 <;> simp [new_statics_set, new_statics_get, h]
  | cons head tail ih =>
    obtain ⟨k0, l0⟩ := head
    by_cases h0 : k0 = k
    · subst h0
      by_cases h : k0 = k1 <;> simp [new_statics_set, new_statics_get, h]
    · have h0s : ¬ k = k0 := fun e => h0 e.symm
      by_cases h1 : k0 = k1
      · subst h1
        simp [new_statics_set, new_statics_get, h0, h0s]
      · simp [new_statics_set, new_statics_get, h0, h1, ih]

/-- The callback with a current module: the path it returns and the list it
extends. -/
theorem get_new_ty_cb_some (this : OuterVisitor) (sp : Span) (ty : TypeRef) (val_expr : ExprPtr)
    (mod : ModulePtr) (h : this.m_current_module = some mod) :
    get_new_ty_cb this sp ty val_expr =
      Except.ok
        ((this.m_current_module_path.add
            (lifted_name (new_statics_get this.m_new_statics mod).length)).get_simple_path,
         { m_resolve_impl_generics := this.m_resolve_impl_generics,
           m_resolve_item_generics := this.m_resolve_item_generics,
           m_current_module_path := this.m_current_module_path,
           m_current_module := this.m_current_module,
           m_new_statics := new_statics_set this.m_new_statics mod
              (new_statics_get this.m_new_statics mod ++
                [((this.m_current_module_path.add
                    (lifted_name (new_statics_get this.m_new_statics mod).length)).get_simple_path,
                  Static.new Linkage.new false ty val_expr)]) }) := by
  simp [get_new_ty_cb, get_new_ty_cb_body, h]

theorem get_simple_path_add_back (p : ItemPath) (name : RcString) :
    (p.add name).get_simple_path.back = name := by
  simp [ItemPath.add, ItemPath.get_simple_path, SimplePath.back]

/-- The paths handed out by a sequence of allocations started in any state:
the index of each is the length of its module's list at the start plus the
number of earlier allocations of the sequence made for the same module. -/
theorem allocate_all_paths :
    ∀ (reqs : List Allocation) (this : OuterVisitor),
      ∃ paths this1, allocate_all reqs this = Except.ok (paths, this1) ∧
        paths.length = reqs.length ∧
        ∀ (i : Nat) (a : Allocation), reqs[i]? = some a →
          paths[i]? = some ((a.m_current_module_path.add
            (lifted_name ((new_statics_get this.m_new_statics a.m_current_module).length +
              ((reqs.take i).filter
                (fun b => decide (b.m_current_module = a.m_current_module))).length))).get_simple_path)
  | [], this => ⟨[], this, rfl, rfl, fun i a h => by simp at h⟩
  | a0 :: rest, this => by
    have hcb := get_new_ty_cb_some
      { this with m_current_module := some a0.m_current_module
                  m_current_module_path := a0.m_current_module_path }
      a0.sp a0.ty a0.val_expr a0.m_current_module rfl
    obtain ⟨paths, this2, hrest, hlen, hidx⟩ := allocate_all_paths rest
      { m_resolve_impl_generics := this.m_resolve_impl_generics,
        m_resolve_item_generics := this.m_resolve_item_generics,
        m_current_module_path := a0.m_current_module_path,
        m_current_module := some a0.m_current_module,
        m_new_statics := new_statics_set this.m_new_statics a0.m_current_module
          (new_statics_get this.m_new_statics a0.m_current_module ++
            [((a0.m_current_module_path.add
                (lifted_name (new_statics_get this.m_new_statics a0.m_current_module).length)).get_simple_path,
              Static.new Linkage.new false a0.ty a0.val_expr)]) }
    refine ⟨(a0.m_current_module_path.add
        (lifted_name (new_statics_get this.m_new_statics a0.m_current_module).length)).get_simple_path
        :: paths, this2, ?_, by simp [hlen], ?_⟩
    · rw [allocate_all, hcb]
      simp only []
      rw [hrest]
    · intro i a hi
      cases i with
      | zero =>
        simp only [List.getElem?_cons_zero, Option.some.injEq] at hi
        subst hi
        simp
      | succ i =>
        simp only [List.getElem?_cons_succ] at hi
        have h := hidx i a hi
        simp only [List.getElem?_cons_succ, h, new_statics_get_set, List.take_succ_cons,
          List.filter_cons]
        by_cases hm : a0.m_current_module = a.m_current_module
        · simp [hm, Nat.add_assoc, Nat.add_comm 1]
        · simp [hm]

end Registry

section RegistryClaims

theorem filter_take_lt (reqs : List Allocation) (i j : Nat) (a : Allocation) (hij : i < j)
    (hi : reqs[i]? = some a) (p : Allocation → Bool) (hp : p a = true) :
    ((reqs.take i).filter p).length < ((reqs.take j).filter p).length := by
  obtain ⟨d, rfl⟩ : ∃ d, j = i + (d + 1) := ⟨j - i - 1, by omega⟩
  have hlt : i < reqs.length := by
    rcases Nat.lt_or_ge i reqs.length with h | h
    · exact h
    · rw [List.getElem?_eq_none h] at hi; cases hi
  have ha : reqs[i] = a := by
    rw [List.getElem?_eq_getElem hlt] at hi
    exact Option.some.inj hi
  rw [List.take_add, List.filter_append, List.length_append, List.drop_eq_getElem_cons hlt, ha,
    List.take_succ_cons, List.filter_cons, hp]
  simp

/-- C7. In a run (starting from a fresh visitor) every allocation returns: the
allocation made for module `M` after `k` earlier allocations for `M` gets the
simple path of `M`'s current module path followed by the string `lifted#`
with the decimal digits of `k` appended, allocations for other modules not
being counted; so two allocations for the same module never get the same
name. -/
theorem C7_lifted_names_follow_allocation_order (reqs : List Allocation) :
    ∃ paths this1, allocate_all reqs OuterVisitor.new = Except.ok (paths, this1) ∧
      paths.length = reqs.length ∧
      (∀ (i : Nat) (a : Allocation), reqs[i]? = some a →
        paths[i]? = some
          { m_crate_name := a.m_current_module_path.get_simple_path.m_crate_name,
            m_components := a.m_current_module_path.get_simple_path.m_components ++
              ["lifted#" ++ toString ((reqs.take i).filter
                (fun b => decide (b.m_current_module = a.m_current_module))).length] }) ∧
      (∀ (i j : Nat) (a b : Allocation) (pa pb : SimplePath), i < j →
        reqs[i]? = some a → reqs[j]? = some b → a.m_current_module = b.m_current_module →
        paths[i]? = some pa → paths[j]? = some pb → pa.back ≠ pb.back) := by
  obtain ⟨paths, this1, hrun, hlen, hidx⟩ := allocate_all_paths reqs OuterVisitor.new
  have hidx1 : ∀ (i : Nat) (a : Allocation), reqs[i]? = some a →
      paths[i]? = some ((a.m_current_module_path.add
        (lifted_name ((reqs.take i).filter
          (fun b => decide (b.m_current_module = a.m_current_module))).length)).get_simple_path) := by
    intro i a hi
    have h := hidx i a hi
    simpa [OuterVisitor.new, new_statics_get] using h
  refine ⟨paths, this1, hrun, hlen, fun i a hi => hidx1 i a hi, ?_⟩
  intro i j a b pa pb hij hi hj hmod hpa hpb
  rw [hidx1 i a hi] at hpa
  rw [hidx1 j b hj] at hpb
  have hpa1 := Option.some.inj hpa
  have hpb1 := Option.some.inj hpb
  rw [← hpa1, ← hpb1, get_simple_path_add_back, get_simple_path_add_back]
  intro heq
  have hk := lifted_name_injective heq
  have hlt := filter_take_lt reqs i j a hij hi
    (fun c => decide (c.m_current_module = a.m_current_module)) (by simp)
  rw [← hmod] at hk
  omega

/-- C10. The callback fails exactly when no current module is set; a failure
leaves the visitor, and so every pending list, as it was; with a current
module the callback returns a path. -/
theorem C10_allocate_fails_iff_no_current_module (this : OuterVisitor) (sp : Span) (ty : TypeRef)
    (val_expr : ExprPtr) :
    ((∃ err, (get_new_ty_cb_body this sp ty val_expr).1 = Except.error err) ↔
        this.m_current_module = none) ∧
      ((∃ err, get_new_ty_cb this sp ty val_expr = Except.error err) ↔
        this.m_current_module = none) ∧
      ((∃ err, (get_new_ty_cb_body this sp ty val_expr).1 = Except.error err) →
        (get_new_ty_cb_body this sp ty val_expr).2 = this) ∧
      (this.m_current_module ≠ none →
        ∃ path this1, get_new_ty_cb this sp ty val_expr = Except.ok (path, this1) ∧
          (get_new_ty_cb_body this sp ty val_expr).1 = Except.ok path) := by
  cases h : this.m_current_module with
  | none => simp [get_new_ty_cb, get_new_ty_cb_body, h]
  | some mod => simp [get_new_ty_cb, get_new_ty_cb_body, h]

end RegistryClaims

/-! ## Literal composites (claim C6) -/

section LiteralComposite

variable {σ : Type}

end LiteralComposite

section Callback

theorem get_new_ty_cb_eq (this : OuterVisitor) (sp : Span) (ty : TypeRef) (val_expr : ExprPtr)
    (mod : ModulePtr) (h : this.m_current_module = some mod) :
    get_new_ty_cb this sp ty val_expr =
      Except.ok (next_lifted_path this mod, with_new_static this mod ty val_expr) := by
  simp [get_new_ty_cb, get_new_ty_cb_body, h, next_lifted_path, with_new_static]

end Callback

/-! ## What a first visit leaves behind, and what a second visit does -/

section Settling

variable {σ : Type}

theorem spec_is_constant_lifted_ref {G : SimplePath → Prop} (r : StaticTraitResolve)
    (hr : reports_lifted_as_static G r)
    (sp : Span) (ty : TypeRef) (p : SimplePath) (hp : G p) :
    spec_is_constant r (ExprNode.PathValue sp ty (Path.ofSimplePath p) Target.STATIC) = false := by
  simp [spec_is_constant, spec_path_is_constant, hr sp p hp]

/-- A node whose slot `value_ptr` holds a reference to a generated static is
not constant, holds no borrow, and is that reference or an `Unsize` of it. -/
theorem of_value_ptr_lifted_ref {G : SimplePath → Prop} (r : StaticTraitResolve)
    (hr : reports_lifted_as_static G r)
    (v : ExprNode) (h : is_lifted_static_ref G (value_ptr v)) :
    spec_is_constant r v = false ∧ no_promotable r v = true ∧ ∀ H, promoted_form H v := by
  cases v with
  | Unsize sp ty x =>
    simp only [value_ptr] at h
    cases x with
    | PathValue sp1 ty1 p t =>
      cases p with
      | Generic sp2 ps =>
        cases ps with
        | nil =>
          cases t <;> simp only [is_lifted_static_ref] at h
          refine ⟨?_, ?_, ?_⟩
          · rw [spec_is_constant]; exact spec_is_constant_lifted_ref r hr sp1 ty1 sp2 h
          · simp [no_promotable]
          · simp [promoted_form]
        | cons a as => cases t <;> simp only [is_lifted_static_ref] at h
      | Ufcs a b c d => simp only [is_lifted_static_ref] at h
    | _ => simp only [is_lifted_static_ref] at h
  | PathValue sp1 ty1 p t =>
    simp only [value_ptr] at h
    cases p with
    | Generic sp2 ps =>
      cases ps with
      | nil =>
        cases t <;> simp only [is_lifted_static_ref] at h
        refine ⟨spec_is_constant_lifted_ref r hr sp1 ty1 sp2 h, ?_, ?_⟩
        · simp [no_promotable]
        · simp [promoted_form]
      | cons a as => cases t <;> simp only [is_lifted_static_ref] at h
    | Ufcs a b c d => simp only [is_lifted_static_ref] at h
  | Literal _ _ _ => simp only [value_ptr, is_lifted_static_ref] at h
  | UnitVariant _ _ _ => simp only [value_ptr, is_lifted_static_ref] at h
  | Composite _ _ _ _ => simp only [value_ptr, is_lifted_static_ref] at h
  | Borrow _ _ _ _ => simp only [value_ptr, is_lifted_static_ref] at h
  | Other _ _ _ _ => simp only [value_ptr, is_lifted_static_ref] at h

theorem value_ptr_set_value_ptr (v : ExprNode) (sp : Span) (ty : TypeRef) (p : Path) (t : Target) :
    value_ptr (set_value_ptr v (ExprNode.PathValue sp ty p t)) = ExprNode.PathValue sp ty p t := by
  cases v <;> simp [set_value_ptr, value_ptr]

theorem promoted_form_value_ptr {G : SimplePath → Prop} (v : ExprNode) (h : promoted_form G v) :
    promoted_form G (value_ptr v) := by
  cases v <;> simp_all [value_ptr, promoted_form]

theorem is_lifted_static_ref_mono {G H : SimplePath → Prop} (hGH : ∀ p, G p → H p)
    (n : ExprNode) (h : is_lifted_static_ref G n) : is_lifted_static_ref H n := by
  cases n with
  | PathValue sp ty p t =>
    cases p with
    | Generic sp2 ps =>
      cases ps with
      | nil =>
        cases t <;> simp only [is_lifted_static_ref] at h ⊢
        exact hGH _ h
      | cons a as => cases t <;> simp only [is_lifted_static_ref] at h
    | Ufcs a b c d => simp only [is_lifted_static_ref] at h
  | Literal _ _ _ => simp only [is_lifted_static_ref] at h
  | UnitVariant _ _ _ => simp only [is_lifted_static_ref] at h
  | Composite _ _ _ _ => simp only [is_lifted_static_ref] at h
  | Unsize _ _ _ => simp only [is_lifted_static_ref] at h
  | Borrow _ _ _ _ => simp only [is_lifted_static_ref] at h
  | Other _ _ _ _ => simp only [is_lifted_static_ref] at h

mutual
/-- Promoted form is kept when more statics are generated. -/
theorem promoted_form_mono {G H : SimplePath → Prop} (hGH : ∀ p, G p → H p) :
    ∀ (n : ExprNode), promoted_form G n → promoted_form H n
  | ExprNode.Literal _ _ _, _ => by simp [promoted_form]
  | ExprNode.UnitVariant _ _ _, _ => by simp [promoted_form]
  | ExprNode.PathValue _ _ _ _, _ => by simp [promoted_form]
  | ExprNode.Composite _ _ _ cs, h => by
    rw [promoted_form] at h ⊢
    exact promoted_form_list_mono hGH cs h
  | ExprNode.Unsize _ _ v, h => by
    rw [promoted_form] at h ⊢
    exact promoted_form_mono hGH v h
  | ExprNode.Borrow _ _ bt v, h => by
    rw [promoted_form] at h ⊢
    exact is_lifted_static_ref_mono hGH _ h
  | ExprNode.Other _ _ _ cs, h => by
    rw [promoted_form] at h ⊢
    exact promoted_form_list_mono hGH cs h
theorem promoted_form_list_mono {G H : SimplePath → Prop} (hGH : ∀ p, G p → H p) :
    ∀ (cs : List ExprNode), promoted_form_list G cs → promoted_form_list H cs
  | [], _ => by simp [promoted_form_list]
  | c :: cs, h => by
    rw [promoted_form_list] at h ⊢
    exact ⟨promoted_form_mono hGH c h.1, promoted_form_list_mono hGH cs h.2⟩
end

theorem reports_lifted_as_static_anti {G H : SimplePath → Prop} {r : StaticTraitResolve}
    (hGH : ∀ p, G p → H p) (hr : reports_lifted_as_static H r) : reports_lifted_as_static G r :=
  fun sp p hp => hr sp p (hGH p hp)

mutual
/-- A tree in promoted form has no promotable borrow, for any resolver that
reports the generated statics as statics. -/
theorem no_promotable_of_promoted_form {G : SimplePath → Prop} (r : StaticTraitResolve)
    (hr : reports_lifted_as_static G r) :
    ∀ (n : ExprNode), promoted_form G n → no_promotable r n = true
  | ExprNode.Literal _ _ _, _ => by simp [no_promotable]
  | ExprNode.UnitVariant _ _ _, _ => by simp [no_promotable]
  | ExprNode.PathValue _ _ _ _, _ => by simp [no_promotable]
  | ExprNode.Composite _ _ _ cs, h => by
    rw [no_promotable]; rw [promoted_form] at h
    exact no_promotable_list_of_promoted_form r hr cs h
  | ExprNode.Unsize _ _ v, h => by
    rw [no_promotable]; rw [promoted_form] at h
    exact no_promotable_of_promoted_form r hr v h
  | ExprNode.Borrow _ _ bt v, h => by
    rw [promoted_form] at h
    have hv := of_value_ptr_lifted_ref r hr v h
    simp [no_promotable, spec_promoted, hv.1, hv.2.1]
  | ExprNode.Other _ _ _ cs, h => by
    rw [no_promotable]; rw [promoted_form] at h
    exact no_promotable_list_of_promoted_form r hr cs h
theorem no_promotable_list_of_promoted_form {G : SimplePath → Prop} (r : StaticTraitResolve)
    (hr : reports_lifted_as_static G r) :
    ∀ (cs : List ExprNode), promoted_form_list G cs → no_promotable_list r cs = true
  | [], _ => by simp [no_promotable_list]
  | c :: cs, h => by
    rw [promoted_form_list] at h
    simp [no_promotable_list, no_promotable_of_promoted_form r hr c h.1,
      no_promotable_list_of_promoted_form r hr cs h.2]
end

end Settling

section FirstVisit

variable {σ : Type}

/-- Every successful visit of a borrow decomposes into the visit of its child
followed by `visit_Borrow_inner`. -/
theorem visit_Borrow_ok {r : StaticTraitResolve} {cb : t_new_static_cb σ} {st : ExprState}
    {sp : Span} {ty : TypeRef} {bt : BorrowType} {v n1 : ExprNode} {s s1 : ExprVisitor_Mutate σ}
    (h : visit r cb st (ExprNode.Borrow sp ty bt v) s = Except.ok (n1, s1)) :
    ∃ v1 sA v2 sB,
      visit_node_ptr r cb st v { s with m_all_constant := true } = Except.ok (v1, sA) ∧
      visit_Borrow_inner r cb st bt v1 sA = Except.ok (v2, sB) ∧
      n1 = ExprNode.Borrow sp ty bt v2 ∧ s1 = { sB with m_all_constant := s.m_all_constant } := by
  rw [visit_Borrow_eq] at h
  cases hc : visit_node_ptr r cb st v { s with m_all_constant := true } with
  | error e => simp [hc] at h
  | ok w =>
    obtain ⟨v1, sA⟩ := w
    simp only [hc] at h
    cases hi : visit_Borrow_inner r cb st bt v1 sA with
    | error e => simp [hi] at h
    | ok u =>
      obtain ⟨v2, sB⟩ := u
      simp only [hi, Except.ok.injEq, Prod.mk.injEq] at h
      exact ⟨v1, sA, v2, sB, rfl, hi, h.1.symm, h.2.symm⟩

/-- The two ways `visit_Borrow_inner` can return: the slot and the callback
state are untouched (the child was not constant or a gate failed), or the
callback returned a path and the slot holds the new `PathValue`. -/
theorem visit_Borrow_inner_cases {r : StaticTraitResolve} {cb : t_new_static_cb σ}
    {st : ExprState} {bt : BorrowType} {value value2 : ExprNode} {s s2 : ExprVisitor_Mutate σ}
    (h : visit_Borrow_inner r cb st bt value s = Except.ok (value2, s2)) :
    (value2 = value ∧ s2.env = s.env ∧
        (s.m_all_constant && spec_gates_pass r bt (value_ptr value)) = false) ∨
    (∃ p env1, s.m_all_constant = true ∧ spec_gates_pass r bt (value_ptr value) = true ∧
        cb s.env (value_ptr value).span (value_ptr value).res_type
          { node := value_ptr value, m_state := new_static_state st } = Except.ok (p, env1) ∧
        value2 = set_value_ptr value
          (ExprNode.PathValue (value_ptr value).span (value_ptr value).res_type
            (Path.ofSimplePath p) Target.STATIC) ∧
        s2.env = env1) := by
  by_cases hall : s.m_all_constant = true
  · by_cases hgen : r.monomorphise_type_needed (value_ptr value).res_type = true
    · rw [visit_Borrow_inner_generic r cb st bt value s hgen] at h
      simp only [Except.ok.injEq, Prod.mk.injEq] at h
      exact Or.inl ⟨h.1.symm, by rw [← h.2], by simp [spec_gates_pass, hgen]⟩
    · by_cases hbt : bt = BorrowType.Shared
      · by_cases him : r.type_is_interior_mutable (value_ptr value).span (value_ptr value).res_type
            = Compare.Unequal
        · rw [visit_Borrow_inner_promote r cb st bt value s hall (by simpa using hgen) hbt him] at h
          cases hcb : cb s.env (value_ptr value).span (value_ptr value).res_type
              { node := value_ptr value, m_state := new_static_state st } with
          | error e => simp [hcb] at h
          | ok w =>
            obtain ⟨p, env1⟩ := w
            simp only [hcb, Except.ok.injEq, Prod.mk.injEq] at h
            refine Or.inr ⟨p, env1, hall, by simp [spec_gates_pass, hgen, hbt, him], rfl,
              h.1.symm, by rw [← h.2]⟩
        · rw [visit_Borrow_inner_interior_mutable r cb st bt value s hall (by simpa using hgen) hbt him]
            at h
          simp only [Except.ok.injEq, Prod.mk.injEq] at h
          exact Or.inl ⟨h.1.symm, by rw [← h.2], by simp [spec_gates_pass, him]⟩
      · rw [visit_Borrow_inner_not_shared r cb st bt value s hbt] at h
        simp only [Except.ok.injEq, Prod.mk.injEq] at h
        exact Or.inl ⟨h.1.symm, by rw [← h.2], by simp [spec_gates_pass, hbt]⟩
  · rw [visit_Borrow_inner_not_all_constant r cb st bt value s (by simpa using hall)] at h
    simp only [Except.ok.injEq, Prod.mk.injEq] at h
    exact Or.inl ⟨h.1.symm, by rw [← h.2], by simp [hall]⟩

end FirstVisit

section FirstVisitSettles

variable {σ : Type}

theorem visit_children_settles {r : StaticTraitResolve} {cb : t_new_static_cb σ} {st : ExprState}
    {J : σ → Prop} {L : σ → SimplePath → Prop} :
    ∀ (cs : List ExprNode),
      (∀ c ∈ cs, ∀ (s : ExprVisitor_Mutate σ) (n1 : ExprNode) (s1 : ExprVisitor_Mutate σ),
        visit r cb st c s = Except.ok (n1, s1) → J s.env →
        J s1.env ∧ (∀ q, L s.env q → L s1.env q) ∧
          (spec_is_constant r c = true → promoted_form (L s1.env) n1) ∧
          (reports_lifted_as_static (L s1.env) r → no_promotable r n1 = true ∧
            (spec_is_constant r n1 = true → spec_is_constant r c = true))) →
      ∀ (s : ExprVisitor_Mutate σ) (cs1 : List ExprNode) (s1 : ExprVisitor_Mutate σ),
        visit_children r cb st cs s = Except.ok (cs1, s1) → J s.env →
        J s1.env ∧ (∀ q, L s.env q → L s1.env q) ∧
          (spec_all_constant r cs = true → promoted_form_list (L s1.env) cs1) ∧
          (reports_lifted_as_static (L s1.env) r → no_promotable_list r cs1 = true ∧
            (spec_all_constant r cs1 = true → spec_all_constant r cs = true))
  | [], _, s, cs1, s1, h, hJ => by
    simp only [visit_children, Except.ok.injEq, Prod.mk.injEq] at h
    rw [← h.1, ← h.2]
    simp [hJ, no_promotable_list, promoted_form_list]
  | c :: cs, ih, s, out, s2, h, hJ => by
    obtain ⟨c1, cs1, s1, hc, hcs, hout⟩ := visit_children_cons_ok h
    obtain ⟨s0, h0, hs0⟩ := visit_node_ptr_ok hc
    have hc1 := ih c (List.mem_cons_self c cs) (node_ptr_enter s) c1 s0 h0 hJ
    have henv : s1.env = s0.env := by rw [hs0, node_ptr_leave_env]
    rw [← henv] at hc1
    have hcs1 := visit_children_settles (L := L) cs (fun d hd => ih d (List.mem_cons_of_mem c hd))
      s1 cs1 s2 hcs hc1.1
    subst hout
    have hmono1 : ∀ q, L s.env q → L s1.env q := hc1.2.1
    refine ⟨hcs1.1, fun q hq => hcs1.2.1 q (hmono1 q hq), ?_, fun hr => ?_⟩
    · intro hall
      rw [spec_all_constant, Bool.and_eq_true] at hall
      rw [promoted_form_list]
      exact ⟨promoted_form_mono hcs1.2.1 _ (hc1.2.2.1 hall.1), hcs1.2.2.1 hall.2⟩
    · have hr1 := hc1.2.2.2 (reports_lifted_as_static_anti hcs1.2.1 hr)
      have hr2 := hcs1.2.2.2 hr
      refine ⟨?_, ?_⟩
      · simp [no_promotable_list, hr1.1, hr2.1]
      · intro hall
        rw [spec_all_constant, Bool.and_eq_true] at hall
        rw [spec_all_constant, hr1.2 hall.1, hr2.2 hall.2]; rfl

/-- What a visit leaves behind. `L env` is the set of paths the callback has
handed out up to the state `env`: each call adds the path it returns and drops
none. Any property `J` of the callback state that each call preserves when the
initializer it receives is in promoted form holds afterwards, and if the
original tree was constant every borrow of the returned tree is in promoted
form. With a resolver that reports the paths handed out as statics, the
returned tree has no promotable borrow and is constant only if the original
was. -/
theorem visit_settles (r : StaticTraitResolve) (cb : t_new_static_cb σ)
    (J : σ → Prop) (L : σ → SimplePath → Prop)
    (hJcb : ∀ env sp ty (e : ExprPtr) p env1, J env → promoted_form (L env) e.node →
      cb env sp ty e = Except.ok (p, env1) → J env1 ∧ L env1 p ∧ ∀ q, L env q → L env1 q)
    (st : ExprState) :
    ∀ (n : ExprNode) (s : ExprVisitor_Mutate σ) (n1 : ExprNode) (s1 : ExprVisitor_Mutate σ),
      visit r cb st n s = Except.ok (n1, s1) → J s.env →
      J s1.env ∧ (∀ q, L s.env q → L s1.env q) ∧
        (spec_is_constant r n = true → promoted_form (L s1.env) n1) ∧
        (reports_lifted_as_static (L s1.env) r → no_promotable r n1 = true ∧
          (spec_is_constant r n1 = true → spec_is_constant r n = true)) := by
  intro n
  induction n using ExprNode.induct with
  | lit sp ty d =>
    intro s n1 s1 h hJ
    simp only [visit, Except.ok.injEq, Prod.mk.injEq] at h
    rw [← h.1, ← h.2]
    simp [hJ, no_promotable, promoted_form]
  | unit sp ty p =>
    intro s n1 s1 h hJ
    simp only [visit, Except.ok.injEq, Prod.mk.injEq] at h
    rw [← h.1, ← h.2]
    simp [hJ, no_promotable, promoted_form]
  | path sp ty p t =>
    intro s n1 s1 h hJ
    rw [visit_PathValue_eq] at h
    simp only [Except.ok.injEq, Prod.mk.injEq] at h
    have henv : s1.env = s.env := by rw [← h.2]; split <;> rfl
    rw [← h.1, henv]
    exact ⟨hJ, fun q hq => hq, fun _ => by simp [promoted_form],
      fun _ => ⟨by simp [no_promotable], fun hc => hc⟩⟩
  | comp k sp ty cs ih =>
    intro s n1 s1 h hJ
    rw [visit] at h
    cases hc : visit_children r cb st cs s with
    | error e => simp [hc] at h
    | ok w =>
      obtain ⟨cs1, s2⟩ := w
      simp only [hc, Except.ok.injEq, Prod.mk.injEq] at h
      have h2 := visit_children_settles (L := L) cs ih s cs1 s2 hc hJ
      rw [← h.1, ← h.2]
      simp only [no_promotable, spec_is_constant, promoted_form]
      exact h2
  | unsize sp ty v ih =>
    intro s n1 s1 h hJ
    rw [visit] at h
    cases hc : node_ptr_result (visit r cb st v (node_ptr_enter s)) with
    | error e => simp [hc] at h
    | ok w =>
      obtain ⟨v1, s2⟩ := w
      simp only [hc, Except.ok.injEq, Prod.mk.injEq] at h
      obtain ⟨s0, h0, hs0⟩ := node_ptr_result_ok hc
      have h2 := ih (node_ptr_enter s) v1 s0 h0 hJ
      have henv : s1.env = s0.env := by rw [← h.2, hs0]; exact node_ptr_leave_env s0
      rw [← h.1, henv]
      simp only [no_promotable, spec_is_constant, promoted_form]
      exact h2
  | borrow sp ty bt v ih =>
    intro s n1 s1 h hJ
    obtain ⟨v1, sA, v2, sB, hc, hi, hn1, hs1⟩ := visit_Borrow_ok h
    obtain ⟨s0, h0, hs0⟩ := visit_node_ptr_ok hc
    have hv := ih _ v1 s0 h0 hJ
    have henvA : sA.env = s0.env := by rw [hs0, node_ptr_leave_env]
    rw [← henvA] at hv
    have hmonoA : ∀ q, L s.env q → L sA.env q := hv.2.1
    have hflag := (visit_node_ptr_all_constant hc).1
    have hshape := visit_node_ptr_value_ptr_shape hc
    have hgates := spec_gates_pass_congr r bt hshape.1 hshape.2
    have henv1 : s1.env = sB.env := by rw [hs1]
    subst hn1
    rw [henv1]
    rcases visit_Borrow_inner_cases hi with ⟨hv2, henv, hno⟩ | ⟨p, env1, hall, hg, hcb, hv2, henv⟩
    · subst hv2
      rw [henv]
      refine ⟨hv.1, hmonoA, ?_, fun hr => ?_⟩
      · intro hc0
        rw [spec_is_constant, Bool.and_eq_true] at hc0
        rw [hflag, hc0.1, hgates, hc0.2] at hno
        simp at hno
      · have hnot : spec_promoted r bt v2 = false := by
          rw [spec_promoted]
          cases hcv : spec_is_constant r v2 with
          | false => rfl
          | true =>
            have hcv0 := (hv.2.2.2 hr).2 hcv
            rw [hflag, hcv0] at hno
            simpa using hno
        refine ⟨?_, ?_⟩
        · simp [no_promotable, hnot, (hv.2.2.2 hr).1]
        · intro hc2
          rw [spec_is_constant] at hc2
          rw [spec_promoted] at hnot
          rw [hnot] at hc2; cases hc2
    · have hcv0 : spec_is_constant r v = true := by
        rw [hflag] at hall; simpa using hall
      have hpf : promoted_form (L sA.env) (value_ptr v1) :=
        promoted_form_value_ptr v1 (hv.2.2.1 hcv0)
      obtain ⟨hJ1, hLp, hmono1⟩ := hJcb _ _ _ _ _ _ hv.1 hpf hcb
      have href : is_lifted_static_ref (L env1) (value_ptr v2) := by
        rw [hv2, value_ptr_set_value_ptr]
        simpa [is_lifted_static_ref, Path.ofSimplePath] using hLp
      rw [henv]
      refine ⟨hJ1, fun q hq => hmono1 q (hmonoA q hq), ?_, fun hr => ?_⟩
      · intro _
        rw [promoted_form]; exact href
      · have hfacts := of_value_ptr_lifted_ref r hr v2 href
        refine ⟨?_, ?_⟩
        · simp [no_promotable, spec_promoted, hfacts.1, hfacts.2.1]
        · intro hc2
          rw [spec_is_constant, hfacts.1] at hc2; cases hc2
  | other kind sp ty cs ih =>
    intro s n1 s1 h hJ
    rw [visit] at h
    cases hc : visit_children r cb st cs s with
    | error e => simp [hc] at h
    | ok w =>
      obtain ⟨cs1, s2⟩ := w
      simp only [hc, Except.ok.injEq, Prod.mk.injEq] at h
      have h2 := visit_children_settles (L := L) cs ih s cs1 s2 hc hJ
      rw [← h.1, ← h.2]
      simp only [no_promotable, spec_is_constant, promoted_form]
      exact ⟨h2.1, h2.2.1, fun hf => Bool.noConfusion hf,
        fun hr => ⟨(h2.2.2.2 hr).1, fun hf => hf⟩⟩

end FirstVisitSettles

section SecondVisit

variable {σ : Type}

/-- When the child is not constant or a gate fails, `visit_Borrow_inner`
returns the slot as it is and does not call the callback. -/
theorem visit_Borrow_inner_unpromoted (r : StaticTraitResolve) (cb : t_new_static_cb σ)
    (st : ExprState) (bt : BorrowType) (value : ExprNode) (s : ExprVisitor_Mutate σ)
    (h : (s.m_all_constant && spec_gates_pass r bt (value_ptr value)) = false) :
    ∃ s2, visit_Borrow_inner r cb st bt value s = Except.ok (value, s2) ∧ s2.env = s.env := by
  by_cases hall : s.m_all_constant = true
  · by_cases hgen : r.monomorphise_type_needed (value_ptr value).res_type = true
    · exact ⟨_, visit_Borrow_inner_generic r cb st bt value s hgen, rfl⟩
    · by_cases hbt : bt = BorrowType.Shared
      · by_cases him : r.type_is_interior_mutable (value_ptr value).span (value_ptr value).res_type
            = Compare.Unequal
        · simp [hall, spec_gates_pass, hgen, hbt, him] at h
        · exact ⟨_, visit_Borrow_inner_interior_mutable r cb st bt value s hall
            (by simpa using hgen) hbt him, rfl⟩
      · exact ⟨_, visit_Borrow_inner_not_shared r cb st bt value s hbt, rfl⟩
  · exact ⟨_, visit_Borrow_inner_not_all_constant r cb st bt value s (by simpa using hall), rfl⟩

theorem visit_children_stable {r : StaticTraitResolve} {cb : t_new_static_cb σ} {st : ExprState} :
    ∀ (cs : List ExprNode),
      (∀ c ∈ cs, no_promotable r c = true → ∀ s : ExprVisitor_Mutate σ,
        ∃ s1, visit r cb st c s = Except.ok (c, s1) ∧ s1.env = s.env) →
      no_promotable_list r cs = true →
      ∀ s : ExprVisitor_Mutate σ,
        ∃ s1, visit_children r cb st cs s = Except.ok (cs, s1) ∧ s1.env = s.env
  | [], _, _, s => ⟨s, by simp [visit_children], rfl⟩
  | c :: cs, ih, h, s => by
    rw [no_promotable_list, Bool.and_eq_true] at h
    obtain ⟨s0, h0, he0⟩ := ih c (List.mem_cons_self c cs) h.1 (node_ptr_enter s)
    obtain ⟨s2, h2, he2⟩ := visit_children_stable cs
      (fun d hd => ih d (List.mem_cons_of_mem c hd)) h.2 (node_ptr_leave s0)
    refine ⟨s2, ?_, ?_⟩
    · rw [visit_children_cons, visit_node_ptr, h0]
      simp only [node_ptr_result]
      rw [h2]
    · rw [he2, node_ptr_leave_env, he0]; rfl

/-- A tree without promotable borrow is returned as it is by the classifier,
whatever the callback, the context and the visitor state, and the callback
state is untouched. -/
theorem visit_stable (r : StaticTraitResolve) (cb : t_new_static_cb σ) (st : ExprState) :
    ∀ (n : ExprNode), no_promotable r n = true → ∀ s : ExprVisitor_Mutate σ,
      ∃ s1, visit r cb st n s = Except.ok (n, s1) ∧ s1.env = s.env := by
  intro n
  induction n using ExprNode.induct with
  | lit sp ty d => intro _ s; exact ⟨{ s with m_is_constant := true }, by rw [visit], rfl⟩
  | unit sp ty p => intro _ s; exact ⟨{ s with m_is_constant := true }, by rw [visit], rfl⟩
  | path sp ty p t =>
    intro _ s
    refine ⟨if spec_path_is_constant r sp p then { s with m_is_constant := true } else s,
      visit_PathValue_eq r cb st sp ty p t s, ?_⟩
    split <;> rfl
  | comp k sp ty cs ih =>
    intro h s
    rw [no_promotable] at h
    obtain ⟨s1, h1, he1⟩ := visit_children_stable cs ih h s
    exact ⟨{ s1 with m_is_constant := s1.m_all_constant }, by rw [visit, h1], he1⟩
  | unsize sp ty v ih =>
    intro h s
    rw [no_promotable] at h
    obtain ⟨s1, h1, he1⟩ := ih h (node_ptr_enter s)
    refine ⟨{ node_ptr_leave s1 with m_is_constant := (node_ptr_leave s1).m_all_constant },
      by rw [visit, h1]; rfl, ?_⟩
    simp only [node_ptr_leave_env, he1]; rfl
  | borrow sp ty bt v ih =>
    intro h s
    rw [no_promotable, Bool.and_eq_true] at h
    obtain ⟨s0, h0, he0⟩ := ih h.2 (node_ptr_enter { s with m_all_constant := true })
    have hc : visit_node_ptr r cb st v { s with m_all_constant := true }
        = Except.ok (v, node_ptr_leave s0) := by
      rw [visit_node_ptr, h0]; rfl
    have hflag := (visit_node_ptr_all_constant hc).1
    have hno : ((node_ptr_leave s0).m_all_constant && spec_gates_pass r bt (value_ptr v)) = false := by
      have hp : spec_promoted r bt v = false := by simpa using h.1
      rw [hflag]; simpa [spec_promoted] using hp
    obtain ⟨s2, h2, he2⟩ := visit_Borrow_inner_unpromoted r cb st bt v (node_ptr_leave s0) hno
    refine ⟨{ s2 with m_all_constant := s.m_all_constant }, ?_, ?_⟩
    · rw [visit_Borrow_eq, hc]
      simp only []
      rw [h2]
    · simp only [he2, node_ptr_leave_env, he0]; rfl
  | other kind sp ty cs ih =>
    intro h s
    rw [no_promotable] at h
    obtain ⟨s1, h1, he1⟩ := visit_children_stable cs ih h s
    exact ⟨s1, by rw [visit, h1], he1⟩

end SecondVisit

/-! ## The registry during the walk -/

section RegistryInvariant

theorem new_statics_set_keys (m : List (ModulePtr × List (SimplePath × Static)))
    (k : ModulePtr) (l : List (SimplePath × Static)) :
    (new_statics_set m k l).map Prod.fst =
      if k ∈ m.map Prod.fst then m.map Prod.fst else m.map Prod.fst ++ [k] := by
  induction m with
  | nil => simp [new_statics_set]
  | cons head tail ih =>
    obtain ⟨k0, l0⟩ := head
    by_cases h0 : k0 = k
    · subst h0; simp [new_statics_set]
    · have h0s : ¬ k = k0 := fun e => h0 e.symm
      simp only [new_statics_set, h0, if_false, List.map_cons, ih, List.mem_cons, h0s, false_or]
      split <;> simp

theorem new_statics_set_nodup (m : List (ModulePtr × List (SimplePath × Static)))
    (k : ModulePtr) (l : List (SimplePath × Static)) (h : (m.map Prod.fst).Nodup) :
    ((new_statics_set m k l).map Prod.fst).Nodup := by
  rw [new_statics_set_keys]
  split
  · exact h
  · rename_i hk
    exact List.Nodup.append h (List.nodup_singleton k) (by simpa using hk)

theorem mem_new_statics_set {m : List (ModulePtr × List (SimplePath × Static))}
    {k M : ModulePtr} {l list : List (SimplePath × Static)}
    (h : (M, list) ∈ new_statics_set m k l) : M = k ∨ (M, list) ∈ m := by
  induction m with
  | nil =>
    simp only [new_statics_set, List.mem_singleton, Prod.mk.injEq] at h
    exact Or.inl h.1
  | cons head tail ih =>
    obtain ⟨k0, l0⟩ := head
    by_cases h0 : k0 = k
    · subst h0
      simp only [new_statics_set, if_true, List.mem_cons, Prod.mk.injEq] at h
      rcases h with h | h
      · exact Or.inl h.1
      · exact Or.inr (List.mem_cons_of_mem _ h)
    · simp only [new_statics_set, h0, if_false, List.mem_cons] at h
      rcases h with h | h
      · exact Or.inr (by rw [h]; exact List.mem_cons_self _ _)
      · rcases ih h with h1 | h1
        · exact Or.inl h1
        · exact Or.inr (List.mem_cons_of_mem _ h1)

/-- With distinct keys, the list stored with a module is the one `operator[]`
returns. -/
theorem new_statics_get_of_mem :
    ∀ (m : List (ModulePtr × List (SimplePath × Static))) (M : ModulePtr)
      (list : List (SimplePath × Static)),
      (m.map Prod.fst).Nodup → (M, list) ∈ m → new_statics_get m M = list
  | [], _, _, _, h => by cases h
  | (k0, l0) :: rest, M, list, hnd, h => by
    rw [List.map_cons, List.nodup_cons] at hnd
    rcases List.mem_cons.mp h with h1 | h1
    · simp only [Prod.mk.injEq] at h1
      simp [new_statics_get, h1.1, h1.2]
    · have hne : k0 ≠ M := by
        intro e
        apply hnd.1
        rw [e]
        exact List.mem_map.mpr ⟨(M, list), h1, rfl⟩
      simp only [new_statics_get, hne, if_false]
      exact new_statics_get_of_mem rest M list hnd.2 h1

/-- A successful callback had a current module, returned the next `lifted#`
path of that module and appended the new static to its list. -/
theorem get_new_ty_cb_ok {this this1 : OuterVisitor} {sp : Span} {ty : TypeRef}
    {val_expr : ExprPtr} {p : SimplePath}
    (h : get_new_ty_cb this sp ty val_expr = Except.ok (p, this1)) :
    ∃ M, this.m_current_module = some M ∧ p = next_lifted_path this M ∧
      this1 = with_new_static this M ty val_expr := by
  cases hm : this.m_current_module with
  | none => simp [get_new_ty_cb, get_new_ty_cb_body, hm] at h
  | some M =>
    rw [get_new_ty_cb_eq this sp ty val_expr M hm] at h
    simp only [Except.ok.injEq, Prod.mk.injEq] at h
    exact ⟨M, rfl, h.1.symm, h.2.symm⟩

theorem next_lifted_path_back (this : OuterVisitor) (M : ModulePtr) :
    (next_lifted_path this M).back = lifted_name (new_statics_get this.m_new_statics M).length :=
  get_simple_path_add_back _ _

/-- The path handed out is pending afterwards, and so is every path that was
pending before. -/
theorem allocated_with_new_static (this : OuterVisitor) (M : ModulePtr) (ty : TypeRef)
    (val_expr : ExprPtr) :
    allocated (with_new_static this M ty val_expr).m_new_statics (next_lifted_path this M) ∧
    ∀ q, allocated this.m_new_statics q →
      allocated (with_new_static this M ty val_expr).m_new_statics q := by
  constructor
  · refine ⟨M, Static.new Linkage.new false ty val_expr, ?_⟩
    simp [with_new_static, new_statics_get_set]
  · rintro q ⟨M1, st, hmem⟩
    refine ⟨M1, st, ?_⟩
    simp only [with_new_static, new_statics_get_set]
    by_cases hMM : M = M1
    · subst hMM; simp [hmem]
    · simp [hMM, hmem]

theorem get_new_ty_cb_allocated {this this1 : OuterVisitor} {sp : Span} {ty : TypeRef}
    {val_expr : ExprPtr} {p : SimplePath}
    (h : get_new_ty_cb this sp ty val_expr = Except.ok (p, this1)) :
    allocated this1.m_new_statics p := by
  obtain ⟨M, _, hp, h1⟩ := get_new_ty_cb_ok h
  rw [hp, h1]
  exact (allocated_with_new_static this M ty val_expr).1

theorem get_new_ty_cb_same_context {this this1 : OuterVisitor} {sp : Span} {ty : TypeRef}
    {val_expr : ExprPtr} {p : SimplePath}
    (h : get_new_ty_cb this sp ty val_expr = Except.ok (p, this1)) : same_context this1 this := by
  obtain ⟨M, _, _, h1⟩ := get_new_ty_cb_ok h
  subst h1
  exact ⟨rfl, rfl, rfl, rfl, (allocated_with_new_static this M ty val_expr).2⟩

/-- The callback keeps the registry in order when the initializer it receives
is in promoted form. -/
theorem get_new_ty_cb_visitor_ok {valid : ModulePtr → Prop} {this this1 : OuterVisitor}
    {sp : Span} {ty : TypeRef} {val_expr : ExprPtr} {p : SimplePath}
    (hok : visitor_ok valid this) (hpf : promoted_form (allocated this.m_new_statics) val_expr.node)
    (h : get_new_ty_cb this sp ty val_expr = Except.ok (p, this1)) : visitor_ok valid this1 := by
  obtain ⟨M, hM, _, h1⟩ := get_new_ty_cb_ok h
  subst h1
  obtain ⟨⟨hnd, hval, hnames⟩, hcur⟩ := hok
  have hmono := (allocated_with_new_static this M ty val_expr).2
  have hold : ∀ M1 idx P st, (new_statics_get this.m_new_statics M1)[idx]? = some (P, st) →
      P.back = lifted_name idx ∧
        ∃ v, st = Static.new Linkage.new false st.m_type v ∧
          promoted_form (allocated (with_new_static this M ty val_expr).m_new_statics) v.node := by
    intro M1 idx P st hget
    obtain ⟨hb, v, hv, hform⟩ := hnames M1 idx P st hget
    exact ⟨hb, v, hv, promoted_form_mono hmono _ hform⟩
  refine ⟨⟨?_, ?_, ?_⟩, ?_⟩
  · exact new_statics_set_nodup _ _ _ hnd
  · intro M1 list hmem
    rcases mem_new_statics_set hmem with h1 | h1
    · rw [h1]; exact hcur M hM
    · exact hval M1 list h1
  · intro M1 idx P st hget
    simp only [with_new_static, new_statics_get_set] at hget
    by_cases hMM : M = M1
    · subst hMM
      simp only [if_true] at hget
      by_cases hidx : idx < (new_statics_get this.m_new_statics M).length
      · rw [List.getElem?_append_left hidx] at hget
        exact hold M idx P st hget
      · have hge : (new_statics_get this.m_new_statics M).length ≤ idx := by omega
        rw [List.getElem?_append_right hge] at hget
        have hz : idx - (new_statics_get this.m_new_statics M).length = 0 := by
          by_contra hne
          have hpos : 0 < idx - (new_statics_get this.m_new_statics M).length := by omega
          obtain ⟨j, hj⟩ : ∃ j, idx - (new_statics_get this.m_new_statics M).length = j + 1 :=
            ⟨idx - (new_statics_get this.m_new_statics M).length - 1, by omega⟩
          rw [hj] at hget
          simp at hget
        rw [hz] at hget
        simp only [List.getElem?_cons_zero, Option.some.injEq, Prod.mk.injEq] at hget
        have hidx2 : idx = (new_statics_get this.m_new_statics M).length := by omega
        refine ⟨by rw [← hget.1, hidx2]; exact next_lifted_path_back this M, val_expr, ?_,
          promoted_form_mono hmono _ hpf⟩
        rw [← hget.2]; rfl
    · simp only [hMM, if_false] at hget
      exact hold M1 idx P st hget
  · intro M1 hM1
    exact hcur M1 hM1

end RegistryInvariant

/-! ## The first walk: items -/

section FirstWalkItems

theorem same_context_refl (a : OuterVisitor) : same_context a a :=
  ⟨rfl, rfl, rfl, rfl, fun _ h => h⟩

theorem same_context_trans {a b c : OuterVisitor} (h1 : same_context a b) (h2 : same_context b c) :
    same_context a c :=
  ⟨h1.1.trans h2.1, h1.2.1.trans h2.2.1, h1.2.2.1.trans h2.2.2.1, h1.2.2.2.1.trans h2.2.2.2.1,
    fun p hp => h1.2.2.2.2 p (h2.2.2.2.2 p hp)⟩

/-- A resolver that reports the pending statics of a later visitor as statics
does so for those of an earlier one. -/
theorem resolver_reports_of_same_context {resolve : Resolver} {a b : OuterVisitor}
    (h : same_context a b) (hr : resolver_reports_lifted_as_static resolve a.m_new_statics) :
    resolver_reports_lifted_as_static resolve b.m_new_statics :=
  fun ig itg => reports_lifted_as_static_anti h.2.2.2.2 (hr ig itg)

theorem visitor_ok_of_same_context {valid : ModulePtr → Prop} {a b : OuterVisitor}
    (hreg : a.m_new_statics = b.m_new_statics) (hcur : a.m_current_module = b.m_current_module)
    (h : visitor_ok valid b) : visitor_ok valid a := by
  unfold visitor_ok at *
  rw [hreg, hcur]; exact h

/-- The classifier run on one root expression: the registry stays in order and
the context is untouched; with a resolver that reports the generated statics
as statics, the returned tree has no promotable borrow. -/
theorem run_on_expr_first {resolve : Resolver} {valid : ModulePtr → Prop}
    {e e1 : ExprPtr} {this this1 : OuterVisitor}
    (h : run_on_expr resolve e this = Except.ok (e1, this1)) (hok : visitor_ok valid this) :
    visitor_ok valid this1 ∧ same_context this1 this ∧
      (resolver_reports_lifted_as_static resolve this1.m_new_statics →
        no_promotable (resolve this.m_resolve_impl_generics this.m_resolve_item_generics) e1.node
          = true) := by
  unfold run_on_expr visit_root at h
  cases hv : visit (this.m_resolve resolve) get_new_ty_cb e.m_state e.node
      (ExprVisitor_Mutate.new this) with
  | error err => simp [hv] at h
  | ok w =>
    obtain ⟨n, s1⟩ := w
    simp only [hv, Except.ok.injEq, Prod.mk.injEq] at h
    have hs := visit_settles (this.m_resolve resolve) get_new_ty_cb
      (fun env => visitor_ok valid env ∧ same_context env this)
      (fun env => allocated env.m_new_statics)
      (fun env sp ty e0 p env1 hJ hpf hcb =>
        ⟨⟨get_new_ty_cb_visitor_ok hJ.1 hpf hcb,
            same_context_trans (get_new_ty_cb_same_context hcb) hJ.2⟩,
          get_new_ty_cb_allocated hcb, (get_new_ty_cb_same_context hcb).2.2.2.2⟩)
      e.m_state e.node (ExprVisitor_Mutate.new this) n s1 hv ⟨hok, same_context_refl this⟩
    rw [← h.1, ← h.2]
    exact ⟨hs.1.1, hs.1.2, fun hr => (hs.2.2.2 (hr _ _)).1⟩

theorem run_on_opt_expr_first {resolve : Resolver} {valid : ModulePtr → Prop}
    {e e1 : Option ExprPtr} {this this1 : OuterVisitor}
    (h : run_on_opt_expr resolve e this = Except.ok (e1, this1)) (hok : visitor_ok valid this) :
    visitor_ok valid this1 ∧ same_context this1 this ∧
      (resolver_reports_lifted_as_static resolve this1.m_new_statics →
        settled_expr resolve this.m_resolve_impl_generics this.m_resolve_item_generics e1) := by
  cases e with
  | none =>
    simp only [run_on_opt_expr, Except.ok.injEq, Prod.mk.injEq] at h
    rw [← h.1, ← h.2]
    exact ⟨hok, same_context_refl this, (fun _ v hv => by cases hv)⟩
  | some e0 =>
    simp only [run_on_opt_expr] at h
    cases hv : run_on_expr resolve e0 this with
    | error err => simp [hv] at h
    | ok w =>
      obtain ⟨e2, this2⟩ := w
      simp only [hv, Except.ok.injEq, Prod.mk.injEq] at h
      have hs := run_on_expr_first hv hok
      rw [← h.1, ← h.2]
      refine ⟨hs.1, hs.2.1, fun hr v hv2 => ?_⟩
      simp only [Option.some.injEq] at hv2
      rw [← hv2]; exact hs.2.2 hr

theorem visit_function_first {resolve : Resolver} {valid : ModulePtr → Prop}
    {item item1 : Function} {this this1 : OuterVisitor}
    (h : visit_function resolve item this = Except.ok (item1, this1)) (hok : visitor_ok valid this)
    (hitg : this.m_resolve_item_generics = none) :
    visitor_ok valid this1 ∧ same_context this1 this ∧
      (resolver_reports_lifted_as_static resolve this1.m_new_statics →
        item1.settled resolve this.m_resolve_impl_generics) := by
  unfold visit_function at h
  cases hc : item.m_code with
  | none =>
    simp only [hc, Except.ok.injEq, Prod.mk.injEq] at h
    rw [← h.1, ← h.2]
    refine ⟨hok, same_context_refl this, fun _ v hv => ?_⟩
    rw [hc] at hv; cases hv
  | some code =>
    simp only [hc] at h
    cases hv : run_on_expr resolve code { this with m_resolve_item_generics := some item.m_params } with
    | error err => simp [hv] at h
    | ok w =>
      obtain ⟨code1, this2⟩ := w
      simp only [hv, Except.ok.injEq, Prod.mk.injEq] at h
      have hs := run_on_expr_first hv (visitor_ok_of_same_context rfl rfl hok)
      rw [← h.1, ← h.2]
      refine ⟨visitor_ok_of_same_context rfl rfl hs.1, ?_, fun hr v hv2 => ?_⟩
      · exact ⟨hs.2.1.1, hitg.symm, hs.2.1.2.2.1, hs.2.1.2.2.2⟩
      · simp only [Option.some.injEq] at hv2
        rw [← hv2]; exact hs.2.2 hr

theorem visit_static_first {resolve : Resolver} {valid : ModulePtr → Prop}
    {item item1 : Static} {this this1 : OuterVisitor}
    (h : visit_static resolve item this = Except.ok (item1, this1)) (hok : visitor_ok valid this) :
    visitor_ok valid this1 ∧ same_context this1 this ∧
      (resolver_reports_lifted_as_static resolve this1.m_new_statics →
        settled_expr resolve this.m_resolve_impl_generics this.m_resolve_item_generics
          item1.m_value) := by
  unfold visit_static at h
  cases hv : run_on_opt_expr resolve item.m_value this with
  | error err => simp [hv] at h
  | ok w =>
    obtain ⟨v1, this2⟩ := w
    simp only [hv, Except.ok.injEq, Prod.mk.injEq] at h
    have hs := run_on_opt_expr_first hv hok
    rw [← h.1, ← h.2]
    exact hs

theorem visit_constant_first {resolve : Resolver} {valid : ModulePtr → Prop}
    {item item1 : Constant} {this this1 : OuterVisitor}
    (h : visit_constant resolve item this = Except.ok (item1, this1)) (hok : visitor_ok valid this) :
    visitor_ok valid this1 ∧ same_context this1 this ∧
      (resolver_reports_lifted_as_static resolve this1.m_new_statics →
        settled_expr resolve this.m_resolve_impl_generics this.m_resolve_item_generics
          item1.m_value) := by
  unfold visit_constant at h
  cases hv : run_on_opt_expr resolve item.m_value this with
  | error err => simp [hv] at h
  | ok w =>
    obtain ⟨v1, this2⟩ := w
    simp only [hv, Except.ok.injEq, Prod.mk.injEq] at h
    have hs := run_on_opt_expr_first hv hok
    rw [← h.1, ← h.2]
    exact hs

theorem visit_enum_variants_first {resolve : Resolver} {valid : ModulePtr → Prop} :
    ∀ (vars vars1 : List EnumValueVariant) (this this1 : OuterVisitor),
      visit_enum_variants resolve vars this = Except.ok (vars1, this1) → visitor_ok valid this →
      visitor_ok valid this1 ∧ same_context this1 this ∧
        (resolver_reports_lifted_as_static resolve this1.m_new_statics →
          ∀ var ∈ vars1, settled_expr resolve this.m_resolve_impl_generics
            this.m_resolve_item_generics var.expr)
  | [], vars1, this, this1, h, hok => by
    simp only [visit_enum_variants, Except.ok.injEq, Prod.mk.injEq] at h
    rw [← h.1, ← h.2]
    exact ⟨hok, same_context_refl this, (fun _ var hv => by cases hv)⟩
  | var :: rest, vars1, this, this1, h, hok => by
    simp only [visit_enum_variants] at h
    cases hv : run_on_opt_expr resolve var.expr this with
    | error err => simp [hv] at h
    | ok w =>
      obtain ⟨e1, this2⟩ := w
      simp only [hv] at h
      cases hr2 : visit_enum_variants resolve rest this2 with
      | error err => simp [hr2] at h
      | ok u =>
        obtain ⟨rest1, this3⟩ := u
        simp only [hr2, Except.ok.injEq, Prod.mk.injEq] at h
        have hs := run_on_opt_expr_first hv hok
        have hs2 := visit_enum_variants_first rest rest1 this2 this3 hr2 hs.1
        rw [← h.1, ← h.2]
        refine ⟨hs2.1, same_context_trans hs2.2.1 hs.2.1, fun hr v hv3 => ?_⟩
        rcases List.mem_cons.mp hv3 with h1 | h1
        · rw [h1]; exact hs.2.2 (resolver_reports_of_same_context hs2.2.1 hr)
        · have := hs2.2.2 hr v h1
          rw [hs.2.1.1, hs.2.1.2.1] at this
          exact this

theorem visit_enum_first {resolve : Resolver} {valid : ModulePtr → Prop}
    {item item1 : Enum} {this this1 : OuterVisitor}
    (h : visit_enum resolve item this = Except.ok (item1, this1)) (hok : visitor_ok valid this)
    (hig : this.m_resolve_impl_generics = none) (hitg : this.m_resolve_item_generics = none) :
    visitor_ok valid this1 ∧ same_context this1 this ∧
      (resolver_reports_lifted_as_static resolve this1.m_new_statics → item1.settled resolve) := by
  unfold visit_enum at h
  cases hd : item.m_data with
  | none =>
    simp only [hd, Except.ok.injEq, Prod.mk.injEq] at h
    rw [← h.1, ← h.2]
    refine ⟨hok, same_context_refl this, fun _ vs hvs => ?_⟩
    rw [hd] at hvs; cases hvs
  | some variants =>
    simp only [hd] at h
    cases hv : visit_enum_variants resolve variants
        { this with m_resolve_impl_generics := some item.m_params } with
    | error err => simp [hv] at h
    | ok w =>
      obtain ⟨variants1, this2⟩ := w
      simp only [hv, Except.ok.injEq, Prod.mk.injEq] at h
      have hs := visit_enum_variants_first variants variants1 _ this2 hv
        (visitor_ok_of_same_context rfl rfl hok)
      rw [← h.1, ← h.2]
      refine ⟨visitor_ok_of_same_context rfl rfl hs.1, ?_, fun hr vs hvs var hvar => ?_⟩
      · exact ⟨hig.symm, hs.2.1.2.1, hs.2.1.2.2.1, hs.2.1.2.2.2⟩
      · simp only [Option.some.injEq] at hvs
        rw [← hvs] at hvar
        have := hs.2.2 hr var hvar
        simpa [hitg] using this

theorem visit_array_size_first {resolve : Resolver} {valid : ModulePtr → Prop}
    {size size1 : ArraySize} {this this1 : OuterVisitor}
    (h : visit_array_size resolve size this = Except.ok (size1, this1))
    (hok : visitor_ok valid this) :
    visitor_ok valid this1 ∧ same_context this1 this ∧
      (resolver_reports_lifted_as_static resolve this1.m_new_statics →
        size1.settled resolve this.m_resolve_impl_generics this.m_resolve_item_generics) := by
  cases size with
  | Known n =>
    simp only [visit_array_size, Except.ok.injEq, Prod.mk.injEq] at h
    rw [← h.1, ← h.2]
    exact ⟨hok, same_context_refl this, fun _ => trivial⟩
  | Unevaluated cg =>
    cases cg with
    | Other kind =>
      simp only [visit_array_size, Except.ok.injEq, Prod.mk.injEq] at h
      rw [← h.1, ← h.2]
      exact ⟨hok, same_context_refl this, fun _ => trivial⟩
    | Unevaluated expr =>
      simp only [visit_array_size] at h
      cases hv : run_on_expr resolve expr this with
      | error err => simp [hv] at h
      | ok w =>
        obtain ⟨expr1, this2⟩ := w
        simp only [hv, Except.ok.injEq, Prod.mk.injEq] at h
        have hs := run_on_expr_first hv hok
        rw [← h.1, ← h.2]
        exact ⟨hs.1, hs.2.1, fun hr => hs.2.2 hr⟩

mutual
/-- The walk of a type keeps the registry in order and the context as it was,
and leaves every array size of the type settled. -/
theorem visit_type_first {resolve : Resolver} {valid : ModulePtr → Prop} :
    ∀ (ty ty1 : TypeData) (this this1 : OuterVisitor),
      visit_type resolve ty this = Except.ok (ty1, this1) → visitor_ok valid this →
      visitor_ok valid this1 ∧ same_context this1 this ∧
        (resolver_reports_lifted_as_static resolve this1.m_new_statics →
          ty1.settled resolve this.m_resolve_impl_generics this.m_resolve_item_generics)
  | TypeData.Array inner size, ty1, this, this1, h, hok => by
    rw [visit_type] at h
    cases hi : visit_type resolve inner this with
    | error err => simp [hi] at h
    | ok w =>
      obtain ⟨inner1, this2⟩ := w
      simp only [hi] at h
      cases hsz : visit_array_size resolve size this2 with
      | error err => simp [hsz] at h
      | ok u =>
        obtain ⟨size1, this3⟩ := u
        simp only [hsz, Except.ok.injEq, Prod.mk.injEq] at h
        have hs := visit_type_first inner inner1 this this2 hi hok
        have hs2 := visit_array_size_first hsz hs.1
        rw [← h.1, ← h.2]
        refine ⟨hs2.1, same_context_trans hs2.2.1 hs.2.1, fun hr => ?_⟩
        rw [TypeData.settled]
        refine ⟨hs.2.2 (resolver_reports_of_same_context hs2.2.1 hr), ?_⟩
        have := hs2.2.2 hr
        rw [hs.2.1.1, hs.2.1.2.1] at this
        exact this
  | TypeData.Other kind inner, ty1, this, this1, h, hok => by
    rw [visit_type] at h
    cases hi : visit_types resolve inner this with
    | error err => simp [hi] at h
    | ok w =>
      obtain ⟨inner1, this2⟩ := w
      simp only [hi, Except.ok.injEq, Prod.mk.injEq] at h
      have hs := visit_types_first inner inner1 this this2 hi hok
      rw [← h.1, ← h.2]
      refine ⟨hs.1, hs.2.1, fun hr => ?_⟩
      rw [TypeData.settled]
      exact hs.2.2 hr
theorem visit_types_first {resolve : Resolver} {valid : ModulePtr → Prop} :
    ∀ (tys tys1 : List TypeData) (this this1 : OuterVisitor),
      visit_types resolve tys this = Except.ok (tys1, this1) → visitor_ok valid this →
      visitor_ok valid this1 ∧ same_context this1 this ∧
        (resolver_reports_lifted_as_static resolve this1.m_new_statics →
          settled_types resolve this.m_resolve_impl_generics this.m_resolve_item_generics tys1)
  | [], tys1, this, this1, h, hok => by
    simp only [visit_types, Except.ok.injEq, Prod.mk.injEq] at h
    rw [← h.1, ← h.2]
    exact ⟨hok, same_context_refl this, fun _ => by simp [settled_types]⟩
  | ty :: rest, tys1, this, this1, h, hok => by
    rw [visit_types] at h
    cases hv : visit_type resolve ty this with
    | error err => simp [hv] at h
    | ok w =>
      obtain ⟨ty1, this2⟩ := w
      simp only [hv] at h
      cases hrest : visit_types resolve rest this2 with
      | error err => simp [hrest] at h
      | ok u =>
        obtain ⟨rest1, this3⟩ := u
        simp only [hrest, Except.ok.injEq, Prod.mk.injEq] at h
        have hs := visit_type_first ty ty1 this this2 hv hok
        have hs2 := visit_types_first rest rest1 this2 this3 hrest hs.1
        rw [← h.1, ← h.2]
        refine ⟨hs2.1, same_context_trans hs2.2.1 hs.2.1, fun hr => ?_⟩
        rw [settled_types]
        refine ⟨hs.2.2 (resolver_reports_of_same_context hs2.2.1 hr), ?_⟩
        have := hs2.2.2 hr
        rw [hs.2.1.1, hs.2.1.2.1] at this
        exact this
end

theorem visit_named_first {α : Type} {resolve : Resolver} {valid : ModulePtr → Prop}
    {f : α → OuterVisitor → Except Error (α × OuterVisitor)} {Q : α → Prop}
    {a b : Option GenericParams}
    (hf : ∀ (item item1 : α) (this this1 : OuterVisitor),
      f item this = Except.ok (item1, this1) → visitor_ok valid this →
      this.m_resolve_impl_generics = a → this.m_resolve_item_generics = b →
      visitor_ok valid this1 ∧ same_context this1 this ∧
        (resolver_reports_lifted_as_static resolve this1.m_new_statics → Q item1)) :
    ∀ (items items1 : List (RcString × α)) (this this1 : OuterVisitor),
      visit_named f items this = Except.ok (items1, this1) → visitor_ok valid this →
      this.m_resolve_impl_generics = a → this.m_resolve_item_generics = b →
      visitor_ok valid this1 ∧ same_context this1 this ∧
        (resolver_reports_lifted_as_static resolve this1.m_new_statics → ∀ e ∈ items1, Q e.2)
  | [], items1, this, this1, h, hok, _, _ => by
    simp only [visit_named, Except.ok.injEq, Prod.mk.injEq] at h
    rw [← h.1, ← h.2]
    exact ⟨hok, same_context_refl this, (fun _ e he => by cases he)⟩
  | (name, item) :: rest, items1, this, this1, h, hok, hig, hitg => by
    rw [visit_named] at h
    cases hv : f item this with
    | error err => simp [hv] at h
    | ok w =>
      obtain ⟨item1, this2⟩ := w
      simp only [hv] at h
      cases hrest : visit_named f rest this2 with
      | error err => simp [hrest] at h
      | ok u =>
        obtain ⟨rest1, this3⟩ := u
        simp only [hrest, Except.ok.injEq, Prod.mk.injEq] at h
        have hs := hf item item1 this this2 hv hok hig hitg
        have hs2 := visit_named_first hf rest rest1 this2 this3 hrest hs.1
          (hs.2.1.1.trans hig) (hs.2.1.2.1.trans hitg)
        rw [← h.1, ← h.2]
        refine ⟨hs2.1, same_context_trans hs2.2.1 hs.2.1, fun hr e he => ?_⟩
        rcases List.mem_cons.mp he with h1 | h1
        · rw [h1]; exact hs.2.2 (resolver_reports_of_same_context hs2.2.1 hr)
        · exact hs2.2.2 hr e h1

theorem visit_trait_value_first {resolve : Resolver} {valid : ModulePtr → Prop}
    {item item1 : TraitValueItem} {this this1 : OuterVisitor}
    (h : visit_trait_value resolve item this = Except.ok (item1, this1))
    (hok : visitor_ok valid this)
    (hig : this.m_resolve_impl_generics = none) (hitg : this.m_resolve_item_generics = none) :
    visitor_ok valid this1 ∧ same_context this1 this ∧
      (resolver_reports_lifted_as_static resolve this1.m_new_statics → item1.settled resolve) := by
  cases item with
  | Constant e =>
    simp only [visit_trait_value] at h
    cases hv : visit_constant resolve e this with
    | error err => simp [hv] at h
    | ok w =>
      obtain ⟨e1, this2⟩ := w
      simp only [hv, Except.ok.injEq, Prod.mk.injEq] at h
      have hs := visit_constant_first hv hok
      rw [← h.1, ← h.2]
      refine ⟨hs.1, hs.2.1, fun hr => ?_⟩
      have := hs.2.2 hr
      rw [hig, hitg] at this
      exact this
  | Static e =>
    simp only [visit_trait_value] at h
    cases hv : visit_static resolve e this with
    | error err => simp [hv] at h
    | ok w =>
      obtain ⟨e1, this2⟩ := w
      simp only [hv, Except.ok.injEq, Prod.mk.injEq] at h
      have hs := visit_static_first hv hok
      rw [← h.1, ← h.2]
      refine ⟨hs.1, hs.2.1, fun hr => ?_⟩
      have := hs.2.2 hr
      rw [hig, hitg] at this
      exact this
  | Function e =>
    simp only [visit_trait_value] at h
    cases hv : visit_function resolve e this with
    | error err => simp [hv] at h
    | ok w =>
      obtain ⟨e1, this2⟩ := w
      simp only [hv, Except.ok.injEq, Prod.mk.injEq] at h
      have hs := visit_function_first hv hok hitg
      rw [← h.1, ← h.2]
      refine ⟨hs.1, hs.2.1, fun hr => ?_⟩
      have := hs.2.2 hr
      rw [hig] at this
      exact this

theorem visit_trait_first {resolve : Resolver} {valid : ModulePtr → Prop}
    {item item1 : Trait} {this this1 : OuterVisitor}
    (h : visit_trait resolve item this = Except.ok (item1, this1))
    (hok : visitor_ok valid this)
    (hig : this.m_resolve_impl_generics = none) (hitg : this.m_resolve_item_generics = none) :
    visitor_ok valid this1 ∧ same_context this1 this ∧
      (resolver_reports_lifted_as_static resolve this1.m_new_statics → item1.settled resolve) := by
  unfold visit_trait at h
  cases ht : visit_types resolve item.m_head_types this with
  | error err => simp [ht] at h
  | ok w =>
    obtain ⟨types1, this2⟩ := w
    simp only [ht] at h
    cases hv : visit_named (visit_trait_value resolve) item.m_values this2 with
    | error err => simp [hv] at h
    | ok u =>
      obtain ⟨values1, this3⟩ := u
      simp only [hv, Except.ok.injEq, Prod.mk.injEq] at h
      have hs := visit_types_first item.m_head_types types1 this this2 ht hok
      have hs2 := visit_named_first (Q := fun v : TraitValueItem => v.settled resolve)
        (a := none) (b := none)
        (fun it it1 t t1 hv0 hk hig0 hitg0 => visit_trait_value_first hv0 hk hig0 hitg0)
        item.m_values values1 this2 this3 hv hs.1 (hs.2.1.1.trans hig) (hs.2.1.2.1.trans hitg)
      rw [← h.1, ← h.2]
      refine ⟨hs2.1, same_context_trans hs2.2.1 hs.2.1, fun hr => ⟨?_, hs2.2.2 hr⟩⟩
      have := hs.2.2 (resolver_reports_of_same_context hs2.2.1 hr)
      rw [hig, hitg] at this
      exact this

end FirstWalkItems

/-! ## The first walk: modules -/

section FirstWalkModules

theorem visit_value_items_first {resolve : Resolver} {valid : ModulePtr → Prop} :
    ∀ (vs vs1 : List (RcString × VisEnt)) (this this1 : OuterVisitor),
      visit_value_items resolve vs this = Except.ok (vs1, this1) → visitor_ok valid this →
      this.m_resolve_impl_generics = none → this.m_resolve_item_generics = none →
      visitor_ok valid this1 ∧ same_context this1 this ∧
        vs1.map Prod.fst = vs.map Prod.fst ∧
        (resolver_reports_lifted_as_static resolve this1.m_new_statics → ∀ e ∈ vs1, e.2.ent.settled resolve)
  | [], vs1, this, this1, h, hok, _, _ => by
    simp only [visit_value_items, Except.ok.injEq, Prod.mk.injEq] at h
    rw [← h.1, ← h.2]
    exact ⟨hok, same_context_refl this, rfl, (fun _ e he => by cases he)⟩
  | (name, ent) :: rest, vs1, this, this1, h, hok, hig, hitg => by
    rw [visit_value_items] at h
    have hhead : ∀ (item1 : ValueItem) (this2 : OuterVisitor),
        (match ent.ent with
          | ValueItem.Constant e =>
            match visit_constant resolve e this with
            | Except.error err => Except.error err
            | Except.ok (e1, this1) => Except.ok (ValueItem.Constant e1, this1)
          | ValueItem.Static e =>
            match visit_static resolve e this with
            | Except.error err => Except.error err
            | Except.ok (e1, this1) => Except.ok (ValueItem.Static e1, this1)
          | ValueItem.Function e =>
            match visit_function resolve e this with
            | Except.error err => Except.error err
            | Except.ok (e1, this1) => Except.ok (ValueItem.Function e1, this1)
          | other => Except.ok (other, this)) = Except.ok (item1, this2) →
        visitor_ok valid this2 ∧ same_context this2 this ∧
          (resolver_reports_lifted_as_static resolve this2.m_new_statics → item1.settled resolve) := by
      intro item1 this2 hh
      cases hent : ent.ent with
      | Import =>
        simp only [hent, Except.ok.injEq, Prod.mk.injEq] at hh
        rw [← hh.1, ← hh.2]; exact ⟨hok, same_context_refl this, fun _ => trivial⟩
      | StructConstant =>
        simp only [hent, Except.ok.injEq, Prod.mk.injEq] at hh
        rw [← hh.1, ← hh.2]; exact ⟨hok, same_context_refl this, fun _ => trivial⟩
      | StructConstructor =>
        simp only [hent, Except.ok.injEq, Prod.mk.injEq] at hh
        rw [← hh.1, ← hh.2]; exact ⟨hok, same_context_refl this, fun _ => trivial⟩
      | Constant e =>
        simp only [hent] at hh
        cases hv : visit_constant resolve e this with
        | error err => simp [hv] at hh
        | ok w =>
          obtain ⟨e1, this3⟩ := w
          simp only [hv, Except.ok.injEq, Prod.mk.injEq] at hh
          have hs := visit_constant_first hv hok
          rw [← hh.1, ← hh.2]
          refine ⟨hs.1, hs.2.1, fun hr => ?_⟩
          have := hs.2.2 hr
          rw [hig, hitg] at this
          exact this
      | Static e =>
        simp only [hent] at hh
        cases hv : visit_static resolve e this with
        | error err => simp [hv] at hh
        | ok w =>
          obtain ⟨e1, this3⟩ := w
          simp only [hv, Except.ok.injEq, Prod.mk.injEq] at hh
          have hs := visit_static_first hv hok
          rw [← hh.1, ← hh.2]
          refine ⟨hs.1, hs.2.1, fun hr => ?_⟩
          have := hs.2.2 hr
          rw [hig, hitg] at this
          exact this
      | Function e =>
        simp only [hent] at hh
        cases hv : visit_function resolve e this with
        | error err => simp [hv] at hh
        | ok w =>
          obtain ⟨e1, this3⟩ := w
          simp only [hv, Except.ok.injEq, Prod.mk.injEq] at hh
          have hs := visit_function_first hv hok hitg
          rw [← hh.1, ← hh.2]
          refine ⟨hs.1, hs.2.1, fun hr => ?_⟩
          have := hs.2.2 hr
          rw [hig] at this
          exact this
    split at h
    · simp at h
    · rename_i item1 this2 hheq
      have hs := hhead item1 this2 hheq
      cases hrest : visit_value_items resolve rest this2 with
      | error err => simp [hrest] at h
      | ok u =>
        obtain ⟨rest1, this3⟩ := u
        simp only [hrest, Except.ok.injEq, Prod.mk.injEq] at h
        have hs2 := visit_value_items_first rest rest1 this2 this3 hrest hs.1
          (hs.2.1.1.trans hig) (hs.2.1.2.1.trans hitg)
        rw [← h.1, ← h.2]
        refine ⟨hs2.1, same_context_trans hs2.2.1 hs.2.1, ?_, ?_⟩
        · simp [hs2.2.2.1]
        · intro hr e he
          rcases List.mem_cons.mp he with h1 | h1
          · rw [h1]; exact hs.2.2 (resolver_reports_of_same_context hs2.2.1 hr)
          · exact hs2.2.2.2 hr e h1

end FirstWalkModules

section FirstWalkModuleTree

theorem Module.at_cons (i : Nat) (q : ModulePtr) (m : Module) :
    Module.at (i :: q) m =
      match m.m_mod_items[i]? with
      | some (_, TypeItem.Module sub) => Module.at q sub
      | _ => none := by
  rw [Module.at, List.get?_eq_getElem?]

theorem Module.at_cons_of_module {i : Nat} {q : ModulePtr} {m : Module} {n : RcString}
    {e : Module} (h : m.m_mod_items[i]? = some (n, TypeItem.Module e)) :
    Module.at (i :: q) m = Module.at q e := by
  rw [Module.at_cons, h]

mutual
/-- The walk of a module keeps the registry in order, restores the context,
changes neither names nor module tree, and leaves every root expression of the
module settled. -/
theorem visit_module_first {resolve : Resolver} {valid : ModulePtr → Prop} :
    ∀ (m : Module) (p : ItemPath) (ptr : ModulePtr) (this : OuterVisitor) (m1 : Module)
      (this1 : OuterVisitor),
      visit_module resolve p ptr m this = Except.ok (m1, this1) → visitor_ok valid this →
      this.m_resolve_impl_generics = none → this.m_resolve_item_generics = none →
      (∀ q, (Module.at q m).isSome = true → valid (ptr ++ q)) →
      visitor_ok valid this1 ∧ same_context this1 this ∧ m1.erase = m.erase ∧
        (resolver_reports_lifted_as_static resolve this1.m_new_statics → m1.settled resolve)
  | Module.mk vs ms, p, ptr, this, m1, this1, h, hok, hig, hitg, hvalid => by
    rw [visit_module] at h
    cases hmods : visit_mod_items resolve p ptr 0 ms
        { this with m_current_module := some ptr, m_current_module_path := p } with
    | error err => simp [hmods] at h
    | ok w =>
      obtain ⟨ms1, this2⟩ := w
      simp only [hmods] at h
      cases hvals : visit_value_items resolve vs this2 with
      | error err => simp [hvals] at h
      | ok u =>
        obtain ⟨vs1, this3⟩ := u
        simp only [hvals, Except.ok.injEq, Prod.mk.injEq] at h
        have hok0 : visitor_ok valid
            { this with m_current_module := some ptr, m_current_module_path := p } := by
          refine ⟨hok.1, fun M hM => ?_⟩
          simp only [Option.some.injEq] at hM
          rw [← hM]
          have := hvalid [] (by simp [Module.at])
          simpa using this
        have hs := visit_mod_items_first ms p ptr 0 _ ms1 this2 hmods hok0 hig hitg
          (fun i name sub q hi hq => by
            have := hvalid (i :: q) (by
              rw [Module.at_cons_of_module (m := Module.mk vs ms) (n := name) (e := sub)
                (by simpa [Module.m_mod_items] using hi)]
              exact hq)
            simpa using this)
        have hs2 := visit_value_items_first vs vs1 this2 this3 hvals hs.1
          (hs.2.1.1.trans hig) (hs.2.1.2.1.trans hitg)
        rw [← h.1, ← h.2]
        refine ⟨⟨hs2.1.1, fun M hM => hok.2 M hM⟩, ?_, ?_, ?_⟩
        · exact ⟨hs2.2.1.1.trans hs.2.1.1, hs2.2.1.2.1.trans hs.2.1.2.1, rfl, rfl,
            fun q hq => hs2.2.1.2.2.2.2 q (hs.2.1.2.2.2.2 q hq)⟩
        · simp only [Module.erase, hs.2.2.1, Module.mk.injEq, and_true]
          have hn := hs2.2.2.1
          have : ∀ (a b : List (RcString × VisEnt)), a.map Prod.fst = b.map Prod.fst →
              a.map (fun e => (e.1, ({ publicity := Publicity.none, ent := ValueItem.Import } : VisEnt)))
                = b.map (fun e => (e.1, ({ publicity := Publicity.none, ent := ValueItem.Import } : VisEnt))) := by
            intro a b hab
            have h1 : ∀ (l : List (RcString × VisEnt)),
                l.map (fun e => (e.1, ({ publicity := Publicity.none, ent := ValueItem.Import } : VisEnt)))
                  = (l.map Prod.fst).map (fun n => (n, ({ publicity := Publicity.none, ent := ValueItem.Import } : VisEnt))) := by
              intro l; simp [List.map_map, Function.comp]
            rw [h1 a, h1 b, hab]
          exact this vs1 vs hn
        · intro hr
          rw [Module.settled]
          exact ⟨hs2.2.2.2 hr, hs.2.2.2 (resolver_reports_of_same_context hs2.2.1 hr)⟩
/-- The same for the type namespace of a module, `idx` being the index of the
head of the list in that namespace. -/
theorem visit_mod_items_first {resolve : Resolver} {valid : ModulePtr → Prop} :
    ∀ (items : List (RcString × TypeItem)) (p : ItemPath) (ptr : ModulePtr) (idx : Nat)
      (this : OuterVisitor) (items1 : List (RcString × TypeItem)) (this1 : OuterVisitor),
      visit_mod_items resolve p ptr idx items this = Except.ok (items1, this1) →
      visitor_ok valid this →
      this.m_resolve_impl_generics = none → this.m_resolve_item_generics = none →
      (∀ (i : Nat) (name : RcString) (sub : Module) (q : ModulePtr),
        items[i]? = some (name, TypeItem.Module sub) → (Module.at q sub).isSome = true →
        valid (ptr ++ (idx + i) :: q)) →
      visitor_ok valid this1 ∧ same_context this1 this ∧
        erase_mod_items items1 = erase_mod_items items ∧
        (resolver_reports_lifted_as_static resolve this1.m_new_statics → settled_mod_items resolve items1)
  | [], p, ptr, idx, this, items1, this1, h, hok, _, _, _ => by
    simp only [visit_mod_items, Except.ok.injEq, Prod.mk.injEq] at h
    rw [← h.1, ← h.2]
    exact ⟨hok, same_context_refl this, rfl, (fun _ => by simp [settled_mod_items])⟩
  | (name, TypeItem.Module e) :: rest, p, ptr, idx, this, items1, this1, h, hok, hig, hitg,
      hvalid => by
    rw [visit_mod_items] at h
    cases hm : visit_module resolve (p.add name) (ptr ++ [idx]) e this with
    | error err => simp [hm] at h
    | ok w =>
      obtain ⟨e1, this2⟩ := w
      simp only [hm] at h
      cases hrest : visit_mod_items resolve p ptr (idx + 1) rest this2 with
      | error err => simp [hrest] at h
      | ok u =>
        obtain ⟨rest1, this3⟩ := u
        simp only [hrest, Except.ok.injEq, Prod.mk.injEq] at h
        have hs := visit_module_first e (p.add name) (ptr ++ [idx]) this e1 this2 hm hok hig hitg
          (fun q hq => by
            have := hvalid 0 name e q (by simp) hq
            simpa using this)
        have hs2 := visit_mod_items_first rest p ptr (idx + 1) this2 rest1 this3 hrest hs.1
          (hs.2.1.1.trans hig) (hs.2.1.2.1.trans hitg)
          (fun i n sub q hi hq => by
            have := hvalid (i + 1) n sub q (by simpa using hi) hq
            have harith : idx + (i + 1) = idx + 1 + i := by omega
            rw [harith] at this
            exact this)
        rw [← h.1, ← h.2]
        refine ⟨hs2.1, same_context_trans hs2.2.1 hs.2.1, ?_, ?_⟩
        · simp only [erase_mod_items, hs.2.2.1, hs2.2.2.1]
        · intro hr; rw [settled_mod_items]
          exact ⟨hs.2.2.2 (resolver_reports_of_same_context hs2.2.1 hr), hs2.2.2.2 hr⟩
  | (name, TypeItem.Enum e) :: rest, p, ptr, idx, this, items1, this1, h, hok, hig, hitg,
      hvalid => by
    rw [visit_mod_items] at h
    cases hm : visit_enum resolve e this with
    | error err => simp [hm] at h
    | ok w =>
      obtain ⟨e1, this2⟩ := w
      simp only [hm] at h
      cases hrest : visit_mod_items resolve p ptr (idx + 1) rest this2 with
      | error err => simp [hrest] at h
      | ok u =>
        obtain ⟨rest1, this3⟩ := u
        simp only [hrest, Except.ok.injEq, Prod.mk.injEq] at h
        have hs := visit_enum_first hm hok hig hitg
        have hs2 := visit_mod_items_first rest p ptr (idx + 1) this2 rest1 this3 hrest hs.1
          (hs.2.1.1.trans hig) (hs.2.1.2.1.trans hitg)
          (fun i n sub q hi hq => by
            have := hvalid (i + 1) n sub q (by simpa using hi) hq
            have harith : idx + (i + 1) = idx + 1 + i := by omega
            rw [harith] at this
            exact this)
        rw [← h.1, ← h.2]
        refine ⟨hs2.1, same_context_trans hs2.2.1 hs.2.1, ?_, ?_⟩
        · simp only [erase_mod_items, hs2.2.2.1]
        · intro hr; rw [settled_mod_items]
          exact ⟨hs.2.2 (resolver_reports_of_same_context hs2.2.1 hr), hs2.2.2.2 hr⟩
  | (name, TypeItem.Import) :: rest, p, ptr, idx, this, items1, this1, h, hok, hig, hitg,
      hvalid => by
    rw [visit_mod_items] at h
    cases hrest : visit_mod_items resolve p ptr (idx + 1) rest this with
    | error err => simp [hrest] at h
    | ok u =>
      obtain ⟨rest1, this3⟩ := u
      simp only [hrest, Except.ok.injEq, Prod.mk.injEq] at h
      have hs2 := visit_mod_items_first rest p ptr (idx + 1) this rest1 this3 hrest hok hig hitg
        (fun i n sub q hi hq => by
          have := hvalid (i + 1) n sub q (by simpa using hi) hq
          have harith : idx + (i + 1) = idx + 1 + i := by omega
          rw [harith] at this
          exact this)
      rw [← h.1, ← h.2]
      refine ⟨hs2.1, hs2.2.1, ?_, ?_⟩
      · simp only [erase_mod_items, hs2.2.2.1]
      · intro hr; rw [settled_mod_items]; exact hs2.2.2.2 hr
  | (name, TypeItem.Trait e) :: rest, p, ptr, idx, this, items1, this1, h, hok, hig, hitg,
      hvalid => by
    rw [visit_mod_items] at h
    cases hm : visit_trait resolve e this with
    | error err => simp [hm] at h
    | ok w =>
      obtain ⟨e1, this2⟩ := w
      simp only [hm] at h
      cases hrest : visit_mod_items resolve p ptr (idx + 1) rest this2 with
      | error err => simp [hrest] at h
      | ok u =>
        obtain ⟨rest1, this3⟩ := u
        simp only [hrest, Except.ok.injEq, Prod.mk.injEq] at h
        have hs := visit_trait_first hm hok hig hitg
        have hs2 := visit_mod_items_first rest p ptr (idx + 1) this2 rest1 this3 hrest hs.1
          (hs.2.1.1.trans hig) (hs.2.1.2.1.trans hitg)
          (fun i n sub q hi hq => by
            have := hvalid (i + 1) n sub q (by simpa using hi) hq
            have harith : idx + (i + 1) = idx + 1 + i := by omega
            rw [harith] at this
            exact this)
        rw [← h.1, ← h.2]
        refine ⟨hs2.1, same_context_trans hs2.2.1 hs.2.1, ?_, ?_⟩
        · simp only [erase_mod_items, hs2.2.2.1]
        · intro hr; rw [settled_mod_items]
          exact ⟨hs.2.2 (resolver_reports_of_same_context hs2.2.1 hr), hs2.2.2.2 hr⟩
  | (name, TypeItem.Other kind tys) :: rest, p, ptr, idx, this, items1, this1, h, hok, hig, hitg,
      hvalid => by
    rw [visit_mod_items] at h
    cases hm : visit_types resolve tys this with
    | error err => simp [hm] at h
    | ok w =>
      obtain ⟨tys1, this2⟩ := w
      simp only [hm] at h
      cases hrest : visit_mod_items resolve p ptr (idx + 1) rest this2 with
      | error err => simp [hrest] at h
      | ok u =>
        obtain ⟨rest1, this3⟩ := u
        simp only [hrest, Except.ok.injEq, Prod.mk.injEq] at h
        have hs := visit_types_first tys tys1 this this2 hm hok
        have hs2 := visit_mod_items_first rest p ptr (idx + 1) this2 rest1 this3 hrest hs.1
          (hs.2.1.1.trans hig) (hs.2.1.2.1.trans hitg)
          (fun i n sub q hi hq => by
            have := hvalid (i + 1) n sub q (by simpa using hi) hq
            have harith : idx + (i + 1) = idx + 1 + i := by omega
            rw [harith] at this
            exact this)
        rw [← h.1, ← h.2]
        refine ⟨hs2.1, same_context_trans hs2.2.1 hs.2.1, ?_, ?_⟩
        · simp only [erase_mod_items, hs2.2.2.1]
        · intro hr; rw [settled_mod_items]
          refine ⟨?_, hs2.2.2.2 hr⟩
          have := hs.2.2 (resolver_reports_of_same_context hs2.2.1 hr)
          rw [hig, hitg] at this
          exact this
end

end FirstWalkModuleTree

/-! ## Module pointers and the erased module tree -/

section Pointers

theorem erase_mod_items_getElem? :
    ∀ (ms : List (RcString × TypeItem)) (i : Nat),
      (erase_mod_items ms)[i]? =
        (ms[i]?).map (fun entry =>
          match entry with
          | (n, TypeItem.Module sub) => (n, TypeItem.Module sub.erase)
          | (n, _) => (n, TypeItem.Import))
  | [], i => by simp [erase_mod_items]
  | (name, TypeItem.Module e) :: rest, 0 => by simp [erase_mod_items]
  | (name, TypeItem.Enum e) :: rest, 0 => by simp [erase_mod_items]
  | (name, TypeItem.Trait e) :: rest, 0 => by simp [erase_mod_items]
  | (name, TypeItem.Other kind tys) :: rest, 0 => by simp [erase_mod_items]
  | (name, TypeItem.Import) :: rest, 0 => by simp [erase_mod_items]
  | (name, TypeItem.Module e) :: rest, i + 1 => by
    simp [erase_mod_items, erase_mod_items_getElem? rest i]
  | (name, TypeItem.Enum e) :: rest, i + 1 => by
    simp [erase_mod_items, erase_mod_items_getElem? rest i]
  | (name, TypeItem.Trait e) :: rest, i + 1 => by
    simp [erase_mod_items, erase_mod_items_getElem? rest i]
  | (name, TypeItem.Other kind tys) :: rest, i + 1 => by
    simp [erase_mod_items, erase_mod_items_getElem? rest i]
  | (name, TypeItem.Import) :: rest, i + 1 => by
    simp [erase_mod_items, erase_mod_items_getElem? rest i]

theorem Module.erase_mod_items_eq (m : Module) :
    m.erase.m_mod_items = erase_mod_items m.m_mod_items := by
  cases m; simp [Module.erase, Module.m_mod_items]

/-- Dereferencing a pointer commutes with erasing. -/
theorem Module.at_erase : ∀ (q : ModulePtr) (m : Module),
    Module.at q m.erase = (Module.at q m).map Module.erase
  | [], m => by simp [Module.at]
  | i :: q, m => by
    rw [Module.at_cons, Module.at_cons, Module.erase_mod_items_eq, erase_mod_items_getElem?]
    cases hi : m.m_mod_items[i]? with
    | none => simp
    | some entry =>
      obtain ⟨n, it⟩ := entry
      cases it with
      | Module sub => simpa using Module.at_erase q sub
      | Enum e => simp
      | Trait e => simp
      | Import => simp
      | Other kind tys => simp

/-- Two modules with the same erasure have the same valid pointers. -/
theorem Module.at_isSome_of_erase_eq {m m1 : Module} (h : m1.erase = m.erase) (q : ModulePtr) :
    (Module.at q m1).isSome = (Module.at q m).isSome := by
  have h1 := Module.at_erase q m1
  have h2 := Module.at_erase q m
  rw [h] at h1
  rw [h2] at h1
  cases ha : Module.at q m1 <;> cases hb : Module.at q m <;> simp [ha, hb] at h1 ⊢

theorem find_module_some :
    ∀ (items : List (RcString × TypeItem)) (name : RcString) (k i : Nat) (sub : Module),
      find_module name items k = some (i, sub) →
      k ≤ i ∧ ∃ n, items[i - k]? = some (n, TypeItem.Module sub)
  | [], name, k, i, sub, h => by simp [find_module] at h
  | (n, it) :: rest, name, k, i, sub, h => by
    by_cases hn : n = name
    · cases it with
      | Module e =>
        simp only [find_module, hn, if_true, Option.some.injEq, Prod.mk.injEq] at h
        refine ⟨by omega, name, ?_⟩
        rw [← h.1, ← h.2]
        simp [hn]
      | Enum e => simp [find_module, hn] at h
      | Trait e => simp [find_module, hn] at h
      | Import => simp [find_module, hn] at h
      | Other kind tys => simp [find_module, hn] at h
    · simp only [find_module, hn, if_false] at h
      obtain ⟨hle, n1, hget⟩ := find_module_some rest name (k + 1) i sub h
      refine ⟨by omega, n1, ?_⟩
      have : i - k = (i - (k + 1)) + 1 := by omega
      rw [this]
      simpa using hget

/-- The pointer returned by `get_mod_by_path` denotes a module. -/
theorem Module.get_mod_by_components_valid :
    ∀ (comps : List RcString) (m : Module) (ptr : ModulePtr),
      Module.get_mod_by_components comps m = some ptr → (Module.at ptr m).isSome = true
  | [], m, ptr, h => by
    simp only [Module.get_mod_by_components, Option.some.injEq] at h
    rw [← h]; simp [Module.at]
  | name :: rest, m, ptr, h => by
    rw [Module.get_mod_by_components] at h
    cases hf : find_module name m.m_mod_items 0 with
    | none => simp [hf] at h
    | some w =>
      obtain ⟨idx, sub⟩ := w
      simp only [hf] at h
      cases hr : Module.get_mod_by_components rest sub with
      | none => simp [hr] at h
      | some q =>
        simp only [hr, Option.some.injEq] at h
        obtain ⟨_, n, hget⟩ := find_module_some _ _ _ _ _ hf
        rw [← h, Module.at_cons_of_module (n := n) (e := sub) (by simpa using hget)]
        exact Module.get_mod_by_components_valid rest sub q hr

end Pointers

/-! ## The first walk: impl blocks and the crate -/

section FirstWalkCrate

theorem resolver_reports_anti {resolve : Resolver}
    {reg reg1 : List (ModulePtr × List (SimplePath × Static))}
    (hm : ∀ q, allocated reg q → allocated reg1 q)
    (hr : resolver_reports_lifted_as_static resolve reg1) :
    resolver_reports_lifted_as_static resolve reg :=
  fun ig itg => reports_lifted_as_static_anti hm (hr ig itg)

theorem visit_type_impl_first {resolve : Resolver} {valid : ModulePtr → Prop}
    {m_crate : Crate} {impl impl1 : TypeImpl} {this this1 : OuterVisitor}
    (h : visit_type_impl resolve m_crate impl this = Except.ok (impl1, this1))
    (hok : visitor_ok valid this) (hitg : this.m_resolve_item_generics = none)
    (hvalid : ∀ ptr, m_crate.get_mod_by_path impl.m_src_module = some ptr → valid ptr) :
    visitor_ok valid this1 ∧ this1.m_resolve_impl_generics = none ∧
      this1.m_resolve_item_generics = none ∧
      (resolver_reports_lifted_as_static resolve this1.m_new_statics → impl1.settled resolve) ∧
      ∀ q, allocated this.m_new_statics q → allocated this1.m_new_statics q := by
  unfold visit_type_impl at h
  cases hsrc : m_crate.get_mod_by_path impl.m_src_module with
  | none => simp [hsrc] at h
  | some srcmod =>
    simp only [hsrc] at h
    have hok0 : visitor_ok valid
        { this with
          m_current_module := some srcmod
          m_current_module_path := ItemPath.wrapped impl.m_src_module
          m_resolve_impl_generics := some impl.m_params } := by
      refine ⟨hok.1, fun M hM => ?_⟩
      simp only [Option.some.injEq] at hM
      rw [← hM]; exact hvalid srcmod hsrc
    cases hh : visit_types resolve impl.m_head_types
        { this with
          m_current_module := some srcmod
          m_current_module_path := ItemPath.wrapped impl.m_src_module
          m_resolve_impl_generics := some impl.m_params } with
    | error err => simp [hh] at h
    | ok w0 =>
      obtain ⟨head1, this01⟩ := w0
      simp only [hh] at h
      cases hm : visit_named (visit_function resolve) impl.m_methods this01 with
      | error err => simp [hm] at h
      | ok w =>
        obtain ⟨methods1, this2⟩ := w
        simp only [hm] at h
        cases hc : visit_named (visit_constant resolve) impl.m_constants this2 with
        | error err => simp [hc] at h
        | ok u =>
          obtain ⟨constants1, this3⟩ := u
          simp only [hc, Except.ok.injEq, Prod.mk.injEq] at h
          have hs0 := visit_types_first impl.m_head_types head1 _ this01 hh hok0
          have hig01 : this01.m_resolve_impl_generics = some impl.m_params := hs0.2.1.1
          have hitg01 : this01.m_resolve_item_generics = none := hs0.2.1.2.1.trans hitg
          have hs := visit_named_first (Q := fun f => f.settled resolve (some impl.m_params))
            (a := some impl.m_params) (b := none)
            (fun item item1 t t1 hv hk hig hitg0 => by
              have := visit_function_first hv hk hitg0
              rw [hig] at this
              exact this)
            impl.m_methods methods1 this01 this2 hm hs0.1 hig01 hitg01
          have hs2 := visit_named_first
            (Q := fun c : Constant => settled_expr resolve (some impl.m_params) none c.m_value)
            (a := some impl.m_params) (b := none)
            (fun item item1 t t1 hv hk hig hitg0 => by
              have := visit_constant_first hv hk
              rw [hig, hitg0] at this
              exact this)
            impl.m_constants constants1 this2 this3 hc hs.1 (hs.2.1.1.trans hig01)
            (hs.2.1.2.1.trans hitg01)
          rw [← h.1, ← h.2]
          refine ⟨⟨hs2.1.1, fun M hM => by cases hM⟩, rfl, ?_, fun hr => ⟨?_, ?_, ?_⟩,
            fun q hq => hs2.2.1.2.2.2.2 q (hs.2.1.2.2.2.2 q (hs0.2.1.2.2.2.2 q hq))⟩
          · exact (hs2.2.1.2.1.trans hs.2.1.2.1).trans hitg01
          · have := hs0.2.2 (resolver_reports_of_same_context hs.2.1
              (resolver_reports_of_same_context hs2.2.1 hr))
            simpa [hitg] using this
          · exact hs.2.2 (resolver_reports_of_same_context hs2.2.1 hr)
          · exact hs2.2.2 hr

theorem visit_trait_impl_first {resolve : Resolver} {valid : ModulePtr → Prop}
    {m_crate : Crate} {impl impl1 : TraitImpl} {this this1 : OuterVisitor}
    (h : visit_trait_impl resolve m_crate impl this = Except.ok (impl1, this1))
    (hok : visitor_ok valid this) (hitg : this.m_resolve_item_generics = none)
    (hvalid : ∀ ptr, m_crate.get_mod_by_path impl.m_src_module = some ptr → valid ptr) :
    visitor_ok valid this1 ∧ this1.m_resolve_impl_generics = none ∧
      this1.m_resolve_item_generics = none ∧
      (resolver_reports_lifted_as_static resolve this1.m_new_statics → impl1.settled resolve) ∧
      ∀ q, allocated this.m_new_statics q → allocated this1.m_new_statics q := by
  unfold visit_trait_impl at h
  cases hsrc : m_crate.get_mod_by_path impl.m_src_module with
  | none => simp [hsrc] at h
  | some srcmod =>
    simp only [hsrc] at h
    have hok0 : visitor_ok valid
        { this with
          m_current_module := some srcmod
          m_current_module_path := ItemPath.wrapped impl.m_src_module
          m_resolve_impl_generics := some impl.m_params } := by
      refine ⟨hok.1, fun M hM => ?_⟩
      simp only [Option.some.injEq] at hM
      rw [← hM]; exact hvalid srcmod hsrc
    cases hh : visit_types resolve impl.m_head_types
        { this with
          m_current_module := some srcmod
          m_current_module_path := ItemPath.wrapped impl.m_src_module
          m_resolve_impl_generics := some impl.m_params } with
    | error err => simp [hh] at h
    | ok w0 =>
      obtain ⟨head1, this01⟩ := w0
      simp only [hh] at h
      cases hm : visit_named (visit_function resolve) impl.m_methods this01 with
      | error err => simp [hm] at h
      | ok w =>
        obtain ⟨methods1, this2⟩ := w
        simp only [hm] at h
        cases hc : visit_named (visit_constant resolve) impl.m_constants this2 with
        | error err => simp [hc] at h
        | ok u =>
          obtain ⟨constants1, this3⟩ := u
          simp only [hc] at h
          cases hst : visit_named (visit_static resolve) impl.m_statics this3 with
          | error err => simp [hst] at h
          | ok x =>
            obtain ⟨statics1, this4⟩ := x
            simp only [hst] at h
            cases hty : visit_named (visit_type resolve) impl.m_types this4 with
            | error err => simp [hty] at h
            | ok y =>
              obtain ⟨types1, this5⟩ := y
              simp only [hty, Except.ok.injEq, Prod.mk.injEq] at h
              have hs0 := visit_types_first impl.m_head_types head1 _ this01 hh hok0
              have hig01 : this01.m_resolve_impl_generics = some impl.m_params := hs0.2.1.1
              have hitg01 : this01.m_resolve_item_generics = none := hs0.2.1.2.1.trans hitg
              have hs := visit_named_first (Q := fun f => f.settled resolve (some impl.m_params))
                (a := some impl.m_params) (b := none)
                (fun item item1 t t1 hv hk hig hitg0 => by
                  have := visit_function_first hv hk hitg0
                  rw [hig] at this
                  exact this)
                impl.m_methods methods1 this01 this2 hm hs0.1 hig01 hitg01
              have hig2 := hs.2.1.1.trans hig01
              have hitg2 := hs.2.1.2.1.trans hitg01
              have hs2 := visit_named_first
                (Q := fun c : Constant => settled_expr resolve (some impl.m_params) none c.m_value)
                (a := some impl.m_params) (b := none)
                (fun item item1 t t1 hv hk hig hitg0 => by
                  have := visit_constant_first hv hk
                  rw [hig, hitg0] at this
                  exact this)
                impl.m_constants constants1 this2 this3 hc hs.1 hig2 hitg2
              have hig3 := hs2.2.1.1.trans hig2
              have hitg3 := hs2.2.1.2.1.trans hitg2
              have hs3 := visit_named_first
                (Q := fun c : Static => settled_expr resolve (some impl.m_params) none c.m_value)
                (a := some impl.m_params) (b := none)
                (fun item item1 t t1 hv hk hig hitg0 => by
                  have := visit_static_first hv hk
                  rw [hig, hitg0] at this
                  exact this)
                impl.m_statics statics1 this3 this4 hst hs2.1 hig3 hitg3
              have hig4 := hs3.2.1.1.trans hig3
              have hitg4 := hs3.2.1.2.1.trans hitg3
              have hs4 := visit_named_first
                (Q := fun ty : TypeData => ty.settled resolve (some impl.m_params) none)
                (a := some impl.m_params) (b := none)
                (fun item item1 t t1 hv hk hig hitg0 => by
                  have := visit_type_first item item1 t t1 hv hk
                  rw [hig, hitg0] at this
                  exact this)
                impl.m_types types1 this4 this5 hty hs3.1 hig4 hitg4
              rw [← h.1, ← h.2]
              refine ⟨⟨hs4.1.1, fun M hM => by cases hM⟩, rfl, ?_,
                fun hr => ⟨?_, ?_, ?_, ?_, ?_⟩,
                fun q hq => hs4.2.1.2.2.2.2 q (hs3.2.1.2.2.2.2 q (hs2.2.1.2.2.2.2 q
                  (hs.2.1.2.2.2.2 q (hs0.2.1.2.2.2.2 q hq))))⟩
              · exact hs4.2.1.2.1.trans hitg4
              · have := hs0.2.2 (resolver_reports_of_same_context hs.2.1
                  (resolver_reports_of_same_context hs2.2.1
                    (resolver_reports_of_same_context hs3.2.1
                      (resolver_reports_of_same_context hs4.2.1 hr))))
                simpa [hitg] using this
              · exact hs.2.2 (resolver_reports_of_same_context hs2.2.1
                  (resolver_reports_of_same_context hs3.2.1
                    (resolver_reports_of_same_context hs4.2.1 hr)))
              · exact hs2.2.2 (resolver_reports_of_same_context hs3.2.1
                  (resolver_reports_of_same_context hs4.2.1 hr))
              · exact hs3.2.2 (resolver_reports_of_same_context hs4.2.1 hr)
              · exact hs4.2.2 hr

theorem visit_marker_impls_first {resolve : Resolver} {valid : ModulePtr → Prop} :
    ∀ (impls impls1 : List (SimplePath × MarkerImpl)) (this this1 : OuterVisitor),
      visit_marker_impls resolve impls this = Except.ok (impls1, this1) →
      visitor_ok valid this → this.m_resolve_impl_generics = none →
      this.m_resolve_item_generics = none →
      visitor_ok valid this1 ∧ same_context this1 this ∧
        (resolver_reports_lifted_as_static resolve this1.m_new_statics →
          ∀ e ∈ impls1, settled_types resolve none none e.2.m_head_types)
  | [], impls1, this, this1, h, hok, _, _ => by
    simp only [visit_marker_impls, Except.ok.injEq, Prod.mk.injEq] at h
    rw [← h.1, ← h.2]
    exact ⟨hok, same_context_refl this, (fun _ e he => by cases he)⟩
  | (trait_path, impl) :: rest, impls1, this, this1, h, hok, hig, hitg => by
    rw [visit_marker_impls] at h
    unfold visit_marker_impl at h
    cases hv : visit_types resolve impl.m_head_types this with
    | error err => simp [hv] at h
    | ok w =>
      obtain ⟨head1, this2⟩ := w
      simp only [hv] at h
      cases hrest : visit_marker_impls resolve rest this2 with
      | error err => simp [hrest] at h
      | ok u =>
        obtain ⟨rest1, this3⟩ := u
        simp only [hrest, Except.ok.injEq, Prod.mk.injEq] at h
        have hs := visit_types_first impl.m_head_types head1 this this2 hv hok
        have hs2 := visit_marker_impls_first rest rest1 this2 this3 hrest hs.1
          (hs.2.1.1.trans hig) (hs.2.1.2.1.trans hitg)
        rw [← h.1, ← h.2]
        refine ⟨hs2.1, same_context_trans hs2.2.1 hs.2.1, fun hr e he => ?_⟩
        rcases List.mem_cons.mp he with h1 | h1
        · rw [h1]
          have := hs.2.2 (resolver_reports_of_same_context hs2.2.1 hr)
          rw [hig, hitg] at this
          exact this
        · exact hs2.2.2 hr e h1

theorem visit_type_impls_first {resolve : Resolver} {valid : ModulePtr → Prop}
    {m_crate : Crate}
    (hvalid : ∀ path ptr, m_crate.get_mod_by_path path = some ptr → valid ptr) :
    ∀ (impls impls1 : List TypeImpl) (this this1 : OuterVisitor),
      visit_type_impls resolve m_crate impls this = Except.ok (impls1, this1) →
      visitor_ok valid this → this.m_resolve_impl_generics = none →
      this.m_resolve_item_generics = none →
      visitor_ok valid this1 ∧ this1.m_resolve_impl_generics = none ∧
        this1.m_resolve_item_generics = none ∧
        (resolver_reports_lifted_as_static resolve this1.m_new_statics →
          ∀ impl ∈ impls1, impl.settled resolve) ∧
        ∀ q, allocated this.m_new_statics q → allocated this1.m_new_statics q
  | [], impls1, this, this1, h, hok, hig, hitg => by
    simp only [visit_type_impls, Except.ok.injEq, Prod.mk.injEq] at h
    rw [← h.1, ← h.2]
    exact ⟨hok, hig, hitg, (fun _ e he => by cases he), fun _ hq => hq⟩
  | impl :: rest, impls1, this, this1, h, hok, hig, hitg => by
    rw [visit_type_impls] at h
    cases hv : visit_type_impl resolve m_crate impl this with
    | error err => simp [hv] at h
    | ok w =>
      obtain ⟨impl1, this2⟩ := w
      simp only [hv] at h
      cases hrest : visit_type_impls resolve m_crate rest this2 with
      | error err => simp [hrest] at h
      | ok u =>
        obtain ⟨rest1, this3⟩ := u
        simp only [hrest, Except.ok.injEq, Prod.mk.injEq] at h
        have hs := visit_type_impl_first hv hok hitg (hvalid impl.m_src_module)
        have hs2 := visit_type_impls_first hvalid rest rest1 this2 this3 hrest hs.1 hs.2.1
          hs.2.2.1
        rw [← h.1, ← h.2]
        refine ⟨hs2.1, hs2.2.1, hs2.2.2.1, fun hr e he => ?_,
          fun q hq => hs2.2.2.2.2 q (hs.2.2.2.2 q hq)⟩
        rcases List.mem_cons.mp he with h1 | h1
        · rw [h1]; exact hs.2.2.2.1 (resolver_reports_anti hs2.2.2.2.2 hr)
        · exact hs2.2.2.2.1 hr e h1

theorem visit_trait_impls_first {resolve : Resolver} {valid : ModulePtr → Prop}
    {m_crate : Crate}
    (hvalid : ∀ path ptr, m_crate.get_mod_by_path path = some ptr → valid ptr) :
    ∀ (impls impls1 : List (SimplePath × TraitImpl)) (this this1 : OuterVisitor),
      visit_trait_impls resolve m_crate impls this = Except.ok (impls1, this1) →
      visitor_ok valid this → this.m_resolve_impl_generics = none →
      this.m_resolve_item_generics = none →
      visitor_ok valid this1 ∧ this1.m_resolve_impl_generics = none ∧
        this1.m_resolve_item_generics = none ∧
        (resolver_reports_lifted_as_static resolve this1.m_new_statics →
          ∀ e ∈ impls1, e.2.settled resolve) ∧
        ∀ q, allocated this.m_new_statics q → allocated this1.m_new_statics q
  | [], impls1, this, this1, h, hok, hig, hitg => by
    simp only [visit_trait_impls, Except.ok.injEq, Prod.mk.injEq] at h
    rw [← h.1, ← h.2]
    exact ⟨hok, hig, hitg, (fun _ e he => by cases he), fun _ hq => hq⟩
  | (trait_path, impl) :: rest, impls1, this, this1, h, hok, hig, hitg => by
    rw [visit_trait_impls] at h
    cases hv : visit_trait_impl resolve m_crate impl this with
    | error err => simp [hv] at h
    | ok w =>
      obtain ⟨impl1, this2⟩ := w
      simp only [hv] at h
      cases hrest : visit_trait_impls resolve m_crate rest this2 with
      | error err => simp [hrest] at h
      | ok u =>
        obtain ⟨rest1, this3⟩ := u
        simp only [hrest, Except.ok.injEq, Prod.mk.injEq] at h
        have hs := visit_trait_impl_first hv hok hitg (hvalid impl.m_src_module)
        have hs2 := visit_trait_impls_first hvalid rest rest1 this2 this3 hrest hs.1 hs.2.1
          hs.2.2.1
        rw [← h.1, ← h.2]
        refine ⟨hs2.1, hs2.2.1, hs2.2.2.1, fun hr e he => ?_,
          fun q hq => hs2.2.2.2.2 q (hs.2.2.2.2 q hq)⟩
        rcases List.mem_cons.mp he with h1 | h1
        · rw [h1]; exact hs.2.2.2.1 (resolver_reports_anti hs2.2.2.2.2 hr)
        · exact hs2.2.2.2.1 hr e h1

/-- The pointers that denote a module of the crate. -/
theorem Crate.get_mod_by_path_valid {crate : Crate} {path : SimplePath} {ptr : ModulePtr}
    (h : crate.get_mod_by_path path = some ptr) : (crate.module_at ptr).isSome = true := by
  unfold Crate.get_mod_by_path at h
  split at h
  · exact Module.get_mod_by_components_valid _ _ _ h
  · cases h

end FirstWalkCrate

section FirstWalkWhole

/-- The walk of a crate keeps the registry in order (every module with pending
statics being a module of the crate), changes neither names nor module tree,
and leaves every root expression settled. -/
theorem walk_crate_first {resolve : Resolver}
    {crate crate1 : Crate} {this this1 : OuterVisitor}
    (h : walk_crate resolve crate this = Except.ok (crate1, this1))
    (hok : visitor_ok (fun M => (crate.module_at M).isSome = true) this)
    (hig : this.m_resolve_impl_generics = none) (hitg : this.m_resolve_item_generics = none) :
    visitor_ok (fun M => (crate.module_at M).isSome = true) this1 ∧
      crate1.m_root_module.erase = crate.m_root_module.erase ∧
      (resolver_reports_lifted_as_static resolve this1.m_new_statics → crate1.settled resolve) := by
  unfold walk_crate at h
  cases hm : visit_module resolve (ItemPath.crate crate.m_crate_name) [] crate.m_root_module this with
  | error err => simp [hm] at h
  | ok w =>
    obtain ⟨root1, this2⟩ := w
    simp only [hm] at h
    have hs := visit_module_first crate.m_root_module _ [] this root1 this2 hm hok hig hitg
      (fun q hq => by simpa [Crate.module_at] using hq)
    have hvalid : ∀ path ptr,
        ({ crate with m_root_module := root1 } : Crate).get_mod_by_path path = some ptr →
        (crate.module_at ptr).isSome = true := by
      intro path ptr hp
      have h1 := Crate.get_mod_by_path_valid hp
      simp only [Crate.module_at] at h1 ⊢
      rw [← Module.at_isSome_of_erase_eq hs.2.2.1 ptr]
      exact h1
    cases ht : visit_type_impls resolve { crate with m_root_module := root1 }
        crate.m_type_impls this2 with
    | error err => simp [ht] at h
    | ok u =>
      obtain ⟨type_impls1, this3⟩ := u
      simp only [ht] at h
      cases htr : visit_trait_impls resolve { crate with m_root_module := root1 }
          crate.m_trait_impls this3 with
      | error err => simp [htr] at h
      | ok x =>
        obtain ⟨trait_impls1, this4⟩ := x
        simp only [htr] at h
        cases hmk : visit_marker_impls resolve crate.m_marker_impls this4 with
        | error err => simp [hmk] at h
        | ok y =>
          obtain ⟨marker_impls1, this5⟩ := y
          simp only [hmk, Except.ok.injEq, Prod.mk.injEq] at h
          have hs2 := visit_type_impls_first hvalid crate.m_type_impls type_impls1 this2 this3 ht
            hs.1 (hs.2.1.1.trans hig) (hs.2.1.2.1.trans hitg)
          have hs3 := visit_trait_impls_first hvalid crate.m_trait_impls trait_impls1 this3 this4
            htr hs2.1 hs2.2.1 hs2.2.2.1
          have hs4 := visit_marker_impls_first crate.m_marker_impls marker_impls1 this4 this5
            hmk hs3.1 hs3.2.1 hs3.2.2.1
          rw [← h.1, ← h.2]
          refine ⟨hs4.1, hs.2.2.1, fun hr => ?_⟩
          have hr3 := resolver_reports_of_same_context hs4.2.1 hr
          have hr2 := resolver_reports_anti hs3.2.2.2.2 hr3
          have hr1 := resolver_reports_anti hs2.2.2.2.2 hr2
          exact ⟨hs.2.2.2 hr1, hs2.2.2.2.1 hr2, hs3.2.2.2.1 hr3, hs4.2.2 hr⟩

theorem visitor_ok_new (valid : ModulePtr → Prop) : visitor_ok valid OuterVisitor.new := by
  refine ⟨⟨by simp [OuterVisitor.new], ?_, ?_⟩, ?_⟩
  · intro M list h; simp [OuterVisitor.new] at h
  · intro M idx P st h; simp [OuterVisitor.new, new_statics_get] at h
  · intro M h; simp [OuterVisitor.new] at h

end FirstWalkWhole

/-! ## The commit -/

section Commit

theorem Module.m_mod_items_mk (vs : List (RcString × VisEnt)) (ms : List (RcString × TypeItem)) :
    (Module.mk vs ms).m_mod_items = ms := rfl

end Commit

section CommitLists

end CommitLists

/-! ## Literal composites: the claim (C6) -/

section LiteralCompositeClaim

end LiteralCompositeClaim

/-! ## A generated name that is already taken (claims C8 and C17) -/

section CommitClaim

end CommitClaim

section PassShape

/-- The pass decomposes into the walk and the commit of what the walk queued. -/
theorem HIR_Expand_StaticBorrowConstants_ok {resolve : Resolver} {evaluate_constant : Evaluator}
    {crate crate2 : Crate}
    (h : HIR_Expand_StaticBorrowConstants resolve evaluate_constant crate = Except.ok crate2) :
    ∃ crate1 this1, walk_crate resolve crate OuterVisitor.new = Except.ok (crate1, this1) ∧
      commit evaluate_constant this1.m_new_statics crate1 = Except.ok crate2 := by
  unfold HIR_Expand_StaticBorrowConstants visit_crate at h
  cases hw : walk_crate resolve crate OuterVisitor.new with
  | error err => simp [hw] at h
  | ok w =>
    obtain ⟨crate1, this1⟩ := w
    simp only [hw] at h
    cases hc : commit evaluate_constant this1.m_new_statics crate1 with
    | error err => simp [hc] at h
    | ok crate3 =>
      simp only [hc, Except.ok.injEq] at h
      exact ⟨crate1, this1, rfl, by rw [← h]; exact hc⟩

end PassShape

/-! ## The second walk -/

section SecondWalk

/-- On a root expression without promotable borrow the classifier run returns
the expression and the visitor as they were. -/
theorem run_on_expr_second {resolve : Resolver} (e : ExprPtr) (this : OuterVisitor)
    (h : no_promotable (resolve this.m_resolve_impl_generics this.m_resolve_item_generics) e.node
      = true) :
    run_on_expr resolve e this = Except.ok (e, this) := by
  obtain ⟨s1, hv, he⟩ := visit_stable (this.m_resolve resolve) get_new_ty_cb e.m_state e.node h
    (ExprVisitor_Mutate.new this)
  unfold run_on_expr visit_root
  rw [hv]
  simp only [he, ExprVisitor_Mutate.new]

theorem run_on_opt_expr_second {resolve : Resolver} (e : Option ExprPtr) (this : OuterVisitor)
    (h : settled_expr resolve this.m_resolve_impl_generics this.m_resolve_item_generics e) :
    run_on_opt_expr resolve e this = Except.ok (e, this) := by
  cases e with
  | none => rfl
  | some e0 =>
    simp only [run_on_opt_expr]
    rw [run_on_expr_second e0 this (h e0 rfl)]

theorem visit_function_second {resolve : Resolver} (item : Function) (this : OuterVisitor)
    (h : item.settled resolve this.m_resolve_impl_generics)
    (hitg : this.m_resolve_item_generics = none) :
    visit_function resolve item this = Except.ok (item, this) := by
  unfold visit_function
  cases hc : item.m_code with
  | none => rfl
  | some code =>
    simp only []
    rw [run_on_expr_second code { this with m_resolve_item_generics := some item.m_params }
      (h code hc)]
    simp only [Except.ok.injEq, Prod.mk.injEq]
    constructor
    · cases item; simp_all
    · cases this; simp_all

theorem visit_static_second {resolve : Resolver} (item : Static) (this : OuterVisitor)
    (h : settled_expr resolve this.m_resolve_impl_generics this.m_resolve_item_generics
      item.m_value) :
    visit_static resolve item this = Except.ok (item, this) := by
  unfold visit_static
  rw [run_on_opt_expr_second item.m_value this h]

theorem visit_constant_second {resolve : Resolver} (item : Constant) (this : OuterVisitor)
    (h : settled_expr resolve this.m_resolve_impl_generics this.m_resolve_item_generics
      item.m_value) :
    visit_constant resolve item this = Except.ok (item, this) := by
  unfold visit_constant
  rw [run_on_opt_expr_second item.m_value this h]

theorem visit_enum_variants_second {resolve : Resolver} :
    ∀ (vars : List EnumValueVariant) (this : OuterVisitor),
      (∀ var ∈ vars, settled_expr resolve this.m_resolve_impl_generics
        this.m_resolve_item_generics var.expr) →
      visit_enum_variants resolve vars this = Except.ok (vars, this)
  | [], this, _ => rfl
  | var :: rest, this, h => by
    rw [visit_enum_variants, run_on_opt_expr_second var.expr this (h var (List.mem_cons_self _ _))]
    simp only []
    rw [visit_enum_variants_second rest this (fun v hv => h v (List.mem_cons_of_mem _ hv))]

theorem visit_enum_second {resolve : Resolver} (item : Enum) (this : OuterVisitor)
    (h : item.settled resolve) (hig : this.m_resolve_impl_generics = none)
    (hitg : this.m_resolve_item_generics = none) :
    visit_enum resolve item this = Except.ok (item, this) := by
  unfold visit_enum
  cases hd : item.m_data with
  | none => rfl
  | some variants =>
    simp only []
    rw [visit_enum_variants_second variants
      { this with m_resolve_impl_generics := some item.m_params }
      (fun var hvar => by
        have := h variants hd var hvar
        simpa [hitg] using this)]
    simp only [Except.ok.injEq, Prod.mk.injEq]
    constructor
    · cases item; simp_all
    · cases this; simp_all

theorem visit_array_size_second {resolve : Resolver} (size : ArraySize) (this : OuterVisitor)
    (h : size.settled resolve this.m_resolve_impl_generics this.m_resolve_item_generics) :
    visit_array_size resolve size this = Except.ok (size, this) := by
  cases size with
  | Known n => rfl
  | Unevaluated cg =>
    cases cg with
    | Other kind => rfl
    | Unevaluated expr =>
      simp only [ArraySize.settled] at h
      simp only [visit_array_size]
      rw [run_on_expr_second expr this h]

mutual
/-- The walk of a type whose array sizes are settled returns the type and the
visitor as they were. -/
theorem visit_type_second {resolve : Resolver} :
    ∀ (ty : TypeData) (this : OuterVisitor),
      ty.settled resolve this.m_resolve_impl_generics this.m_resolve_item_generics →
      visit_type resolve ty this = Except.ok (ty, this)
  | TypeData.Array inner size, this, h => by
    rw [TypeData.settled] at h
    rw [visit_type, visit_type_second inner this h.1]
    simp only []
    rw [visit_array_size_second size this h.2]
  | TypeData.Other kind inner, this, h => by
    rw [TypeData.settled] at h
    rw [visit_type, visit_types_second inner this h]
theorem visit_types_second {resolve : Resolver} :
    ∀ (tys : List TypeData) (this : OuterVisitor),
      settled_types resolve this.m_resolve_impl_generics this.m_resolve_item_generics tys →
      visit_types resolve tys this = Except.ok (tys, this)
  | [], this, _ => by rw [visit_types]
  | ty :: rest, this, h => by
    rw [settled_types] at h
    rw [visit_types, visit_type_second ty this h.1]
    simp only []
    rw [visit_types_second rest this h.2]
end

theorem visit_named_second {α : Type}
    {f : α → OuterVisitor → Except Error (α × OuterVisitor)} {Q : α → Prop}
    (this : OuterVisitor) (hf : ∀ item, Q item → f item this = Except.ok (item, this)) :
    ∀ (items : List (RcString × α)), (∀ e ∈ items, Q e.2) →
      visit_named f items this = Except.ok (items, this)
  | [], _ => rfl
  | (name, item) :: rest, h => by
    rw [visit_named, hf item (h (name, item) (List.mem_cons_self _ _))]
    simp only []
    rw [visit_named_second this hf rest (fun e he => h e (List.mem_cons_of_mem _ he))]

theorem visit_trait_value_second {resolve : Resolver} (item : TraitValueItem)
    (this : OuterVisitor) (h : item.settled resolve)
    (hig : this.m_resolve_impl_generics = none) (hitg : this.m_resolve_item_generics = none) :
    visit_trait_value resolve item this = Except.ok (item, this) := by
  cases item with
  | Constant e =>
    simp only [TraitValueItem.settled] at h
    simp only [visit_trait_value]
    rw [visit_constant_second e this (by rw [hig, hitg]; exact h)]
  | Static e =>
    simp only [TraitValueItem.settled] at h
    simp only [visit_trait_value]
    rw [visit_static_second e this (by rw [hig, hitg]; exact h)]
  | Function e =>
    simp only [TraitValueItem.settled] at h
    simp only [visit_trait_value]
    rw [visit_function_second e this (by rw [hig]; exact h) hitg]

theorem visit_trait_second {resolve : Resolver} (item : Trait) (this : OuterVisitor)
    (h : item.settled resolve)
    (hig : this.m_resolve_impl_generics = none) (hitg : this.m_resolve_item_generics = none) :
    visit_trait resolve item this = Except.ok (item, this) := by
  unfold visit_trait
  rw [visit_types_second item.m_head_types this (by rw [hig, hitg]; exact h.1)]
  simp only []
  rw [visit_named_second (f := visit_trait_value resolve)
    (Q := fun v : TraitValueItem => v.settled resolve) this
    (fun it hq => visit_trait_value_second it this hq hig hitg) item.m_values h.2]

theorem visit_value_items_second {resolve : Resolver} :
    ∀ (vs : List (RcString × VisEnt)) (this : OuterVisitor),
      (∀ e ∈ vs, e.2.ent.settled resolve) →
      this.m_resolve_impl_generics = none → this.m_resolve_item_generics = none →
      visit_value_items resolve vs this = Except.ok (vs, this)
  | [], this, _, _, _ => rfl
  | (name, ent) :: rest, this, h, hig, hitg => by
    have hent := h (name, ent) (List.mem_cons_self _ _)
    have hrest := visit_value_items_second rest this
      (fun e he => h e (List.mem_cons_of_mem _ he)) hig hitg
    rw [visit_value_items]
    obtain ⟨pub, item⟩ := ent
    cases item with
    | Import => simp only []; rw [hrest]
    | StructConstant => simp only []; rw [hrest]
    | StructConstructor => simp only []; rw [hrest]
    | Constant e =>
      simp only [ValueItem.settled] at hent
      simp only []
      rw [visit_constant_second e this (by rw [hig, hitg]; exact hent)]
      simp only []
      rw [hrest]
    | Static e =>
      simp only [ValueItem.settled] at hent
      simp only []
      rw [visit_static_second e this (by rw [hig, hitg]; exact hent)]
      simp only []
      rw [hrest]
    | Function e =>
      simp only [ValueItem.settled] at hent
      simp only []
      rw [visit_function_second e this (by rw [hig]; exact hent) hitg]
      simp only []
      rw [hrest]

mutual
/-- The walk of a settled module returns the module and the visitor as they
were. -/
theorem visit_module_second {resolve : Resolver} :
    ∀ (m : Module) (p : ItemPath) (ptr : ModulePtr) (this : OuterVisitor),
      m.settled resolve →
      this.m_resolve_impl_generics = none → this.m_resolve_item_generics = none →
      visit_module resolve p ptr m this = Except.ok (m, this)
  | Module.mk vs ms, p, ptr, this, h, hig, hitg => by
    rw [Module.settled] at h
    rw [visit_module,
      visit_mod_items_second ms p ptr 0
        { this with m_current_module := some ptr, m_current_module_path := p } h.2 hig hitg]
    simp only []
    rw [visit_value_items_second vs
      { this with m_current_module := some ptr, m_current_module_path := p } h.1 hig hitg]
theorem visit_mod_items_second {resolve : Resolver} :
    ∀ (items : List (RcString × TypeItem)) (p : ItemPath) (ptr : ModulePtr) (idx : Nat)
      (this : OuterVisitor),
      settled_mod_items resolve items →
      this.m_resolve_impl_generics = none → this.m_resolve_item_generics = none →
      visit_mod_items resolve p ptr idx items this = Except.ok (items, this)
  | [], p, ptr, idx, this, _, _, _ => by rw [visit_mod_items]
  | (name, TypeItem.Module e) :: rest, p, ptr, idx, this, h, hig, hitg => by
    rw [settled_mod_items] at h
    rw [visit_mod_items, visit_module_second e (p.add name) (ptr ++ [idx]) this h.1 hig hitg]
    simp only []
    rw [visit_mod_items_second rest p ptr (idx + 1) this h.2 hig hitg]
  | (name, TypeItem.Enum e) :: rest, p, ptr, idx, this, h, hig, hitg => by
    rw [settled_mod_items] at h
    rw [visit_mod_items, visit_enum_second e this h.1 hig hitg]
    simp only []
    rw [visit_mod_items_second rest p ptr (idx + 1) this h.2 hig hitg]
  | (name, TypeItem.Import) :: rest, p, ptr, idx, this, h, hig, hitg => by
    rw [settled_mod_items] at h
    rw [visit_mod_items, visit_mod_items_second rest p ptr (idx + 1) this h hig hitg]
  | (name, TypeItem.Trait e) :: rest, p, ptr, idx, this, h, hig, hitg => by
    rw [settled_mod_items] at h
    rw [visit_mod_items, visit_trait_second e this h.1 hig hitg]
    simp only []
    rw [visit_mod_items_second rest p ptr (idx + 1) this h.2 hig hitg]
  | (name, TypeItem.Other kind tys) :: rest, p, ptr, idx, this, h, hig, hitg => by
    rw [settled_mod_items] at h
    rw [visit_mod_items, visit_types_second tys this (by rw [hig, hitg]; exact h.1)]
    simp only []
    rw [visit_mod_items_second rest p ptr (idx + 1) this h.2 hig hitg]
end

end SecondWalk

/-! ## The commit keeps a settled crate settled and keeps module paths -/

section CommitSettled

theorem settled_mod_items_modify {resolve : Resolver} (g : Module → Module)
    (hg : ∀ sub, sub.settled resolve → (g sub).settled resolve) :
    ∀ (items : List (RcString × TypeItem)) (j : Nat), settled_mod_items resolve items →
      settled_mod_items resolve
        (items.modify (fun entry =>
          match entry with
          | (n, TypeItem.Module sub) => (n, TypeItem.Module (g sub))
          | other => other) j)
  | [], j, _ => by rw [List.modify_nil]; simp [settled_mod_items]
  | (name, TypeItem.Module e) :: rest, 0, h => by
    rw [settled_mod_items] at h
    rw [List.modify_zero_cons]
    simp only [settled_mod_items]
    exact ⟨hg e h.1, h.2⟩
  | (name, TypeItem.Enum e) :: rest, 0, h => by rw [List.modify_zero_cons]; exact h
  | (name, TypeItem.Trait e) :: rest, 0, h => by rw [List.modify_zero_cons]; exact h
  | (name, TypeItem.Other kind tys) :: rest, 0, h => by rw [List.modify_zero_cons]; exact h
  | (name, TypeItem.Import) :: rest, 0, h => by rw [List.modify_zero_cons]; exact h
  | (name, TypeItem.Module e) :: rest, j + 1, h => by
    rw [settled_mod_items] at h
    rw [List.modify_succ_cons, settled_mod_items]
    exact ⟨h.1, settled_mod_items_modify g hg rest j h.2⟩
  | (name, TypeItem.Enum e) :: rest, j + 1, h => by
    rw [settled_mod_items] at h
    rw [List.modify_succ_cons, settled_mod_items]
    exact ⟨h.1, settled_mod_items_modify g hg rest j h.2⟩
  | (name, TypeItem.Import) :: rest, j + 1, h => by
    rw [settled_mod_items] at h
    rw [List.modify_succ_cons, settled_mod_items]
    exact settled_mod_items_modify g hg rest j h
  | (name, TypeItem.Trait e) :: rest, j + 1, h => by
    rw [settled_mod_items] at h
    rw [List.modify_succ_cons, settled_mod_items]
    exact ⟨h.1, settled_mod_items_modify g hg rest j h.2⟩
  | (name, TypeItem.Other kind tys) :: rest, j + 1, h => by
    rw [settled_mod_items] at h
    rw [List.modify_succ_cons, settled_mod_items]
    exact ⟨h.1, settled_mod_items_modify g hg rest j h.2⟩

theorem Module.settled_iff {resolve : Resolver} (m : Module) :
    m.settled resolve ↔
      (∀ e ∈ m.m_value_items, e.2.ent.settled resolve) ∧ settled_mod_items resolve m.m_mod_items := by
  cases m; rw [Module.settled]; rfl

theorem Module.settled_modify_at {resolve : Resolver} (f : Module → Module)
    (hf : ∀ x, x.settled resolve → (f x).settled resolve) :
    ∀ (q : ModulePtr) (m : Module), m.settled resolve → (Module.modify_at f q m).settled resolve
  | [], m, h => by rw [Module.modify_at]; exact hf m h
  | j :: r, m, h => by
    rw [Module.modify_at, Module.settled]
    rw [Module.settled_iff] at h
    exact ⟨h.1, settled_mod_items_modify (Module.modify_at f r)
      (fun sub hsub => Module.settled_modify_at f hf r sub hsub) m.m_mod_items j h.2⟩

theorem commit_static_settled {resolve : Resolver} {evaluate_constant : Evaluator} {M : ModulePtr}
    {e : SimplePath × Static} {crate crate1 : Crate}
    (h : commit_static evaluate_constant M e crate = Except.ok crate1)
    (hs : crate.settled resolve) (he : settled_expr resolve none none e.2.m_value) :
    crate1.settled resolve ∧ crate1.m_type_impls = crate.m_type_impls ∧
      crate1.m_trait_impls = crate.m_trait_impls ∧ crate1.m_crate_name = crate.m_crate_name := by
  unfold commit_static at h
  cases hv : evaluate_constant crate e.1 e.2.m_value e.2.m_type with
  | error err => simp [hv] at h
  | ok value =>
    simp only [hv, Except.ok.injEq] at h
    rw [← h]
    refine ⟨⟨?_, hs.2.1, hs.2.2⟩, rfl, rfl, rfl⟩
    simp only [Crate.modify_module]
    apply Module.settled_modify_at _ _ M _ hs.1
    intro x hx
    rw [Module.settled_iff] at hx
    rw [Module.settled]
    refine ⟨fun entry hentry => ?_, hx.2⟩
    unfold insert_value_item at hentry
    split at hentry
    · exact hx.1 entry hentry
    · rcases List.mem_append.mp hentry with h1 | h1
      · exact hx.1 entry h1
      · simp only [List.mem_singleton] at h1
        rw [h1]
        exact he

theorem commit_list_settled {resolve : Resolver} {evaluate_constant : Evaluator} {M : ModulePtr} :
    ∀ (list : List (SimplePath × Static)) (crate crate1 : Crate),
      commit_list evaluate_constant M list crate = Except.ok crate1 →
      crate.settled resolve → (∀ e ∈ list, settled_expr resolve none none e.2.m_value) →
      crate1.settled resolve ∧ crate1.m_type_impls = crate.m_type_impls ∧
        crate1.m_trait_impls = crate.m_trait_impls ∧ crate1.m_crate_name = crate.m_crate_name
  | [], crate, crate1, h, hs, _ => by
    simp only [commit_list, Except.ok.injEq] at h
    rw [← h]; exact ⟨hs, rfl, rfl, rfl⟩
  | e :: rest, crate, crate1, h, hs, he => by
    rw [commit_list] at h
    cases hc : commit_static evaluate_constant M e crate with
    | error err => simp [hc] at h
    | ok crate2 =>
      simp only [hc] at h
      have h1 := commit_static_settled hc hs (he e (List.mem_cons_self _ _))
      have h2 := commit_list_settled rest crate2 crate1 h h1.1
        (fun e1 he1 => he e1 (List.mem_cons_of_mem _ he1))
      exact ⟨h2.1, h2.2.1.trans h1.2.1, h2.2.2.1.trans h1.2.2.1, h2.2.2.2.trans h1.2.2.2⟩

theorem commit_settled {resolve : Resolver} {evaluate_constant : Evaluator} :
    ∀ (reg : List (ModulePtr × List (SimplePath × Static))) (crate crate1 : Crate),
      commit evaluate_constant reg crate = Except.ok crate1 →
      crate.settled resolve →
      (∀ M list, (M, list) ∈ reg → ∀ e ∈ list, settled_expr resolve none none e.2.m_value) →
      crate1.settled resolve ∧ crate1.m_type_impls = crate.m_type_impls ∧
        crate1.m_trait_impls = crate.m_trait_impls ∧ crate1.m_crate_name = crate.m_crate_name
  | [], crate, crate1, h, hs, _ => by
    simp only [commit, Except.ok.injEq] at h
    rw [← h]; exact ⟨hs, rfl, rfl, rfl⟩
  | (M, list) :: rest, crate, crate1, h, hs, he => by
    rw [commit] at h
    cases hc : commit_list evaluate_constant M list crate with
    | error err => simp [hc] at h
    | ok crate2 =>
      simp only [hc] at h
      have h1 := commit_list_settled list crate crate2 hc hs (he M list (List.mem_cons_self _ _))
      have h2 := commit_settled rest crate2 crate1 h h1.1
        (fun M1 l1 hm => he M1 l1 (List.mem_cons_of_mem _ hm))
      exact ⟨h2.1, h2.2.1.trans h1.2.1, h2.2.2.1.trans h1.2.2.1, h2.2.2.2.trans h1.2.2.2⟩

end CommitSettled

section ModulePaths

theorem find_module_modify (name : RcString) (g : Module → Module) :
    ∀ (items : List (RcString × TypeItem)) (k j : Nat),
      find_module name
          (items.modify (fun entry =>
            match entry with
            | (n, TypeItem.Module sub) => (n, TypeItem.Module (g sub))
            | other => other) j) k =
        (find_module name items k).map (fun r => (r.1, if r.1 = k + j then g r.2 else r.2))
  | [], k, j => by rw [List.modify_nil]; simp [find_module]
  | (n, it) :: rest, k, 0 => by
    rw [List.modify_zero_cons]
    by_cases hn : n = name
    · cases it <;> simp [find_module, hn]
    · have hrest : ∀ (r : Nat × Module), find_module name rest (k + 1) = some r →
          ¬ (r.1 = k + 0) := by
        intro r hr
        obtain ⟨hle, _⟩ := find_module_some rest name (k + 1) r.1 r.2 hr
        omega
      cases it <;> simp only [find_module, hn, if_false] <;>
        (cases hf : find_module name rest (k + 1) with
          | none => simp
          | some r =>
            have hne : ¬ (r.1 = k) := by
              have := hrest r hf
              simpa using this
            simp [hne])
  | (n, it) :: rest, k, j + 1 => by
    rw [List.modify_succ_cons]
    by_cases hn : n = name
    · cases it <;> simp [find_module, hn]
    · simp only [find_module, hn, if_false]
      rw [find_module_modify name g rest (k + 1) j]
      have : k + 1 + j = k + (j + 1) := by omega
      rw [this]

/-- The position a module path leads to does not depend on the value
namespaces: a mutation through a module pointer that leaves type namespaces
alone does not change it. -/
theorem Module.get_mod_by_components_modify_at (f : Module → Module)
    (hf : ∀ m, (f m).m_mod_items = m.m_mod_items) :
    ∀ (comps : List RcString) (q : ModulePtr) (m : Module),
      Module.get_mod_by_components comps (Module.modify_at f q m) =
        Module.get_mod_by_components comps m
  | [], q, m => by simp [Module.get_mod_by_components]
  | name :: rest, [], m => by
    rw [Module.modify_at, Module.get_mod_by_components, Module.get_mod_by_components, hf m]
  | name :: rest, j :: r, m => by
    rw [Module.modify_at, Module.get_mod_by_components, Module.get_mod_by_components,
      Module.m_mod_items_mk, find_module_modify name (Module.modify_at f r) m.m_mod_items 0 j]
    cases hfm : find_module name m.m_mod_items 0 with
    | none => simp
    | some w =>
      obtain ⟨i, sub⟩ := w
      simp only [Option.map_some']
      by_cases hi : i = 0 + j
      · simp only [hi, if_true]
        rw [Module.get_mod_by_components_modify_at f hf rest r sub]
      · simp only [hi, if_false]

theorem commit_static_paths {evaluate_constant : Evaluator} {M : ModulePtr}
    {e : SimplePath × Static} {crate crate1 : Crate}
    (h : commit_static evaluate_constant M e crate = Except.ok crate1) (p : SimplePath) :
    crate1.get_mod_by_path p = crate.get_mod_by_path p := by
  unfold commit_static at h
  cases hv : evaluate_constant crate e.1 e.2.m_value e.2.m_type with
  | error err => simp [hv] at h
  | ok value =>
    simp only [hv, Except.ok.injEq] at h
    rw [← h]
    simp only [Crate.get_mod_by_path, Crate.modify_module]
    rw [Module.get_mod_by_components_modify_at
      (fun m => Module.mk
        (insert_value_item e.1.back
          { publicity := Publicity.none, ent := ValueItem.Static (evaluated_static e.2 value) }
          m.m_value_items)
        m.m_mod_items)
      (fun m => rfl)]

theorem commit_list_paths {evaluate_constant : Evaluator} {M : ModulePtr} :
    ∀ (list : List (SimplePath × Static)) (crate crate1 : Crate),
      commit_list evaluate_constant M list crate = Except.ok crate1 →
      ∀ p, crate1.get_mod_by_path p = crate.get_mod_by_path p
  | [], crate, crate1, h, p => by
    simp only [commit_list, Except.ok.injEq] at h
    rw [h]
  | e :: rest, crate, crate1, h, p => by
    rw [commit_list] at h
    cases hc : commit_static evaluate_constant M e crate with
    | error err => simp [hc] at h
    | ok crate2 =>
      simp only [hc] at h
      rw [commit_list_paths rest crate2 crate1 h p, commit_static_paths hc p]

theorem commit_paths {evaluate_constant : Evaluator} :
    ∀ (reg : List (ModulePtr × List (SimplePath × Static))) (crate crate1 : Crate),
      commit evaluate_constant reg crate = Except.ok crate1 →
      ∀ p, crate1.get_mod_by_path p = crate.get_mod_by_path p
  | [], crate, crate1, h, p => by
    simp only [commit, Except.ok.injEq] at h
    rw [h]
  | (M, list) :: rest, crate, crate1, h, p => by
    rw [commit] at h
    cases hc : commit_list evaluate_constant M list crate with
    | error err => simp [hc] at h
    | ok crate2 =>
      simp only [hc] at h
      rw [commit_paths rest crate2 crate1 h p, commit_list_paths list crate crate2 hc p]

end ModulePaths

section ImplSourceModules

theorem visit_type_impl_src {resolve : Resolver} {m_crate : Crate} {impl impl1 : TypeImpl}
    {this this1 : OuterVisitor}
    (h : visit_type_impl resolve m_crate impl this = Except.ok (impl1, this1)) :
    (m_crate.get_mod_by_path impl1.m_src_module).isSome = true := by
  unfold visit_type_impl at h
  cases hsrc : m_crate.get_mod_by_path impl.m_src_module with
  | none => simp [hsrc] at h
  | some srcmod =>
    simp only [hsrc] at h
    split at h
    · simp at h
    · split at h
      · simp at h
      · split at h
        · simp at h
        · simp only [Except.ok.injEq, Prod.mk.injEq] at h
          rw [← h.1]
          simp [hsrc]

theorem visit_trait_impl_src {resolve : Resolver} {m_crate : Crate} {impl impl1 : TraitImpl}
    {this this1 : OuterVisitor}
    (h : visit_trait_impl resolve m_crate impl this = Except.ok (impl1, this1)) :
    (m_crate.get_mod_by_path impl1.m_src_module).isSome = true := by
  unfold visit_trait_impl at h
  cases hsrc : m_crate.get_mod_by_path impl.m_src_module with
  | none => simp [hsrc] at h
  | some srcmod =>
    simp only [hsrc] at h
    split at h
    · simp at h
    · split at h
      · simp at h
      · split at h
        · simp at h
        · split at h
          · simp at h
          · split at h
            · simp at h
            · simp only [Except.ok.injEq, Prod.mk.injEq] at h
              rw [← h.1]
              simp [hsrc]

theorem visit_type_impls_src {resolve : Resolver} {m_crate : Crate} :
    ∀ (impls impls1 : List TypeImpl) (this this1 : OuterVisitor),
      visit_type_impls resolve m_crate impls this = Except.ok (impls1, this1) →
      ∀ impl ∈ impls1, (m_crate.get_mod_by_path impl.m_src_module).isSome = true
  | [], impls1, this, this1, h => by
    simp only [visit_type_impls, Except.ok.injEq, Prod.mk.injEq] at h
    rw [← h.1]; intro impl hi; cases hi
  | impl :: rest, impls1, this, this1, h => by
    rw [visit_type_impls] at h
    cases hv : visit_type_impl resolve m_crate impl this with
    | error err => simp [hv] at h
    | ok w =>
      obtain ⟨impl1, this2⟩ := w
      simp only [hv] at h
      cases hrest : visit_type_impls resolve m_crate rest this2 with
      | error err => simp [hrest] at h
      | ok u =>
        obtain ⟨rest1, this3⟩ := u
        simp only [hrest, Except.ok.injEq, Prod.mk.injEq] at h
        rw [← h.1]
        intro i hi
        rcases List.mem_cons.mp hi with h1 | h1
        · rw [h1]; exact visit_type_impl_src hv
        · exact visit_type_impls_src rest rest1 this2 this3 hrest i h1

theorem visit_trait_impls_src {resolve : Resolver} {m_crate : Crate} :
    ∀ (impls impls1 : List (SimplePath × TraitImpl)) (this this1 : OuterVisitor),
      visit_trait_impls resolve m_crate impls this = Except.ok (impls1, this1) →
      ∀ e ∈ impls1, (m_crate.get_mod_by_path e.2.m_src_module).isSome = true
  | [], impls1, this, this1, h => by
    simp only [visit_trait_impls, Except.ok.injEq, Prod.mk.injEq] at h
    rw [← h.1]; intro impl hi; cases hi
  | (trait_path, impl) :: rest, impls1, this, this1, h => by
    rw [visit_trait_impls] at h
    cases hv : visit_trait_impl resolve m_crate impl this with
    | error err => simp [hv] at h
    | ok w =>
      obtain ⟨impl1, this2⟩ := w
      simp only [hv] at h
      cases hrest : visit_trait_impls resolve m_crate rest this2 with
      | error err => simp [hrest] at h
      | ok u =>
        obtain ⟨rest1, this3⟩ := u
        simp only [hrest, Except.ok.injEq, Prod.mk.injEq] at h
        rw [← h.1]
        intro i hi
        rcases List.mem_cons.mp hi with h1 | h1
        · rw [h1]; exact visit_trait_impl_src hv
        · exact visit_trait_impls_src rest rest1 this2 this3 hrest i h1

/-- After a walk that returned, the source module of every impl block is a
module of the crate. -/
theorem walk_crate_src {resolve : Resolver} {crate crate1 : Crate} {this this1 : OuterVisitor}
    (h : walk_crate resolve crate this = Except.ok (crate1, this1)) :
    (∀ impl ∈ crate1.m_type_impls, (crate1.get_mod_by_path impl.m_src_module).isSome = true) ∧
    (∀ e ∈ crate1.m_trait_impls, (crate1.get_mod_by_path e.2.m_src_module).isSome = true) := by
  unfold walk_crate at h
  cases hm : visit_module resolve (ItemPath.crate crate.m_crate_name) [] crate.m_root_module this with
  | error err => simp [hm] at h
  | ok w =>
    obtain ⟨root1, this2⟩ := w
    simp only [hm] at h
    cases ht : visit_type_impls resolve { crate with m_root_module := root1 }
        crate.m_type_impls this2 with
    | error err => simp [ht] at h
    | ok u =>
      obtain ⟨type_impls1, this3⟩ := u
      simp only [ht] at h
      cases htr : visit_trait_impls resolve { crate with m_root_module := root1 }
          crate.m_trait_impls this3 with
      | error err => simp [htr] at h
      | ok x =>
        obtain ⟨trait_impls1, this4⟩ := x
        simp only [htr] at h
        cases hmk : visit_marker_impls resolve crate.m_marker_impls this4 with
        | error err => simp [hmk] at h
        | ok y =>
          obtain ⟨marker_impls1, this5⟩ := y
          simp only [hmk, Except.ok.injEq, Prod.mk.injEq] at h
          rw [← h.1]
          exact ⟨fun impl hi => visit_type_impls_src _ _ _ _ ht impl hi,
            fun e he => visit_trait_impls_src _ _ _ _ htr e he⟩

end ImplSourceModules

section SecondWalkCrate

theorem visit_type_impl_second {resolve : Resolver} (m_crate : Crate) (impl : TypeImpl)
    (this : OuterVisitor) (h : impl.settled resolve)
    (hitg : this.m_resolve_item_generics = none)
    (hsrc : (m_crate.get_mod_by_path impl.m_src_module).isSome = true) :
    ∃ this1, visit_type_impl resolve m_crate impl this = Except.ok (impl, this1) ∧
      this1.m_new_statics = this.m_new_statics ∧ this1.m_resolve_impl_generics = none ∧
      this1.m_resolve_item_generics = none := by
  unfold visit_type_impl
  cases hs : m_crate.get_mod_by_path impl.m_src_module with
  | none => simp [hs] at hsrc
  | some srcmod =>
    have h0 := @visit_types_second resolve impl.m_head_types
      { this with
        m_current_module := some srcmod
        m_current_module_path := ItemPath.wrapped impl.m_src_module
        m_resolve_impl_generics := some impl.m_params }
      (by simpa [hitg] using h.1)
    have h1 := visit_named_second (f := visit_function resolve)
      (Q := fun f => f.settled resolve (some impl.m_params))
      { this with
        m_current_module := some srcmod
        m_current_module_path := ItemPath.wrapped impl.m_src_module
        m_resolve_impl_generics := some impl.m_params }
      (fun item hq => visit_function_second item _ hq hitg) impl.m_methods h.2.1
    have h2 := visit_named_second (f := visit_constant resolve)
      (Q := fun c : Constant => settled_expr resolve (some impl.m_params) none c.m_value)
      { this with
        m_current_module := some srcmod
        m_current_module_path := ItemPath.wrapped impl.m_src_module
        m_resolve_impl_generics := some impl.m_params }
      (fun item hq => visit_constant_second item _ (by simpa [hitg] using hq)) impl.m_constants
      h.2.2
    simp only [h0, h1, h2]
    exact ⟨_, rfl, rfl, rfl, hitg⟩

theorem visit_trait_impl_second {resolve : Resolver} (m_crate : Crate) (impl : TraitImpl)
    (this : OuterVisitor) (h : impl.settled resolve)
    (hitg : this.m_resolve_item_generics = none)
    (hsrc : (m_crate.get_mod_by_path impl.m_src_module).isSome = true) :
    ∃ this1, visit_trait_impl resolve m_crate impl this = Except.ok (impl, this1) ∧
      this1.m_new_statics = this.m_new_statics ∧ this1.m_resolve_impl_generics = none ∧
      this1.m_resolve_item_generics = none := by
  unfold visit_trait_impl
  cases hs : m_crate.get_mod_by_path impl.m_src_module with
  | none => simp [hs] at hsrc
  | some srcmod =>
    have h0 := @visit_types_second resolve impl.m_head_types
      { this with
        m_current_module := some srcmod
        m_current_module_path := ItemPath.wrapped impl.m_src_module
        m_resolve_impl_generics := some impl.m_params }
      (by simpa [hitg] using h.1)
    have h1 := visit_named_second (f := visit_function resolve)
      (Q := fun f => f.settled resolve (some impl.m_params))
      { this with
        m_current_module := some srcmod
        m_current_module_path := ItemPath.wrapped impl.m_src_module
        m_resolve_impl_generics := some impl.m_params }
      (fun item hq => visit_function_second item _ hq hitg) impl.m_methods h.2.1
    have h2 := visit_named_second (f := visit_constant resolve)
      (Q := fun c : Constant => settled_expr resolve (some impl.m_params) none c.m_value)
      { this with
        m_current_module := some srcmod
        m_current_module_path := ItemPath.wrapped impl.m_src_module
        m_resolve_impl_generics := some impl.m_params }
      (fun item hq => visit_constant_second item _ (by simpa [hitg] using hq)) impl.m_constants
      h.2.2.1
    have h3 := visit_named_second (f := visit_static resolve)
      (Q := fun c : Static => settled_expr resolve (some impl.m_params) none c.m_value)
      { this with
        m_current_module := some srcmod
        m_current_module_path := ItemPath.wrapped impl.m_src_module
        m_resolve_impl_generics := some impl.m_params }
      (fun item hq => visit_static_second item _ (by simpa [hitg] using hq)) impl.m_statics
      h.2.2.2.1
    have h4 := visit_named_second (f := visit_type resolve)
      (Q := fun ty : TypeData => ty.settled resolve (some impl.m_params) none)
      { this with
        m_current_module := some srcmod
        m_current_module_path := ItemPath.wrapped impl.m_src_module
        m_resolve_impl_generics := some impl.m_params }
      (fun item hq => visit_type_second item _ (by simpa [hitg] using hq)) impl.m_types
      h.2.2.2.2
    simp only [h0, h1, h2, h3, h4]
    exact ⟨_, rfl, rfl, rfl, hitg⟩

theorem visit_marker_impls_second {resolve : Resolver} :
    ∀ (impls : List (SimplePath × MarkerImpl)) (this : OuterVisitor),
      (∀ e ∈ impls, settled_types resolve none none e.2.m_head_types) →
      this.m_resolve_impl_generics = none → this.m_resolve_item_generics = none →
      visit_marker_impls resolve impls this = Except.ok (impls, this)
  | [], this, _, _, _ => rfl
  | (trait_path, impl) :: rest, this, hs, hig, hitg => by
    rw [visit_marker_impls]
    unfold visit_marker_impl
    rw [visit_types_second impl.m_head_types this
      (by rw [hig, hitg]; exact hs (trait_path, impl) (List.mem_cons_self _ _))]
    simp only []
    rw [visit_marker_impls_second rest this (fun e he => hs e (List.mem_cons_of_mem _ he))
      hig hitg]

theorem visit_type_impls_second {resolve : Resolver} (m_crate : Crate) :
    ∀ (impls : List TypeImpl) (this : OuterVisitor),
      (∀ impl ∈ impls, impl.settled resolve) →
      (∀ impl ∈ impls, (m_crate.get_mod_by_path impl.m_src_module).isSome = true) →
      this.m_resolve_impl_generics = none → this.m_resolve_item_generics = none →
      ∃ this1, visit_type_impls resolve m_crate impls this = Except.ok (impls, this1) ∧
        this1.m_new_statics = this.m_new_statics ∧ this1.m_resolve_impl_generics = none ∧
        this1.m_resolve_item_generics = none
  | [], this, _, _, hig, hitg => ⟨this, rfl, rfl, hig, hitg⟩
  | impl :: rest, this, hs, hsrc, _, hitg => by
    obtain ⟨this1, h1, hreg1, hig1, hitg1⟩ := visit_type_impl_second m_crate impl this
      (hs impl (List.mem_cons_self _ _)) hitg (hsrc impl (List.mem_cons_self _ _))
    obtain ⟨this2, h2, hreg2, hig2, hitg2⟩ := visit_type_impls_second m_crate rest this1
      (fun i hi => hs i (List.mem_cons_of_mem _ hi))
      (fun i hi => hsrc i (List.mem_cons_of_mem _ hi)) hig1 hitg1
    refine ⟨this2, ?_, hreg2.trans hreg1, hig2, hitg2⟩
    rw [visit_type_impls, h1]
    simp only []
    rw [h2]

theorem visit_trait_impls_second {resolve : Resolver} (m_crate : Crate) :
    ∀ (impls : List (SimplePath × TraitImpl)) (this : OuterVisitor),
      (∀ e ∈ impls, e.2.settled resolve) →
      (∀ e ∈ impls, (m_crate.get_mod_by_path e.2.m_src_module).isSome = true) →
      this.m_resolve_impl_generics = none → this.m_resolve_item_generics = none →
      ∃ this1, visit_trait_impls resolve m_crate impls this = Except.ok (impls, this1) ∧
        this1.m_new_statics = this.m_new_statics ∧ this1.m_resolve_impl_generics = none ∧
        this1.m_resolve_item_generics = none
  | [], this, _, _, hig, hitg => ⟨this, rfl, rfl, hig, hitg⟩
  | (trait_path, impl) :: rest, this, hs, hsrc, _, hitg => by
    obtain ⟨this1, h1, hreg1, hig1, hitg1⟩ := visit_trait_impl_second m_crate impl this
      (hs (trait_path, impl) (List.mem_cons_self _ _)) hitg
      (hsrc (trait_path, impl) (List.mem_cons_self _ _))
    obtain ⟨this2, h2, hreg2, hig2, hitg2⟩ := visit_trait_impls_second m_crate rest this1
      (fun i hi => hs i (List.mem_cons_of_mem _ hi))
      (fun i hi => hsrc i (List.mem_cons_of_mem _ hi)) hig1 hitg1
    refine ⟨this2, ?_, hreg2.trans hreg1, hig2, hitg2⟩
    rw [visit_trait_impls, h1]
    simp only []
    rw [h2]

/-- The walk of a settled crate whose impl blocks have their source modules
returns the crate as it was and queues nothing. -/
theorem walk_crate_second {resolve : Resolver} (crate : Crate) (this : OuterVisitor)
    (hs : crate.settled resolve)
    (hsrc1 : ∀ impl ∈ crate.m_type_impls, (crate.get_mod_by_path impl.m_src_module).isSome = true)
    (hsrc2 : ∀ e ∈ crate.m_trait_impls, (crate.get_mod_by_path e.2.m_src_module).isSome = true)
    (hig : this.m_resolve_impl_generics = none) (hitg : this.m_resolve_item_generics = none) :
    ∃ this1, walk_crate resolve crate this = Except.ok (crate, this1) ∧
      this1.m_new_statics = this.m_new_statics := by
  have hm := visit_module_second crate.m_root_module (ItemPath.crate crate.m_crate_name) [] this
    hs.1 hig hitg
  have hcrate : ({ crate with m_root_module := crate.m_root_module } : Crate) = crate := rfl
  obtain ⟨this1, h1, hreg1, hig1, hitg1⟩ := visit_type_impls_second crate crate.m_type_impls this
    hs.2.1 hsrc1 hig hitg
  obtain ⟨this2, h2, hreg2, hig2, hitg2⟩ :=
    visit_trait_impls_second crate crate.m_trait_impls this1 hs.2.2.1 hsrc2 hig1 hitg1
  have h3 := visit_marker_impls_second crate.m_marker_impls this2 hs.2.2.2 hig2 hitg2
  refine ⟨this2, ?_, hreg2.trans hreg1⟩
  unfold walk_crate
  rw [hm]
  simp only [hcrate]
  rw [h1]
  simp only []
  rw [h2]
  simp only []
  rw [h3]

end SecondWalkCrate

/-! ## The second run (claim C9) -/

section SecondRun

/-- The statics of a registry in order have settled initializers, for a resolver
that reports the statics of the registry as statics. -/
theorem registry_settled {resolve : Resolver} {valid : ModulePtr → Prop}
    {reg : List (ModulePtr × List (SimplePath × Static))}
    (hr : resolver_reports_lifted_as_static resolve reg) (hreg : registry_ok valid reg) :
    ∀ M list, (M, list) ∈ reg → ∀ e ∈ list, settled_expr resolve none none e.2.m_value := by
  intro M list hmem e he v hv
  obtain ⟨hnd, _, hnames⟩ := hreg
  have hget := new_statics_get_of_mem reg M list hnd hmem
  obtain ⟨idx, hidx⟩ := List.mem_iff_getElem?.mp he
  rw [← hget] at hidx
  obtain ⟨_, v0, hst, hform⟩ := hnames M idx e.1 e.2 hidx
  have hv0 : e.2.m_value = some v0 := by rw [hst]; rfl
  rw [hv0] at hv
  cases hv
  exact no_promotable_of_promoted_form _ (hr none none) _ hform

/-- C9. When the pass has returned `crate2` and the resolver reports the
statics this run generated as statics (under every pair of generic blocks), a
second run on `crate2` (same resolver, any constant evaluator) performs no
further promotion: its walk returns, queues no static and leaves the crate,
hence every expression tree including the initializers of the statics
generated by the first run, as it was, and the second run as a whole returns
`crate2` itself. -/
theorem C9_second_run_is_identity (resolve : Resolver) (evaluate_constant eval2 : Evaluator)
    (crate crate2 : Crate)
    (hr : resolver_reports_lifted_as_static resolve (generated_statics resolve crate))
    (hrun : HIR_Expand_StaticBorrowConstants resolve evaluate_constant crate = Except.ok crate2) :
    (∃ this2, walk_crate resolve crate2 OuterVisitor.new = Except.ok (crate2, this2) ∧
      this2.m_new_statics = []) ∧
    HIR_Expand_StaticBorrowConstants resolve eval2 crate2 = Except.ok crate2 := by
  obtain ⟨crate1, this1, hw, hc⟩ := HIR_Expand_StaticBorrowConstants_ok hrun
  have hgen : generated_statics resolve crate = this1.m_new_statics := by
    simp only [generated_statics, hw]
  rw [hgen] at hr
  obtain ⟨⟨hreg, _⟩, _, hsettled⟩ := walk_crate_first hw (visitor_ok_new _) rfl rfl
  obtain ⟨hs2, hti, htri, _⟩ := commit_settled this1.m_new_statics crate1 crate2 hc (hsettled hr)
    (registry_settled hr hreg)
  obtain ⟨hsrc1, hsrc2⟩ := walk_crate_src hw
  have hpaths := commit_paths this1.m_new_statics crate1 crate2 hc
  obtain ⟨this2, hw2, hreg2⟩ := walk_crate_second crate2 OuterVisitor.new hs2
    (fun impl hi => by rw [hpaths]; exact hsrc1 impl (by rw [← hti]; exact hi))
    (fun e he => by rw [hpaths]; exact hsrc2 e (by rw [← htri]; exact he)) rfl rfl
  have hempty : this2.m_new_statics = [] := hreg2
  refine ⟨⟨this2, hw2, hempty⟩, ?_⟩
  unfold HIR_Expand_StaticBorrowConstants visit_crate
  rw [hw2]
  simp only [hempty, commit]

/-- The crate `fn f() { &[1, 2, 3] }`: the first run returns the crate with
`f` borrowing `demo::lifted#0`; the second run on that crate returns it
unchanged. The same for the crate with a struct whose field has an array type
of size `&[1, 2, 3]` and a trait whose method has the default body
`&[4, 5]`. -/
theorem C9_second_run_is_identity_witness :
    resolver_reports_lifted_as_static (fun _ _ => Demo.plain)
      (generated_statics (fun _ _ => Demo.plain) Demo.crate_borrow_array) ∧
    HIR_Expand_StaticBorrowConstants (fun _ _ => Demo.plain) Demo.const_evaluator
      Demo.crate_borrow_array = Except.ok Demo.crate_borrow_array_done ∧
    ((∃ this2, walk_crate (fun _ _ => Demo.plain) Demo.crate_borrow_array_done OuterVisitor.new =
        Except.ok (Demo.crate_borrow_array_done, this2) ∧ this2.m_new_statics = []) ∧
      HIR_Expand_StaticBorrowConstants (fun _ _ => Demo.plain) Demo.const_evaluator
        Demo.crate_borrow_array_done = Except.ok Demo.crate_borrow_array_done) ∧
    HIR_Expand_StaticBorrowConstants (fun _ _ => Demo.plain) Demo.const_evaluator
      Demo.crate_with_types = Except.ok Demo.crate_with_types_done ∧
    (∃ this2, walk_crate (fun _ _ => Demo.plain) Demo.crate_with_types_done OuterVisitor.new =
        Except.ok (Demo.crate_with_types_done, this2) ∧ this2.m_new_statics = []) ∧
    HIR_Expand_StaticBorrowConstants (fun _ _ => Demo.plain) Demo.const_evaluator
      Demo.crate_with_types_done = Except.ok Demo.crate_with_types_done :=
  ⟨fun _ _ _ _ _ => rfl, rfl,
    C9_second_run_is_identity (fun _ _ => Demo.plain) Demo.const_evaluator Demo.const_evaluator
      Demo.crate_borrow_array Demo.crate_borrow_array_done (fun _ _ _ _ _ => rfl) rfl,
    rfl,
    C9_second_run_is_identity (fun _ _ => Demo.plain) Demo.const_evaluator Demo.const_evaluator
      Demo.crate_with_types Demo.crate_with_types_done (fun _ _ _ _ _ => rfl) rfl⟩

end SecondRun

/-! ## The walk only rewrites expression trees (claim C11) -/

section Frame

theorem run_on_expr_blank {resolve : Resolver} {e e1 : ExprPtr} {this this1 : OuterVisitor}
    (h : run_on_expr resolve e this = Except.ok (e1, this1)) : e1.blank = e.blank := by
  unfold run_on_expr visit_root at h
  cases hv : visit (this.m_resolve resolve) get_new_ty_cb e.m_state e.node
      (ExprVisitor_Mutate.new this) with
  | error err => simp [hv] at h
  | ok w =>
    obtain ⟨n, s1⟩ := w
    simp only [hv, Except.ok.injEq, Prod.mk.injEq] at h
    rw [← h.1]; rfl

theorem run_on_opt_expr_blank {resolve : Resolver} {e e1 : Option ExprPtr}
    {this this1 : OuterVisitor}
    (h : run_on_opt_expr resolve e this = Except.ok (e1, this1)) :
    e1.map ExprPtr.blank = e.map ExprPtr.blank := by
  cases e with
  | none =>
    simp only [run_on_opt_expr, Except.ok.injEq, Prod.mk.injEq] at h
    rw [← h.1]
  | some e0 =>
    simp only [run_on_opt_expr] at h
    cases hv : run_on_expr resolve e0 this with
    | error err => simp [hv] at h
    | ok w =>
      obtain ⟨e2, this2⟩ := w
      simp only [hv, Except.ok.injEq, Prod.mk.injEq] at h
      rw [← h.1]
      simp [run_on_expr_blank hv]

theorem visit_function_skeleton {resolve : Resolver} {item item1 : Function}
    {this this1 : OuterVisitor}
    (h : visit_function resolve item this = Except.ok (item1, this1)) :
    (ValueItem.Function item1).skeleton = (ValueItem.Function item).skeleton := by
  unfold visit_function at h
  cases hc : item.m_code with
  | none =>
    simp only [hc, Except.ok.injEq, Prod.mk.injEq] at h
    rw [← h.1]
  | some code =>
    simp only [hc] at h
    cases hv : run_on_expr resolve code { this with m_resolve_item_generics := some item.m_params } with
    | error err => simp [hv] at h
    | ok w =>
      obtain ⟨code1, this2⟩ := w
      simp only [hv, Except.ok.injEq, Prod.mk.injEq] at h
      rw [← h.1]
      simp [ValueItem.skeleton, hc, run_on_expr_blank hv]

theorem visit_static_skeleton {resolve : Resolver} {item item1 : Static}
    {this this1 : OuterVisitor}
    (h : visit_static resolve item this = Except.ok (item1, this1)) :
    (ValueItem.Static item1).skeleton = (ValueItem.Static item).skeleton := by
  unfold visit_static at h
  cases hv : run_on_opt_expr resolve item.m_value this with
  | error err => simp [hv] at h
  | ok w =>
    obtain ⟨v1, this2⟩ := w
    simp only [hv, Except.ok.injEq, Prod.mk.injEq] at h
    rw [← h.1]
    simp [ValueItem.skeleton, run_on_opt_expr_blank hv]

theorem visit_constant_skeleton {resolve : Resolver} {item item1 : Constant}
    {this this1 : OuterVisitor}
    (h : visit_constant resolve item this = Except.ok (item1, this1)) :
    (ValueItem.Constant item1).skeleton = (ValueItem.Constant item).skeleton := by
  unfold visit_constant at h
  cases hv : run_on_opt_expr resolve item.m_value this with
  | error err => simp [hv] at h
  | ok w =>
    obtain ⟨v1, this2⟩ := w
    simp only [hv, Except.ok.injEq, Prod.mk.injEq] at h
    rw [← h.1]
    simp [ValueItem.skeleton, run_on_opt_expr_blank hv]

theorem visit_enum_variants_skeleton {resolve : Resolver} :
    ∀ (vars vars1 : List EnumValueVariant) (this this1 : OuterVisitor),
      visit_enum_variants resolve vars this = Except.ok (vars1, this1) →
      vars1.map (fun var => { var with expr := var.expr.map ExprPtr.blank }) =
        vars.map (fun var => { var with expr := var.expr.map ExprPtr.blank })
  | [], vars1, this, this1, h => by
    simp only [visit_enum_variants, Except.ok.injEq, Prod.mk.injEq] at h
    rw [← h.1]
  | var :: rest, vars1, this, this1, h => by
    simp only [visit_enum_variants] at h
    cases hv : run_on_opt_expr resolve var.expr this with
    | error err => simp [hv] at h
    | ok w =>
      obtain ⟨e1, this2⟩ := w
      simp only [hv] at h
      cases hr2 : visit_enum_variants resolve rest this2 with
      | error err => simp [hr2] at h
      | ok u =>
        obtain ⟨rest1, this3⟩ := u
        simp only [hr2, Except.ok.injEq, Prod.mk.injEq] at h
        rw [← h.1]
        simp [run_on_opt_expr_blank hv, visit_enum_variants_skeleton rest rest1 this2 this3 hr2]

theorem visit_enum_skeleton {resolve : Resolver} {item item1 : Enum} {this this1 : OuterVisitor}
    (h : visit_enum resolve item this = Except.ok (item1, this1)) :
    item1.skeleton = item.skeleton := by
  unfold visit_enum at h
  cases hd : item.m_data with
  | none =>
    simp only [hd, Except.ok.injEq, Prod.mk.injEq] at h
    rw [← h.1]
  | some variants =>
    simp only [hd] at h
    cases hv : visit_enum_variants resolve variants
        { this with m_resolve_impl_generics := some item.m_params } with
    | error err => simp [hv] at h
    | ok w =>
      obtain ⟨variants1, this2⟩ := w
      simp only [hv, Except.ok.injEq, Prod.mk.injEq] at h
      rw [← h.1]
      simp [Enum.skeleton, hd, visit_enum_variants_skeleton variants variants1 _ this2 hv]

theorem visit_array_size_skeleton {resolve : Resolver} {size size1 : ArraySize}
    {this this1 : OuterVisitor}
    (h : visit_array_size resolve size this = Except.ok (size1, this1)) :
    size1.skeleton = size.skeleton := by
  cases size with
  | Known n =>
    simp only [visit_array_size, Except.ok.injEq, Prod.mk.injEq] at h
    rw [← h.1]
  | Unevaluated cg =>
    cases cg with
    | Other kind =>
      simp only [visit_array_size, Except.ok.injEq, Prod.mk.injEq] at h
      rw [← h.1]
    | Unevaluated expr =>
      simp only [visit_array_size] at h
      cases hv : run_on_expr resolve expr this with
      | error err => simp [hv] at h
      | ok w =>
        obtain ⟨expr1, this2⟩ := w
        simp only [hv, Except.ok.injEq, Prod.mk.injEq] at h
        rw [← h.1]
        simp only [ArraySize.skeleton, run_on_expr_blank hv]

mutual
theorem visit_type_skeleton {resolve : Resolver} :
    ∀ (ty ty1 : TypeData) (this this1 : OuterVisitor),
      visit_type resolve ty this = Except.ok (ty1, this1) → ty1.skeleton = ty.skeleton
  | TypeData.Array inner size, ty1, this, this1, h => by
    rw [visit_type] at h
    cases hi : visit_type resolve inner this with
    | error err => simp [hi] at h
    | ok w =>
      obtain ⟨inner1, this2⟩ := w
      simp only [hi] at h
      cases hsz : visit_array_size resolve size this2 with
      | error err => simp [hsz] at h
      | ok u =>
        obtain ⟨size1, this3⟩ := u
        simp only [hsz, Except.ok.injEq, Prod.mk.injEq] at h
        rw [← h.1]
        simp only [TypeData.skeleton]
        rw [visit_type_skeleton inner inner1 this this2 hi, visit_array_size_skeleton hsz]
  | TypeData.Other kind inner, ty1, this, this1, h => by
    rw [visit_type] at h
    cases hi : visit_types resolve inner this with
    | error err => simp [hi] at h
    | ok w =>
      obtain ⟨inner1, this2⟩ := w
      simp only [hi, Except.ok.injEq, Prod.mk.injEq] at h
      rw [← h.1]
      simp only [TypeData.skeleton]
      rw [visit_types_skeleton inner inner1 this this2 hi]
theorem visit_types_skeleton {resolve : Resolver} :
    ∀ (tys tys1 : List TypeData) (this this1 : OuterVisitor),
      visit_types resolve tys this = Except.ok (tys1, this1) →
      skeleton_types tys1 = skeleton_types tys
  | [], tys1, this, this1, h => by
    simp only [visit_types, Except.ok.injEq, Prod.mk.injEq] at h
    rw [← h.1]
  | ty :: rest, tys1, this, this1, h => by
    rw [visit_types] at h
    cases hv : visit_type resolve ty this with
    | error err => simp [hv] at h
    | ok w =>
      obtain ⟨ty1, this2⟩ := w
      simp only [hv] at h
      cases hrest : visit_types resolve rest this2 with
      | error err => simp [hrest] at h
      | ok u =>
        obtain ⟨rest1, this3⟩ := u
        simp only [hrest, Except.ok.injEq, Prod.mk.injEq] at h
        rw [← h.1]
        simp only [skeleton_types]
        rw [visit_type_skeleton ty ty1 this this2 hv,
          visit_types_skeleton rest rest1 this2 this3 hrest]
end

theorem visit_named_map {α β : Type} {f : α → OuterVisitor → Except Error (α × OuterVisitor)}
    {g : α → β}
    (hf : ∀ (item item1 : α) (this this1 : OuterVisitor),
      f item this = Except.ok (item1, this1) → g item1 = g item) :
    ∀ (items items1 : List (RcString × α)) (this this1 : OuterVisitor),
      visit_named f items this = Except.ok (items1, this1) →
      items1.map (fun v => (v.1, g v.2)) = items.map (fun v => (v.1, g v.2))
  | [], items1, this, this1, h => by
    simp only [visit_named, Except.ok.injEq, Prod.mk.injEq] at h
    rw [← h.1]
  | (name, item) :: rest, items1, this, this1, h => by
    rw [visit_named] at h
    cases hv : f item this with
    | error err => simp [hv] at h
    | ok w =>
      obtain ⟨item1, this2⟩ := w
      simp only [hv] at h
      cases hrest : visit_named f rest this2 with
      | error err => simp [hrest] at h
      | ok u =>
        obtain ⟨rest1, this3⟩ := u
        simp only [hrest, Except.ok.injEq, Prod.mk.injEq] at h
        rw [← h.1]
        simp only [List.map_cons]
        rw [hf item item1 this this2 hv, visit_named_map hf rest rest1 this2 this3 hrest]

theorem visit_trait_value_skeleton {resolve : Resolver} {item item1 : TraitValueItem}
    {this this1 : OuterVisitor}
    (h : visit_trait_value resolve item this = Except.ok (item1, this1)) :
    item1.skeleton = item.skeleton := by
  cases item with
  | Constant e =>
    simp only [visit_trait_value] at h
    cases hv : visit_constant resolve e this with
    | error err => simp [hv] at h
    | ok w =>
      obtain ⟨e1, this2⟩ := w
      simp only [hv, Except.ok.injEq, Prod.mk.injEq] at h
      rw [← h.1]
      have := visit_constant_skeleton hv
      simp only [ValueItem.skeleton, ValueItem.Constant.injEq] at this
      simp only [TraitValueItem.skeleton, this]
  | Static e =>
    simp only [visit_trait_value] at h
    cases hv : visit_static resolve e this with
    | error err => simp [hv] at h
    | ok w =>
      obtain ⟨e1, this2⟩ := w
      simp only [hv, Except.ok.injEq, Prod.mk.injEq] at h
      rw [← h.1]
      have := visit_static_skeleton hv
      simp only [ValueItem.skeleton, ValueItem.Static.injEq] at this
      simp only [TraitValueItem.skeleton, this]
  | Function e =>
    simp only [visit_trait_value] at h
    cases hv : visit_function resolve e this with
    | error err => simp [hv] at h
    | ok w =>
      obtain ⟨e1, this2⟩ := w
      simp only [hv, Except.ok.injEq, Prod.mk.injEq] at h
      rw [← h.1]
      have := visit_function_skeleton hv
      simp only [ValueItem.skeleton, ValueItem.Function.injEq] at this
      simp only [TraitValueItem.skeleton, this]

theorem visit_trait_skeleton {resolve : Resolver} {item item1 : Trait}
    {this this1 : OuterVisitor}
    (h : visit_trait resolve item this = Except.ok (item1, this1)) :
    item1.skeleton = item.skeleton := by
  unfold visit_trait at h
  cases ht : visit_types resolve item.m_head_types this with
  | error err => simp [ht] at h
  | ok w =>
    obtain ⟨types1, this2⟩ := w
    simp only [ht] at h
    cases hv : visit_named (visit_trait_value resolve) item.m_values this2 with
    | error err => simp [hv] at h
    | ok u =>
      obtain ⟨values1, this3⟩ := u
      simp only [hv, Except.ok.injEq, Prod.mk.injEq] at h
      rw [← h.1]
      simp only [Trait.skeleton]
      rw [visit_types_skeleton _ _ _ _ ht,
        visit_named_map (g := TraitValueItem.skeleton)
          (fun it it1 t t1 hv0 => visit_trait_value_skeleton hv0) _ _ _ _ hv]

theorem visit_value_items_skeleton {resolve : Resolver} :
    ∀ (vs vs1 : List (RcString × VisEnt)) (this this1 : OuterVisitor),
      visit_value_items resolve vs this = Except.ok (vs1, this1) →
      vs1.map (fun e => (e.1, { e.2 with ent := e.2.ent.skeleton })) =
        vs.map (fun e => (e.1, { e.2 with ent := e.2.ent.skeleton }))
  | [], vs1, this, this1, h => by
    simp only [visit_value_items, Except.ok.injEq, Prod.mk.injEq] at h
    rw [← h.1]
  | (name, ent) :: rest, vs1, this, this1, h => by
    rw [visit_value_items] at h
    have hhead : ∀ (item1 : ValueItem) (this2 : OuterVisitor),
        (match ent.ent with
          | ValueItem.Constant e =>
            match visit_constant resolve e this with
            | Except.error err => Except.error err
            | Except.ok (e1, this1) => Except.ok (ValueItem.Constant e1, this1)
          | ValueItem.Static e =>
            match visit_static resolve e this with
            | Except.error err => Except.error err
            | Except.ok (e1, this1) => Except.ok (ValueItem.Static e1, this1)
          | ValueItem.Function e =>
            match visit_function resolve e this with
            | Except.error err => Except.error err
            | Except.ok (e1, this1) => Except.ok (ValueItem.Function e1, this1)
          | other => Except.ok (other, this)) = Except.ok (item1, this2) →
        item1.skeleton = ent.ent.skeleton := by
      intro item1 this2 hh
      cases hent : ent.ent with
      | Import => simp only [hent, Except.ok.injEq, Prod.mk.injEq] at hh; rw [← hh.1]
      | StructConstant => simp only [hent, Except.ok.injEq, Prod.mk.injEq] at hh; rw [← hh.1]
      | StructConstructor => simp only [hent, Except.ok.injEq, Prod.mk.injEq] at hh; rw [← hh.1]
      | Constant e =>
        simp only [hent] at hh
        cases hv : visit_constant resolve e this with
        | error err => simp [hv] at hh
        | ok w =>
          obtain ⟨e1, this3⟩ := w
          simp only [hv, Except.ok.injEq, Prod.mk.injEq] at hh
          rw [← hh.1]; exact visit_constant_skeleton hv
      | Static e =>
        simp only [hent] at hh
        cases hv : visit_static resolve e this with
        | error err => simp [hv] at hh
        | ok w =>
          obtain ⟨e1, this3⟩ := w
          simp only [hv, Except.ok.injEq, Prod.mk.injEq] at hh
          rw [← hh.1]; exact visit_static_skeleton hv
      | Function e =>
        simp only [hent] at hh
        cases hv : visit_function resolve e this with
        | error err => simp [hv] at hh
        | ok w =>
          obtain ⟨e1, this3⟩ := w
          simp only [hv, Except.ok.injEq, Prod.mk.injEq] at hh
          rw [← hh.1]; exact visit_function_skeleton hv
    split at h
    · simp at h
    · rename_i item1 this2 hheq
      have hs := hhead item1 this2 hheq
      cases hrest : visit_value_items resolve rest this2 with
      | error err => simp [hrest] at h
      | ok u =>
        obtain ⟨rest1, this3⟩ := u
        simp only [hrest, Except.ok.injEq, Prod.mk.injEq] at h
        rw [← h.1]
        simp [hs, visit_value_items_skeleton rest rest1 this2 this3 hrest]

mutual
/-- The walk of a module changes nothing but expression trees. -/
theorem visit_module_skeleton {resolve : Resolver} :
    ∀ (m : Module) (p : ItemPath) (ptr : ModulePtr) (this : OuterVisitor) (m1 : Module)
      (this1 : OuterVisitor),
      visit_module resolve p ptr m this = Except.ok (m1, this1) → m1.skeleton = m.skeleton
  | Module.mk vs ms, p, ptr, this, m1, this1, h => by
    rw [visit_module] at h
    cases hmods : visit_mod_items resolve p ptr 0 ms
        { this with m_current_module := some ptr, m_current_module_path := p } with
    | error err => simp [hmods] at h
    | ok w =>
      obtain ⟨ms1, this2⟩ := w
      simp only [hmods] at h
      cases hvals : visit_value_items resolve vs this2 with
      | error err => simp [hvals] at h
      | ok u =>
        obtain ⟨vs1, this3⟩ := u
        simp only [hvals, Except.ok.injEq, Prod.mk.injEq] at h
        rw [← h.1]
        simp only [Module.skeleton]
        rw [visit_value_items_skeleton vs vs1 this2 this3 hvals,
          visit_mod_items_skeleton ms p ptr 0 _ ms1 this2 hmods]
theorem visit_mod_items_skeleton {resolve : Resolver} :
    ∀ (items : List (RcString × TypeItem)) (p : ItemPath) (ptr : ModulePtr) (idx : Nat)
      (this : OuterVisitor) (items1 : List (RcString × TypeItem)) (this1 : OuterVisitor),
      visit_mod_items resolve p ptr idx items this = Except.ok (items1, this1) →
      skeleton_mod_items items1 = skeleton_mod_items items
  | [], p, ptr, idx, this, items1, this1, h => by
    simp only [visit_mod_items, Except.ok.injEq, Prod.mk.injEq] at h
    rw [← h.1]
  | (name, TypeItem.Module e) :: rest, p, ptr, idx, this, items1, this1, h => by
    rw [visit_mod_items] at h
    cases hm : visit_module resolve (p.add name) (ptr ++ [idx]) e this with
    | error err => simp [hm] at h
    | ok w =>
      obtain ⟨e1, this2⟩ := w
      simp only [hm] at h
      cases hrest : visit_mod_items resolve p ptr (idx + 1) rest this2 with
      | error err => simp [hrest] at h
      | ok u =>
        obtain ⟨rest1, this3⟩ := u
        simp only [hrest, Except.ok.injEq, Prod.mk.injEq] at h
        rw [← h.1]
        simp only [skeleton_mod_items]
        rw [visit_module_skeleton e (p.add name) (ptr ++ [idx]) this e1 this2 hm,
          visit_mod_items_skeleton rest p ptr (idx + 1) this2 rest1 this3 hrest]
  | (name, TypeItem.Enum e) :: rest, p, ptr, idx, this, items1, this1, h => by
    rw [visit_mod_items] at h
    cases hm : visit_enum resolve e this with
    | error err => simp [hm] at h
    | ok w =>
      obtain ⟨e1, this2⟩ := w
      simp only [hm] at h
      cases hrest : visit_mod_items resolve p ptr (idx + 1) rest this2 with
      | error err => simp [hrest] at h
      | ok u =>
        obtain ⟨rest1, this3⟩ := u
        simp only [hrest, Except.ok.injEq, Prod.mk.injEq] at h
        rw [← h.1]
        simp only [skeleton_mod_items]
        rw [visit_enum_skeleton hm,
          visit_mod_items_skeleton rest p ptr (idx + 1) this2 rest1 this3 hrest]
  | (name, TypeItem.Import) :: rest, p, ptr, idx, this, items1, this1, h => by
    rw [visit_mod_items] at h
    cases hrest : visit_mod_items resolve p ptr (idx + 1) rest this with
    | error err => simp [hrest] at h
    | ok u =>
      obtain ⟨rest1, this3⟩ := u
      simp only [hrest, Except.ok.injEq, Prod.mk.injEq] at h
      rw [← h.1]
      simp only [skeleton_mod_items]
      rw [visit_mod_items_skeleton rest p ptr (idx + 1) this rest1 this3 hrest]
  | (name, TypeItem.Trait e) :: rest, p, ptr, idx, this, items1, this1, h => by
    rw [visit_mod_items] at h
    cases hm : visit_trait resolve e this with
    | error err => simp [hm] at h
    | ok w =>
      obtain ⟨e1, this2⟩ := w
      simp only [hm] at h
      cases hrest : visit_mod_items resolve p ptr (idx + 1) rest this2 with
      | error err => simp [hrest] at h
      | ok u =>
        obtain ⟨rest1, this3⟩ := u
        simp only [hrest, Except.ok.injEq, Prod.mk.injEq] at h
        rw [← h.1]
        simp only [skeleton_mod_items]
        rw [visit_trait_skeleton hm,
          visit_mod_items_skeleton rest p ptr (idx + 1) this2 rest1 this3 hrest]
  | (name, TypeItem.Other kind tys) :: rest, p, ptr, idx, this, items1, this1, h => by
    rw [visit_mod_items] at h
    cases hm : visit_types resolve tys this with
    | error err => simp [hm] at h
    | ok w =>
      obtain ⟨tys1, this2⟩ := w
      simp only [hm] at h
      cases hrest : visit_mod_items resolve p ptr (idx + 1) rest this2 with
      | error err => simp [hrest] at h
      | ok u =>
        obtain ⟨rest1, this3⟩ := u
        simp only [hrest, Except.ok.injEq, Prod.mk.injEq] at h
        rw [← h.1]
        simp only [skeleton_mod_items]
        rw [visit_types_skeleton tys tys1 this this2 hm,
          visit_mod_items_skeleton rest p ptr (idx + 1) this2 rest1 this3 hrest]
end

/-- From the start of the walk to the start of the commit the module tree
changes in expression trees only. -/
theorem walk_crate_skeleton {resolve : Resolver} {crate crate1 : Crate} {this this1 : OuterVisitor}
    (h : walk_crate resolve crate this = Except.ok (crate1, this1)) :
    crate1.m_root_module.skeleton = crate.m_root_module.skeleton := by
  unfold walk_crate at h
  cases hm : visit_module resolve (ItemPath.crate crate.m_crate_name) [] crate.m_root_module this with
  | error err => simp [hm] at h
  | ok w =>
    obtain ⟨root1, this2⟩ := w
    simp only [hm] at h
    cases ht : visit_type_impls resolve { crate with m_root_module := root1 }
        crate.m_type_impls this2 with
    | error err => simp [ht] at h
    | ok u =>
      obtain ⟨type_impls1, this3⟩ := u
      simp only [ht] at h
      cases htr : visit_trait_impls resolve { crate with m_root_module := root1 }
          crate.m_trait_impls this3 with
      | error err => simp [htr] at h
      | ok x =>
        obtain ⟨trait_impls1, this4⟩ := x
        simp only [htr] at h
        cases hmk : visit_marker_impls resolve crate.m_marker_impls this4 with
        | error err => simp [hmk] at h
        | ok y =>
          obtain ⟨marker_impls1, this5⟩ := y
          simp only [hmk, Except.ok.injEq, Prod.mk.injEq] at h
          rw [← h.1]
          exact visit_module_skeleton _ _ _ _ _ _ hm

/-- The walk reaches the size expression of an array type of a struct field
and the default body of a trait method: both borrows are promoted, in that
order. -/
theorem walk_crate_reaches_types_and_traits :
    walk_crate (fun _ _ => Demo.plain) Demo.crate_with_types OuterVisitor.new =
      Except.ok (Demo.crate_with_types_walked, Demo.visitor_two_pending) := rfl

end Frame

section FrameClaim

/-- C11. A successful call of the callback appends exactly one entry, the
returned path with the static of default linkage, not mutable, of type `ty`,
with initializer `val_expr`, with no evaluated value and not marked as
generated (`HIR::Static(Linkage(), false, ty, val_expr)`), to the end of the
pending list of the current module; the pending list of every other module and
the context of the visitor (current module, its path, the generic blocks) are
unchanged. The module tree is not within reach of the callback, and over the
whole walk (modules, trait definitions, the types of the other type items, the
impl blocks and their types), from its start to the start of the commit, every
module's item namespace changes in nothing but the expression trees the
classifier rewrites in place (the skeleton of the module tree is kept). -/
theorem C11_allocate_only_appends_to_the_pending_list (this this1 : OuterVisitor) (sp : Span)
    (ty : TypeRef) (val_expr : ExprPtr) (p : SimplePath)
    (h : get_new_ty_cb this sp ty val_expr = Except.ok (p, this1)) :
    (∃ M, this.m_current_module = some M ∧
      new_statics_get this1.m_new_statics M =
        new_statics_get this.m_new_statics M ++
          [(p, { m_linkage := { name := "" }, m_is_mut := false, m_type := ty,
                 m_value := some val_expr, m_value_res := { bytes := [] },
                 m_value_generated := false })] ∧
      ∀ M1, M1 ≠ M →
        new_statics_get this1.m_new_statics M1 = new_statics_get this.m_new_statics M1) ∧
    this1.m_current_module = this.m_current_module ∧
    this1.m_current_module_path = this.m_current_module_path ∧
    this1.m_resolve_impl_generics = this.m_resolve_impl_generics ∧
    this1.m_resolve_item_generics = this.m_resolve_item_generics ∧
    ∀ (resolve : Resolver) (crate crate1 : Crate) (v v1 : OuterVisitor),
      walk_crate resolve crate v = Except.ok (crate1, v1) →
      crate1.m_root_module.skeleton = crate.m_root_module.skeleton := by
  obtain ⟨M, hM, hp, h1⟩ := get_new_ty_cb_ok h
  subst h1
  refine ⟨⟨M, hM, ?_, ?_⟩, rfl, rfl, rfl, rfl, fun resolve crate crate1 v v1 hw =>
    walk_crate_skeleton hw⟩
  · simp only [with_new_static, new_statics_get_set, if_true, hp, Static.new, Linkage.new]
  · intro M1 hne
    have hne1 : ¬ (M = M1) := fun e => hne e.symm
    simp only [with_new_static, new_statics_get_set, hne1, if_false]

/-- In the root module of crate `demo`, the first call of the callback (for the
array `[1, 2, 3]`) returns `demo::lifted#0` and leaves that one static pending
for the root module. The walk of the crate with a struct `S` (a field of an
array type whose size is `&[1, 2, 3]`) and a trait `T` (a method with default
body `&[4, 5]`) promotes both borrows and keeps the skeleton of the root
module. -/
theorem C11_allocate_only_appends_to_the_pending_list_witness :
    get_new_ty_cb Demo.in_root_module ⟨1⟩ ⟨10⟩
        { node := Demo.array123, m_state := new_static_state Demo.root_state } =
      Except.ok ({ m_crate_name := "demo", m_components := ["lifted#0"] },
        { Demo.in_root_module with
          m_new_statics :=
            [([], [({ m_crate_name := "demo", m_components := ["lifted#0"] }, Demo.lifted0)])] }) ∧
    (∃ M, Demo.in_root_module.m_current_module = some M ∧
      new_statics_get
          [([], [({ m_crate_name := "demo", m_components := ["lifted#0"] }, Demo.lifted0)])] M =
        new_statics_get Demo.in_root_module.m_new_statics M ++
          [({ m_crate_name := "demo", m_components := ["lifted#0"] },
            { m_linkage := { name := "" }, m_is_mut := false, m_type := ⟨10⟩,
              m_value := some { node := Demo.array123, m_state := new_static_state Demo.root_state },
              m_value_res := { bytes := [] }, m_value_generated := false })] ∧
      ∀ M1, M1 ≠ M →
        new_statics_get
            [([], [({ m_crate_name := "demo", m_components := ["lifted#0"] }, Demo.lifted0)])] M1 =
          new_statics_get Demo.in_root_module.m_new_statics M1) ∧
    walk_crate (fun _ _ => Demo.plain) Demo.crate_with_types OuterVisitor.new =
      Except.ok (Demo.crate_with_types_walked, Demo.visitor_two_pending) ∧
    Demo.crate_with_types_walked.m_root_module.skeleton =
      Demo.crate_with_types.m_root_module.skeleton :=
  ⟨rfl,
    (C11_allocate_only_appends_to_the_pending_list Demo.in_root_module
      { Demo.in_root_module with
        m_new_statics :=
          [([], [({ m_crate_name := "demo", m_components := ["lifted#0"] }, Demo.lifted0)])] }
      ⟨1⟩ ⟨10⟩ { node := Demo.array123, m_state := new_static_state Demo.root_state }
      { m_crate_name := "demo", m_components := ["lifted#0"] } rfl).1,
    rfl,
    (C11_allocate_only_appends_to_the_pending_list Demo.in_root_module
      { Demo.in_root_module with
        m_new_statics :=
          [([], [({ m_crate_name := "demo", m_components := ["lifted#0"] }, Demo.lifted0)])] }
      ⟨1⟩ ⟨10⟩ { node := Demo.array123, m_state := new_static_state Demo.root_state }
      { m_crate_name := "demo", m_components := ["lifted#0"] } rfl).2.2.2.2.2
      (fun _ _ => Demo.plain) Demo.crate_with_types Demo.crate_with_types_walked
      OuterVisitor.new Demo.visitor_two_pending rfl⟩

end FrameClaim

/-! ## What a composite reports (claim C12) -/

section CompositeReports

variable {σ : Type}

/-- A node that reports itself constant has left `m_all_constant` as it found
it. -/
theorem visit_reports_keep_all_constant {r : StaticTraitResolve} {cb : t_new_static_cb σ}
    {st : ExprState} {n n1 : ExprNode} {s s1 : ExprVisitor_Mutate σ}
    (h : visit r cb st n s = Except.ok (n1, s1)) (his : s.m_is_constant = false)
    (hrep : s1.m_is_constant = true) : s1.m_all_constant = s.m_all_constant := by
  cases n with
  | Literal sp ty d =>
    simp only [visit, Except.ok.injEq, Prod.mk.injEq] at h; rw [← h.2]
  | UnitVariant sp ty p =>
    simp only [visit, Except.ok.injEq, Prod.mk.injEq] at h; rw [← h.2]
  | PathValue sp ty p t =>
    rw [visit_PathValue_eq] at h
    simp only [Except.ok.injEq, Prod.mk.injEq] at h
    rw [← h.2]; split <;> rfl
  | Composite k sp ty cs =>
    rw [visit] at h
    cases hc : visit_children r cb st cs s with
    | error e => simp [hc] at h
    | ok w =>
      obtain ⟨cs1, s2⟩ := w
      simp only [hc, Except.ok.injEq, Prod.mk.injEq] at h
      have h2 := (visit_children_flags cs (fun c _ => visit_node_ptr_flags r cb st c) s cs1 s2 hc).1
      rw [← h.2] at hrep ⊢
      simp only at hrep ⊢
      rw [h2] at hrep
      rw [h2, hrep]
      rw [Bool.and_eq_true] at hrep
      exact hrep.1.symm
  | Unsize sp ty v =>
    rw [visit] at h
    have hfold : node_ptr_result (visit r cb st v (node_ptr_enter s))
        = visit_node_ptr r cb st v s := rfl
    rw [hfold] at h
    cases hc : visit_node_ptr r cb st v s with
    | error e => simp [hc] at h
    | ok w =>
      obtain ⟨v1, s2⟩ := w
      simp only [hc, Except.ok.injEq, Prod.mk.injEq] at h
      have h2 := visit_node_ptr_flags r cb st v s v1 s2 hc
      rw [← h.2] at hrep ⊢
      simp only at hrep ⊢
      rw [h2] at hrep
      rw [h2, hrep]
      rw [Bool.and_eq_true] at hrep
      exact hrep.1.symm
  | Borrow sp ty bt v =>
    obtain ⟨v1, sA, v2, sB, _, _, _, hs1⟩ := visit_Borrow_ok h
    rw [hs1]
  | Other kind sp ty cs =>
    rw [visit] at h
    cases hc : visit_children r cb st cs s with
    | error e => simp [hc] at h
    | ok w =>
      obtain ⟨cs1, s2⟩ := w
      simp only [hc, Except.ok.injEq, Prod.mk.injEq] at h
      have h2 := (visit_children_flags cs (fun c _ => visit_node_ptr_flags r cb st c) s cs1 s2 hc).2
        his
      rw [← h.2, h2] at hrep
      cases hrep

/-- Lines 61-69: after a child slot, `m_all_constant` is what it was and-ed
with the child's own report. -/
theorem node_ptr_leave_reports {r : StaticTraitResolve} {cb : t_new_static_cb σ}
    {st : ExprState} {c c1 : ExprNode} {s s0 : ExprVisitor_Mutate σ}
    (h : visit r cb st c (node_ptr_enter s) = Except.ok (c1, s0)) :
    (node_ptr_leave s0).m_all_constant = (s.m_all_constant && s0.m_is_constant) := by
  cases hrep : s0.m_is_constant with
  | false => simp [node_ptr_leave, hrep]
  | true =>
    have hk := visit_reports_keep_all_constant h rfl hrep
    simp only [node_ptr_leave, hrep, Bool.not_true, Bool.and_true]
    simpa [node_ptr_enter] using hk

/-- After the children of a node, `m_all_constant` is what it was on entry
and-ed with every child's report. -/
theorem visit_children_reports {r : StaticTraitResolve} {cb : t_new_static_cb σ}
    {st : ExprState} :
    ∀ (cs : List ExprNode) (s : ExprVisitor_Mutate σ) (cs1 : List ExprNode)
      (s1 : ExprVisitor_Mutate σ),
      visit_children r cb st cs s = Except.ok (cs1, s1) →
      s1.m_all_constant = (s.m_all_constant && (children_reports r cb st cs s).all id)
  | [], s, cs1, s1, h => by
    simp only [visit_children, Except.ok.injEq, Prod.mk.injEq] at h
    rw [← h.2]; simp [children_reports]
  | c :: cs, s, out, s2, h => by
    obtain ⟨c1, cs1, s1, hc, hcs, _⟩ := visit_children_cons_ok h
    obtain ⟨s0, h0, hs0⟩ := visit_node_ptr_ok hc
    have h1 := node_ptr_leave_reports h0
    have h2 := visit_children_reports cs s1 cs1 s2 hcs
    rw [h2, hs0, h1]
    simp only [children_reports, h0, List.all_cons, id, Bool.and_assoc]

end CompositeReports

section CompositeReportsClaim

variable {σ : Type}

/-- C12, as stated, fails. Outside a borrow: the array `[1, 2, 3]` visited as a
root expression has three children that each report constant, and the array
reports not constant. Inside a borrow, after a non-constant sibling: among the
children of the tuple in `&(x, [1, 2, 3])` the array is entered with
`m_all_constant` already cleared by `x`; its three children report constant and
the array reports not constant. -/
theorem C12_counterexample :
    Demo.array123.is_composite = true ∧
    children_reports Demo.plain Demo.counting_cb Demo.root_state Demo.array123.children
        (ExprVisitor_Mutate.new 0) = [true, true, true] ∧
    visit Demo.plain Demo.counting_cb Demo.root_state Demo.array123 (ExprVisitor_Mutate.new 0) =
      Except.ok (Demo.array123,
        { m_is_constant := false, m_all_constant := false, env := 0, im_queries := [] }) ∧
    visit_node_ptr Demo.plain Demo.counting_cb Demo.root_state (ExprNode.Other 0 ⟨2⟩ ⟨11⟩ [])
        { m_is_constant := false, m_all_constant := true, env := 0, im_queries := [] } =
      Except.ok (ExprNode.Other 0 ⟨2⟩ ⟨11⟩ [],
        { m_is_constant := false, m_all_constant := false, env := 0, im_queries := [] }) ∧
    children_reports Demo.plain Demo.counting_cb Demo.root_state
        [ExprNode.Other 0 ⟨2⟩ ⟨11⟩ [], Demo.array123]
        { m_is_constant := false, m_all_constant := true, env := 0, im_queries := [] } =
      [false, false] :=
  ⟨rfl, rfl, rfl, rfl, rfl⟩

/-- C12, amended. For a node of class `Tuple`, `TupleVariant`, `ArrayList`,
`ArraySized`, `StructLiteral`, `Field`, `Cast` or `Unsize` met anywhere in a
tree (the visitor state `s` on entry is arbitrary), the classifier reports the
node constant exactly when `m_all_constant` was set on entry to the node and
every one of its visited children reported constant. -/
theorem C12_composite_reports_constant_iff (r : StaticTraitResolve) (cb : t_new_static_cb σ)
    (st : ExprState) (n : ExprNode) (s : ExprVisitor_Mutate σ) (n1 : ExprNode)
    (s1 : ExprVisitor_Mutate σ) (hkind : n.is_composite = true)
    (h : visit r cb st n s = Except.ok (n1, s1)) :
    (s1.m_is_constant = true ↔
      s.m_all_constant = true ∧ ∀ b ∈ children_reports r cb st n.children s, b = true) := by
  have key : s1.m_is_constant =
      (s.m_all_constant && (children_reports r cb st n.children s).all id) := by
    cases n with
    | Composite k sp ty cs =>
      rw [visit] at h
      cases hc : visit_children r cb st cs s with
      | error e => simp [hc] at h
      | ok w =>
        obtain ⟨cs1, s2⟩ := w
        simp only [hc, Except.ok.injEq, Prod.mk.injEq] at h
        rw [← h.2]
        exact visit_children_reports cs s cs1 s2 hc
    | Unsize sp ty v =>
      rw [visit] at h
      cases hc : node_ptr_result (visit r cb st v (node_ptr_enter s)) with
      | error e => simp [hc] at h
      | ok w =>
        obtain ⟨v1, s2⟩ := w
        simp only [hc, Except.ok.injEq, Prod.mk.injEq] at h
        obtain ⟨s0, h0, hs0⟩ := node_ptr_result_ok hc
        rw [← h.2, hs0]
        simp only [ExprNode.children, children_reports, h0, List.all_cons, List.all_nil, id,
          Bool.and_true]
        exact node_ptr_leave_reports h0
    | Literal _ _ _ => cases hkind
    | UnitVariant _ _ _ => cases hkind
    | PathValue _ _ _ _ => cases hkind
    | Borrow _ _ _ _ => cases hkind
    | Other _ _ _ _ => cases hkind
  rw [key, Bool.and_eq_true, List.all_eq_true]
  simp only [id]

/-- Below a borrow whose earlier descendants were constant (`m_all_constant`
set on entry) the array `[1, 2, 3]` reports constant: its three children do. -/
theorem C12_composite_reports_constant_iff_witness :
    visit Demo.plain Demo.counting_cb Demo.root_state Demo.array123
        { m_is_constant := false, m_all_constant := true, env := 0, im_queries := [] } =
      Except.ok (Demo.array123,
        { m_is_constant := true, m_all_constant := true, env := 0, im_queries := [] }) ∧
    children_reports Demo.plain Demo.counting_cb Demo.root_state Demo.array123.children
        { m_is_constant := false, m_all_constant := true, env := 0, im_queries := [] } =
      [true, true, true] ∧
    ((({ m_is_constant := true, m_all_constant := true, env := 0, im_queries := [] } :
          ExprVisitor_Mutate Nat).m_is_constant = true) ↔
      ({ m_is_constant := false, m_all_constant := true, env := 0, im_queries := [] } :
          ExprVisitor_Mutate Nat).m_all_constant = true ∧
        ∀ b ∈ children_reports Demo.plain Demo.counting_cb Demo.root_state Demo.array123.children
          { m_is_constant := false, m_all_constant := true, env := 0, im_queries := [] },
          b = true) :=
  ⟨rfl, rfl,
    C12_composite_reports_constant_iff Demo.plain Demo.counting_cb Demo.root_state Demo.array123
      { m_is_constant := false, m_all_constant := true, env := 0, im_queries := [] }
      Demo.array123
      { m_is_constant := true, m_all_constant := true, env := 0, im_queries := [] } rfl rfl⟩

end CompositeReportsClaim

/-! ## The module context of the driver (claim C13) -/

section ModuleContext

/-- C13, as stated, fails for impl blocks. A type impl or a trait impl visited
while a module is current ends with no current module (line 279, line 291:
`m_current_module = nullptr`), not with the module that was current. In the
walk of the crate `demo` with two inherent impls, which visits them with no
module current, the module path is not put back either: after `impl_in_root`
it is that impl's source module `demo`, after `impl_in_a` it is `demo::a`. -/
theorem C13_counterexample :
    (∃ v1, visit_type_impl (fun _ _ => Demo.plain) Demo.crate_borrow_array Demo.impl_in_root
        Demo.in_root_module = Except.ok (Demo.impl_in_root, v1) ∧
      Demo.in_root_module.m_current_module = some [] ∧ v1.m_current_module = none) ∧
    (∃ v1, visit_trait_impl (fun _ _ => Demo.plain) Demo.crate_borrow_array
        Demo.trait_impl_in_root Demo.in_root_module = Except.ok (Demo.trait_impl_in_root, v1) ∧
      Demo.in_root_module.m_current_module = some [] ∧ v1.m_current_module = none) ∧
    walk_crate (fun _ _ => Demo.plain) Demo.crate_two_impls OuterVisitor.new =
      Except.ok (Demo.crate_two_impls, Demo.after_impl_in_a) ∧
    visit_type_impl (fun _ _ => Demo.plain) Demo.crate_two_impls Demo.impl_in_root
      OuterVisitor.new = Except.ok (Demo.impl_in_root, Demo.after_impl_in_root) ∧
    visit_type_impl (fun _ _ => Demo.plain) Demo.crate_two_impls Demo.impl_in_a
      Demo.after_impl_in_root = Except.ok (Demo.impl_in_a, Demo.after_impl_in_a) ∧
    Demo.after_impl_in_a.m_current_module_path ≠ Demo.after_impl_in_root.m_current_module_path :=
  ⟨⟨_, rfl, rfl, rfl⟩, ⟨_, rfl, rfl, rfl⟩, rfl, rfl, rfl, by decide⟩

/-- C13, amended. Visiting a module, from any driver state, ends with the
current module and the current module path equal to what they were immediately
before that visit. Visiting a type impl or a trait impl, from any driver state,
ends with no current module, which is what was current before whenever the
impl is visited with no module current, as the crate walk does. -/
theorem C13_module_context_is_restored (resolve : Resolver) (p : ItemPath) (ptr : ModulePtr)
    (m m1 : Module) (this this1 : OuterVisitor)
    (h : visit_module resolve p ptr m this = Except.ok (m1, this1)) :
    this1.m_current_module = this.m_current_module ∧
    this1.m_current_module_path = this.m_current_module_path ∧
    (∀ (m_crate : Crate) (impl impl1 : TypeImpl) (v v1 : OuterVisitor),
      visit_type_impl resolve m_crate impl v = Except.ok (impl1, v1) →
      v1.m_current_module = none ∧
        (v.m_current_module = none → v1.m_current_module = v.m_current_module)) ∧
    (∀ (m_crate : Crate) (impl impl1 : TraitImpl) (v v1 : OuterVisitor),
      visit_trait_impl resolve m_crate impl v = Except.ok (impl1, v1) →
      v1.m_current_module = none ∧
        (v.m_current_module = none → v1.m_current_module = v.m_current_module)) := by
  refine ⟨?_, ?_, ?_, ?_⟩
  · cases m with
    | mk vs ms =>
      rw [visit_module] at h
      split at h
      · simp at h
      · split at h
        · simp at h
        · simp only [Except.ok.injEq, Prod.mk.injEq] at h
          rw [← h.2]
  · cases m with
    | mk vs ms =>
      rw [visit_module] at h
      split at h
      · simp at h
      · split at h
        · simp at h
        · simp only [Except.ok.injEq, Prod.mk.injEq] at h
          rw [← h.2]
  · intro m_crate impl impl1 v v1 hv
    have hnone : v1.m_current_module = none := by
      unfold visit_type_impl at hv
      split at hv
      · simp at hv
      · simp only [] at hv
        split at hv
        · simp at hv
        · split at hv
          · simp at hv
          · split at hv
            · simp at hv
            · simp only [Except.ok.injEq, Prod.mk.injEq] at hv
              rw [← hv.2]
    exact ⟨hnone, fun hb => by rw [hnone, hb]⟩
  · intro m_crate impl impl1 v v1 hv
    have hnone : v1.m_current_module = none := by
      unfold visit_trait_impl at hv
      split at hv
      · simp at hv
      · simp only [] at hv
        split at hv
        · simp at hv
        · split at hv
          · simp at hv
          · split at hv
            · simp at hv
            · split at hv
              · simp at hv
              · split at hv
                · simp at hv
                · simp only [Except.ok.injEq, Prod.mk.injEq] at hv
                  rw [← hv.2]
    exact ⟨hnone, fun hb => by rw [hnone, hb]⟩

/-- The visit of the root module of `fn f() { &[1, 2, 3] }` from a fresh
visitor queues one static and ends with no current module and the module path
the visitor started with. -/
theorem C13_module_context_is_restored_witness :
    visit_module (fun _ _ => Demo.plain) (ItemPath.crate "demo") []
        Demo.crate_borrow_array.m_root_module OuterVisitor.new =
      Except.ok
        (Module.mk
          [("f", { publicity := Publicity.global, ent := ValueItem.Function Demo.fn_promoted })] [],
          Demo.visitor_one_pending) ∧
    Demo.visitor_one_pending.m_current_module = OuterVisitor.new.m_current_module ∧
    Demo.visitor_one_pending.m_current_module_path = OuterVisitor.new.m_current_module_path :=
  ⟨rfl,
    (C13_module_context_is_restored (fun _ _ => Demo.plain) (ItemPath.crate "demo") []
      Demo.crate_borrow_array.m_root_module
      (Module.mk
        [("f", { publicity := Publicity.global, ent := ValueItem.Function Demo.fn_promoted })] [])
      OuterVisitor.new Demo.visitor_one_pending rfl).1,
    (C13_module_context_is_restored (fun _ _ => Demo.plain) (ItemPath.crate "demo") []
      Demo.crate_borrow_array.m_root_module
      (Module.mk
        [("f", { publicity := Publicity.global, ent := ValueItem.Function Demo.fn_promoted })] [])
      OuterVisitor.new Demo.visitor_one_pending rfl).2.1⟩

end ModuleContext

/-! ## A borrow that is not promoted (claim C14) -/

section PolicyAbort

variable {σ : Type}

mutual
theorem no_promotable_of_no_shared_borrow (r : StaticTraitResolve) :
    ∀ (n : ExprNode), no_shared_borrow n = true → no_promotable r n = true
  | ExprNode.Literal _ _ _, _ => by simp [no_promotable]
  | ExprNode.UnitVariant _ _ _, _ => by simp [no_promotable]
  | ExprNode.PathValue _ _ _ _, _ => by simp [no_promotable]
  | ExprNode.Composite _ _ _ cs, h => by
    rw [no_promotable]; rw [no_shared_borrow] at h
    exact no_promotable_list_of_no_shared_borrow r cs h
  | ExprNode.Unsize _ _ v, h => by
    rw [no_promotable]; rw [no_shared_borrow] at h
    exact no_promotable_of_no_shared_borrow r v h
  | ExprNode.Borrow _ _ bt v, h => by
    rw [no_shared_borrow, Bool.and_eq_true] at h
    have hbt : bt ≠ BorrowType.Shared := by simpa using h.1
    simp [no_promotable, spec_promoted, spec_gates_pass, hbt,
      no_promotable_of_no_shared_borrow r v h.2]
  | ExprNode.Other _ _ _ cs, h => by
    rw [no_promotable]; rw [no_shared_borrow] at h
    exact no_promotable_list_of_no_shared_borrow r cs h
theorem no_promotable_list_of_no_shared_borrow (r : StaticTraitResolve) :
    ∀ (cs : List ExprNode), no_shared_borrow_list cs = true → no_promotable_list r cs = true
  | [], _ => by simp [no_promotable_list]
  | c :: cs, h => by
    rw [no_shared_borrow_list, Bool.and_eq_true] at h
    simp [no_promotable_list, no_promotable_of_no_shared_borrow r c h.1,
      no_promotable_list_of_no_shared_borrow r cs h.2]
end

/-- C14. A borrow met anywhere in a tree that is not promoted, because its
child is not constant by the per-kind rules or one of the three gates fails on
the borrowed value: once the descendants have been visited (leaving the child
`value1` and the state `s1`), the visit of the borrow returns, with the child
`value1` in the slot as the descendants left it and the callback state of `s1`
(no pending list touched), reporting not constant. In particular a tree without
`Shared` borrow is returned as it is, with the callback state as it was,
whatever the callback would do. -/
theorem C14_unpromoted_borrow_has_no_side_effects (r : StaticTraitResolve)
    (cb : t_new_static_cb σ) (st : ExprState) (sp : Span) (ty : TypeRef) (bt : BorrowType)
    (value : ExprNode) (s : ExprVisitor_Mutate σ) (value1 : ExprNode) (s1 : ExprVisitor_Mutate σ)
    (hchild : visit_node_ptr r cb st value { s with m_all_constant := true } = Except.ok (value1, s1))
    (hnot : (spec_is_constant r value && spec_gates_pass r bt (value_ptr value)) = false) :
    (∃ s2, visit r cb st (ExprNode.Borrow sp ty bt value) s =
        Except.ok (ExprNode.Borrow sp ty bt value1, s2) ∧
      s2.env = s1.env ∧ s2.m_is_constant = false ∧ s2.m_all_constant = s.m_all_constant) ∧
    ∀ (n : ExprNode) (s0 : ExprVisitor_Mutate σ), no_shared_borrow n = true →
      ∃ s2, visit r cb st n s0 = Except.ok (n, s2) ∧ s2.env = s0.env := by
  constructor
  · have hflags := visit_node_ptr_all_constant hchild
    have hshape := visit_node_ptr_value_ptr_shape hchild
    have hgates := spec_gates_pass_congr r bt hshape.1 hshape.2
    have hno : (s1.m_all_constant && spec_gates_pass r bt (value_ptr value1)) = false := by
      rw [hflags.1, hgates]; simpa using hnot
    obtain ⟨s2, h2, he2⟩ := visit_Borrow_inner_unpromoted r cb st bt value1 s1 hno
    have hf := visit_Borrow_inner_flags h2 hflags.2
    refine ⟨{ s2 with m_all_constant := s.m_all_constant }, ?_, he2, ?_, rfl⟩
    · rw [visit_Borrow_eq, hchild]
      simp only []
      rw [h2]
    · show s2.m_is_constant = false
      rw [hf.2, hno]
  · intro n s0 hn
    exact visit_stable r cb st n (no_promotable_of_no_shared_borrow r n hn) s0

/-- Scenario B: in `&mut [1, 2, 3]` the borrow-kind gate fails; the borrow is
returned with its array and the counter of the callback stays at 0. -/
theorem C14_unpromoted_borrow_has_no_side_effects_witness :
    visit_node_ptr Demo.plain Demo.counting_cb Demo.root_state Demo.array123
        { ExprVisitor_Mutate.new 0 with m_all_constant := true } =
      Except.ok (Demo.array123,
        { m_is_constant := false, m_all_constant := true, env := 0, im_queries := [] }) ∧
    (spec_is_constant Demo.plain Demo.array123 &&
      spec_gates_pass Demo.plain BorrowType.Unique (value_ptr Demo.array123)) = false ∧
    ∃ s2, visit Demo.plain Demo.counting_cb Demo.root_state Demo.unique_borrow_array
        (ExprVisitor_Mutate.new 0) = Except.ok (Demo.unique_borrow_array, s2) ∧
      s2.env = 0 ∧ s2.m_is_constant = false ∧ s2.m_all_constant = false :=
  ⟨rfl, rfl,
    (C14_unpromoted_borrow_has_no_side_effects Demo.plain Demo.counting_cb Demo.root_state
      ⟨0⟩ ⟨12⟩ BorrowType.Unique Demo.array123 (ExprVisitor_Mutate.new 0) Demo.array123
      { m_is_constant := false, m_all_constant := true, env := 0, im_queries := [] }
      rfl rfl).1⟩

end PolicyAbort

/-! ## Looking through one `Unsize` (claim C15) -/

section UnsizeLookThrough

variable {σ : Type}

/-- When `visit_Borrow_inner` reports constant it took the last branch: the
child was constant, the three gates passed on the located value, the question
about interior mutability was recorded, the callback returned and the located
slot holds the new `PathValue`. -/
theorem visit_Borrow_inner_promoted {r : StaticTraitResolve} {cb : t_new_static_cb σ}
    {st : ExprState} {bt : BorrowType} {value value2 : ExprNode} {s s2 : ExprVisitor_Mutate σ}
    (h : visit_Borrow_inner r cb st bt value s = Except.ok (value2, s2))
    (his : s.m_is_constant = false) (hrep : s2.m_is_constant = true) :
    s.m_all_constant = true ∧
    r.monomorphise_type_needed (value_ptr value).res_type = false ∧
    bt = BorrowType.Shared ∧
    r.type_is_interior_mutable (value_ptr value).span (value_ptr value).res_type
      = Compare.Unequal ∧
    ∃ path,
      cb s.env (value_ptr value).span (value_ptr value).res_type
        { node := value_ptr value, m_state := new_static_state st } = Except.ok (path, s2.env) ∧
      value2 = set_value_ptr value
        (ExprNode.PathValue (value_ptr value).span (value_ptr value).res_type
          (Path.ofSimplePath path) Target.STATIC) ∧
      s2.im_queries = s.im_queries ++ [((value_ptr value).span, (value_ptr value).res_type)] := by
  by_cases hall : s.m_all_constant = true
  · by_cases hgen : r.monomorphise_type_needed (value_ptr value).res_type = true
    · rw [visit_Borrow_inner_generic r cb st bt value s hgen] at h
      simp only [Except.ok.injEq, Prod.mk.injEq] at h
      rw [← h.2, his] at hrep; cases hrep
    · by_cases hbt : bt = BorrowType.Shared
      · by_cases him : r.type_is_interior_mutable (value_ptr value).span (value_ptr value).res_type
            = Compare.Unequal
        · rw [visit_Borrow_inner_promote r cb st bt value s hall (by simpa using hgen) hbt him] at h
          cases hcb : cb s.env (value_ptr value).span (value_ptr value).res_type
              { node := value_ptr value, m_state := new_static_state st } with
          | error e => simp [hcb] at h
          | ok w =>
            obtain ⟨p, env1⟩ := w
            simp only [hcb, Except.ok.injEq, Prod.mk.injEq] at h
            refine ⟨hall, by simpa using hgen, hbt, him, p, ?_, h.1.symm, ?_⟩
            · rw [← h.2]
            · rw [← h.2]
        · rw [visit_Borrow_inner_interior_mutable r cb st bt value s hall (by simpa using hgen) hbt him]
            at h
          simp only [Except.ok.injEq, Prod.mk.injEq] at h
          rw [← h.2] at hrep
          simp only [his] at hrep; cases hrep
      · rw [visit_Borrow_inner_not_shared r cb st bt value s hbt] at h
        simp only [Except.ok.injEq, Prod.mk.injEq] at h
        rw [← h.2, his] at hrep; cases hrep
  · rw [visit_Borrow_inner_not_all_constant r cb st bt value s (by simpa using hall)] at h
    simp only [Except.ok.injEq, Prod.mk.injEq] at h
    rw [← h.2, his] at hrep; cases hrep

/-- A borrow that reports constant has been promoted: the descendants were
visited, the gates passed on the located value, and the callback was called
once on it. -/
theorem visit_Borrow_promoted {r : StaticTraitResolve} {cb : t_new_static_cb σ} {st : ExprState}
    {sp : Span} {ty : TypeRef} {bt : BorrowType} {v n1 : ExprNode} {s s1 : ExprVisitor_Mutate σ}
    (h : visit r cb st (ExprNode.Borrow sp ty bt v) s = Except.ok (n1, s1))
    (hrep : s1.m_is_constant = true) :
    ∃ v1 sA path,
      visit_node_ptr r cb st v { s with m_all_constant := true } = Except.ok (v1, sA) ∧
      r.monomorphise_type_needed (value_ptr v1).res_type = false ∧
      bt = BorrowType.Shared ∧
      r.type_is_interior_mutable (value_ptr v1).span (value_ptr v1).res_type = Compare.Unequal ∧
      cb sA.env (value_ptr v1).span (value_ptr v1).res_type
        { node := value_ptr v1, m_state := new_static_state st } = Except.ok (path, s1.env) ∧
      n1 = ExprNode.Borrow sp ty bt (set_value_ptr v1
        (ExprNode.PathValue (value_ptr v1).span (value_ptr v1).res_type
          (Path.ofSimplePath path) Target.STATIC)) ∧
      s1.im_queries = sA.im_queries ++ [((value_ptr v1).span, (value_ptr v1).res_type)] := by
  obtain ⟨v1, sA, v2, sB, hc, hi, hn1, hs1⟩ := visit_Borrow_ok h
  have hAis := (visit_node_ptr_all_constant hc).2
  have hB : sB.m_is_constant = true := by rw [hs1] at hrep; exact hrep
  obtain ⟨_, hgen, hbt, him, path, hcb, hv2, hq⟩ := visit_Borrow_inner_promoted hi hAis hB
  refine ⟨v1, sA, path, hc, hgen, hbt, him, ?_, ?_, ?_⟩
  · rw [hs1]; exact hcb
  · rw [hn1, hv2]
  · rw [hs1]; exact hq

/-- The visit of an `Unsize` node returns an `Unsize` node with the same span
and type around its operand as the visit of the operand's slot left it. -/
theorem visit_node_ptr_Unsize {r : StaticTraitResolve} {cb : t_new_static_cb σ} {st : ExprState}
    {sp : Span} {ty : TypeRef} {x n1 : ExprNode} {s s1 : ExprVisitor_Mutate σ}
    (h : visit_node_ptr r cb st (ExprNode.Unsize sp ty x) s = Except.ok (n1, s1)) :
    ∃ x1, n1 = ExprNode.Unsize sp ty x1 ∧ x1.span = x.span ∧ x1.res_type = x.res_type ∧
      ∃ sx sx1, visit_node_ptr r cb st x sx = Except.ok (x1, sx1) := by
  obtain ⟨s0, h0, _⟩ := visit_node_ptr_ok h
  rw [visit] at h0
  have hfold : node_ptr_result (visit r cb st x (node_ptr_enter (node_ptr_enter s)))
      = visit_node_ptr r cb st x (node_ptr_enter s) := rfl
  rw [hfold] at h0
  cases hx : visit_node_ptr r cb st x (node_ptr_enter s) with
  | error e => simp [hx] at h0
  | ok w =>
    obtain ⟨x1, s2⟩ := w
    simp only [hx, Except.ok.injEq, Prod.mk.injEq] at h0
    have hshape := visit_node_ptr_shape hx
    exact ⟨x1, h0.1.symm, hshape.1, hshape.2, _, _, hx⟩

/-- The visit of a node that is not an `Unsize` does not return an `Unsize`. -/
theorem visit_node_ptr_not_Unsize {r : StaticTraitResolve} {cb : t_new_static_cb σ}
    {st : ExprState} {n n1 : ExprNode} {s s1 : ExprVisitor_Mutate σ}
    (h : visit_node_ptr r cb st n s = Except.ok (n1, s1))
    (hn : ∀ sp ty x, n ≠ ExprNode.Unsize sp ty x) : ∀ sp ty x, n1 ≠ ExprNode.Unsize sp ty x := by
  obtain ⟨s0, h0, _⟩ := visit_node_ptr_ok h
  intro a b x e
  subst e
  cases n with
  | Unsize sp ty x => exact absurd rfl (hn sp ty x)
  | Literal sp ty d =>
    simp only [visit, Except.ok.injEq, Prod.mk.injEq] at h0; cases h0.1
  | UnitVariant sp ty p =>
    simp only [visit, Except.ok.injEq, Prod.mk.injEq] at h0; cases h0.1
  | PathValue sp ty p t =>
    rw [visit_PathValue_eq] at h0
    simp only [Except.ok.injEq, Prod.mk.injEq] at h0; cases h0.1
  | Composite k sp ty cs =>
    rw [visit] at h0
    split at h0
    · simp at h0
    · simp only [Except.ok.injEq, Prod.mk.injEq] at h0; cases h0.1
  | Borrow sp ty bt v =>
    obtain ⟨v1, sA, v2, sB, _, _, hn1, _⟩ := visit_Borrow_ok h0
    cases hn1
  | Other kind sp ty cs =>
    rw [visit] at h0
    split at h0
    · simp at h0
    · simp only [Except.ok.injEq, Prod.mk.injEq] at h0; cases h0.1

/-- C15. A borrow, met anywhere in a tree, whose child is an `Unsize` node with
operand `X` and which is promoted (its visit returns reporting constant): the
three gates hold of `X` (its type is not generic, the borrow is `Shared`, the
resolver answers `Unequal` for `X`'s span and type, and that is the question
recorded), whatever the resolver says of the `Unsize` node's own type; the
callback is called with `X`'s span, `X`'s type and `X` (as the visit of the
descendants left it) as initializer; the tree becomes
`Borrow(Unsize(PathValue))` with the `Unsize` node's span and type in place.
Exactly one wrapper is looked through: when `X` is itself an `Unsize` node the
initializer is that inner `Unsize` node. When the child of a promoted borrow is
not an `Unsize` node, the child itself (as visited) is the initializer and the
tree becomes `Borrow(PathValue)`. -/
theorem C15_one_unsize_is_looked_through (r : StaticTraitResolve) (cb : t_new_static_cb σ)
    (st : ExprState) (sp : Span) (ty : TypeRef) (bt : BorrowType) (spu : Span) (tyu : TypeRef)
    (X : ExprNode) (s : ExprVisitor_Mutate σ) (n1 : ExprNode) (s1 : ExprVisitor_Mutate σ)
    (h : visit r cb st (ExprNode.Borrow sp ty bt (ExprNode.Unsize spu tyu X)) s =
      Except.ok (n1, s1))
    (hrep : s1.m_is_constant = true) :
    (r.monomorphise_type_needed X.res_type = false ∧ bt = BorrowType.Shared ∧
      r.type_is_interior_mutable X.span X.res_type = Compare.Unequal) ∧
    (∃ X1 sA path,
      visit_node_ptr r cb st (ExprNode.Unsize spu tyu X) { s with m_all_constant := true } =
        Except.ok (ExprNode.Unsize spu tyu X1, sA) ∧
      X1.span = X.span ∧ X1.res_type = X.res_type ∧
      cb sA.env X.span X.res_type { node := X1, m_state := new_static_state st } =
        Except.ok (path, s1.env) ∧
      n1 = ExprNode.Borrow sp ty bt
        (ExprNode.Unsize spu tyu
          (ExprNode.PathValue X.span X.res_type (Path.ofSimplePath path) Target.STATIC)) ∧
      s1.im_queries = sA.im_queries ++ [(X.span, X.res_type)] ∧
      ∀ spy tyy Y, X = ExprNode.Unsize spy tyy Y → ∃ Y1, X1 = ExprNode.Unsize spy tyy Y1) ∧
    ∀ (c : ExprNode) (s0 : ExprVisitor_Mutate σ) (n2 : ExprNode) (s2 : ExprVisitor_Mutate σ),
      (∀ a b x, c ≠ ExprNode.Unsize a b x) →
      visit r cb st (ExprNode.Borrow sp ty bt c) s0 = Except.ok (n2, s2) →
      s2.m_is_constant = true →
      ∃ c1 sA path,
        visit_node_ptr r cb st c { s0 with m_all_constant := true } = Except.ok (c1, sA) ∧
        cb sA.env c1.span c1.res_type { node := c1, m_state := new_static_state st } =
          Except.ok (path, s2.env) ∧
        n2 = ExprNode.Borrow sp ty bt
          (ExprNode.PathValue c1.span c1.res_type (Path.ofSimplePath path) Target.STATIC) := by
  obtain ⟨v1, sA, path, hc, hgen, hbt, him, hcb, hn1, hq⟩ := visit_Borrow_promoted h hrep
  obtain ⟨X1, hv1, hsp, hty, sx, sx1, hx⟩ := visit_node_ptr_Unsize hc
  subst hv1
  simp only [value_ptr, set_value_ptr] at hgen him hcb hn1 hq
  rw [hty] at hgen
  rw [hsp, hty] at him hcb hn1 hq
  refine ⟨⟨hgen, hbt, him⟩, ⟨X1, sA, path, hc, hsp, hty, hcb, hn1, hq, ?_⟩, ?_⟩
  · intro spy tyy Y hX
    subst hX
    obtain ⟨Y1, hY1, _⟩ := visit_node_ptr_Unsize hx
    exact ⟨Y1, hY1⟩
  · intro c s0 n2 s2 hcn h2 hrep2
    obtain ⟨c1, sB, path2, hc2, _, _, _, hcb2, hn2, _⟩ := visit_Borrow_promoted h2 hrep2
    have hvp := visit_node_ptr_not_Unsize hc2 hcn
    cases c1 with
    | Unsize a b x => exact absurd rfl (hvp a b x)
    | _ => exact ⟨_, sB, path2, hc2, hcb2, hn2⟩

/-- The borrow `&[1, 2, 3]` coerced to a slice, with a resolver for which the
slice type of the `Unsize` node is generic and possibly interior-mutable and
only the array type passes the gates: the borrow is promoted, the static is
requested for the array with the array's type, and the `Unsize` node stays
around the reference to `demo::lifted#0`. -/
theorem C15_one_unsize_is_looked_through_witness :
    visit Demo.only_array_type Demo.counting_cb Demo.root_state Demo.borrow_unsize_array
        (ExprVisitor_Mutate.new 0) =
      Except.ok (Demo.promoted_borrow_unsize_array,
        { m_is_constant := true, m_all_constant := false, env := 1,
          im_queries := [(⟨1⟩, ⟨10⟩)] }) ∧
    Demo.only_array_type.monomorphise_type_needed ⟨13⟩ = true ∧
    (Demo.only_array_type.monomorphise_type_needed Demo.array123.res_type = false ∧
      BorrowType.Shared = BorrowType.Shared ∧
      Demo.only_array_type.type_is_interior_mutable Demo.array123.span Demo.array123.res_type
        = Compare.Unequal) :=
  ⟨rfl, rfl,
    (C15_one_unsize_is_looked_through Demo.only_array_type Demo.counting_cb Demo.root_state
      ⟨0⟩ ⟨14⟩ BorrowType.Shared ⟨5⟩ ⟨13⟩ Demo.array123 (ExprVisitor_Mutate.new 0)
      Demo.promoted_borrow_unsize_array
      { m_is_constant := true, m_all_constant := false, env := 1, im_queries := [(⟨1⟩, ⟨10⟩)] }
      rfl rfl).1⟩

end UnsizeLookThrough

/-! ## What the callback sees during a visit -/

section VisitThreads

variable {σ : Type}

mutual
theorem refs_in_mono {G H : SimplePath → Prop} (hGH : ∀ p, G p → H p) :
    ∀ (n : ExprNode), refs_in G n → refs_in H n
  | ExprNode.Literal _ _ _, _ => by simp [refs_in]
  | ExprNode.UnitVariant _ _ _, _ => by simp [refs_in]
  | ExprNode.PathValue _ _ (Path.Generic p ps) _, h => by
    rw [refs_in] at h ⊢
    exact fun hk => hGH p (h hk)
  | ExprNode.PathValue _ _ (Path.Ufcs _ _ _ _) _, _ => by simp [refs_in]
  | ExprNode.Composite _ _ _ cs, h => by
    rw [refs_in] at h ⊢
    exact refs_in_list_mono hGH cs h
  | ExprNode.Unsize _ _ v, h => by
    rw [refs_in] at h ⊢
    exact refs_in_mono hGH v h
  | ExprNode.Borrow _ _ _ v, h => by
    rw [refs_in] at h ⊢
    exact refs_in_mono hGH v h
  | ExprNode.Other _ _ _ cs, h => by
    rw [refs_in] at h ⊢
    exact refs_in_list_mono hGH cs h
theorem refs_in_list_mono {G H : SimplePath → Prop} (hGH : ∀ p, G p → H p) :
    ∀ (cs : List ExprNode), refs_in_list G cs → refs_in_list H cs
  | [], _ => by simp [refs_in_list]
  | c :: cs, h => by
    rw [refs_in_list] at h ⊢
    exact ⟨refs_in_mono hGH c h.1, refs_in_list_mono hGH cs h.2⟩
end

theorem refs_in_value_ptr {G : SimplePath → Prop} (v : ExprNode) (h : refs_in G v) :
    refs_in G (value_ptr v) := by
  cases v with
  | Unsize sp ty x => simpa [value_ptr, refs_in] using h
  | _ => exact h

theorem refs_in_set_value_ptr {G : SimplePath → Prop} (v : ExprNode) (sp : Span) (ty : TypeRef)
    (p : SimplePath) (hp : G p) :
    refs_in G (set_value_ptr v (ExprNode.PathValue sp ty (Path.ofSimplePath p) Target.STATIC)) := by
  cases v <;> simp [set_value_ptr, refs_in, Path.ofSimplePath, hp]

theorem visit_children_threads {r : StaticTraitResolve} {cb : t_new_static_cb σ} {st : ExprState}
    {J : σ → Prop} {L : σ → SimplePath → Prop} :
    ∀ (cs : List ExprNode),
      (∀ c ∈ cs, ∀ (s : ExprVisitor_Mutate σ) (n1 : ExprNode) (s1 : ExprVisitor_Mutate σ),
        visit r cb st c s = Except.ok (n1, s1) → J s.env → refs_in (L s.env) c →
        J s1.env ∧ (∀ q, L s.env q → L s1.env q) ∧ refs_in (L s1.env) n1 ∧
          (spec_is_constant r c = true → promoted_form (L s1.env) n1)) →
      ∀ (s : ExprVisitor_Mutate σ) (cs1 : List ExprNode) (s1 : ExprVisitor_Mutate σ),
        visit_children r cb st cs s = Except.ok (cs1, s1) → J s.env → refs_in_list (L s.env) cs →
        J s1.env ∧ (∀ q, L s.env q → L s1.env q) ∧ refs_in_list (L s1.env) cs1 ∧
          (spec_all_constant r cs = true → promoted_form_list (L s1.env) cs1)
  | [], _, s, cs1, s1, h, hJ, _ => by
    simp only [visit_children, Except.ok.injEq, Prod.mk.injEq] at h
    rw [← h.1, ← h.2]
    simp [hJ, refs_in_list, promoted_form_list]
  | c :: cs, ih, s, out, s2, h, hJ, hrefs => by
    obtain ⟨c1, cs1, s1, hc, hcs, hout⟩ := visit_children_cons_ok h
    obtain ⟨s0, h0, hs0⟩ := visit_node_ptr_ok hc
    rw [refs_in_list] at hrefs
    have hc1 := ih c (List.mem_cons_self c cs) (node_ptr_enter s) c1 s0 h0 hJ hrefs.1
    have henv : s1.env = s0.env := by rw [hs0, node_ptr_leave_env]
    rw [← henv] at hc1
    have hmono1 : ∀ q, L s.env q → L s1.env q := hc1.2.1
    have hcs1 := visit_children_threads (L := L) cs
      (fun d hd => ih d (List.mem_cons_of_mem c hd)) s1 cs1 s2 hcs hc1.1
      (refs_in_list_mono hmono1 cs hrefs.2)
    subst hout
    refine ⟨hcs1.1, fun q hq => hcs1.2.1 q (hmono1 q hq), ?_, ?_⟩
    · rw [refs_in_list]
      exact ⟨refs_in_mono hcs1.2.1 _ hc1.2.2.1, hcs1.2.2.1⟩
    · intro hall
      rw [spec_all_constant, Bool.and_eq_true] at hall
      rw [promoted_form_list]
      exact ⟨promoted_form_mono hcs1.2.1 _ (hc1.2.2.2 hall.1), hcs1.2.2.2 hall.2⟩

/-- What every call of the callback made during a visit sees and leaves. `L env`
is the set of paths handed out up to the state `env`. When each call, made as
the classifier makes it (on a located value `v`, with its span, its type and
the fresh context) on a value whose references to generated statics and whose
borrows all name paths handed out before, preserves `J`, adds the path it
returns to `L` and drops none, then after the visit `J` holds, `L` has only
grown, the references to generated statics of the returned tree name paths
handed out (when those of the original tree did), and a tree that was constant
has every borrow in promoted form. -/
theorem visit_threads (r : StaticTraitResolve) (cb : t_new_static_cb σ) (st : ExprState)
    (J : σ → Prop) (L : σ → SimplePath → Prop)
    (hcb : ∀ env (v : ExprNode) p env1, J env → refs_in (L env) v → promoted_form (L env) v →
      cb env v.span v.res_type { node := v, m_state := new_static_state st } = Except.ok (p, env1) →
      J env1 ∧ L env1 p ∧ ∀ q, L env q → L env1 q) :
    ∀ (n : ExprNode) (s : ExprVisitor_Mutate σ) (n1 : ExprNode) (s1 : ExprVisitor_Mutate σ),
      visit r cb st n s = Except.ok (n1, s1) → J s.env → refs_in (L s.env) n →
      J s1.env ∧ (∀ q, L s.env q → L s1.env q) ∧ refs_in (L s1.env) n1 ∧
        (spec_is_constant r n = true → promoted_form (L s1.env) n1) := by
  intro n
  induction n using ExprNode.induct with
  | lit sp ty d =>
    intro s n1 s1 h hJ _
    simp only [visit, Except.ok.injEq, Prod.mk.injEq] at h
    rw [← h.1, ← h.2]
    simp [hJ, refs_in, promoted_form]
  | unit sp ty p =>
    intro s n1 s1 h hJ _
    simp only [visit, Except.ok.injEq, Prod.mk.injEq] at h
    rw [← h.1, ← h.2]
    simp [hJ, refs_in, promoted_form]
  | path sp ty p t =>
    intro s n1 s1 h hJ hrefs
    rw [visit_PathValue_eq] at h
    simp only [Except.ok.injEq, Prod.mk.injEq] at h
    have henv : s1.env = s.env := by rw [← h.2]; split <;> rfl
    rw [← h.1, henv]
    exact ⟨hJ, fun q hq => hq, hrefs, fun _ => by simp [promoted_form]⟩
  | comp k sp ty cs ih =>
    intro s n1 s1 h hJ hrefs
    rw [visit] at h
    cases hc : visit_children r cb st cs s with
    | error e => simp [hc] at h
    | ok w =>
      obtain ⟨cs1, s2⟩ := w
      simp only [hc, Except.ok.injEq, Prod.mk.injEq] at h
      rw [refs_in] at hrefs
      have h2 := visit_children_threads (L := L) cs ih s cs1 s2 hc hJ hrefs
      rw [← h.1, ← h.2]
      simp only [refs_in, spec_is_constant, promoted_form]
      exact h2
  | unsize sp ty v ih =>
    intro s n1 s1 h hJ hrefs
    rw [visit] at h
    cases hc : node_ptr_result (visit r cb st v (node_ptr_enter s)) with
    | error e => simp [hc] at h
    | ok w =>
      obtain ⟨v1, s2⟩ := w
      simp only [hc, Except.ok.injEq, Prod.mk.injEq] at h
      obtain ⟨s0, h0, hs0⟩ := node_ptr_result_ok hc
      rw [refs_in] at hrefs
      have h2 := ih (node_ptr_enter s) v1 s0 h0 hJ hrefs
      have henv : s1.env = s0.env := by rw [← h.2, hs0]; exact node_ptr_leave_env s0
      rw [← h.1, henv]
      simp only [refs_in, spec_is_constant, promoted_form]
      exact h2
  | borrow sp ty bt v ih =>
    intro s n1 s1 h hJ hrefs
    obtain ⟨v1, sA, v2, sB, hc, hi, hn1, hs1⟩ := visit_Borrow_ok h
    obtain ⟨s0, h0, hs0⟩ := visit_node_ptr_ok hc
    rw [refs_in] at hrefs
    have hv := ih _ v1 s0 h0 hJ hrefs
    have henvA : sA.env = s0.env := by rw [hs0, node_ptr_leave_env]
    rw [← henvA] at hv
    have hmonoA : ∀ q, L s.env q → L sA.env q := hv.2.1
    have hflag := (visit_node_ptr_all_constant hc).1
    have hshape := visit_node_ptr_value_ptr_shape hc
    have hgates := spec_gates_pass_congr r bt hshape.1 hshape.2
    have henv1 : s1.env = sB.env := by rw [hs1]
    subst hn1
    rw [henv1]
    rcases visit_Borrow_inner_cases hi with ⟨hv2, henv, hno⟩ | ⟨p, env1, hall, hg, hcall, hv2, henv⟩
    · subst hv2
      rw [henv]
      refine ⟨hv.1, hmonoA, by rw [refs_in]; exact hv.2.2.1, ?_⟩
      intro hc0
      rw [spec_is_constant, Bool.and_eq_true] at hc0
      rw [hflag, hc0.1, hgates, hc0.2] at hno
      simp at hno
    · have hcv0 : spec_is_constant r v = true := by
        rw [hflag] at hall; simpa using hall
      have hpf : promoted_form (L sA.env) (value_ptr v1) :=
        promoted_form_value_ptr v1 (hv.2.2.2 hcv0)
      have hrf : refs_in (L sA.env) (value_ptr v1) := refs_in_value_ptr v1 hv.2.2.1
      obtain ⟨hJ1, hLp, hmono1⟩ := hcb _ _ _ _ hv.1 hrf hpf hcall
      have href : is_lifted_static_ref (L env1) (value_ptr v2) := by
        rw [hv2, value_ptr_set_value_ptr]
        simpa [is_lifted_static_ref, Path.ofSimplePath] using hLp
      rw [henv]
      refine ⟨hJ1, fun q hq => hmono1 q (hmonoA q hq), ?_, ?_⟩
      · rw [refs_in, hv2]
        exact refs_in_set_value_ptr v1 _ _ p hLp
      · intro _
        rw [promoted_form]; exact href
  | other kind sp ty cs ih =>
    intro s n1 s1 h hJ hrefs
    rw [visit] at h
    cases hc : visit_children r cb st cs s with
    | error e => simp [hc] at h
    | ok w =>
      obtain ⟨cs1, s2⟩ := w
      simp only [hc, Except.ok.injEq, Prod.mk.injEq] at h
      rw [refs_in] at hrefs
      have h2 := visit_children_threads (L := L) cs ih s cs1 s2 hc hJ hrefs
      rw [← h.1, ← h.2]
      simp only [refs_in, spec_is_constant, promoted_form]
      exact ⟨h2.1, h2.2.1, h2.2.2.1, fun hf => Bool.noConfusion hf⟩

end VisitThreads

/-! ## The statics a promotion creates (claim C16) -/

section CreatedStatics

mutual
theorem refs_in_true : ∀ (n : ExprNode), refs_in (fun _ => True) n
  | ExprNode.Literal _ _ _ => by simp [refs_in]
  | ExprNode.UnitVariant _ _ _ => by simp [refs_in]
  | ExprNode.PathValue _ _ (Path.Generic p ps) _ => by simp [refs_in]
  | ExprNode.PathValue _ _ (Path.Ufcs _ _ _ _) _ => by simp [refs_in]
  | ExprNode.Composite _ _ _ cs => by rw [refs_in]; exact refs_in_list_true cs
  | ExprNode.Unsize _ _ v => by rw [refs_in]; exact refs_in_true v
  | ExprNode.Borrow _ _ _ v => by rw [refs_in]; exact refs_in_true v
  | ExprNode.Other _ _ _ cs => by rw [refs_in]; exact refs_in_list_true cs
theorem refs_in_list_true : ∀ (cs : List ExprNode), refs_in_list (fun _ => True) cs
  | [] => by simp [refs_in_list]
  | c :: cs => by rw [refs_in_list]; exact ⟨refs_in_true c, refs_in_list_true cs⟩
end

/-- The pending lists after a successful call of the callback. -/
theorem get_new_ty_cb_lists {this this1 : OuterVisitor} {sp : Span} {ty : TypeRef}
    {val_expr : ExprPtr} {p : SimplePath}
    (h : get_new_ty_cb this sp ty val_expr = Except.ok (p, this1)) :
    ∃ M, this.m_current_module = some M ∧
      new_statics_get this1.m_new_statics M =
        new_statics_get this.m_new_statics M ++ [(p, Static.new Linkage.new false ty val_expr)] ∧
      ∀ M1, M1 ≠ M →
        new_statics_get this1.m_new_statics M1 = new_statics_get this.m_new_statics M1 := by
  obtain ⟨M, hM, hp, h1⟩ := get_new_ty_cb_ok h
  subst h1
  refine ⟨M, hM, ?_, ?_⟩
  · simp only [with_new_static, new_statics_get_set, if_true, hp]
  · intro M1 hne
    have hne1 : ¬ (M = M1) := fun e => hne e.symm
    simp only [with_new_static, new_statics_get_set, hne1, if_false]

/-- C16. When the driver runs the classifier on the root expression `e` of an
item, every static the run appends to a pending list is immutable, has the
default linkage, and has an initializer whose context has the owning module,
module path, trait list, impl generics and item generics of `e`'s context and
the stage `Typecheck`, whatever the stage of `e`'s context; the context of `e`
itself is returned as it was. -/
theorem C16_created_static_has_fresh_context (resolve : Resolver) (e e1 : ExprPtr)
    (this this1 : OuterVisitor)
    (h : run_on_expr resolve e this = Except.ok (e1, this1)) :
    e1.m_state = e.m_state ∧
    ∀ M, ∃ added,
      new_statics_get this1.m_new_statics M = new_statics_get this.m_new_statics M ++ added ∧
      ∀ x ∈ added, created_for e.m_state x.2 := by
  unfold run_on_expr visit_root at h
  cases hv : visit (this.m_resolve resolve) get_new_ty_cb e.m_state e.node
      (ExprVisitor_Mutate.new this) with
  | error err => simp [hv] at h
  | ok w =>
    obtain ⟨n, s1⟩ := w
    simp only [hv, Except.ok.injEq, Prod.mk.injEq] at h
    have hs := visit_threads (this.m_resolve resolve) get_new_ty_cb e.m_state
      (fun env => ∀ M, ∃ added,
        new_statics_get env.m_new_statics M = new_statics_get this.m_new_statics M ++ added ∧
        ∀ x ∈ added, created_for e.m_state x.2)
      (fun _ _ => True)
      (fun env v p env1 hJ _ _ hcall => by
        refine ⟨fun M => ?_, trivial, fun _ _ => trivial⟩
        obtain ⟨M0, _, hget, hother⟩ := get_new_ty_cb_lists hcall
        obtain ⟨added, hadd, hgood⟩ := hJ M
        by_cases hM : M = M0
        · subst hM
          refine ⟨added ++ [(p, Static.new Linkage.new false v.res_type
            { node := v, m_state := new_static_state e.m_state })], ?_, ?_⟩
          · rw [hget, hadd, List.append_assoc]
          · intro x hx
            rcases List.mem_append.mp hx with hx1 | hx1
            · exact hgood x hx1
            · simp only [List.mem_singleton] at hx1
              rw [hx1]
              exact ⟨rfl, rfl, _, rfl, rfl, rfl, rfl, rfl, rfl, rfl⟩
        · exact ⟨added, by rw [hother M hM, hadd], hgood⟩)
      e.node (ExprVisitor_Mutate.new this) n s1 hv
      (fun M => ⟨[], by simp [ExprVisitor_Mutate.new], fun x hx => by cases hx⟩)
      (refs_in_true _)
    rw [← h.1, ← h.2]
    exact ⟨rfl, hs.1⟩

/-- The root expression `&[1, 2, 3]` of an item of the root module, its context
in stage `SbcRequest`: the run returns the promoted tree with the same context
and queues `demo::lifted#0`, whose initializer has the stage `Typecheck` and the
rest of that context. -/
theorem C16_created_static_has_fresh_context_witness :
    run_on_expr (fun _ _ => Demo.plain) Demo.root_borrow_array Demo.in_root_module =
      Except.ok ({ Demo.root_borrow_array with node := Demo.promoted_borrow_array },
        { Demo.in_root_module with
          m_new_statics :=
            [([], [({ m_crate_name := "demo", m_components := ["lifted#0"] },
              Static.new Linkage.new false ⟨10⟩
                { node := Demo.array123,
                  m_state := { Demo.root_borrow_array.m_state with stage := Stage.Typecheck } })])] }) ∧
    ∀ M, ∃ added,
      new_statics_get
          [([], [({ m_crate_name := "demo", m_components := ["lifted#0"] },
            Static.new Linkage.new false ⟨10⟩
              { node := Demo.array123,
                m_state := { Demo.root_borrow_array.m_state with stage := Stage.Typecheck } })])] M =
        new_statics_get Demo.in_root_module.m_new_statics M ++ added ∧
      ∀ x ∈ added, created_for Demo.root_borrow_array.m_state x.2 :=
  ⟨rfl,
    (C16_created_static_has_fresh_context (fun _ _ => Demo.plain) Demo.root_borrow_array
      { Demo.root_borrow_array with node := Demo.promoted_borrow_array } Demo.in_root_module
      { Demo.in_root_module with
        m_new_statics :=
          [([], [({ m_crate_name := "demo", m_components := ["lifted#0"] },
            Static.new Linkage.new false ⟨10⟩
              { node := Demo.array123,
                m_state := { Demo.root_borrow_array.m_state with stage := Stage.Typecheck } })])] }
      rfl).2⟩

end CreatedStatics

/-! ## The per-expression entry point -/

section PerExpression

variable {σ : Type}

mutual
theorem no_promotable_iff_subnodes (r : StaticTraitResolve) :
    ∀ (n : ExprNode), no_promotable r n = true ↔
      ∀ sp ty bt v, ExprNode.Borrow sp ty bt v ∈ subnodes n → spec_promoted r bt v = false
  | ExprNode.Literal _ _ _ => by simp [no_promotable, subnodes]
  | ExprNode.UnitVariant _ _ _ => by simp [no_promotable, subnodes]
  | ExprNode.PathValue _ _ _ _ => by simp [no_promotable, subnodes]
  | ExprNode.Composite _ _ _ cs => by
    rw [no_promotable, no_promotable_list_iff_subnodes r cs]
    simp [subnodes]
  | ExprNode.Unsize _ _ v => by
    rw [no_promotable, no_promotable_iff_subnodes r v]
    simp [subnodes]
  | ExprNode.Borrow sp0 ty0 bt0 v0 => by
    rw [no_promotable, Bool.and_eq_true, no_promotable_iff_subnodes r v0]
    simp only [subnodes, List.mem_cons, ExprNode.Borrow.injEq]
    constructor
    · rintro ⟨h1, h2⟩ sp ty bt v hmem
      rcases hmem with ⟨_, _, hbt, hv⟩ | hmem
      · rw [hbt, hv]; simpa using h1
      · exact h2 sp ty bt v hmem
    · intro h
      refine ⟨?_, fun sp ty bt v hmem => h sp ty bt v (Or.inr hmem)⟩
      have := h sp0 ty0 bt0 v0 (Or.inl ⟨rfl, rfl, rfl, rfl⟩)
      simp [this]
  | ExprNode.Other _ _ _ cs => by
    rw [no_promotable, no_promotable_list_iff_subnodes r cs]
    simp [subnodes]
theorem no_promotable_list_iff_subnodes (r : StaticTraitResolve) :
    ∀ (cs : List ExprNode), no_promotable_list r cs = true ↔
      ∀ sp ty bt v, ExprNode.Borrow sp ty bt v ∈ subnodes_list cs → spec_promoted r bt v = false
  | [] => by simp [no_promotable_list, subnodes_list]
  | c :: cs => by
    rw [no_promotable_list, Bool.and_eq_true, no_promotable_iff_subnodes r c,
      no_promotable_list_iff_subnodes r cs]
    simp only [subnodes_list, List.mem_append]
    constructor
    · rintro ⟨h1, h2⟩ sp ty bt v hmem
      rcases hmem with hmem | hmem
      · exact h1 sp ty bt v hmem
      · exact h2 sp ty bt v hmem
    · intro h
      exact ⟨fun sp ty bt v hmem => h sp ty bt v (Or.inl hmem),
        fun sp ty bt v hmem => h sp ty bt v (Or.inr hmem)⟩
end

theorem has_promotable_borrow_iff (r : StaticTraitResolve) (n : ExprNode) :
    has_promotable_borrow r n ↔ no_promotable r n = false := by
  rw [← Bool.not_eq_true, no_promotable_iff_subnodes]
  unfold has_promotable_borrow
  constructor
  · rintro ⟨sp, ty, bt, v, hmem, hp⟩ h
    rw [h sp ty bt v hmem] at hp
    cases hp
  · intro h
    by_contra hne
    apply h
    intro sp ty bt v hmem
    cases hp : spec_promoted r bt v with
    | false => rfl
    | true => exact absurd ⟨sp, ty, bt, v, hmem, hp⟩ hne

theorem visit_node_ptr_error {r : StaticTraitResolve} {cb : t_new_static_cb σ} {st : ExprState}
    {n : ExprNode} {s : ExprVisitor_Mutate σ} {E : Error}
    (h : visit r cb st n (node_ptr_enter s) = Except.error E) :
    visit_node_ptr r cb st n s = Except.error E := by
  rw [visit_node_ptr, h]; rfl

/-- With a callback that always fails, the children's visit fails as soon as
one child holds a promotable borrow: the children before it are left as they
are, and the visit of that child fails. -/
theorem visit_children_fails {r : StaticTraitResolve} {cb : t_new_static_cb σ} {st : ExprState}
    {E : Error} :
    ∀ (cs : List ExprNode),
      (∀ c ∈ cs, no_promotable r c = false → ∀ s : ExprVisitor_Mutate σ,
        visit r cb st c s = Except.error E) →
      no_promotable_list r cs = false →
      ∀ s : ExprVisitor_Mutate σ, visit_children r cb st cs s = Except.error E
  | [], _, h, _ => by simp [no_promotable_list] at h
  | c :: cs, ih, h, s => by
    rw [visit_children_cons]
    cases hc : no_promotable r c with
    | false =>
      rw [visit_node_ptr_error (ih c (List.mem_cons_self c cs) hc (node_ptr_enter s))]
    | true =>
      obtain ⟨s0, h0, _⟩ := visit_stable r cb st c hc (node_ptr_enter s)
      have hn : visit_node_ptr r cb st c s = Except.ok (c, node_ptr_leave s0) := by
        rw [visit_node_ptr, h0]; rfl
      rw [hn]
      simp only []
      have hrest : no_promotable_list r cs = false := by
        simpa [no_promotable_list, hc] using h
      rw [visit_children_fails cs (fun d hd => ih d (List.mem_cons_of_mem c hd)) hrest]

/-- With a callback that always fails with `E`, the visit of a tree that holds
a promotable borrow fails with `E`. -/
theorem visit_fails (r : StaticTraitResolve) (cb : t_new_static_cb σ) (E : Error)
    (hcb : ∀ env sp ty e, cb env sp ty e = Except.error E) (st : ExprState) :
    ∀ (n : ExprNode), no_promotable r n = false → ∀ s : ExprVisitor_Mutate σ,
      visit r cb st n s = Except.error E := by
  intro n
  induction n using ExprNode.induct with
  | lit sp ty d => intro h; simp [no_promotable] at h
  | unit sp ty p => intro h; simp [no_promotable] at h
  | path sp ty p t => intro h; simp [no_promotable] at h
  | comp k sp ty cs ih =>
    intro h s
    rw [no_promotable] at h
    rw [visit, visit_children_fails cs ih h s]
  | unsize sp ty v ih =>
    intro h s
    rw [no_promotable] at h
    rw [visit, ih h (node_ptr_enter s)]; rfl
  | borrow sp ty bt v ih =>
    intro h s
    rw [visit_Borrow_eq]
    cases hv : no_promotable r v with
    | false =>
      rw [visit_node_ptr_error (ih hv (node_ptr_enter { s with m_all_constant := true }))]
    | true =>
      have hp : spec_promoted r bt v = true := by
        simpa [no_promotable, hv] using h
      obtain ⟨s0, h0, _⟩ := visit_stable r cb st v hv
        (node_ptr_enter { s with m_all_constant := true })
      have hc : visit_node_ptr r cb st v { s with m_all_constant := true }
          = Except.ok (v, node_ptr_leave s0) := by
        rw [visit_node_ptr, h0]; rfl
      have hflag := (visit_node_ptr_all_constant hc).1
      simp only [spec_promoted, Bool.and_eq_true] at hp
      have hall : (node_ptr_leave s0).m_all_constant = true := by
        rw [hflag]; simp [hp.1]
      have hg := hp.2
      simp only [spec_gates_pass, Bool.and_eq_true, Bool.not_eq_true', decide_eq_true_eq] at hg
      rw [hc]
      simp only []
      rw [visit_Borrow_inner_promote r cb st bt v (node_ptr_leave s0) hall hg.1.1 hg.1.2 hg.2, hcb]
  | other kind sp ty cs ih =>
    intro h s
    rw [no_promotable] at h
    rw [visit, visit_children_fails cs ih h s]

end PerExpression

section PerExpressionClaim

/-- C18. The per-expression entry point cannot promote anything: for every
resolver and expression, `HIR_Expand_StaticBorrowConstants_Expr` ends in the
`TODO` error exactly when the expression contains a borrow that meets every
promotion condition (constant child, non-generic type, shared kind, type
definitely not interior-mutable), and it returns the expression unchanged
exactly when the expression contains no such borrow. -/
theorem C18_per_expression_entry_fails_iff_promotable (r : StaticTraitResolve) (exp : ExprPtr) :
    (has_promotable_borrow r exp.node ↔
      HIR_Expand_StaticBorrowConstants_Expr r exp =
        Except.error (Error.TODO "Create new static in per-expression context")) ∧
    (¬ has_promotable_borrow r exp.node ↔
      HIR_Expand_StaticBorrowConstants_Expr r exp = Except.ok exp) := by
  have hyes : has_promotable_borrow r exp.node →
      HIR_Expand_StaticBorrowConstants_Expr r exp =
        Except.error (Error.TODO "Create new static in per-expression context") := by
    intro h
    rw [has_promotable_borrow_iff] at h
    unfold HIR_Expand_StaticBorrowConstants_Expr visit_root
    rw [visit_fails r _ (Error.TODO "Create new static in per-expression context")
      (fun _ _ _ _ => rfl) exp.m_state exp.node h]
  have hno : ¬ has_promotable_borrow r exp.node →
      HIR_Expand_StaticBorrowConstants_Expr r exp = Except.ok exp := by
    intro h
    rw [has_promotable_borrow_iff, Bool.not_eq_false] at h
    unfold HIR_Expand_StaticBorrowConstants_Expr visit_root
    obtain ⟨s1, h1, _⟩ := visit_stable r
      (fun (_ : Unit) _ _ _ =>
        Except.error (Error.TODO "Create new static in per-expression context"))
      exp.m_state exp.node h (ExprVisitor_Mutate.new ())
    rw [h1]
  refine ⟨⟨hyes, fun h => ?_⟩, ⟨hno, fun h => ?_⟩⟩
  · by_contra hne
    rw [hno hne] at h
    cases h
  · intro hp
    rw [hyes hp] at h
    cases h

end PerExpressionClaim


/-! ## The typing of the rewritten tree -/

section Rewritten

variable {σ : Type}

theorem rewritten_of_replacement {G : SimplePath → TypeRef → Prop} {n n1 : ExprNode}
    (h : is_replacement G n n1) : rewritten G n n1 := by
  cases n <;> (rw [rewritten]; exact Or.inl h)

theorem rewritten_shape {G : SimplePath → TypeRef → Prop} {n n1 : ExprNode}
    (h : rewritten G n n1) : n1.span = n.span ∧ n1.res_type = n.res_type := by
  have hrep : is_replacement G n n1 → n1.span = n.span ∧ n1.res_type = n.res_type := by
    rintro ⟨p, hp, _⟩
    rw [hp]; exact ⟨rfl, rfl⟩
  cases n <;> rw [rewritten] at h
  case Literal sp ty d =>
    rcases h with h | h
    · exact hrep h
    · rw [h]; exact ⟨rfl, rfl⟩
  case UnitVariant sp ty p =>
    rcases h with h | h
    · exact hrep h
    · rw [h]; exact ⟨rfl, rfl⟩
  case PathValue sp ty p t =>
    rcases h with h | h
    · exact hrep h
    · rw [h]; exact ⟨rfl, rfl⟩
  case Composite k sp ty cs =>
    rcases h with h | ⟨cs1, h, _⟩
    · exact hrep h
    · rw [h]; exact ⟨rfl, rfl⟩
  case Unsize sp ty v =>
    rcases h with h | ⟨v1, h, _⟩
    · exact hrep h
    · rw [h]; exact ⟨rfl, rfl⟩
  case Borrow sp ty bt v =>
    rcases h with h | ⟨v1, h, _⟩
    · exact hrep h
    · rw [h]; exact ⟨rfl, rfl⟩
  case Other kind sp ty cs =>
    rcases h with h | ⟨cs1, h, _⟩
    · exact hrep h
    · rw [h]; exact ⟨rfl, rfl⟩

mutual
theorem rewritten_mono {G H : SimplePath → TypeRef → Prop} (hGH : ∀ p t, G p t → H p t) :
    ∀ (n n1 : ExprNode), rewritten G n n1 → rewritten H n n1
  | ExprNode.Literal sp ty d, n1, h => by
    rw [rewritten] at h ⊢
    rcases h with ⟨p, hp, hg⟩ | h
    · exact Or.inl ⟨p, hp, hGH _ _ hg⟩
    · exact Or.inr h
  | ExprNode.UnitVariant sp ty q, n1, h => by
    rw [rewritten] at h ⊢
    rcases h with ⟨p, hp, hg⟩ | h
    · exact Or.inl ⟨p, hp, hGH _ _ hg⟩
    · exact Or.inr h
  | ExprNode.PathValue sp ty q t, n1, h => by
    rw [rewritten] at h ⊢
    rcases h with ⟨p, hp, hg⟩ | h
    · exact Or.inl ⟨p, hp, hGH _ _ hg⟩
    · exact Or.inr h
  | ExprNode.Composite k sp ty cs, n1, h => by
    rw [rewritten] at h ⊢
    rcases h with ⟨p, hp, hg⟩ | ⟨cs1, h1, h2⟩
    · exact Or.inl ⟨p, hp, hGH _ _ hg⟩
    · exact Or.inr ⟨cs1, h1, rewritten_list_mono hGH cs cs1 h2⟩
  | ExprNode.Unsize sp ty v, n1, h => by
    rw [rewritten] at h ⊢
    rcases h with ⟨p, hp, hg⟩ | ⟨v1, h1, h2⟩
    · exact Or.inl ⟨p, hp, hGH _ _ hg⟩
    · exact Or.inr ⟨v1, h1, rewritten_mono hGH v v1 h2⟩
  | ExprNode.Borrow sp ty bt v, n1, h => by
    rw [rewritten] at h ⊢
    rcases h with ⟨p, hp, hg⟩ | ⟨v1, h1, h2⟩
    · exact Or.inl ⟨p, hp, hGH _ _ hg⟩
    · exact Or.inr ⟨v1, h1, rewritten_mono hGH v v1 h2⟩
  | ExprNode.Other kind sp ty cs, n1, h => by
    rw [rewritten] at h ⊢
    rcases h with ⟨p, hp, hg⟩ | ⟨cs1, h1, h2⟩
    · exact Or.inl ⟨p, hp, hGH _ _ hg⟩
    · exact Or.inr ⟨cs1, h1, rewritten_list_mono hGH cs cs1 h2⟩
theorem rewritten_list_mono {G H : SimplePath → TypeRef → Prop} (hGH : ∀ p t, G p t → H p t) :
    ∀ (cs cs1 : List ExprNode), rewritten_list G cs cs1 → rewritten_list H cs cs1
  | [], cs1, h => by
    rw [rewritten_list] at h ⊢
    exact h
  | c :: cs, l, h => by
    rw [rewritten_list] at h ⊢
    obtain ⟨c1, cs1, hl, hc, hcs⟩ := h
    exact ⟨c1, cs1, hl, rewritten_mono hGH c c1 hc, rewritten_list_mono hGH cs cs1 hcs⟩
end

/-- Line 119 on a slot content that is itself a rewriting of `v`: the content
with the located value replaced by a `PathValue` node of its span and type is
still a rewriting of `v`. -/
theorem rewritten_set_value_ptr {G : SimplePath → TypeRef → Prop} {v v1 : ExprNode}
    (p : SimplePath) (h : rewritten G v v1) (hg : G p (value_ptr v1).res_type) :
    rewritten G v
      (set_value_ptr v1
        (ExprNode.PathValue (value_ptr v1).span (value_ptr v1).res_type (Path.ofSimplePath p)
          Target.STATIC)) := by
  have hplain : value_ptr v1 = v1 →
      (∀ n, set_value_ptr v1 n = n) →
      rewritten G v
        (set_value_ptr v1
          (ExprNode.PathValue (value_ptr v1).span (value_ptr v1).res_type (Path.ofSimplePath p)
            Target.STATIC)) := by
    intro h1 h2
    rw [h2]
    rw [h1] at hg ⊢
    obtain ⟨hs, ht⟩ := rewritten_shape h
    apply rewritten_of_replacement
    refine ⟨p, ?_, ?_⟩
    · rw [hs, ht]
    · rw [← ht]; exact hg
  cases v1 with
  | Literal sp ty d => exact hplain rfl (fun _ => rfl)
  | UnitVariant sp ty q => exact hplain rfl (fun _ => rfl)
  | PathValue sp ty q t => exact hplain rfl (fun _ => rfl)
  | Composite k sp ty cs => exact hplain rfl (fun _ => rfl)
  | Borrow sp ty bt x => exact hplain rfl (fun _ => rfl)
  | Other kind sp ty cs => exact hplain rfl (fun _ => rfl)
  | Unsize sp ty x1 =>
    simp only [value_ptr, set_value_ptr] at hg ⊢
    have hnotrep : ¬ is_replacement G v (ExprNode.Unsize sp ty x1) := by
      rintro ⟨q, hq, _⟩
      cases hq
    cases v <;> rw [rewritten] at h
    case Literal => rcases h with h | h; exact absurd h hnotrep; cases h
    case UnitVariant => rcases h with h | h; exact absurd h hnotrep; cases h
    case PathValue => rcases h with h | h; exact absurd h hnotrep; cases h
    case Composite =>
      rcases h with h | ⟨_, h, _⟩
      · exact absurd h hnotrep
      · cases h
    case Borrow =>
      rcases h with h | ⟨_, h, _⟩
      · exact absurd h hnotrep
      · cases h
    case Other =>
      rcases h with h | ⟨_, h, _⟩
      · exact absurd h hnotrep
      · cases h
    case Unsize sp0 ty0 x =>
      rcases h with h | ⟨x2, h, hx⟩
      · exact absurd h hnotrep
      · simp only [ExprNode.Unsize.injEq] at h
        obtain ⟨hsp, hty, hx1⟩ := h
        subst hsp hty hx1
        rw [rewritten]
        refine Or.inr ⟨_, rfl, ?_⟩
        obtain ⟨hs, ht⟩ := rewritten_shape hx
        apply rewritten_of_replacement
        refine ⟨p, ?_, ?_⟩
        · rw [hs, ht]
        · rw [← ht]; exact hg

theorem visit_children_rewrites {r : StaticTraitResolve} {cb : t_new_static_cb σ} {st : ExprState}
    {L : σ → SimplePath → TypeRef → Prop} :
    ∀ (cs : List ExprNode),
      (∀ c ∈ cs, ∀ (s : ExprVisitor_Mutate σ) (n1 : ExprNode) (s1 : ExprVisitor_Mutate σ),
        visit r cb st c s = Except.ok (n1, s1) →
        rewritten (L s1.env) c n1 ∧ ∀ q t, L s.env q t → L s1.env q t) →
      ∀ (s : ExprVisitor_Mutate σ) (cs1 : List ExprNode) (s1 : ExprVisitor_Mutate σ),
        visit_children r cb st cs s = Except.ok (cs1, s1) →
        rewritten_list (L s1.env) cs cs1 ∧ ∀ q t, L s.env q t → L s1.env q t
  | [], _, s, cs1, s1, h => by
    simp only [visit_children, Except.ok.injEq, Prod.mk.injEq] at h
    rw [← h.1, ← h.2, rewritten_list]
    exact ⟨rfl, fun q t hq => hq⟩
  | c :: cs, ih, s, out, s2, h => by
    obtain ⟨c1, cs1, s1, hc, hcs, hout⟩ := visit_children_cons_ok h
    obtain ⟨s0, h0, hs0⟩ := visit_node_ptr_ok hc
    have hc1 := ih c (List.mem_cons_self c cs) (node_ptr_enter s) c1 s0 h0
    have henv : s1.env = s0.env := by rw [hs0, node_ptr_leave_env]
    rw [← henv] at hc1
    have hmono1 : ∀ q t, L s.env q t → L s1.env q t := hc1.2
    have hcs1 := visit_children_rewrites (L := L) cs
      (fun d hd => ih d (List.mem_cons_of_mem c hd)) s1 cs1 s2 hcs
    subst hout
    refine ⟨?_, fun q t hq => hcs1.2 q t (hmono1 q t hq)⟩
    rw [rewritten_list]
    exact ⟨c1, cs1, rfl, rewritten_mono hcs1.2 _ _ hc1.1, hcs1.1⟩

/-- The classifier rewrites by replacement only. `L env p ty` says that in the
state `env` of the callback the path `p` names a static declared with type
`ty`. When each successful call of the callback declares the returned path
with the type it was given and keeps what was declared, the tree a visit
returns is the tree it was given with some subtrees replaced by `PathValue`
nodes of their span and type that name statics of that declared type. -/
theorem visit_rewrites (r : StaticTraitResolve) (cb : t_new_static_cb σ) (st : ExprState)
    (L : σ → SimplePath → TypeRef → Prop)
    (hcb : ∀ env sp ty e p env1, cb env sp ty e = Except.ok (p, env1) →
      L env1 p ty ∧ ∀ q t, L env q t → L env1 q t) :
    ∀ (n : ExprNode) (s : ExprVisitor_Mutate σ) (n1 : ExprNode) (s1 : ExprVisitor_Mutate σ),
      visit r cb st n s = Except.ok (n1, s1) →
      rewritten (L s1.env) n n1 ∧ ∀ q t, L s.env q t → L s1.env q t := by
  intro n
  induction n using ExprNode.induct with
  | lit sp ty d =>
    intro s n1 s1 h
    simp only [visit, Except.ok.injEq, Prod.mk.injEq] at h
    rw [← h.1, ← h.2, rewritten]
    exact ⟨Or.inr rfl, fun q t hq => hq⟩
  | unit sp ty p =>
    intro s n1 s1 h
    simp only [visit, Except.ok.injEq, Prod.mk.injEq] at h
    rw [← h.1, ← h.2, rewritten]
    exact ⟨Or.inr rfl, fun q t hq => hq⟩
  | path sp ty p t =>
    intro s n1 s1 h
    rw [visit_PathValue_eq] at h
    simp only [Except.ok.injEq, Prod.mk.injEq] at h
    have henv : s1.env = s.env := by rw [← h.2]; split <;> rfl
    rw [← h.1, henv, rewritten]
    exact ⟨Or.inr rfl, fun q t hq => hq⟩
  | comp k sp ty cs ih =>
    intro s n1 s1 h
    rw [visit] at h
    cases hc : visit_children r cb st cs s with
    | error e => simp [hc] at h
    | ok w =>
      obtain ⟨cs1, s2⟩ := w
      simp only [hc, Except.ok.injEq, Prod.mk.injEq] at h
      have h2 := visit_children_rewrites (L := L) cs ih s cs1 s2 hc
      rw [← h.1, ← h.2, rewritten]
      exact ⟨Or.inr ⟨cs1, rfl, h2.1⟩, h2.2⟩
  | unsize sp ty v ih =>
    intro s n1 s1 h
    rw [visit] at h
    cases hc : node_ptr_result (visit r cb st v (node_ptr_enter s)) with
    | error e => simp [hc] at h
    | ok w =>
      obtain ⟨v1, s2⟩ := w
      simp only [hc, Except.ok.injEq, Prod.mk.injEq] at h
      obtain ⟨s0, h0, hs0⟩ := node_ptr_result_ok hc
      have h2 := ih (node_ptr_enter s) v1 s0 h0
      have henv : s1.env = s0.env := by rw [← h.2, hs0]; exact node_ptr_leave_env s0
      rw [← h.1, henv, rewritten]
      exact ⟨Or.inr ⟨v1, rfl, h2.1⟩, h2.2⟩
  | borrow sp ty bt v ih =>
    intro s n1 s1 h
    obtain ⟨v1, sA, v2, sB, hc, hi, hn1, hs1⟩ := visit_Borrow_ok h
    obtain ⟨s0, h0, hs0⟩ := visit_node_ptr_ok hc
    have hv := ih _ v1 s0 h0
    have henvA : sA.env = s0.env := by rw [hs0, node_ptr_leave_env]
    rw [← henvA] at hv
    have hmonoA : ∀ q t, L s.env q t → L sA.env q t := hv.2
    have henv1 : s1.env = sB.env := by rw [hs1]
    subst hn1
    rw [henv1, rewritten]
    rcases visit_Borrow_inner_cases hi with ⟨hv2, henv, _⟩ | ⟨p, env1, _, _, hcall, hv2, henv⟩
    · subst hv2
      rw [henv]
      exact ⟨Or.inr ⟨_, rfl, hv.1⟩, hmonoA⟩
    · obtain ⟨hLp, hmono1⟩ := hcb _ _ _ _ _ _ hcall
      rw [henv]
      refine ⟨Or.inr ⟨v2, rfl, ?_⟩, fun q t hq => hmono1 q t (hmonoA q t hq)⟩
      rw [hv2]
      exact rewritten_set_value_ptr p (rewritten_mono hmono1 _ _ hv.1) hLp
  | other kind sp ty cs ih =>
    intro s n1 s1 h
    rw [visit] at h
    cases hc : visit_children r cb st cs s with
    | error e => simp [hc] at h
    | ok w =>
      obtain ⟨cs1, s2⟩ := w
      simp only [hc, Except.ok.injEq, Prod.mk.injEq] at h
      have h2 := visit_children_rewrites (L := L) cs ih s cs1 s2 hc
      rw [← h.1, ← h.2, rewritten]
      exact ⟨Or.inr ⟨cs1, rfl, h2.1⟩, h2.2⟩

theorem get_new_ty_cb_declares {this this1 : OuterVisitor} {sp : Span} {ty : TypeRef}
    {val_expr : ExprPtr} {p : SimplePath}
    (h : get_new_ty_cb this sp ty val_expr = Except.ok (p, this1)) :
    declared_in this1.m_new_statics p ty ∧
      ∀ q t, declared_in this.m_new_statics q t → declared_in this1.m_new_statics q t := by
  obtain ⟨M, _, hM, hother⟩ := get_new_ty_cb_lists h
  refine ⟨⟨M, Static.new Linkage.new false ty val_expr, ?_, rfl⟩, ?_⟩
  · rw [hM]; simp
  · rintro q t ⟨M0, st0, hmem, hty⟩
    refine ⟨M0, st0, ?_, hty⟩
    by_cases hM0 : M0 = M
    · rw [hM0, hM]
      rw [hM0] at hmem
      exact List.mem_append_left _ hmem
    · rw [hother M0 hM0]; exact hmem

end Rewritten

section RewrittenClaim

/-- C19. The classifier preserves the typing of the tree it rewrites: when the
driver runs it on a root expression, the tree it returns is the tree it was
given with some subtrees replaced by single `PathValue` nodes; every node that
survives keeps its kind, span and resolved type, and every replacement node has
the span and the resolved type of the subtree it replaced, that type being the
declared type of a pending static under the path the node names. In particular
the root keeps its span and resolved type, and its context is untouched. -/
theorem C19_rewrite_preserves_typing (resolve : Resolver) (e e1 : ExprPtr)
    (this this1 : OuterVisitor)
    (h : run_on_expr resolve e this = Except.ok (e1, this1)) :
    rewritten (declared_in this1.m_new_statics) e.node e1.node ∧
    e1.node.span = e.node.span ∧ e1.node.res_type = e.node.res_type ∧
    e1.m_state = e.m_state := by
  unfold run_on_expr visit_root at h
  cases hv : visit (this.m_resolve resolve) get_new_ty_cb e.m_state e.node
      (ExprVisitor_Mutate.new this) with
  | error err => simp [hv] at h
  | ok w =>
    obtain ⟨n1, s1⟩ := w
    simp only [hv, Except.ok.injEq, Prod.mk.injEq] at h
    obtain ⟨he1, hthis1⟩ := h
    have hrw := (visit_rewrites (this.m_resolve resolve) get_new_ty_cb e.m_state
      (fun env p ty => declared_in env.m_new_statics p ty)
      (fun env sp ty x p env1 hcall => get_new_ty_cb_declares hcall)
      e.node (ExprVisitor_Mutate.new this) n1 s1 hv).1
    rw [← he1, ← hthis1]
    exact ⟨hrw, (rewritten_shape hrw).1, (rewritten_shape hrw).2, rfl⟩

/-- From the root module of crate `demo`, the run on `&[&1]` returns the borrow
of `demo::lifted#1` and leaves the two statics pending; the returned tree is
the given one with the array replaced. -/
theorem C19_rewrite_preserves_typing_witness :
    run_on_expr (fun _ _ => Demo.plain) { node := Demo.nested_borrow, m_state := Demo.root_state }
        Demo.in_root_module =
      Except.ok
        ({ node := ExprNode.Borrow ⟨0⟩ ⟨22⟩ BorrowType.Shared
             (ExprNode.PathValue ⟨1⟩ ⟨21⟩
               (Path.Generic { m_crate_name := "demo", m_components := ["lifted#1"] } [])
               Target.STATIC)
           m_state := Demo.root_state },
         { Demo.in_root_module with m_new_statics := [([], Demo.nested_pending)] }) ∧
    rewritten (declared_in [([], Demo.nested_pending)]) Demo.nested_borrow
      (ExprNode.Borrow ⟨0⟩ ⟨22⟩ BorrowType.Shared
        (ExprNode.PathValue ⟨1⟩ ⟨21⟩
          (Path.Generic { m_crate_name := "demo", m_components := ["lifted#1"] } [])
          Target.STATIC)) :=
  ⟨rfl,
    (C19_rewrite_preserves_typing (fun _ _ => Demo.plain)
      { node := Demo.nested_borrow, m_state := Demo.root_state }
      { node := ExprNode.Borrow ⟨0⟩ ⟨22⟩ BorrowType.Shared
          (ExprNode.PathValue ⟨1⟩ ⟨21⟩
            (Path.Generic { m_crate_name := "demo", m_components := ["lifted#1"] } [])
            Target.STATIC)
        m_state := Demo.root_state }
      Demo.in_root_module
      { Demo.in_root_module with m_new_statics := [([], Demo.nested_pending)] } rfl).1⟩

end RewrittenClaim

end HIR
